import Mathlib

/-!
GLC_lib: mesh primitive groups, LOD packing, LOD extraction and serialization.

A shallow embedding of `GLC_Mesh` (src/lib/geometry/glc_mesh.cpp) and of
`GLC_CsgHelper::meshFromCsgModel` (src/lib/geometry/glc_csghelper.cpp).

Conventions of the embedding

* A `QHash<K, V*>` is an association list; its iteration order is the list order.
  `QHash.value` returns `none` where the C++ `value()` returns a null pointer.
* A function returns `Option`: `none` stands for a failed `Q_ASSERT`, a null
  pointer dereference or an out-of-range container access. `loadFromDataStream`
  takes a flag that says whether `Q_ASSERT` is compiled in.
* A `GLC_Material*` argument is `Option GLC_uint`: `none` is the null pointer,
  `some id` a material whose `id()` is `id`.
* `GLfloat` values are only ever copied by the functions modelled here, so any
  carrier works; `Int` is used.
* Machine integers are natural numbers or integers; where the 32-bit width shows
  (the counter of primitive ids, the `unsigned int` that `faceCount` returns, the
  conversion to `int` in `setCurrentLod`) the value is reduced modulo `2 ^ 32` or
  checked against the range of the type.
-/

set_option autoImplicit false

namespace GLC

abbrev GLuint := Nat

/-- The type `GLC_uint` (declared outside src/) is a 32-bit unsigned integer. Its values are
natural numbers; the one arithmetic operation that the sources apply to a `GLC_uint`, the
increment `m_NextPrimitiveLocalId++`, is reduced modulo `2 ^ 32` where it is applied. -/
abbrev GLC_uint := Nat
abbrev GLfloat := Int
abbrev IndexList := List GLuint

/-! ## QHash as an association list -/

abbrev QHash (κ ν : Type) := List (κ × ν)

namespace QHash

variable {κ ν : Type} [DecidableEq κ]

/-- The value stored under `k`, `none` when the key is absent. -/
def value : QHash κ ν → κ → Option ν
  | [], _ => none
  | (k', v) :: t, k => if k' = k then some v else value t k

/-- Membership test `QHash::contains`. -/
def contains (h : QHash κ ν) (k : κ) : Bool := (value h k).isSome

/-- The list of keys, `QHash::keys`, in iteration order. -/
def keys (h : QHash κ ν) : List κ := h.map Prod.fst

/-- The call `QHash::insert`: replaces the value of an existing key, adds a new entry otherwise. -/
def insert (h : QHash κ ν) (k : κ) (v : ν) : QHash κ ν :=
  if contains h k then h.map (fun e => if e.1 = k then (e.1, v) else e) else h ++ [(k, v)]

/-- Mutation of the object stored under `k` through its pointer. -/
def modify (h : QHash κ ν) (k : κ) (f : ν → ν) : QHash κ ν :=
  h.map (fun e => if e.1 = k then (e.1, f e.2) else e)

end QHash

/-! ## GLC_PrimitiveGroup (class outside src/) -/

/-- Modelled from the spec: the strip (or fan) part of a `GLC_PrimitiveGroup`, whose class
is not under src/. Spec section 3: an index list "concatenated with per-strip sizes", with
element offsets and byte offsets into the LOD index array that are computed by `finish()`.
`indexSize` is the number of indices added so far; it survives the move of `index` into the
mesh data. -/
structure PrimitiveRuns where
  index : IndexList := []
  indexSize : Nat := 0
  sizes : List Nat := []
  offseti : List Nat := []
  offset : List Nat := []
  ids : List GLC_uint := []
deriving DecidableEq, Repr

/-- Modelled from the spec: `GLC_PrimitiveGroup`, whose class is not under src/. Spec
section 3: the owning material id and three index sublists (triangles, strips, fans), each
with an element offset and a byte offset into the LOD index array. -/
structure GLC_PrimitiveGroup where
  m_Id : GLC_uint
  m_TrianglesIndex : IndexList := []
  m_TrianglesIndexSize : Nat := 0
  m_TrianglesIndexOffseti : Nat := 0
  m_TrianglesIndexOffset : Nat := 0
  m_TrianglesId : List GLC_uint := []
  strips : PrimitiveRuns := {}
  fans : PrimitiveRuns := {}
deriving DecidableEq, Repr

/-- Modelled from the spec: offsets of consecutive runs of the given sizes, the first one
starting at `base` (section 4.2: the starting offset is recorded before each append). -/
def runOffsets : Nat → List Nat → List Nat
  | _, [] => []
  | base, s :: t => base :: runOffsets (base + s) t

namespace PrimitiveRuns

/-- Modelled from the spec: a run (one strip or one fan) is appended to the concatenated
index list and its size is recorded; the primitive id is kept only when it is not 0
(section 3: groups of a LOD above 0 never carry primitive ids). -/
def add (r : PrimitiveRuns) (input : IndexList) (id : GLC_uint) : PrimitiveRuns :=
  { r with
    index := r.index ++ input
    indexSize := r.indexSize + input.length
    sizes := r.sizes ++ [input.length]
    ids := if id = 0 then r.ids else r.ids ++ [id] }

/-- Modelled from the spec: `containsStrip()` / `containsFan()`. -/
def nonEmpty (r : PrimitiveRuns) : Bool := decide (0 < r.indexSize)

/-- Modelled from the spec: `setBaseTrianglesStripOffseti` / `setBaseTrianglesFanOffseti`,
every run gets its element offset, the first run starting at `base`. -/
def setBaseOffseti (r : PrimitiveRuns) (base : Nat) : PrimitiveRuns :=
  { r with offseti := runOffsets base r.sizes }

/-- Modelled from the spec: the byte offsets equivalent to the element offsets (section
4.2), an index being a 4-byte `GLuint`. -/
def computeVboOffset (r : PrimitiveRuns) : PrimitiveRuns :=
  { r with offset := r.offseti.map (fun o => 4 * o) }

/-- Modelled from the spec: the indices of the runs have been moved to the mesh data. -/
def finish (r : PrimitiveRuns) : PrimitiveRuns :=
  { r with index := [] }

end PrimitiveRuns

namespace GLC_PrimitiveGroup

/-- Modelled from the spec: `GLC_PrimitiveGroup(id)`, an empty group of material `id`. -/
def new (id : GLC_uint) : GLC_PrimitiveGroup := { m_Id := id }

/-- Modelled from the spec: `GLC_PrimitiveGroup::addTriangles(input, id)`. -/
def addTriangles (g : GLC_PrimitiveGroup) (input : IndexList) (id : GLC_uint) :
    GLC_PrimitiveGroup :=
  { g with
    m_TrianglesIndex := g.m_TrianglesIndex ++ input
    m_TrianglesIndexSize := g.m_TrianglesIndexSize + input.length
    m_TrianglesId := if id = 0 then g.m_TrianglesId else g.m_TrianglesId ++ [id] }

/-- Modelled from the spec: `GLC_PrimitiveGroup::addTrianglesStrip(input, id)`. -/
def addTrianglesStrip (g : GLC_PrimitiveGroup) (input : IndexList) (id : GLC_uint) :
    GLC_PrimitiveGroup :=
  { g with strips := g.strips.add input id }

/-- Modelled from the spec: `GLC_PrimitiveGroup::addTrianglesFan(input, id)`. -/
def addTrianglesFan (g : GLC_PrimitiveGroup) (input : IndexList) (id : GLC_uint) :
    GLC_PrimitiveGroup :=
  { g with fans := g.fans.add input id }

/-- Modelled from the spec: `containsTriangles()` of the group. -/
def containsTriangles (g : GLC_PrimitiveGroup) : Bool := decide (0 < g.m_TrianglesIndexSize)

/-- Modelled from the spec: `containsStrip()` of the group. -/
def containsStrip (g : GLC_PrimitiveGroup) : Bool := g.strips.nonEmpty

/-- Modelled from the spec: `containsFan()` of the group. -/
def containsFan (g : GLC_PrimitiveGroup) : Bool := g.fans.nonEmpty

/-- Modelled from the spec: `setTrianglesOffseti(offset)`. -/
def setTrianglesOffseti (g : GLC_PrimitiveGroup) (offset : Nat) : GLC_PrimitiveGroup :=
  { g with m_TrianglesIndexOffseti := offset }

/-- Modelled from the spec: `setBaseTrianglesStripOffseti(offset)`. -/
def setBaseTrianglesStripOffseti (g : GLC_PrimitiveGroup) (offset : Nat) :
    GLC_PrimitiveGroup :=
  { g with strips := g.strips.setBaseOffseti offset }

/-- Modelled from the spec: `setBaseTrianglesFanOffseti(offset)`. -/
def setBaseTrianglesFanOffseti (g : GLC_PrimitiveGroup) (offset : Nat) :
    GLC_PrimitiveGroup :=
  { g with fans := g.fans.setBaseOffseti offset }

/-- Modelled from the spec: `computeVboOffset()`, the byte offsets equivalent to the element
offsets (section 4.2), an index being a 4-byte `GLuint`. -/
def computeVboOffset (g : GLC_PrimitiveGroup) : GLC_PrimitiveGroup :=
  { g with
    m_TrianglesIndexOffset := 4 * g.m_TrianglesIndexOffseti
    strips := g.strips.computeVboOffset
    fans := g.fans.computeVboOffset }

/-- Modelled from the spec: `GLC_PrimitiveGroup::finish()`. The indices have been moved to
the mesh data ("Move Indexs from the primitive groups to the mesh Data LOD"), the group
keeps the sizes and the offsets. That the lists are emptied is a choice of the model which
the spec does not settle; it only shows in a second `finish()`, and what is proved about a
second `finish()` is proved of `finishWith`, for every `finish()` of the group that keeps
the recorded sizes and offsets. -/
def finish (g : GLC_PrimitiveGroup) : GLC_PrimitiveGroup :=
  { g with
    m_TrianglesIndex := []
    strips := g.strips.finish
    fans := g.fans.finish }

end GLC_PrimitiveGroup

/-! ## GLC_MeshData (class outside src/) -/

/-- Modelled from the spec: one LOD of the bulk data store (`GLC_Lod`, not under src/):
its accuracy, its index array and its cumulative triangle counter. The accuracy is a
`double` that is only stored and handed on; it is represented by a tag. -/
structure GLC_Lod where
  accuracy : Nat
  indexVector : List GLuint := []
  trianglesCount : Int := 0
deriving DecidableEq, Repr

/-- Modelled from the spec: the bulk data store `GLC_MeshData` (not under src/), section 3:
flat position, normal and texel arrays and one index array per LOD. -/
structure GLC_MeshData where
  m_Positions : List GLfloat := []
  m_Normals : List GLfloat := []
  m_Texels : List GLfloat := []
  m_LodList : List GLC_Lod := []
deriving DecidableEq, Repr

namespace GLC_MeshData

/-- Modelled from the spec: `lodCount()`. -/
def lodCount (d : GLC_MeshData) : Int := d.m_LodList.length

/-- Modelled from the spec: `getLod(i)`, the LOD stored at position `i`. -/
def getLod (d : GLC_MeshData) (i : Int) : Option GLC_Lod :=
  if 0 ≤ i then d.m_LodList[i.toNat]? else none

/-- Modelled from the spec: `appendLod(accuracy)` registers a new LOD with an empty index
array. -/
def appendLod (d : GLC_MeshData) (accuracy : Nat) : GLC_MeshData :=
  { d with m_LodList := d.m_LodList ++ [{ accuracy := accuracy }] }

/-- Modelled from the spec: `indexVector(i)`. -/
def indexVector (d : GLC_MeshData) (i : Int) : Option (List GLuint) :=
  (d.getLod i).map GLC_Lod.indexVector

/-- Modelled from the spec: `indexVectorSize(i)`. -/
def indexVectorSize (d : GLC_MeshData) (i : Int) : Option Nat :=
  (d.getLod i).map (fun l => l.indexVector.length)

/-- Modelled from the spec: `(*indexVectorHandle(i)) += l`, the append to the index array of
LOD `i`. -/
def appendIndex (d : GLC_MeshData) (i : Int) (l : List GLuint) : Option GLC_MeshData :=
  match d.getLod i with
  | none => none
  | some lod =>
    some { d with
      m_LodList := d.m_LodList.set i.toNat { lod with indexVector := lod.indexVector ++ l } }

/-- Modelled from the spec: `trianglesAdded(lod, number)` adds to the cumulative triangle
counter of the LOD (section 4.1); the store is left as it is when it holds no such LOD. -/
def trianglesAdded (d : GLC_MeshData) (lod : Int) (number : Int) : GLC_MeshData :=
  match d.getLod lod with
  | none => d
  | some l =>
    { d with
      m_LodList := d.m_LodList.set lod.toNat { l with trianglesCount := l.trianglesCount + number } }

/-- Modelled from the spec: `trianglesCount(lod)`. -/
def trianglesCount (d : GLC_MeshData) (lod : Int) : Option Int :=
  (d.getLod lod).map GLC_Lod.trianglesCount

/-- Modelled from the spec: `finishLod()`. The spec gives it no effect on the arrays of
the store. -/
def finishLod (d : GLC_MeshData) : GLC_MeshData := d

/-- Modelled from the spec: `clear()` empties the store. -/
def clear (_d : GLC_MeshData) : GLC_MeshData := {}

/-- Modelled from the spec: `(*positionVectorHandle()) += vertices`. -/
def appendPositions (d : GLC_MeshData) (vertices : List GLfloat) : GLC_MeshData :=
  { d with m_Positions := d.m_Positions ++ vertices }

/-- Modelled from the spec: `(*normalVectorHandle()) += normals`. -/
def appendNormals (d : GLC_MeshData) (normals : List GLfloat) : GLC_MeshData :=
  { d with m_Normals := d.m_Normals ++ normals }

/-- Modelled from the spec: `(*texelVectorHandle()) += texels`. -/
def appendTexels (d : GLC_MeshData) (texels : List GLfloat) : GLC_MeshData :=
  { d with m_Texels := d.m_Texels ++ texels }

end GLC_MeshData

/-! ## GLC_Mesh -/

abbrev LodPrimitiveGroups := QHash GLC_uint GLC_PrimitiveGroup
abbrev PrimitiveGroupsHash := QHash Int LodPrimitiveGroups

/-- The members of `GLC_Mesh` that the functions below read or write, with
`m_MaterialHash`, `m_IsSelected`, `m_GeometryIsValid`, the VBO flag, the name and the wire
data of the base class `GLC_Geometry`. The material hash is represented by the list of its
keys, the wire data by its position array. -/
structure GLC_Mesh where
  m_NextPrimitiveLocalId : GLC_uint := 1
  m_PrimitiveGroups : PrimitiveGroupsHash := []
  m_DefaultMaterialId : GLC_uint := 0
  m_NumberOfVertice : Nat := 0
  m_NumberOfNormals : Nat := 0
  m_ColorPearVertex : Bool := false
  m_MeshData : GLC_MeshData := {}
  m_CurrentLod : Int := 0
  m_MaterialHash : List GLC_uint := []
  m_IsSelected : Bool := false
  m_GeometryIsValid : Bool := false
  m_UseVbo : Bool := false
  m_Name : String := ""
  m_WireData : List GLfloat := []
deriving DecidableEq, Repr

namespace GLC_Mesh

/-- The constructor `GLC_Mesh::GLC_Mesh()`. -/
def new : GLC_Mesh := {}

/-- Modelled from the spec: `GLC_Geometry::containsMaterial(id)` (base class outside src/). -/
def containsMaterial (m : GLC_Mesh) (id : GLC_uint) : Bool := decide (id ∈ m.m_MaterialHash)

/-- Modelled from the spec: `GLC_Geometry::addMaterial(pMaterial)` (base class outside
src/) registers the material with the mesh. -/
def addMaterial (m : GLC_Mesh) (id : GLC_uint) : GLC_Mesh :=
  { m with m_MaterialHash := m.m_MaterialHash ++ [id] }

/-- Modelled from the spec: `GLC_Geometry::material(id)` (base class outside src/), the
material registered under `id`, the null pointer when there is none. -/
def material (m : GLC_Mesh) (id : GLC_uint) : Option GLC_uint :=
  if m.containsMaterial id then some id else none

/-- The function `GLC_Mesh::setCurrentMaterial` (glc_mesh.cpp 1180-1231). `newId` is the id
that a material constructed by `new GLC_Material()` in this call gets. -/
def setCurrentMaterial (m : GLC_Mesh) (pMaterial : Option GLC_uint) (lod : Int)
    (accuracy : Nat) (newId : GLC_uint) : GLC_Mesh × GLC_uint :=
  let m1 : GLC_Mesh :=
    if !(QHash.contains m.m_PrimitiveGroups lod) then
      { m with
        m_PrimitiveGroups := QHash.insert m.m_PrimitiveGroups lod []
        m_MeshData := m.m_MeshData.appendLod accuracy }
    else m
  let lodContains (x : GLC_Mesh) (id : GLC_uint) : Bool :=
    match QHash.value x.m_PrimitiveGroups lod with
    | some groups => QHash.contains groups id
    | none => false
  let insertGroup (x : GLC_Mesh) (id : GLC_uint) : GLC_Mesh :=
    { x with
      m_PrimitiveGroups := QHash.modify x.m_PrimitiveGroups lod
        (fun groups => QHash.insert groups id (GLC_PrimitiveGroup.new id)) }
  match pMaterial with
  | none =>
    let m2 : GLC_Mesh :=
      if m1.m_DefaultMaterialId = 0 then
        { (m1.addMaterial newId) with m_DefaultMaterialId := newId }
      else m1
    let returnId := m2.m_DefaultMaterialId
    if !(lodContains m2 returnId) then (insertGroup m2 returnId, returnId)
    else (m2, returnId)
  | some returnId =>
    if !(m1.containsMaterial returnId) then
      (insertGroup (m1.addMaterial returnId) returnId, returnId)
    else if !(lodContains m1 returnId) then (insertGroup m1 returnId, returnId)
    else (m1, returnId)

/-- The check `m_PrimitiveGroups.value(lod)->contains(groupId)`. -/
def lodContainsGroup (m : GLC_Mesh) (lod : Int) (groupId : GLC_uint) : Bool :=
  match QHash.value m.m_PrimitiveGroups lod with
  | some groups => QHash.contains groups groupId
  | none => false

/-- The mutation `m_PrimitiveGroups.value(lod)->value(groupId)->f()`. -/
def modifyGroup (m : GLC_Mesh) (lod : Int) (groupId : GLC_uint)
    (f : GLC_PrimitiveGroup → GLC_PrimitiveGroup) : GLC_Mesh :=
  { m with
    m_PrimitiveGroups := QHash.modify m.m_PrimitiveGroups lod
      (fun groups => QHash.modify groups groupId f) }

/-- The function `GLC_Mesh::addTriangles` (glc_mesh.cpp 624-643). -/
def addTriangles (m : GLC_Mesh) (pMaterial : Option GLC_uint) (indexList : IndexList)
    (lod : Int) (accuracy : Nat) (newId : GLC_uint) : Option (GLC_Mesh × GLC_uint) :=
  let (m1, groupId) := m.setCurrentMaterial pMaterial lod accuracy newId
  if !(m1.lodContainsGroup lod groupId) then none
  else if indexList.isEmpty then none
  else
    let id : GLC_uint := if lod = 0 then m1.m_NextPrimitiveLocalId else 0
    let m2 : GLC_Mesh :=
      if lod = 0 then
        { m1 with m_NextPrimitiveLocalId := (m1.m_NextPrimitiveLocalId + 1) % 4294967296 }
      else m1
    let m3 : GLC_Mesh :=
      { m2 with m_MeshData := m2.m_MeshData.trianglesAdded lod ((indexList.length : Int) / 3) }
    let m4 := m3.modifyGroup lod groupId (fun g => g.addTriangles indexList id)
    some ({ m4 with m_GeometryIsValid := false }, id)

/-- The function `GLC_Mesh::addTrianglesStrip` (glc_mesh.cpp 646-665). -/
def addTrianglesStrip (m : GLC_Mesh) (pMaterial : Option GLC_uint) (indexList : IndexList)
    (lod : Int) (accuracy : Nat) (newId : GLC_uint) : Option (GLC_Mesh × GLC_uint) :=
  let (m1, groupId) := m.setCurrentMaterial pMaterial lod accuracy newId
  if !(m1.lodContainsGroup lod groupId) then none
  else if indexList.isEmpty then none
  else
    let id : GLC_uint := if lod = 0 then m1.m_NextPrimitiveLocalId else 0
    let m2 : GLC_Mesh :=
      if lod = 0 then
        { m1 with m_NextPrimitiveLocalId := (m1.m_NextPrimitiveLocalId + 1) % 4294967296 }
      else m1
    let m3 : GLC_Mesh :=
      { m2 with m_MeshData := m2.m_MeshData.trianglesAdded lod ((indexList.length : Int) - 2) }
    let m4 := m3.modifyGroup lod groupId (fun g => g.addTrianglesStrip indexList id)
    some ({ m4 with m_GeometryIsValid := false }, id)

/-- The function `GLC_Mesh::addTrianglesFan` (glc_mesh.cpp 667-685). -/
def addTrianglesFan (m : GLC_Mesh) (pMaterial : Option GLC_uint) (indexList : IndexList)
    (lod : Int) (accuracy : Nat) (newId : GLC_uint) : Option (GLC_Mesh × GLC_uint) :=
  let (m1, groupId) := m.setCurrentMaterial pMaterial lod accuracy newId
  if !(m1.lodContainsGroup lod groupId) then none
  else if indexList.isEmpty then none
  else
    let id : GLC_uint := if lod = 0 then m1.m_NextPrimitiveLocalId else 0
    let m2 : GLC_Mesh :=
      if lod = 0 then
        { m1 with m_NextPrimitiveLocalId := (m1.m_NextPrimitiveLocalId + 1) % 4294967296 }
      else m1
    let m3 : GLC_Mesh :=
      { m2 with m_MeshData := m2.m_MeshData.trianglesAdded lod ((indexList.length : Int) - 2) }
    let m4 := m3.modifyGroup lod groupId (fun g => g.addTrianglesFan indexList id)
    some ({ m4 with m_GeometryIsValid := false }, id)

/-- The function `GLC_Mesh::clear` (glc_mesh.cpp 579-621): `clearMeshWireAndBoundingBox`
followed by `GLC_Geometry::clear()`, which releases the materials of the geometry. -/
def clear (m : GLC_Mesh) : GLC_Mesh :=
  { m with
    m_NextPrimitiveLocalId := 1
    m_PrimitiveGroups := []
    m_DefaultMaterialId := 0
    m_NumberOfVertice := 0
    m_NumberOfNormals := 0
    m_IsSelected := false
    m_ColorPearVertex := false
    m_MeshData := m.m_MeshData.clear
    m_CurrentLod := 0
    m_MaterialHash := []
    m_WireData := [] }

/-- The body of the inner loop of `GLC_Mesh::moveIndexToMeshDataLod` (glc_mesh.cpp
1319-1341) for one group of the LOD `currentLod`. -/
def moveGroupIndex (currentLod : Int) (g : GLC_PrimitiveGroup) (d : GLC_MeshData) :
    Option (GLC_PrimitiveGroup × GLC_MeshData) := do
  let (g1, d1) ←
    (if g.containsTriangles then do
      let size ← d.indexVectorSize currentLod
      let d' ← d.appendIndex currentLod g.m_TrianglesIndex
      pure (g.setTrianglesOffseti size, d')
    else pure (g, d))
  let (g2, d2) ←
    (if g1.containsStrip then do
      let size ← d1.indexVectorSize currentLod
      let d' ← d1.appendIndex currentLod g1.strips.index
      pure (g1.setBaseTrianglesStripOffseti size, d')
    else pure (g1, d1))
  let (g3, d3) ←
    (if g2.containsFan then do
      let size ← d2.indexVectorSize currentLod
      let d' ← d2.appendIndex currentLod g2.fans.index
      pure (g2.setBaseTrianglesFanOffseti size, d')
    else pure (g2, d2))
  pure (g3.computeVboOffset.finish, d3)

/-- The inner loop of `GLC_Mesh::moveIndexToMeshDataLod` over the groups of one LOD. -/
def moveLodGroups (currentLod : Int) :
    LodPrimitiveGroups → GLC_MeshData → Option (LodPrimitiveGroups × GLC_MeshData)
  | [], d => some ([], d)
  | (id, g) :: rest, d => do
    let (g', d') ← moveGroupIndex currentLod g d
    let (rest', d'') ← moveLodGroups currentLod rest d'
    pure ((id, g') :: rest', d'')

/-- The outer loop of `GLC_Mesh::moveIndexToMeshDataLod` over the LODs. -/
def moveAllGroups :
    PrimitiveGroupsHash → GLC_MeshData → Option (PrimitiveGroupsHash × GLC_MeshData)
  | [], d => some ([], d)
  | (lod, groups) :: rest, d => do
    let (groups', d') ← moveLodGroups lod groups d
    let (rest', d'') ← moveAllGroups rest d'
    pure ((lod, groups') :: rest', d'')

/-- The function `GLC_Mesh::moveIndexToMeshDataLod` (glc_mesh.cpp 1309-1346). -/
def moveIndexToMeshDataLod (m : GLC_Mesh) : Option GLC_Mesh := do
  let (groups, d) ← moveAllGroups m.m_PrimitiveGroups m.m_MeshData
  pure { m with m_PrimitiveGroups := groups, m_MeshData := d }

/-- The element accesses of `GLC_Mesh::boundingBox` (glc_mesh.cpp 156-178): the loop reads
the positions three by three, which stays in range when their number is a multiple of 3.
The box itself is not part of the model. -/
def boundingBoxInRange (m : GLC_Mesh) : Bool :=
  decide (m.m_MeshData.m_Positions.length % 3 = 0)

/-- The function `GLC_Mesh::finish` (glc_mesh.cpp 708-724). -/
def finish (m : GLC_Mesh) : Option GLC_Mesh :=
  if m.m_MeshData.lodCount > 0 then
    if !m.boundingBoxInRange then none
    else moveIndexToMeshDataLod { m with m_MeshData := m.m_MeshData.finishLod }
  else some m.clear

/-- Modelled from the spec: `GLC_Mesh::addVertice` (defined in the header, outside src/)
appends to the position array and counts three floats per vertex. -/
def addVertice (m : GLC_Mesh) (vertices : List GLfloat) : GLC_Mesh :=
  { m with
    m_MeshData := m.m_MeshData.appendPositions vertices
    m_NumberOfVertice := m.m_NumberOfVertice + vertices.length / 3 }

/-- Modelled from the spec: `GLC_Mesh::addNormals` (defined in the header, outside src/). -/
def addNormals (m : GLC_Mesh) (normals : List GLfloat) : GLC_Mesh :=
  { m with
    m_MeshData := m.m_MeshData.appendNormals normals
    m_NumberOfNormals := m.m_NumberOfNormals + normals.length / 3 }

/-- Modelled from the spec: `GLC_Mesh::addTexels` (defined in the header, outside src/). -/
def addTexels (m : GLC_Mesh) (texels : List GLfloat) : GLC_Mesh :=
  { m with m_MeshData := m.m_MeshData.appendTexels texels }

/-- The function `GLC_Mesh::faceCount` (glc_mesh.cpp 144-147). The function returns
`unsigned int`: the counter of the LOD is handed back as a value of that type, which is
the counter modulo `2 ^ 32`. -/
def faceCount (m : GLC_Mesh) (lod : Int) : Option Int :=
  (m.m_MeshData.trianglesCount lod).map (fun n => n % 4294967296)

/-- The lookup `m_PrimitiveGroups.value(lod)->value(materialId)`. -/
def group (m : GLC_Mesh) (lod : Int) (materialId : GLC_uint) : Option GLC_PrimitiveGroup :=
  match QHash.value m.m_PrimitiveGroups lod with
  | some groups => QHash.value groups materialId
  | none => none

/-- The function `GLC_Mesh::containsTriangles` (glc_mesh.cpp 187-193); `none` when the
assertion on the LOD fails. -/
def containsTriangles (m : GLC_Mesh) (lod : Int) (materialId : GLC_uint) : Option Bool :=
  match QHash.value m.m_PrimitiveGroups lod with
  | none => none
  | some groups =>
    match QHash.value groups materialId with
    | none => some false
    | some g => some g.containsTriangles

/-- The function `GLC_Mesh::containsStrips` (glc_mesh.cpp 254-261). -/
def containsStrips (m : GLC_Mesh) (lod : Int) (materialId : GLC_uint) : Bool :=
  match QHash.value m.m_PrimitiveGroups lod with
  | none => false
  | some groups =>
    match QHash.value groups materialId with
    | none => false
    | some g => g.containsStrip

/-- The function `GLC_Mesh::containsFans` (glc_mesh.cpp 318-325). -/
def containsFans (m : GLC_Mesh) (lod : Int) (materialId : GLC_uint) : Bool :=
  match QHash.value m.m_PrimitiveGroups lod with
  | none => false
  | some groups =>
    match QHash.value groups materialId with
    | none => false
    | some g => g.containsFan

end GLC_Mesh

/-- The call `memcpy(target, &source[offset], size * sizeof(T))`: the `size` elements of
`source` from position `offset` on; `none` when the range leaves the array. -/
def memcpyFrom {α : Type} (source : List α) (offset size : Nat) : Option (List α) :=
  if offset + size ≤ source.length then some ((source.drop offset).take size) else none

/-- The two loops shared by `getStripsIndex` and `getFansIndex` (glc_mesh.cpp 286-303 and
391-408): for every recorded offset the size of the same rank is fetched and that many
indices are copied out of the LOD index array. -/
def readRuns (source : List GLuint) : List Nat → List Nat → Option (List (List GLuint))
  | [], _ => some []
  | _ :: _, [] => none
  | o :: os, s :: ss => do
    let run ← memcpyFrom source o s
    let rest ← readRuns source os ss
    pure (run :: rest)

namespace GLC_Mesh

/-- The function `GLC_Mesh::getTrianglesIndex` (glc_mesh.cpp 196-219). -/
def getTrianglesIndex (m : GLC_Mesh) (lod : Int) (materialId : GLC_uint) :
    Option (List GLuint) := do
  let c ← m.containsTriangles lod materialId
  if !c then none
  else
    let g ← m.group lod materialId
    let offset := if m.m_UseVbo then g.m_TrianglesIndexOffset / 4 else g.m_TrianglesIndexOffseti
    let size := g.m_TrianglesIndexSize
    let source ← m.m_MeshData.indexVector lod
    memcpyFrom source offset size

/-- The function `GLC_Mesh::getStripsIndex` (glc_mesh.cpp 264-306). -/
def getStripsIndex (m : GLC_Mesh) (lod : Int) (materialId : GLC_uint) :
    Option (List (List GLuint)) := do
  if !(m.containsStrips lod materialId) then none
  else
    let g ← m.group lod materialId
    let offsets :=
      if m.m_UseVbo then g.strips.offset.map (fun o => o / 4) else g.strips.offseti
    let source ← m.m_MeshData.indexVector lod
    readRuns source offsets g.strips.sizes

/-- The function `GLC_Mesh::getFansIndex` (glc_mesh.cpp 369-411). -/
def getFansIndex (m : GLC_Mesh) (lod : Int) (materialId : GLC_uint) :
    Option (List (List GLuint)) := do
  if !(m.containsFans lod materialId) then none
  else
    let g ← m.group lod materialId
    let offsets :=
      if m.m_UseVbo then g.fans.offset.map (fun o => o / 4) else g.fans.offseti
    let source ← m.m_MeshData.indexVector lod
    readRuns source offsets g.fans.sizes

end GLC_Mesh

/-- The loop `for (j = 3; j < stripSize; ++j)` of `equivalentTrianglesIndexOfstripsIndex`
(glc_mesh.cpp 1852-1866): `count` iterations are left, the next one is for `j`. -/
def stripLoop (s : List GLuint) : Nat → Nat → IndexList → Option IndexList
  | 0, _, acc => some acc
  | count + 1, j, acc => do
    let a ← s[j]?
    let b ← s[j - 1]?
    let c ← s[j - 2]?
    stripLoop s count (j + 1) (acc ++ (if j % 2 ≠ 0 then [a, b, c] else [a, c, b]))

/-- The body of the loop over the strips (glc_mesh.cpp 1846-1866): the triangles of one
strip are appended to `acc`. -/
def stripTriangles (acc : IndexList) (s : List GLuint) : Option IndexList := do
  let a ← s[0]?
  let b ← s[1]?
  let c ← s[2]?
  stripLoop s (s.length - 3) 3 (acc ++ [a, b, c])

/-- The loop `for (j = 1; j < size - 1; ++j)` of `equivalentTrianglesIndexOfFansIndex`
(glc_mesh.cpp 1883-1888). -/
def fanLoop (s : List GLuint) : Nat → Nat → IndexList → Option IndexList
  | 0, _, acc => some acc
  | count + 1, j, acc => do
    let a ← s.head?
    let b ← s[j]?
    let c ← s[j + 1]?
    fanLoop s count (j + 1) (acc ++ [a, b, c])

/-- The body of the loop over the fans (glc_mesh.cpp 1881-1888). -/
def fanTriangles (acc : IndexList) (s : List GLuint) : Option IndexList :=
  fanLoop s (s.length - 2) 1 acc

/-- A loop that threads the list of triangle indices through the strips (or fans). -/
def foldRuns (f : IndexList → List GLuint → Option IndexList) :
    IndexList → List (List GLuint) → Option IndexList
  | acc, [] => some acc
  | acc, s :: rest => do
    let acc' ← f acc s
    foldRuns f acc' rest

namespace GLC_Mesh

/-- The function `GLC_Mesh::equivalentTrianglesIndexOfstripsIndex` (glc_mesh.cpp
1837-1870). -/
def equivalentTrianglesIndexOfstripsIndex (m : GLC_Mesh) (lodIndex : Int)
    (materialId : GLC_uint) : Option IndexList :=
  if m.containsStrips lodIndex materialId then do
    let stripsIndex ← m.getStripsIndex lodIndex materialId
    foldRuns stripTriangles [] stripsIndex
  else some []

/-- The function `GLC_Mesh::equivalentTrianglesIndexOfFansIndex` (glc_mesh.cpp
1872-1892). -/
def equivalentTrianglesIndexOfFansIndex (m : GLC_Mesh) (lodIndex : Int)
    (materialId : GLC_uint) : Option IndexList :=
  if m.containsFans lodIndex materialId then do
    let fanIndex ← m.getFansIndex lodIndex materialId
    foldRuns fanTriangles [] fanIndex
  else some []

/-- The function `GLC_Mesh::getEquivalentTrianglesStripsFansIndex` (glc_mesh.cpp
221-242). -/
def getEquivalentTrianglesStripsFansIndex (m : GLC_Mesh) (lod : Int)
    (materialId : GLC_uint) : Option IndexList := do
  let c ← m.containsTriangles lod materialId
  let subject1 ← (if c then m.getTrianglesIndex lod materialId else some [])
  let subject2 ←
    (if m.containsStrips lod materialId then do
      let e ← m.equivalentTrianglesIndexOfstripsIndex lod materialId
      pure (subject1 ++ e)
    else some subject1)
  let subject3 ←
    (if m.containsFans lod materialId then do
      let e ← m.equivalentTrianglesIndexOfFansIndex lod materialId
      pure (subject2 ++ e)
    else some subject2)
  if subject3.length % 3 = 0 then some subject3 else none

end GLC_Mesh

/-! ## Sequences of ingestion calls -/

/-- The three ingestion entry points of `GLC_Mesh`. -/
inductive PrimitiveKind where
  | triangles
  | strip
  | fan
deriving DecidableEq, Repr

/-- One call of `addTriangles`, `addTrianglesStrip` or `addTrianglesFan` with its
arguments; `newId` is the id a default material constructed during the call gets. -/
structure AddCall where
  kind : PrimitiveKind
  pMaterial : Option GLC_uint
  indexList : IndexList
  lod : Int := 0
  accuracy : Nat := 0
  newId : GLC_uint := 0
deriving DecidableEq, Repr

/-- Execution of one ingestion call. -/
def applyCall (m : GLC_Mesh) (c : AddCall) : Option (GLC_Mesh × GLC_uint) :=
  match c.kind with
  | .triangles => m.addTriangles c.pMaterial c.indexList c.lod c.accuracy c.newId
  | .strip => m.addTrianglesStrip c.pMaterial c.indexList c.lod c.accuracy c.newId
  | .fan => m.addTrianglesFan c.pMaterial c.indexList c.lod c.accuracy c.newId

/-- Execution of a sequence of ingestion calls, first call first; the result holds the
mesh and the primitive ids returned by the calls, in call order. -/
def applyCalls : GLC_Mesh → List AddCall → Option (GLC_Mesh × List GLC_uint)
  | m, [] => some (m, [])
  | m, c :: cs => do
    let (m1, id) ← applyCall m c
    let (m2, ids) ← applyCalls m1 cs
    pure (m2, id :: ids)

/-! ## LOD extraction -/

/-- The two index maps and the counter that `createMeshOfGivenLod` hands to `copyIndex`. -/
structure IndexMaps where
  sourceToTargetIndexMap : QHash GLuint GLuint := []
  tagetToSourceIndexMap : QHash GLuint GLuint := []
  maxIndex : Int := -1
deriving DecidableEq, Repr

/-- The loop over the indices of one primitive in `GLC_Mesh::copyIndex` (glc_mesh.cpp
1713-1726, 1741-1754 and 1769-1782): `target` is the list of target indices built so far.
`QHash::value` of a missing key of an integer-valued hash is 0. -/
def remapIndices : List GLuint → IndexMaps → List GLuint → IndexMaps × List GLuint
  | [], maps, target => (maps, target)
  | currentIndex :: rest, maps, target =>
    if !(QHash.contains maps.sourceToTargetIndexMap currentIndex) then
      let maxIndex := maps.maxIndex + 1
      remapIndices rest
        { sourceToTargetIndexMap :=
            QHash.insert maps.sourceToTargetIndexMap currentIndex maxIndex.toNat
          tagetToSourceIndexMap :=
            QHash.insert maps.tagetToSourceIndexMap maxIndex.toNat currentIndex
          maxIndex := maxIndex }
        (target ++ [maxIndex.toNat])
    else
      remapIndices rest maps
        (target ++ [(QHash.value maps.sourceToTargetIndexMap currentIndex).getD 0])

/-- The new mesh and the index maps while `copyIndex` runs. -/
structure CopyState where
  pLodMesh : GLC_Mesh
  maps : IndexMaps
deriving DecidableEq, Repr

/-- The loop over the strips (glc_mesh.cpp 1735-1756) or over the fans (1763-1784) of one
material in `copyIndex`: each run is remapped and added to the new mesh. -/
def copyRuns (kind : PrimitiveKind) (pCurrentMaterial : Option GLC_uint) (targetLod : Int)
    (accuracy : Option Nat) (newId : GLC_uint) :
    List (List GLuint) → CopyState → Option CopyState
  | [], st => some st
  | source :: rest, st => do
    let (maps, target) := remapIndices source st.maps []
    let acc ← accuracy
    let (mesh, _) ←
      applyCall st.pLodMesh
        { kind := kind, pMaterial := pCurrentMaterial, indexList := target, lod := targetLod,
          accuracy := acc, newId := newId }
    copyRuns kind pCurrentMaterial targetLod accuracy newId rest
      { pLodMesh := mesh, maps := maps }

namespace GLC_Mesh

/-- The body of the loop over the materials in `GLC_Mesh::copyIndex` (glc_mesh.cpp
1704-1785). `accuracy` is `m_MeshData.getLod(lodIndex)->accuracy()`, which every add call
evaluates. -/
def copyIndexMaterial (m : GLC_Mesh) (lodIndex : Int) (targetLod : Int) (newId : GLC_uint)
    (currentMaterialId : GLC_uint) (st : CopyState) : Option CopyState := do
  let pCurrentMaterial := m.material currentMaterialId
  let accuracy := (m.m_MeshData.getLod lodIndex).map GLC_Lod.accuracy
  let c ← m.containsTriangles lodIndex currentMaterialId
  let st1 ←
    (if c then do
      let sourceTriangleIndex ← m.getTrianglesIndex lodIndex currentMaterialId
      copyRuns .triangles pCurrentMaterial targetLod accuracy newId [sourceTriangleIndex] st
    else some st)
  let st2 ←
    (if m.containsStrips lodIndex currentMaterialId then do
      let sourceStripIndex ← m.getStripsIndex lodIndex currentMaterialId
      copyRuns .strip pCurrentMaterial targetLod accuracy newId sourceStripIndex st1
    else some st1)
  if m.containsFans lodIndex currentMaterialId then do
    let sourceFanIndex ← m.getFansIndex lodIndex currentMaterialId
    copyRuns .fan pCurrentMaterial targetLod accuracy newId sourceFanIndex st2
  else some st2

/-- The loop over the materials in `GLC_Mesh::copyIndex`. -/
def copyIndexLoop (m : GLC_Mesh) (lodIndex : Int) (targetLod : Int) (newId : GLC_uint) :
    List GLC_uint → CopyState → Option CopyState
  | [], st => some st
  | id :: rest, st => do
    let st1 ← m.copyIndexMaterial lodIndex targetLod newId id st
    copyIndexLoop m lodIndex targetLod newId rest st1

/-- The function `GLC_Mesh::copyIndex` (glc_mesh.cpp 1696-1787). -/
def copyIndex (m : GLC_Mesh) (lodIndex : Int) (st : CopyState) (targetLod : Int)
    (newId : GLC_uint) : Option CopyState := do
  let groups ← QHash.value m.m_PrimitiveGroups lodIndex
  copyIndexLoop m lodIndex targetLod newId (QHash.keys groups) st

end GLC_Mesh

/-- The loops of `GLC_Mesh::copyBulkData` (glc_mesh.cpp 1796-1802, 1809-1815, 1825-1831):
for the target indices of the list, `stride` floats are copied from the position of the
source vertex that the target-to-source map gives. -/
def copyVertices (source : List GLfloat) (tagetToSourceIndexMap : QHash GLuint GLuint)
    (stride : Nat) : List Nat → Option (List GLfloat)
  | [] => some []
  | i :: rest => do
    let chunk ← memcpyFrom source ((QHash.value tagetToSourceIndexMap i).getD 0 * stride) stride
    let tail ← copyVertices source tagetToSourceIndexMap stride rest
    pure (chunk ++ tail)

namespace GLC_Mesh

/-- The function `GLC_Mesh::copyBulkData` (glc_mesh.cpp 1789-1835). -/
def copyBulkData (m : GLC_Mesh) (pLodMesh : GLC_Mesh) (tagetToSourceIndexMap : QHash GLuint GLuint)
    (maxIndex : Int) : Option GLC_Mesh := do
  if m.m_MeshData.m_Positions.isEmpty then none
  else
    let positions ←
      copyVertices m.m_MeshData.m_Positions tagetToSourceIndexMap 3
        (List.range (maxIndex + 1).toNat)
    let mesh1 := pLodMesh.addVertice positions
    if m.m_MeshData.m_Normals.isEmpty then none
    else
      let normals ←
        copyVertices m.m_MeshData.m_Normals tagetToSourceIndexMap 3
          (List.range (maxIndex + 1).toNat)
      let mesh2 := mesh1.addNormals normals
      if !m.m_MeshData.m_Texels.isEmpty then do
        let texels ←
          copyVertices m.m_MeshData.m_Texels tagetToSourceIndexMap 2
            (List.range (maxIndex + 1).toNat)
        pure (mesh2.addTexels texels)
      else pure mesh2

/-- The function `GLC_Mesh::createMeshOfGivenLod` (glc_mesh.cpp 433-453); the result is the
new mesh. `releaseVboClientSide` has no effect on the members of the model; the name that
`setName` gives to the new mesh is left out here. -/
def createMeshOfGivenLod (m : GLC_Mesh) (lodIndex : Int) (newId : GLC_uint) :
    Option GLC_Mesh := do
  if !(m.m_MeshData.lodCount > lodIndex) then none
  else
    let st ← m.copyIndex lodIndex { pLodMesh := GLC_Mesh.new, maps := {} } 0 newId
    let mesh ← m.copyBulkData st.pLodMesh st.maps.tagetToSourceIndexMap st.maps.maxIndex
    mesh.finish

end GLC_Mesh

/-! ## GLC_CsgHelper -/

/-- Modelled from the spec: a vertex of the boolean library (`csgjs_vertex`, declared
outside src/), section 6: position, normal, uv and material tag. -/
structure csgjs_vertex where
  pos : GLfloat × GLfloat × GLfloat
  normal : GLfloat × GLfloat × GLfloat
  uv : GLfloat × GLfloat
  matId : GLC_uint
deriving DecidableEq, Repr

/-- Modelled from the spec: the vertex-index soup of the boolean library (`csgjs_model`,
declared outside src/). -/
structure csgjs_model where
  vertices : List csgjs_vertex
  indices : List Int
deriving DecidableEq, Repr

/-- The access `model.vertices.at(i)`; `none` when `i` is not a position of the vector. -/
def vertexAt (vertices : List csgjs_vertex) (i : Int) : Option csgjs_vertex :=
  if 0 ≤ i then vertices[i.toNat]? else none

/-- The inner loop of `GLC_CsgHelper::meshFromCsgModel` (glc_csghelper.cpp 186-198): the
indices whose vertex carries `matId` are moved from the working list to `indexList`; the
result is `indexList` and what is left of the working list. -/
def extractMaterial (vertices : List csgjs_vertex) (matId : GLC_uint) :
    List Int → Option (IndexList × List Int)
  | [] => some ([], [])
  | i :: rest => do
    let v ← vertexAt vertices i
    let (indexList, left) ← extractMaterial vertices matId rest
    if v.matId = matId then pure (i.toNat :: indexList, left)
    else pure (indexList, i :: left)

/-- The outer loop of `GLC_CsgHelper::meshFromCsgModel` (glc_csghelper.cpp 182-205) over
the material hash; the result is the mesh and the working index list. -/
def csgMaterialLoop (vertices : List csgjs_vertex) (newId : GLC_uint) :
    QHash GLC_uint (Option GLC_uint) → List Int → GLC_Mesh → Option (GLC_Mesh × List Int)
  | [], indices, mesh => some (mesh, indices)
  | (matId, pMaterial) :: rest, indices, mesh => do
    let (indexList, left) ← extractMaterial vertices matId indices
    let mesh1 ←
      (if !indexList.isEmpty then
        (mesh.addTriangles pMaterial indexList 0 0 newId).map Prod.fst
      else some mesh)
    csgMaterialLoop vertices newId rest left mesh1

/-- The function `GLC_CsgHelper::meshFromCsgModel(model, materialHash, pMesh)`
(glc_csghelper.cpp 175-226). -/
def meshFromCsgModel (model : csgjs_model) (materialHash : QHash GLC_uint (Option GLC_uint))
    (pMesh : GLC_Mesh) (newId : GLC_uint) : Option GLC_Mesh := do
  let (mesh, indices) ←
    csgMaterialLoop model.vertices newId materialHash model.indices pMesh.clear
  if !indices.isEmpty then none
  else
    let positionVector := model.vertices.flatMap (fun v => [v.pos.1, v.pos.2.1, v.pos.2.2])
    let normalVector :=
      model.vertices.flatMap (fun v => [v.normal.1, v.normal.2.1, v.normal.2.2])
    let texelVector := model.vertices.flatMap (fun v => [v.uv.1, v.uv.2])
    (((mesh.addVertice positionVector).addNormals normalVector).addTexels texelVector).finish

/-- The indices of the model whose vertex carries the material tag `matId`, in the order
of the model. -/
def csgTagged (vertices : List csgjs_vertex) (matId : GLC_uint) (indices : List Int) :
    IndexList :=
  (indices.filter (fun i => decide ((vertexAt vertices i).map csgjs_vertex.matId = some matId))).map
    Int.toNat

/-- The `addTriangles` calls that the specification expects of the recombination: one call
per material of the hash that tags at least one index, with the indices tagged by it. -/
def csgCalls (vertices : List csgjs_vertex) (newId : GLC_uint) (indices : List Int) :
    QHash GLC_uint (Option GLC_uint) → List AddCall
  | [] => []
  | (matId, pMaterial) :: rest =>
    (if csgTagged vertices matId indices = [] then []
      else [{ kind := .triangles, pMaterial := pMaterial,
              indexList := csgTagged vertices matId indices, newId := newId }]) ++
      csgCalls vertices newId indices rest

/-- The working index list after the materials of the hash have been processed. -/
def csgLeft (vertices : List csgjs_vertex) : QHash GLC_uint (Option GLC_uint) → List Int → List Int
  | [], w => w
  | (matId, _) :: rest, w =>
    csgLeft vertices rest
      (w.filter (fun i => !decide ((vertexAt vertices i).map csgjs_vertex.matId = some matId)))

/-- A model of two triangles, the first tagged with material 7, the second with
material 8, used as a test input. -/
def sampleCsgModel : csgjs_model :=
  { vertices :=
      [{ pos := (0, 0, 0), normal := (0, 0, 1), uv := (0, 0), matId := 7 },
       { pos := (1, 0, 0), normal := (0, 0, 1), uv := (1, 0), matId := 7 },
       { pos := (0, 1, 0), normal := (0, 0, 1), uv := (0, 1), matId := 7 },
       { pos := (0, 0, 1), normal := (1, 0, 0), uv := (0, 0), matId := 8 },
       { pos := (0, 1, 1), normal := (1, 0, 0), uv := (1, 0), matId := 8 },
       { pos := (0, 0, 2), normal := (1, 0, 0), uv := (0, 1), matId := 8 }]
    indices := [3, 4, 5, 0, 1, 2] }

/-! ## Serialization -/

/-- The class chunk id `GLC_Mesh::m_ChunkId` (glc_mesh.cpp 36). -/
def m_ChunkId : Nat := 0xA701

/-- Modelled from the spec: a value held by a `QDataStream` (class outside src/). The
stream operators of `QString`, of the wire data, of `GLC_MeshData` and of
`GLC_PrimitiveGroup` are outside src/; section 6 lists what the mesh writes, and a value
that has been written is read back as it was. -/
inductive StreamItem where
  | quint32 (v : Nat)
  | qstring (s : String)
  | wireData (w : List GLfloat)
  | glcUint (v : GLC_uint)
  | meshData (d : GLC_MeshData)
  | intList (l : List Int)
  | groupLists (l : List (List GLC_PrimitiveGroup))
  | uint (v : Nat)
deriving DecidableEq, Repr

/-- Modelled from the spec: the content of a `QDataStream`, the values in the order in
which they were written. -/
abbrev QDataStream := List StreamItem

/-- Modelled from the spec: the constructor `GLC_PrimitiveGroup(group, id)` (class outside
src/), a copy of the group that belongs to the material `id`. -/
def GLC_PrimitiveGroup.copyWithId (g : GLC_PrimitiveGroup) (id : GLC_uint) :
    GLC_PrimitiveGroup :=
  { g with m_Id := id }

namespace GLC_Mesh

/-- The function `GLC_Mesh::saveToDataStream` (glc_mesh.cpp 949-989): the values are
appended to the stream. -/
def saveToDataStream (m : GLC_Mesh) (stream : QDataStream) : QDataStream :=
  stream ++
    [StreamItem.quint32 m_ChunkId,
     StreamItem.qstring m.m_Name,
     StreamItem.wireData m.m_WireData,
     StreamItem.glcUint m.m_NextPrimitiveLocalId,
     StreamItem.meshData m.m_MeshData,
     StreamItem.intList (QHash.keys m.m_PrimitiveGroups),
     StreamItem.groupLists (m.m_PrimitiveGroups.map (fun e => e.2.map Prod.snd)),
     StreamItem.uint m.m_NumberOfVertice,
     StreamItem.uint m.m_NumberOfNormals]

/-- The inner loop of `GLC_Mesh::loadFromDataStream` (glc_mesh.cpp 926-939) over the groups
read for one LOD. `debug` says whether `Q_ASSERT` is compiled in; a failed assertion ends
the run (`none`). `materialHash.value(newId)` is the pointer handed to `addMaterial`, which
is outside src/; the spec does not say what `addMaterial` does with a null pointer and the
model ends the run there. -/
def loadGroups (debug : Bool) (materialHash : QHash GLC_uint (Option GLC_uint))
    (materialIdMap : QHash GLC_uint GLC_uint) (lod : Int) :
    List GLC_PrimitiveGroup → GLC_Mesh → Option GLC_Mesh
  | [], m => some m
  | group :: rest, m =>
    if debug && !(QHash.contains materialIdMap group.m_Id) then none
    else
      let newId := (QHash.value materialIdMap group.m_Id).getD 0
      let m1 : Option GLC_Mesh :=
        if !(m.containsMaterial newId) then
          match (QHash.value materialHash newId).join with
          | some pMaterial => some (m.addMaterial pMaterial)
          | none => none
        else some m
      match m1 with
      | none => none
      | some m1 =>
        match QHash.value m1.m_PrimitiveGroups lod with
        | none => none
        | some groups =>
          if debug && QHash.contains groups newId then none
          else
            loadGroups debug materialHash materialIdMap lod rest
              { m1 with
                m_PrimitiveGroups := QHash.modify m1.m_PrimitiveGroups lod
                  (fun gs => QHash.insert gs newId (group.copyWithId newId)) }

/-- The outer loop of `GLC_Mesh::loadFromDataStream` (glc_mesh.cpp 920-940) over the LODs
read from the stream; `primitiveListOfGroupList.at(i)` is the head of the second list. -/
def loadLods (debug : Bool) (materialHash : QHash GLC_uint (Option GLC_uint))
    (materialIdMap : QHash GLC_uint GLC_uint) :
    List Int → List (List GLC_PrimitiveGroup) → GLC_Mesh → Option GLC_Mesh
  | [], _, m => some m
  | _ :: _, [], _ => none
  | lod :: lods, groups :: rest, m =>
    match loadGroups debug materialHash materialIdMap lod groups
        { m with m_PrimitiveGroups := QHash.insert m.m_PrimitiveGroups lod [] } with
    | none => none
    | some m1 => loadLods debug materialHash materialIdMap lods rest m1

/-- The function `GLC_Mesh::finishSerialized` (glc_mesh.cpp 1253-1266). -/
def finishSerialized (m : GLC_Mesh) : GLC_Mesh :=
  { m with
    m_PrimitiveGroups :=
      m.m_PrimitiveGroups.map (fun e => (e.1, e.2.map (fun x => (x.1, x.2.computeVboOffset)))) }

/-- The function `GLC_Mesh::loadFromDataStream` (glc_mesh.cpp 890-946). The function returns
`void`: the result is the mesh and what is left of the stream, `none` when an assertion
fails or when the stream does not hold the value that is read. -/
def loadFromDataStream (debug : Bool) (m : GLC_Mesh) (stream : QDataStream)
    (materialHash : QHash GLC_uint (Option GLC_uint))
    (materialIdMap : QHash GLC_uint GLC_uint) : Option (GLC_Mesh × QDataStream) :=
  match stream with
  | StreamItem.quint32 chunckId :: stream1 =>
    if debug && decide (chunckId ≠ m_ChunkId) then none
    else
      match stream1 with
      | StreamItem.qstring meshName :: StreamItem.wireData wire ::
          StreamItem.glcUint localId :: StreamItem.meshData meshData ::
          StreamItem.intList primitiveGroupLodList ::
          StreamItem.groupLists primitiveListOfGroupList :: stream2 =>
        match loadLods debug materialHash materialIdMap primitiveGroupLodList
            primitiveListOfGroupList
            { m with
              m_Name := meshName
              m_WireData := wire
              m_NextPrimitiveLocalId := localId
              m_MeshData := meshData } with
        | none => none
        | some m1 =>
          match stream2 with
          | StreamItem.uint numberOfVertice :: StreamItem.uint numberOfNormals :: rest =>
            some (finishSerialized
              { m1 with
                m_NumberOfVertice := numberOfVertice
                m_NumberOfNormals := numberOfNormals },
              rest)
          | _ => none
      | _ => none
  | _ => none

end GLC_Mesh

/-- A stream that holds a mesh of one triangle of material 7 behind the chunk id `0xA702`,
used as a test input. -/
def sampleWrongChunkStream : QDataStream :=
  [StreamItem.quint32 0xA702,
   StreamItem.qstring "",
   StreamItem.wireData [],
   StreamItem.glcUint 2,
   StreamItem.meshData
     { m_Positions := [0, 0, 0, 1, 0, 0, 0, 1, 0]
       m_Normals := [0, 0, 1, 0, 0, 1, 0, 0, 1]
       m_LodList := [{ accuracy := 0, indexVector := [0, 1, 2], trianglesCount := 1 }] },
   StreamItem.intList [0],
   StreamItem.groupLists [[{ m_Id := 7, m_TrianglesIndexSize := 3, m_TrianglesId := [1] }]],
   StreamItem.uint 3,
   StreamItem.uint 3]

/-! ## Auxiliary functions used to state the index compaction -/

/-- The list of the distinct source indices met so far, extended by one index. -/
def addSeen (seen : List GLuint) (x : GLuint) : List GLuint :=
  if x ∈ seen then seen else seen ++ [x]

/-- The source-to-target map that sends the distinct source indices, in the order in which
they were first met, to `start, start + 1, ...`. -/
def s2tOf : Nat → List GLuint → QHash GLuint GLuint
  | _, [] => []
  | start, x :: rest => (x, start) :: s2tOf (start + 1) rest

/-- The target-to-source map that sends `start, start + 1, ...` to the distinct source
indices in the order in which they were first met. -/
def t2sOf : Nat → List GLuint → QHash GLuint GLuint
  | _, [] => []
  | start, x :: rest => (start, x) :: t2sOf (start + 1) rest

/-- The maps and the counter of `copyIndex` once the distinct source indices of `seen` have
been met. -/
def mapsOf (seen : List GLuint) : IndexMaps :=
  { sourceToTargetIndexMap := s2tOf 0 seen
    tagetToSourceIndexMap := t2sOf 0 seen
    maxIndex := (seen.length : Int) - 1 }

/-- The primitives of one material of a LOD as `copyIndex` reads them from a mesh: the
triangle list, then the strips, then the fans. -/
def GLC_Mesh.readMaterial (m : GLC_Mesh) (lodIndex : Int) (materialId : GLC_uint) :
    Option (List (PrimitiveKind × List GLuint)) := do
  let c ← m.containsTriangles lodIndex materialId
  let triangles ←
    (if c then (m.getTrianglesIndex lodIndex materialId).map (fun l => [(PrimitiveKind.triangles, l)])
      else some [])
  let strips ←
    (if m.containsStrips lodIndex materialId then
      (m.getStripsIndex lodIndex materialId).map (fun ls => ls.map (fun l => (PrimitiveKind.strip, l)))
      else some [])
  let fans ←
    (if m.containsFans lodIndex materialId then
      (m.getFansIndex lodIndex materialId).map (fun ls => ls.map (fun l => (PrimitiveKind.fan, l)))
      else some [])
  pure (triangles ++ strips ++ fans)

/-- The primitives of the materials of a LOD as `copyIndex` reads them, each with the
material pointer that is handed to the add call. -/
def GLC_Mesh.readPlan (m : GLC_Mesh) (lodIndex : Int) :
    List GLC_uint → Option (List (Option GLC_uint × PrimitiveKind × List GLuint))
  | [] => some []
  | id :: rest => do
    let prims ← m.readMaterial lodIndex id
    let tail ← GLC_Mesh.readPlan m lodIndex rest
    pure (prims.map (fun p => (m.material id, p)) ++ tail)

/-- The remapping and the add call of `copyIndex` for a list of primitives that have been
read. -/
def emitPlan (targetLod : Int) (accuracy : Option Nat) (newId : GLC_uint) :
    List (Option GLC_uint × PrimitiveKind × List GLuint) → CopyState → Option CopyState
  | [], st => some st
  | (pMaterial, kind, source) :: rest, st => do
    let (maps, target) := remapIndices source st.maps []
    let acc ← accuracy
    let (mesh, _) ←
      applyCall st.pLodMesh
        { kind := kind, pMaterial := pMaterial, indexList := target, lod := targetLod,
          accuracy := acc, newId := newId }
    emitPlan targetLod accuracy newId rest { pLodMesh := mesh, maps := maps }

/-- The source vertex indices referenced by the triangles, strips and fans of a LOD, in the
order in which `copyIndex` reads them. -/
def GLC_Mesh.lodSourceIndices (m : GLC_Mesh) (lodIndex : Int) : Option (List GLuint) := do
  let groups ← QHash.value m.m_PrimitiveGroups lodIndex
  let plan ← m.readPlan lodIndex (QHash.keys groups)
  pure (plan.flatMap (fun p => p.2.2))

/-- The add calls that `copyIndex` issues for the primitives of a plan, `final` being the
list of the distinct source indices once all primitives have been walked: every source
index is replaced by its rank in `final`. -/
def planCalls (targetLod : Int) (accuracy : Nat) (newId : GLC_uint) (final : List GLuint)
    (plan : List (Option GLC_uint × PrimitiveKind × List GLuint)) : List AddCall :=
  plan.map (fun p =>
    { kind := p.2.1, pMaterial := p.1, indexList := p.2.2.map (fun x => List.indexOf x final),
      lod := targetLod, accuracy := accuracy, newId := newId })

/-- A finished mesh with one LOD used as a test input: material 7 holds the triangle
`[5, 9, 5]` and the strip `[9, 2, 7, 5]`, material 8 holds the fan `[2, 11, 9]`. -/
def sampleLodSource : GLC_Mesh :=
  ((applyCalls GLC_Mesh.new
      [{ kind := .triangles, pMaterial := some 7, indexList := [5, 9, 5] },
       { kind := .strip, pMaterial := some 7, indexList := [9, 2, 7, 5] },
       { kind := .fan, pMaterial := some 8, indexList := [2, 11, 9] }]).bind
    (fun r => r.1.finish)).getD GLC_Mesh.new

/-! ## Auxiliary functions used to state the packing results -/

/-- The indices a group holds before `finish()`: triangles, then strips, then fans. -/
def groupContent (g : GLC_PrimitiveGroup) : List GLuint :=
  g.m_TrianglesIndex ++ g.strips.index ++ g.fans.index

/-- The indices held by the groups of one LOD, in iteration order. -/
def lodContent : LodPrimitiveGroups → List GLuint
  | [] => []
  | (_, g) :: rest => groupContent g ++ lodContent rest

/-- The indices held by the groups of a mesh (before `finish()`), all LODs together. -/
def GLC_Mesh.heldIndices (m : GLC_Mesh) : List GLuint :=
  m.m_PrimitiveGroups.flatMap (fun e => lodContent e.2)

/-- The LOD list in which `l` has been appended to the index array at position `n`. -/
def appendAtLod : List GLC_Lod → Nat → List GLuint → List GLC_Lod
  | [], _, _ => []
  | lod :: t, 0, l => { lod with indexVector := lod.indexVector ++ l } :: t
  | lod :: t, n + 1, l => lod :: appendAtLod t n l

/-- The mesh data in which `l` has been appended to the index array of LOD `n`. -/
def GLC_MeshData.withAppended (d : GLC_MeshData) (n : Nat) (l : List GLuint) : GLC_MeshData :=
  { d with m_LodList := appendAtLod d.m_LodList n l }

/-- The index array at position `n` of a LOD list, empty when there is no such LOD. -/
def indexArrayAt (ls : List GLC_Lod) (n : Nat) : List GLuint :=
  match ls[n]? with
  | some lod => lod.indexVector
  | none => []

/-- What `moveIndexToMeshDataLod` makes of a group when the index array of its LOD holds
`base` indices at the moment the group is reached. -/
def packedGroup (base : Nat) (g : GLC_PrimitiveGroup) : GLC_PrimitiveGroup :=
  let g1 := if g.containsTriangles then g.setTrianglesOffseti base else g
  let g2 :=
    if g1.containsStrip then
      g1.setBaseTrianglesStripOffseti (base + g.m_TrianglesIndex.length)
    else g1
  let g3 :=
    if g2.containsFan then
      g2.setBaseTrianglesFanOffseti (base + g.m_TrianglesIndex.length + g.strips.index.length)
    else g2
  g3.computeVboOffset.finish

/-- What `moveIndexToMeshDataLod` makes of the groups of a LOD whose index array holds
`base` indices before the first group is reached. -/
def packedGroups : Nat → LodPrimitiveGroups → LodPrimitiveGroups
  | _, [] => []
  | base, (id, g) :: rest =>
    (id, packedGroup base g) :: packedGroups (base + (groupContent g).length) rest

/-- The sizes recorded in a group agree with the index lists it holds (before `finish()`). -/
def GroupSized (g : GLC_PrimitiveGroup) : Prop :=
  g.m_TrianglesIndexSize = g.m_TrianglesIndex.length ∧
  g.strips.indexSize = g.strips.index.length ∧
  g.strips.sizes.sum = g.strips.index.length ∧
  g.fans.indexSize = g.fans.index.length ∧
  g.fans.sizes.sum = g.fans.index.length

/-- The LOD list after the groups of every LOD have been appended to their index array. -/
def appendAll : List GLC_Lod → PrimitiveGroupsHash → List GLC_Lod
  | ls, [] => ls
  | ls, (lod, groups) :: rest => appendAll (appendAtLod ls lod.toNat (lodContent groups)) rest

/-- The groups of every LOD after `moveIndexToMeshDataLod`, when every index array is empty
before. -/
def packedAll (pg : PrimitiveGroupsHash) : PrimitiveGroupsHash :=
  pg.map (fun e => (e.1, packedGroups 0 e.2))

/-! ## Auxiliary functions used to state the effect of an ingestion call -/

/-- The material id under which a call files its indices, `defaultId` being the default
material id of the mesh before the call. -/
def AddCall.groupId (c : AddCall) (defaultId : GLC_uint) : GLC_uint :=
  match c.pMaterial with
  | some id => id
  | none => if defaultId = 0 then c.newId else defaultId

/-- The default material id of the mesh after a call. -/
def AddCall.nextDefault (c : AddCall) (defaultId : GLC_uint) : GLC_uint :=
  match c.pMaterial with
  | some _ => defaultId
  | none => if defaultId = 0 then c.newId else defaultId

/-- The number handed to `trianglesAdded` by a call. -/
def AddCall.triangleCount (c : AddCall) : Int :=
  match c.kind with
  | .triangles => (c.indexList.length : Int) / 3
  | .strip => (c.indexList.length : Int) - 2
  | .fan => (c.indexList.length : Int) - 2

/-- The update of the group by a call that got the primitive id `id`. -/
def AddCall.addTo (c : AddCall) (id : GLC_uint) (g : GLC_PrimitiveGroup) : GLC_PrimitiveGroup :=
  match c.kind with
  | .triangles => g.addTriangles c.indexList id
  | .strip => g.addTrianglesStrip c.indexList id
  | .fan => g.addTrianglesFan c.indexList id

/-- The group map with an entry for `lod`. -/
def ensureLod (lod : Int) (pg : PrimitiveGroupsHash) : PrimitiveGroupsHash :=
  if QHash.contains pg lod then pg else pg ++ [(lod, [])]

/-- The group map with a group of material `id` at `lod`. -/
def ensureGroup (lod : Int) (id : GLC_uint) (pg : PrimitiveGroupsHash) : PrimitiveGroupsHash :=
  QHash.modify pg lod
    (fun groups => if QHash.contains groups id then groups else groups ++ [(id, GLC_PrimitiveGroup.new id)])

/-- The material hash after a call. -/
def AddCall.materials (c : AddCall) (defaultId : GLC_uint) (hash : List GLC_uint) :
    List GLC_uint :=
  match c.pMaterial with
  | some id => if id ∈ hash then hash else hash ++ [id]
  | none => if defaultId = 0 then hash ++ [c.newId] else hash

/-- The mesh that a successful ingestion call leaves. -/
def AddCall.result (c : AddCall) (m : GLC_Mesh) : GLC_Mesh :=
  let gid := c.groupId m.m_DefaultMaterialId
  let id : GLC_uint := if c.lod = 0 then m.m_NextPrimitiveLocalId else 0
  { m with
    m_NextPrimitiveLocalId :=
      if c.lod = 0 then (m.m_NextPrimitiveLocalId + 1) % 4294967296
      else m.m_NextPrimitiveLocalId
    m_PrimitiveGroups :=
      QHash.modify (ensureGroup c.lod gid (ensureLod c.lod m.m_PrimitiveGroups)) c.lod
        (fun groups => QHash.modify groups gid (c.addTo id))
    m_DefaultMaterialId := c.nextDefault m.m_DefaultMaterialId
    m_MeshData :=
      (if QHash.contains m.m_PrimitiveGroups c.lod then m.m_MeshData
        else m.m_MeshData.appendLod c.accuracy).trianglesAdded c.lod c.triangleCount
    m_MaterialHash := c.materials m.m_DefaultMaterialId m.m_MaterialHash
    m_GeometryIsValid := false }

/-- The state of a mesh between ingestion calls: the keys of the group maps are pairwise
distinct, the material of every group is registered with the mesh, the groups hold their
indices and every LOD index array is still empty. -/
structure GLC_Mesh.Ingesting (m : GLC_Mesh) : Prop where
  lodNodup : (QHash.keys m.m_PrimitiveGroups).Nodup
  registered : ∀ e ∈ m.m_PrimitiveGroups, ∀ x ∈ e.2, x.1 ∈ m.m_MaterialHash
  defaultRegistered : m.m_DefaultMaterialId ≠ 0 → m.m_DefaultMaterialId ∈ m.m_MaterialHash
  groupNodup : ∀ e ∈ m.m_PrimitiveGroups, (QHash.keys e.2).Nodup
  sized : ∀ e ∈ m.m_PrimitiveGroups, ∀ x ∈ e.2, GroupSized x.2
  lodCount : m.m_MeshData.m_LodList.length = m.m_PrimitiveGroups.length
  indexEmpty : ∀ l ∈ m.m_MeshData.m_LodList, l.indexVector = []

/-- The mesh that a successful sequence of ingestion calls leaves. -/
def AddCall.resultAll : List AddCall → GLC_Mesh → GLC_Mesh
  | [], m => m
  | c :: cs, m => AddCall.resultAll cs (c.result m)

/-- The primitive ids returned by a sequence of ingestion calls on a mesh whose counter of
primitive ids is `next`. -/
def AddCall.idsAll : List AddCall → GLC_uint → List GLC_uint
  | [], _ => []
  | c :: cs, next =>
    (if c.lod = 0 then next else 0) ::
      AddCall.idsAll cs (if c.lod = 0 then (next + 1) % 4294967296 else next)

/-- The index lists that the calls of one kind hand to the group of material `id` at `lod`,
in call order; `defaultId` is the default material id of the mesh before the first call. -/
def AddCall.batches (kind : PrimitiveKind) (lod : Int) (id : GLC_uint) :
    GLC_uint → List AddCall → List IndexList
  | _, [] => []
  | defaultId, c :: cs =>
    (if c.kind = kind ∧ c.lod = lod ∧ c.groupId defaultId = id then [c.indexList] else []) ++
      AddCall.batches kind lod id (c.nextDefault defaultId) cs

/-- The runs (strips or fans) of a group, cut out of the concatenated index list according
to the recorded sizes. -/
def splitRuns : List Nat → List GLuint → List (List GLuint)
  | [], _ => []
  | s :: ss, l => l.take s :: splitRuns ss (l.drop s)

/-- The triangle indices held by the group of material `id` at `lod` (before `finish()`). -/
def GLC_Mesh.trianglesOf (m : GLC_Mesh) (lod : Int) (id : GLC_uint) : IndexList :=
  match m.group lod id with
  | some g => g.m_TrianglesIndex
  | none => []

/-- The strips held by the group of material `id` at `lod` (before `finish()`). -/
def GLC_Mesh.stripsOf (m : GLC_Mesh) (lod : Int) (id : GLC_uint) : List IndexList :=
  match m.group lod id with
  | some g => splitRuns g.strips.sizes g.strips.index
  | none => []

/-- The fans held by the group of material `id` at `lod` (before `finish()`). -/
def GLC_Mesh.fansOf (m : GLC_Mesh) (lod : Int) (id : GLC_uint) : List IndexList :=
  match m.group lod id with
  | some g => splitRuns g.fans.sizes g.fans.index
  | none => []

/-- The mesh that `finish()` makes of a mesh with at least one LOD. -/
def GLC_Mesh.packed (m : GLC_Mesh) : GLC_Mesh :=
  { m with
    m_PrimitiveGroups := packedAll m.m_PrimitiveGroups
    m_MeshData :=
      { m.m_MeshData.finishLod with
        m_LodList := appendAll m.m_MeshData.finishLod.m_LodList m.m_PrimitiveGroups } }

/-- Every LOD key of the mesh is the position of a LOD of the bulk data store. -/
def GLC_Mesh.LodsInRange (m : GLC_Mesh) : Prop :=
  ∀ e ∈ m.m_PrimitiveGroups, 0 ≤ e.1 ∧ e.1.toNat < m.m_MeshData.m_LodList.length

/-! ## The strip expansion as the specification words it -/

/-- The triangle that the specification gives for position `j >= 3` of the strip `s`:
`(s[j], s[j-1], s[j-2])` when `j` is odd, `(s[j], s[j-2], s[j-1])` when `j` is even. -/
def specStripTriangle (s : List GLuint) (j : Nat) : List GLuint :=
  if j % 2 = 1 then [s.getD j 0, s.getD (j - 1) 0, s.getD (j - 2) 0]
  else [s.getD j 0, s.getD (j - 2) 0, s.getD (j - 1) 0]

/-- The expansion of a strip of at least 3 indices as the specification words it: the
triangle `(s[0], s[1], s[2])`, then one triangle for each `j` from 3 to `n - 1`. -/
def specStripExpansion (s : List GLuint) : List GLuint :=
  [s.getD 0 0, s.getD 1 0, s.getD 2 0] ++
    (List.range (s.length - 3)).flatMap (fun i => specStripTriangle s (i + 3))

/-! ## Auxiliary functions used to state the LOD extraction round trip -/

/-- The three floats of the vertex `index` in a position or normal array: `v.at(index * 3)`,
`v.at(index * 3 + 1)` and `v.at(index * 3 + 2)`; `none` when they are not in the array. -/
def tripleAt (v : List GLfloat) (index : GLuint) : Option (List GLfloat) :=
  memcpyFrom v (index * 3) 3

/-- The number of triangles that the sizes recorded in a group stand for: a third of the
triangle indices and `size - 2` for each strip and each fan. -/
def groupFaces (g : GLC_PrimitiveGroup) : Int :=
  (g.m_TrianglesIndexSize : Int) / 3 + (g.strips.sizes.map (fun (s : Nat) => (s : Int) - 2)).sum +
    (g.fans.sizes.map (fun (s : Nat) => (s : Int) - 2)).sum

/-- The number of triangles that the groups of the mesh stand for, all LODs together. -/
def meshFaces (pg : PrimitiveGroupsHash) : Int :=
  (pg.map (fun e => (e.2.map (fun x => groupFaces x.2)).sum)).sum

/-- The triangle indices of the group come in triples and no strip or fan is empty. -/
def GroupValid (g : GLC_PrimitiveGroup) : Prop :=
  g.m_TrianglesIndexSize % 3 = 0 ∧ (∀ s ∈ g.strips.sizes, 0 < s) ∧ (∀ s ∈ g.fans.sizes, 0 < s)

/-- The state of a mesh that has been filled at LOD 0 only, with non-empty index lists and
with triangle lists made of triples: every group holds indices and the triangle counter
of the bulk data store agrees with the sizes recorded in the groups. -/
structure GLC_Mesh.Counted (m : GLC_Mesh) : Prop where
  keys0 : ∀ k ∈ QHash.keys m.m_PrimitiveGroups, k = 0
  valid : ∀ e ∈ m.m_PrimitiveGroups, ∀ x ∈ e.2, GroupValid x.2
  content : ∀ e ∈ m.m_PrimitiveGroups, ∀ x ∈ e.2, groupContent x.2 ≠ []
  count : (m.m_MeshData.m_LodList.map GLC_Lod.trianglesCount).sum = meshFaces m.m_PrimitiveGroups

/-- The primitives of a group as `copyIndex` reads them from a finished mesh: the triangle
list, then the strips, then the fans. -/
def groupPrims (g : GLC_PrimitiveGroup) : List (PrimitiveKind × List GLuint) :=
  (if g.containsTriangles then [(PrimitiveKind.triangles, g.m_TrianglesIndex)] else []) ++
    (if g.containsStrip then
      (splitRuns g.strips.sizes g.strips.index).map (fun l => (PrimitiveKind.strip, l))
      else []) ++
    (if g.containsFan then
      (splitRuns g.fans.sizes g.fans.index).map (fun l => (PrimitiveKind.fan, l))
      else [])

/-- The primitives of the groups of a LOD as `copyIndex` reads them, each with the pointer
to the material of its group. -/
def lodPlan (gs : LodPrimitiveGroups) : List (Option GLC_uint × PrimitiveKind × List GLuint) :=
  gs.flatMap (fun x => (groupPrims x.2).map (fun p => (some x.1, p)))

/-- The number handed to `trianglesAdded` for a primitive of the given kind and length. -/
def primFaces (p : PrimitiveKind × List GLuint) : Int :=
  match p.1 with
  | .triangles => (p.2.length : Int) / 3
  | .strip => (p.2.length : Int) - 2
  | .fan => (p.2.length : Int) - 2

/-- The floats that `copyBulkData` copies for the source vertex `s`. -/
def chunkAt (source : List GLfloat) (stride : Nat) (s : GLuint) : List GLfloat :=
  (source.drop (s * stride)).take stride

/-- The distinct source indices of a LOD in the order in which `copyIndex` meets them. -/
def lodSeen (gs : LodPrimitiveGroups) : List GLuint :=
  ((lodPlan gs).flatMap (fun p => p.2.2)).foldl addSeen []

/-- The add calls that `copyIndex` issues for the groups of a LOD of a finished mesh. -/
def extractedCalls (gs : LodPrimitiveGroups) (acc : Nat) (newId : GLC_uint) : List AddCall :=
  planCalls 0 acc newId (lodSeen gs) (lodPlan gs)

/-- The new mesh of `createMeshOfGivenLod` before its `finish()`: the add calls of
`copyIndex`, then the positions, normals and texels of `copyBulkData`. -/
def extractedMesh (source : GLC_Mesh) (gs : LodPrimitiveGroups) (acc : Nat) (newId : GLC_uint)
    (texels : List GLfloat) : GLC_Mesh :=
  (((AddCall.resultAll (extractedCalls gs acc newId) GLC_Mesh.new).addVertice
    ((lodSeen gs).flatMap (chunkAt source.m_MeshData.m_Positions 3))).addNormals
    ((lodSeen gs).flatMap (chunkAt source.m_MeshData.m_Normals 3))).addTexels texels

/-! ## Auxiliary functions used to state the serialization round trip -/

/-- The id that the remap table gives for a material id: `materialIdMap.value(id)`. -/
def remapId (materialIdMap : QHash GLC_uint GLC_uint) (id : GLC_uint) : GLC_uint :=
  (QHash.value materialIdMap id).getD 0

/-- The groups of one LOD that `loadFromDataStream` builds from the groups read from the
stream, before `finishSerialized`. -/
def remapGroups (materialIdMap : QHash GLC_uint GLC_uint) (gs : List GLC_PrimitiveGroup) :
    LodPrimitiveGroups :=
  gs.map (fun g => (remapId materialIdMap g.m_Id, g.copyWithId (remapId materialIdMap g.m_Id)))

/-- Every group is stored under the id of its material. -/
def GLC_Mesh.Keyed (m : GLC_Mesh) : Prop :=
  ∀ e ∈ m.m_PrimitiveGroups, ∀ x ∈ e.2, x.2.m_Id = x.1

/-- The state of the groups of a mesh after `finish()`: the keys of the group maps are
pairwise distinct, every group is stored under the id of its material and its byte offsets
are the ones computed from its element offsets. -/
structure GLC_Mesh.Saveable (m : GLC_Mesh) : Prop where
  lodNodup : (QHash.keys m.m_PrimitiveGroups).Nodup
  groupNodup : ∀ e ∈ m.m_PrimitiveGroups, (QHash.keys e.2).Nodup
  keyed : ∀ e ∈ m.m_PrimitiveGroups, ∀ x ∈ e.2, x.2.m_Id = x.1
  offsets : ∀ e ∈ m.m_PrimitiveGroups, ∀ x ∈ e.2, x.2.computeVboOffset = x.2

/-! ## Sequences of operations on one mesh -/

/-- An operation on a mesh: an ingestion call, `finish()` or `clear()`. -/
inductive MeshOp where
  | add (c : AddCall)
  | finish
  | clear
deriving DecidableEq, Repr

/-- Execution of one operation on a mesh. An ingestion call reports its LOD together with
the primitive id it returns. -/
def applyOp (m : GLC_Mesh) : MeshOp → Option (GLC_Mesh × List (Int × GLC_uint))
  | .add c => (applyCall m c).map (fun r => (r.1, [(c.lod, r.2)]))
  | .finish => m.finish.map (fun r => (r, []))
  | .clear => some (m.clear, [])

/-- Execution of a sequence of operations on one mesh, first operation first; the result
holds the mesh and, in call order, the LOD and the returned id of every ingestion call. -/
def applyOps : GLC_Mesh → List MeshOp → Option (GLC_Mesh × List (Int × GLC_uint))
  | m, [] => some (m, [])
  | m, op :: rest => do
    let (m1, ids) ← applyOp m op
    let (m2, ids') ← applyOps m1 rest
    pure (m2, ids ++ ids')

/-- The ids returned by the ingestion calls at LOD 0, in call order. -/
def lodZeroIds (l : List (Int × GLC_uint)) : List GLC_uint :=
  (l.filter (fun p => p.1 = 0)).map Prod.snd

/-- One triangle batch `[0, 1, 2]` of material 7 at LOD 0. -/
def sampleTriangleCall : AddCall :=
  { kind := .triangles, pMaterial := some 7, indexList := [0, 1, 2] }

/-- The state of a mesh in which `finish()` falls back on `clear()` only before the first
primitive id has been handed out. -/
def CounterFresh (m : GLC_Mesh) : Prop :=
  m.m_MeshData.m_LodList = [] → m.m_PrimitiveGroups = [] ∧ m.m_NextPrimitiveLocalId = 1

/-! ## Auxiliary functions used to state the cumulative face count -/

/-- The cumulative triangle count of a LOD as the specification words it: the sum over
the `addTriangles` calls at that LOD of (index list length div 3), plus the sum over the
`addTrianglesStrip` and `addTrianglesFan` calls at that LOD of (index list length - 2). -/
def cumulativeTriangles (cs : List AddCall) (lod : Int) : Int :=
  ((cs.filter (fun c => c.kind = .triangles ∧ c.lod = lod)).map
      (fun c => (c.indexList.length : Int) / 3)).sum +
    ((cs.filter (fun c => (c.kind = .strip ∨ c.kind = .fan) ∧ c.lod = lod)).map
      (fun c => (c.indexList.length : Int) - 2)).sum

/-- The triangle counter of the LOD stored at position `j`, 0 when there is no such LOD. -/
def GLC_Mesh.countAt (m : GLC_Mesh) (j : Nat) : Int :=
  ((m.m_MeshData.m_LodList[j]?).map GLC_Lod.trianglesCount).getD 0

/-! ## Render dispatch -/

/-- Modelled from the spec: the enumeration `glc::RenderMode` (declared outside src/), with
the eight values of section 4.4 under the names that glc_mesh.cpp uses. -/
inductive RenderMode where
  | NormalRenderMode
  | OverwriteMaterial
  | OverwriteTransparency
  | OverwriteTransparencyAndMaterial
  | OverwritePrimitiveMaterial
  | PrimitiveSelected
  | PrimitiveSelection
  | BodySelection
deriving DecidableEq, Repr

/-- Modelled from the spec: the enumeration `glc::RenderFlag` (declared outside src/), under
the names that the sources use. -/
inductive RenderFlag where
  | ShadingFlag
  | WireRenderFlag
  | TransparentRenderFlag
  | OutlineSilhouetteRenderFlag
  | NoneRenderFlag
deriving DecidableEq, Repr

/-- Modelled from the spec: what the accessors of `GLC_RenderProperties` that `glDraw` and
the render loops call return during one draw call (the accessors are declared in the
header, outside src/). -/
structure RenderPropertiesView where
  renderingFlag : RenderFlag := .ShadingFlag
  renderingMode : RenderMode := .NormalRenderMode
  savedRenderingMode : RenderMode := .NormalRenderMode
  setOfSelectedPrimitiveIdIsEmpty : Bool := true
  hashOfOverwritePrimitiveMaterialsIsEmpty : Bool := true
deriving DecidableEq, Repr

/-- The state outside the mesh that `glDraw` reads: whether
`GLC_ContextManager::instance()->currentContext()` is a context, the value of
`GLC_State::isInSelectionMode()`, of `m_MeshData.positionSizeIsSet()` and of
`GLC_Geometry::typeIsWire()`. -/
structure DrawEnv where
  contextIsSet : Bool := true
  isInSelectionMode : Bool := false
  positionSizeIsSet : Bool := false
  typeIsWire : Bool := false
deriving DecidableEq, Repr

/-- The render loops of `GLC_Mesh` (glc_mesh.cpp 1349-1660). -/
inductive RenderLoop where
  | normalRenderLoop
  | OverwriteMaterialRenderLoop
  | OverwriteTransparencyRenderLoop
  | OverwriteTransparencyAndMaterialRenderLoop
  | bodySelectionRenderLoop
  | primitiveSelectionRenderLoop
  | primitiveRenderLoop
  | primitiveSelectedRenderLoop
  | outlineSilhouetteRenderLoop
deriving DecidableEq, Repr

/-- One call of a render loop by `glDraw`, with the mesh as the loop finds it. -/
structure LoopRun where
  loop : RenderLoop
  during : GLC_Mesh
deriving DecidableEq, Repr

/-- What a draw call leaves: the mesh, the render loops it has run, in order, and whether
`drawMeshWire` has been called. -/
structure DrawResult where
  mesh : GLC_Mesh
  loops : List LoopRun
  wireDrawn : Bool
deriving DecidableEq, Repr

/-- The function `GLC_Mesh::glDraw` (glc_mesh.cpp 996-1095). The OpenGL calls of
`setClientState`, `restoreClientState` and of the loops are not part of the model; a loop
is recorded with the mesh it runs on. `none` stands for a null context, which
`restoreClientState` dereferences, and, when `debug` is set, for a failed `Q_ASSERT`. -/
def GLC_Mesh.glDraw (debug : Bool) (env : DrawEnv) (m : GLC_Mesh)
    (renderProperties : RenderPropertiesView) : Option DrawResult :=
  if !env.contextIsSet then none
  else if debug && !(m.m_GeometryIsValid || !env.positionSizeIsSet) then none
  else
    let m1 : GLC_Mesh :=
      if m.m_IsSelected && renderProperties.renderingMode = .PrimitiveSelected
          && !env.isInSelectionMode && !renderProperties.setOfSelectedPrimitiveIdIsEmpty then
        { m with m_CurrentLod := 0 }
      else m
    let dispatched : Option (GLC_Mesh × List LoopRun) :=
      if renderProperties.renderingFlag = .OutlineSilhouetteRenderFlag then
        some (m1, [⟨.outlineSilhouetteRenderLoop, m1⟩])
      else if env.isInSelectionMode then
        if renderProperties.renderingMode = .PrimitiveSelection then
          some (m1, [⟨.primitiveSelectionRenderLoop, m1⟩])
        else if renderProperties.renderingMode = .BodySelection then
          some (m1, [⟨.bodySelectionRenderLoop, m1⟩])
        else some (m1, [⟨.normalRenderLoop, m1⟩])
      else if m1.m_IsSelected then
        if renderProperties.renderingMode = .PrimitiveSelected then
          if !renderProperties.setOfSelectedPrimitiveIdIsEmpty then
            some (m1, [⟨.primitiveSelectedRenderLoop, m1⟩])
          else
            let m2 : GLC_Mesh := { m1 with m_IsSelected := false }
            let run : LoopRun :=
              if m2.m_CurrentLod = 0
                  && renderProperties.savedRenderingMode = .OverwritePrimitiveMaterial
                  && !renderProperties.hashOfOverwritePrimitiveMaterialsIsEmpty then
                ⟨.primitiveRenderLoop, m2⟩
              else ⟨.normalRenderLoop, m2⟩
            some ({ m2 with m_IsSelected := true }, [run])
        else some (m1, [⟨.normalRenderLoop, m1⟩])
      else
        match renderProperties.renderingMode with
        | .NormalRenderMode => some (m1, [⟨.normalRenderLoop, m1⟩])
        | .OverwriteMaterial => some (m1, [⟨.OverwriteMaterialRenderLoop, m1⟩])
        | .OverwriteTransparency => some (m1, [⟨.OverwriteTransparencyRenderLoop, m1⟩])
        | .OverwriteTransparencyAndMaterial =>
          some (m1, [⟨.OverwriteTransparencyAndMaterialRenderLoop, m1⟩])
        | .OverwritePrimitiveMaterial =>
          if m1.m_CurrentLod = 0 && !renderProperties.hashOfOverwritePrimitiveMaterialsIsEmpty then
            some (m1, [⟨.primitiveRenderLoop, m1⟩])
          else some (m1, [⟨.normalRenderLoop, m1⟩])
        | _ => if debug then none else some (m1, [])
    dispatched.map (fun r =>
      { mesh := r.1
        loops := r.2
        wireDrawn := renderProperties.renderingFlag = .WireRenderFlag
          && !m.m_WireData.isEmpty && !env.typeIsWire })

/-- The groups that a render loop iterates, `m_PrimitiveGroups.value(m_CurrentLod)`; `none`
when the mesh has no entry for its current LOD. -/
def GLC_Mesh.currentLodGroups (m : GLC_Mesh) : Option LodPrimitiveGroups :=
  QHash.value m.m_PrimitiveGroups m.m_CurrentLod

/-- The body of the loop of `GLC_Mesh::normalRenderLoop` over the groups of the current
LOD: the groups that are drawn, in order. `isTransparent` is the flag computed at the head
of the function, `materialIsTransparent` gives `GLC_Material::isTransparent()` (class
outside src/) of a registered material; `none` when a group has no registered material. -/
def GLC_Mesh.normalRenderLoopGroups (m : GLC_Mesh) (isInSelectionMode isTransparent : Bool)
    (materialIsTransparent : GLC_uint → Bool) :
    LodPrimitiveGroups → Option LodPrimitiveGroups
  | [] => some []
  | e :: rest =>
    match m.material e.2.m_Id with
    | none => none
    | some pCurrentMaterial =>
      let materialIsrenderable : Bool := materialIsTransparent pCurrentMaterial == isTransparent
      match m.normalRenderLoopGroups isInSelectionMode isTransparent materialIsTransparent rest with
      | none => none
      | some drawn =>
        if m.m_IsSelected || isInSelectionMode || materialIsrenderable then some (e :: drawn)
        else some drawn

/-- The function `GLC_Mesh::normalRenderLoop` (glc_mesh.cpp 1349-1404): the groups handed
to `vboDrawPrimitivesOf` or `vertexArrayDrawPrimitivesOf`, in order. -/
def GLC_Mesh.normalRenderLoop (m : GLC_Mesh) (isInSelectionMode : Bool)
    (renderProperties : RenderPropertiesView) (materialIsTransparent : GLC_uint → Bool) :
    Option LodPrimitiveGroups :=
  let isTransparent : Bool := renderProperties.renderingFlag = .TransparentRenderFlag
  if (!m.m_IsSelected || !isTransparent) || isInSelectionMode then
    match m.currentLodGroups with
    | none => none
    | some groups =>
      m.normalRenderLoopGroups isInSelectionMode isTransparent materialIsTransparent groups
  else some []

/-- The body of the loop of `GLC_Mesh::primitiveSelectedRenderLoop` over the groups of the
current LOD: every group is visited, with the flag `materialIsrenderable` that the loop
computes for it; `none` when a group has no registered material. -/
def GLC_Mesh.primitiveSelectedRenderLoopGroups (m : GLC_Mesh) (isTransparent : Bool)
    (materialIsTransparent : GLC_uint → Bool) :
    LodPrimitiveGroups → Option (List ((GLC_uint × GLC_PrimitiveGroup) × Bool))
  | [] => some []
  | e :: rest =>
    match m.material e.2.m_Id with
    | none => none
    | some pCurrentMaterial =>
      let materialIsrenderable : Bool := materialIsTransparent pCurrentMaterial == isTransparent
      match m.primitiveSelectedRenderLoopGroups isTransparent materialIsTransparent rest with
      | none => none
      | some visited => some ((e, materialIsrenderable) :: visited)

/-- The function `GLC_Mesh::primitiveSelectedRenderLoop` (glc_mesh.cpp 1612-1636): the
groups handed to `vboDrawSelectedPrimitivesGroupOf` or
`vertexArrayDrawSelectedPrimitivesGroupOf`, in order, each with its flag
`materialIsrenderable`; `none` when the mesh has no entry for its current LOD. -/
def GLC_Mesh.primitiveSelectedRenderLoop (m : GLC_Mesh) (renderProperties : RenderPropertiesView)
    (materialIsTransparent : GLC_uint → Bool) :
    Option (List ((GLC_uint × GLC_PrimitiveGroup) × Bool)) :=
  let isTransparent : Bool := renderProperties.renderingFlag = .TransparentRenderFlag
  match m.currentLodGroups with
  | none => none
  | some groups =>
    m.primitiveSelectedRenderLoopGroups isTransparent materialIsTransparent groups

/-- A selected mesh with one group of material 7 at LOD 0. -/
def sampleSelectedMesh : GLC_Mesh :=
  { m_PrimitiveGroups := [(0, [(7, (GLC_PrimitiveGroup.new 7).addTriangles [0, 1, 2] 1)])]
    m_NextPrimitiveLocalId := 2
    m_MaterialHash := [7]
    m_MeshData := { m_LodList := [{ accuracy := 0, trianglesCount := 1 }] }
    m_IsSelected := true }

/-! ## Material usage of GLC_RenderProperties -/

/-- The ways in which an operation of `GLC_RenderProperties` goes wrong: a failed
`Q_ASSERT`, the use of a material that has been deleted, or a call through a null pointer. -/
inductive Fault where
  | assertion
  | useAfterFree
  | nullPointer
deriving DecidableEq, Repr

/-- Modelled from the spec: the collaborator `GLC_Material` (class outside src/), reduced
to its usage: the ids of the owners that have called `addUsage` and not yet `delUsage`. -/
structure GLC_Material where
  usage : List GLC_uint := []
deriving DecidableEq, Repr

/-- Modelled from the spec: `GLC_Material::addUsage(ownerId)`. -/
def GLC_Material.addUsage (mat : GLC_Material) (ownerId : GLC_uint) : GLC_Material :=
  { usage := mat.usage ++ [ownerId] }

/-- Modelled from the spec: `GLC_Material::delUsage(ownerId)`. -/
def GLC_Material.delUsage (mat : GLC_Material) (ownerId : GLC_uint) : GLC_Material :=
  { usage := mat.usage.erase ownerId }

/-- Modelled from the spec: `GLC_Material::isUnused()`. -/
def GLC_Material.isUnused (mat : GLC_Material) : Bool := mat.usage.isEmpty

/-- The materials on the heap, by address: `some mat` for a live material, `none` for one
that has been deleted. -/
abbrev MaterialHeap := QHash Nat (Option GLC_Material)

/-- The access `p->...` to the material at address `p`. -/
def MaterialHeap.deref (heap : MaterialHeap) (p : Nat) : Except Fault GLC_Material :=
  match QHash.value heap p with
  | some (some mat) => .ok mat
  | _ => .error .useAfterFree

/-- The call `p->addUsage(ownerId)`. -/
def MaterialHeap.addUsage (heap : MaterialHeap) (p : Nat) (ownerId : GLC_uint) :
    Except Fault MaterialHeap := do
  let mat ← heap.deref p
  pure (QHash.insert heap p (some (mat.addUsage ownerId)))

/-- The call `p->delUsage(ownerId)`. -/
def MaterialHeap.delUsage (heap : MaterialHeap) (p : Nat) (ownerId : GLC_uint) :
    Except Fault MaterialHeap := do
  let mat ← heap.deref p
  pure (QHash.insert heap p (some (mat.delUsage ownerId)))

/-- The statement `delete p`. -/
def MaterialHeap.delete (heap : MaterialHeap) (p : Nat) : Except Fault MaterialHeap := do
  let _ ← heap.deref p
  pure (QHash.insert heap p none)

/-- The fields of `GLC_RenderProperties` that the functions below read or write
(glc_renderproperties.cpp 29-47), with their initial values; the polygon face and mode, the
opacity, the rendering flags and the selectable flag, which are plain values that are only
copied, are left out. A material pointer is an address of the heap, `none` the null
pointer; a pointer to a hash table is `none` when null; a set of primitive ids is the list
of its elements; `m_MaterialsUsage` maps the address of a material to a count. -/
structure GLC_RenderProperties where
  m_Uid : GLC_uint
  m_pOverwriteMaterial : Option Nat := none
  m_IsSelected : Bool := false
  m_RenderMode : RenderMode := .NormalRenderMode
  m_SavedRenderMode : RenderMode := .NormalRenderMode
  m_pBodySelectedPrimitvesId : Option (QHash Int (List GLC_uint)) := none
  m_pOverwritePrimitiveMaterialMaps : Option (QHash Int (QHash GLC_uint Nat)) := none
  m_CurrentBody : Int := 0
  m_MaterialsUsage : QHash Nat Int := []
deriving DecidableEq, Repr

/-- The function `GLC_RenderProperties::setOverwriteMaterial`
(glc_renderproperties.cpp 293-304). -/
def GLC_RenderProperties.setOverwriteMaterial (rp : GLC_RenderProperties) (heap : MaterialHeap)
    (pMaterial : Option Nat) : Except Fault (GLC_RenderProperties × MaterialHeap) :=
  match pMaterial with
  | none => .error .assertion
  | some p => do
    let heap1 ←
      (match rp.m_pOverwriteMaterial with
        | some old => do
          let h ← heap.delUsage old rp.m_Uid
          let mat ← h.deref old
          if mat.isUnused then h.delete old else pure h
        | none => pure heap)
    let rp1 : GLC_RenderProperties := { rp with m_pOverwriteMaterial := some p }
    let heap2 ← heap1.addUsage p rp1.m_Uid
    pure (rp1, heap2)

/-! ## Sharp edges -/

/-- Modelled from the spec: a point or vector of three coordinates (`GLC_Point3d`,
`GLC_Vector3d`, classes outside src/). -/
abbrev GLC_Point3d := GLfloat × GLfloat × GLfloat

/-- Modelled from the spec: the triangle `GLC_Triangle(p1, p2, p3, n1, n2, n3)` (class
outside src/) as `createSharpEdges` constructs it. -/
structure GLC_Triangle where
  p1 : GLC_Point3d
  p2 : GLC_Point3d
  p3 : GLC_Point3d
  n1 : GLC_Point3d
  n2 : GLC_Point3d
  n3 : GLC_Point3d
deriving DecidableEq, Repr

/-- Modelled from the spec: the geometry outside src/ that `createSharpEdges` relies on.
`toRadian` is `glc::toRadian`. `sharpEdges` stands for the parallel pass
`QtConcurrent::blockingMapped(..., computeSharEdgeMappedFunction)`, which calls
`GLC_Triangle::setSharpEdge` under the comparison tolerance in force, followed by
`hasSharpEdge()` and `sharpEdges()` of every triangle: for every triangle, `none` when it
has no sharp edge and the points of its sharp edges otherwise; the result is `none` when
the pass raises an error. -/
structure SharpEdgeGeometry where
  toRadian : Int → Int
  sharpEdges : Int → Int → List GLC_Triangle → Option (List (Option (List GLC_Point3d)))

/-- The three reads `v.at(index * 3)`, `v.at((index * 3) + 1)`, `v.at((index * 3) + 2)`;
`none` when one of them is out of range. -/
def pointAt (v : List GLfloat) (index : Nat) : Option GLC_Point3d := do
  let x ← v[index * 3]?
  let y ← v[index * 3 + 1]?
  let z ← v[index * 3 + 2]?
  pure (x, y, z)

/-- The first loop of `GLC_Mesh::createSharpEdges` (glc_mesh.cpp 826-832): the equivalent
triangle indices of the materials at LOD 0, one material after the other. -/
def GLC_Mesh.sharpEdgeIndexList (m : GLC_Mesh) : List GLC_uint → Option IndexList
  | [] => some []
  | materialId :: rest => do
    let l ← m.getEquivalentTrianglesStripsFansIndex 0 materialId
    let r ← m.sharpEdgeIndexList rest
    pure (l ++ r)

/-- The second loop of `GLC_Mesh::createSharpEdges` (glc_mesh.cpp 839-857): one triangle
for every three indices; `none` when `indexList.at`, `positionVector.at` or
`normalVector.at` is called out of range. -/
def sharpEdgeTriangles (positionVector normalVector : List GLfloat) :
    IndexList → Option (List GLC_Triangle)
  | [] => some []
  | i1 :: i2 :: i3 :: rest => do
    let p1 ← pointAt positionVector i1
    let n1 ← pointAt normalVector i1
    let p2 ← pointAt positionVector i2
    let n2 ← pointAt normalVector i2
    let p3 ← pointAt positionVector i3
    let n3 ← pointAt normalVector i3
    let triangles ← sharpEdgeTriangles positionVector normalVector rest
    pure ({ p1 := p1, p2 := p2, p3 := p3, n1 := n1, n2 := n2, n3 := n3 } :: triangles)
  | _ => none

/-- The last loop of `GLC_Mesh::createSharpEdges` (glc_mesh.cpp 864-884): the sharp edges
of every triangle that has some are added to the wire data; `none` when
`Q_ASSERT(!edge.isEmpty())` fails and `debug` is set. -/
def addSharpEdges (debug : Bool) : List (Option (List GLC_Point3d)) → List GLfloat →
    Option (List GLfloat)
  | [], wire => some wire
  | none :: rest, wire => addSharpEdges debug rest wire
  | some edge :: rest, wire =>
    if debug && edge.isEmpty then none
    else addSharpEdges debug rest (wire ++ edge.flatMap (fun p => [p.1, p.2.1, p.2.2]))

/-- The statements of `GLC_Mesh::createSharpEdges` between the two assignments to
`glc::comparedPrecision` (glc_mesh.cpp 822-884), run under the tolerance
`comparedPrecision`; `none` when the pass raises an error. -/
def GLC_Mesh.createSharpEdgesPass (debug : Bool) (geometry : SharpEdgeGeometry) (m : GLC_Mesh)
    (comparedPrecision angleThreshold : Int) : Option GLC_Mesh := do
  let m1 : GLC_Mesh := { m with m_WireData := [] }
  let indexList ← m1.sharpEdgeIndexList m1.m_MaterialHash
  let triangles ←
    sharpEdgeTriangles m1.m_MeshData.m_Positions m1.m_MeshData.m_Normals indexList
  let edges ← geometry.sharpEdges comparedPrecision angleThreshold triangles
  let wire ← addSharpEdges debug edges m1.m_WireData
  pure { m1 with m_WireData := wire }

/-- The function `GLC_Mesh::createSharpEdges` (glc_mesh.cpp 816-887). `comparedPrecision`
is the value of the process-wide `glc::comparedPrecision` before the call; the result holds
the mesh, `none` when the pass raises an error, and the value of `glc::comparedPrecision`
that the call leaves. -/
def GLC_Mesh.createSharpEdges (debug : Bool) (geometry : SharpEdgeGeometry) (m : GLC_Mesh)
    (comparedPrecision precision angleThreshold : Int) : Option GLC_Mesh × Int :=
  let angleThreshold := geometry.toRadian angleThreshold
  let savedPrecision := comparedPrecision
  let comparedPrecision := precision
  match m.createSharpEdgesPass debug geometry comparedPrecision angleThreshold with
  | none => (none, comparedPrecision)
  | some m1 =>
    let comparedPrecision := savedPrecision
    (some m1, comparedPrecision)

/-- A finished mesh of one triangle with its three vertices and normals. -/
def sampleTriangleMesh : GLC_Mesh :=
  ((applyCalls ((GLC_Mesh.new.addVertice [0, 0, 0, 1, 0, 0, 0, 1, 0]).addNormals
      [0, 0, 1, 0, 0, 1, 0, 0, 1]) [sampleTriangleCall]).bind
    (fun r => r.1.finish)).getD GLC_Mesh.new

/-- A geometry whose parallel pass raises an error. -/
def raisingGeometry : SharpEdgeGeometry :=
  { toRadian := fun a => a, sharpEdges := fun _ _ _ => none }

/-- A geometry that finds no sharp edge. -/
def smoothGeometry : SharpEdgeGeometry :=
  { toRadian := fun a => a, sharpEdges := fun _ _ triangles => some (triangles.map (fun _ => none)) }

/-! ## Extraction of a LOD and of the coarser ones -/

namespace GLC_Mesh

/-- Modelled from the spec: `GLC_Geometry::setName` (base class outside src/). -/
def setName (m : GLC_Mesh) (name : String) : GLC_Mesh := { m with m_Name := name }

/-- The loop `for (int i= lodIndex + 1; i < lodCount; ++i)` of
`GLC_Mesh::createMeshFromGivenLod` (glc_mesh.cpp 468-472): `count` iterations are left, the
next one copies the source LOD `i` to the target LOD `targetLod`. -/
def copyCoarserLods (m : GLC_Mesh) (newId : GLC_uint) :
    Nat → Int → Int → CopyState → Option CopyState
  | 0, _, _, st => some st
  | count + 1, i, targetLod, st => do
    let st1 ← m.copyIndex i st targetLod newId
    copyCoarserLods m newId count (i + 1) (targetLod + 1) st1

/-- The function `GLC_Mesh::createMeshFromGivenLod` (glc_mesh.cpp 455-489); the result is
the new mesh. `releaseVboClientSide` has no effect on the members of the model. -/
def createMeshFromGivenLod (m : GLC_Mesh) (lodIndex : Int) (newId : GLC_uint) :
    Option GLC_Mesh := do
  let lodCount := m.m_MeshData.lodCount
  if !(lodCount > lodIndex) then none
  else
    let pLodMesh : GLC_Mesh := GLC_Mesh.new.setName (m.m_Name ++ "-LOD-" ++ toString lodIndex)
    let st0 : CopyState := { pLodMesh := pLodMesh, maps := {} }
    let st ←
      (if lodCount - lodIndex > 1 then do
        let st1 ←
          m.copyCoarserLods newId (lodCount - (lodIndex + 1)).toNat (lodIndex + 1) 1 st0
        m.copyIndex lodIndex st1 0 newId
      else m.copyIndex lodIndex st0 0 newId)
    let mesh ← m.copyBulkData st.pLodMesh st.maps.tagetToSourceIndexMap st.maps.maxIndex
    mesh.finish

end GLC_Mesh

/-! ## Auxiliary functions used to state the extraction of several LODs -/

/-- The source LOD and the target LOD of the successive iterations of the loop of
`createMeshFromGivenLod`. -/
def stagesFrom : Nat → Int → Int → List (Int × Int)
  | 0, _, _ => []
  | count + 1, i, targetLod => (i, targetLod) :: stagesFrom count (i + 1) (targetLod + 1)

/-- The calls of `copyIndex` that `createMeshFromGivenLod` makes, in order, each given by
its source LOD and its target LOD. -/
def lodStages (lodCount lodIndex : Int) : List (Int × Int) :=
  stagesFrom (lodCount - (lodIndex + 1)).toNat (lodIndex + 1) 1 ++ [(lodIndex, 0)]

/-- A sequence of calls of `copyIndex`, each given by its source LOD and its target LOD. -/
def GLC_Mesh.copyStages (m : GLC_Mesh) (newId : GLC_uint) :
    List (Int × Int) → CopyState → Option CopyState
  | [], st => some st
  | s :: rest, st => do
    let st1 ← m.copyIndex s.1 st s.2 newId
    GLC_Mesh.copyStages m newId rest st1

/-- The primitives of the source LOD `i` as `copyIndex` reads them. -/
def stagePlan (pg : PrimitiveGroupsHash) (i : Int) :
    List (Option GLC_uint × PrimitiveKind × List GLuint) :=
  lodPlan ((QHash.value pg i).getD [])

/-- The distinct source indices in the order in which the calls of `copyIndex` for the
stages meet them, `seen` being those met before. -/
def stageSeen (pg : PrimitiveGroupsHash) : List (Int × Int) → List GLuint → List GLuint
  | [], seen => seen
  | s :: rest, seen =>
    stageSeen pg rest (((stagePlan pg s.1).flatMap (fun p => p.2.2)).foldl addSeen seen)

/-- The add calls that the calls of `copyIndex` for the stages issue, every source index
being replaced by its rank in `final`. -/
def stageCalls (pg : PrimitiveGroupsHash) (accuracy : Int → Nat) (newId : GLC_uint)
    (final : List GLuint) (stages : List (Int × Int)) : List AddCall :=
  stages.flatMap (fun s => planCalls s.2 (accuracy s.1) newId final (stagePlan pg s.1))

/-- The primitives of one kind that a group holds: the triangle list if it is not empty,
the strips, or the fans. -/
def groupRuns (kind : PrimitiveKind) (g : GLC_PrimitiveGroup) : List (List GLuint) :=
  match kind with
  | .triangles => if g.containsTriangles then [g.m_TrianglesIndex] else []
  | .strip => if g.containsStrip then splitRuns g.strips.sizes g.strips.index else []
  | .fan => if g.containsFan then splitRuns g.fans.sizes g.fans.index else []

/-- The primitives of one kind held by the group of material `id` among the groups of a
LOD. -/
def lodRuns (kind : PrimitiveKind) (gs : LodPrimitiveGroups) (id : GLC_uint) :
    List (List GLuint) :=
  match QHash.value gs id with
  | some g => groupRuns kind g
  | none => []

/-- The primitives of one kind held by the group of material `id` at `lod` (before
`finish()`). -/
def GLC_Mesh.runsOf (m : GLC_Mesh) (kind : PrimitiveKind) (lod : Int) (id : GLC_uint) :
    List (List GLuint) :=
  lodRuns kind ((QHash.value m.m_PrimitiveGroups lod).getD []) id

/-- Every LOD of the mesh has a group, every group holds indices and no strip or fan is
empty. -/
structure GLC_Mesh.Filled (m : GLC_Mesh) : Prop where
  runs : ∀ e ∈ m.m_PrimitiveGroups, ∀ x ∈ e.2,
    (∀ s ∈ x.2.strips.sizes, 0 < s) ∧ (∀ s ∈ x.2.fans.sizes, 0 < s)
  content : ∀ e ∈ m.m_PrimitiveGroups, ∀ x ∈ e.2, groupContent x.2 ≠ []
  groups : ∀ e ∈ m.m_PrimitiveGroups, e.2 ≠ []

/-- The vertex index `x` is referenced by a triangle list, a strip or a fan of the LOD
`lod` of the finished mesh. -/
def GLC_Mesh.refersTo (m : GLC_Mesh) (lod : Int) (x : GLuint) : Prop :=
  ∃ id, (∃ l, m.getTrianglesIndex lod id = some l ∧ x ∈ l) ∨
    (∃ ls, m.getStripsIndex lod id = some ls ∧ ∃ l ∈ ls, x ∈ l) ∨
    (∃ ls, m.getFansIndex lod id = some ls ∧ ∃ l ∈ ls, x ∈ l)

/-- The accuracy recorded for the LOD stored at position `i`, 0 when there is none. -/
def GLC_Mesh.accuracyAt (m : GLC_Mesh) (i : Int) : Nat :=
  ((m.m_MeshData.getLod i).map GLC_Lod.accuracy).getD 0

/-- The distinct source indices of the LODs `k` and above of a mesh, in the order in which
`createMeshFromGivenLod(k)` meets them. -/
def fromLodSeen (source : GLC_Mesh) (k : Int) : List GLuint :=
  stageSeen source.m_PrimitiveGroups (lodStages source.m_MeshData.lodCount k) []

/-- The add calls that `createMeshFromGivenLod(k)` issues on the new mesh, `source` being
the mesh before its `finish()`. -/
def fromLodCalls (source : GLC_Mesh) (k : Int) (newId : GLC_uint) : List AddCall :=
  stageCalls source.m_PrimitiveGroups source.packed.accuracyAt newId (fromLodSeen source k)
    (lodStages source.m_MeshData.lodCount k)

/-- The new mesh of `createMeshFromGivenLod(k)` before its `finish()`: the add calls of
`copyIndex`, then the positions, normals and texels of `copyBulkData`. -/
def fromLodMesh (source : GLC_Mesh) (k : Int) (newId : GLC_uint) (texels : List GLfloat) :
    GLC_Mesh :=
  (((AddCall.resultAll (fromLodCalls source k newId)
      (GLC_Mesh.new.setName (source.m_Name ++ "-LOD-" ++ toString k))).addVertice
    ((fromLodSeen source k).flatMap (chunkAt source.m_MeshData.m_Positions 3))).addNormals
    ((fromLodSeen source k).flatMap (chunkAt source.m_MeshData.m_Normals 3))).addTexels texels

/-- Ingestion calls that fill three LODs: a triangle of material 7 at LOD 0, a triangle of
material 7 at LOD 1 and a strip of material 8 at LOD 2. -/
def sampleThreeLodCalls : List AddCall :=
  [{ kind := .triangles, pMaterial := some 7, indexList := [0, 1, 2] },
   { kind := .triangles, pMaterial := some 7, indexList := [2, 1, 3], lod := 1 },
   { kind := .strip, pMaterial := some 8, indexList := [3, 1, 0, 2], lod := 2 }]

/-- A finished mesh of four vertices with the three LODs of `sampleThreeLodCalls`. -/
def sampleThreeLodMesh : GLC_Mesh :=
  ((applyCalls GLC_Mesh.new sampleThreeLodCalls).bind
    (fun r => (((r.1.addVertice [0, 0, 0, 1, 0, 0, 0, 1, 0, 1, 1, 0]).addNormals
      [0, 0, 1, 0, 0, 1, 0, 0, 1, 0, 0, 1]).addTexels []).finish)).getD GLC_Mesh.new

/-! ## The current LOD -/

/-- The integer nearest to `a / d`, the even one of the two when `a / d` lies halfway
between two integers: the rounding of the default mode of IEEE 754 arithmetic. -/
def roundTiesToEven (a d : Nat) : Nat :=
  let q := a / d
  let r := a % d
  if 2 * r < d then q
  else if d < 2 * r then q + 1
  else if q % 2 = 0 then q else q + 1

/-- The loop behind `floorLog2`: `fuel` bounds the number of halvings. -/
def floorLog2Go : Nat → Nat → Nat
  | 0, _ => 0
  | fuel + 1, v => if v < 2 then 0 else floorLog2Go fuel (v / 2) + 1

/-- The position of the leading bit of `v >= 1`, that is the integral part of its binary
logarithm. -/
def floorLog2 (v : Nat) : Nat := floorLog2Go v v

/-- The magnitude of a finite `double`: the number `num / 2 ^ scale`. -/
structure Double where
  num : Nat
  scale : Nat
deriving DecidableEq, Repr

/-- The magnitude of `static_cast<double>(value) / 100.0` for an `int` of magnitude `v`: the
conversion of the `int` is exact, and the quotient is the `double` nearest to `v / 100`,
that is `v / 100` rounded to 53 significant bits. `scale` is chosen such that
`v * 2 ^ scale / 100` lies between `2 ^ 52` and `2 ^ 53`. -/
def Double.divHundred (v : Nat) : Double :=
  if v = 0 then { num := 0, scale := 0 }
  else
    let s0 := 59 - floorLog2 v
    let scale := if v * 2 ^ s0 < 100 * 2 ^ 53 then s0 else s0 - 1
    { num := roundTiesToEven (v * 2 ^ scale) 100, scale := scale }

/-- The magnitude of the product of a `double` and an `int` of magnitude `n`, which is
converted to `double` exactly: the exact product rounded to 53 significant bits. -/
def Double.mulInt (x : Double) (n : Nat) : Double :=
  let p := x.num * n
  if p < 2 ^ 53 then { num := p, scale := x.scale }
  else
    let t := floorLog2 p - 52
    { num := roundTiesToEven p (2 ^ t) * 2 ^ t, scale := x.scale }

/-- The integral part of the magnitude. -/
def Double.truncate (x : Double) : Nat := x.num / 2 ^ x.scale

/-- The expression `static_cast<int>((static_cast<double>(value) / 100.0) * numberOfLod)` of
`setCurrentLod` for an `int` `value` and the `int` `numberOfLod >= 0`. Division and product
are the two `double` operations with their rounding, the conversion to `int` drops the
fractional part; it has no defined result (`none`) when the integral part is not a value
of the 32-bit `int`. -/
def scaledLod (value : Int) (numberOfLod : Nat) : Option Int :=
  let t := ((Double.divHundred value.natAbs).mulInt numberOfLod).truncate
  if 0 ≤ value then
    if t ≤ 2147483647 then some (t : Int) else none
  else
    if t ≤ 2147483648 then some (-(t : Int)) else none

/-- The function `GLC_Mesh::setCurrentLod` (glc_mesh.cpp 727-742), `value` being an `int`;
`none` when the conversion of the scaled value to `int` has no defined result. The two
clamps follow in the order of the source. -/
def GLC_Mesh.setCurrentLod (m : GLC_Mesh) (value : Int) : Option GLC_Mesh :=
  if value ≠ 0 then
    let numberOfLod : Int := m.m_MeshData.lodCount
    match scaledLod value numberOfLod.toNat with
    | none => none
    | some scaled =>
      let m1 := { m with m_CurrentLod := scaled }
      let m2 :=
        if m1.m_CurrentLod ≥ numberOfLod then { m1 with m_CurrentLod := numberOfLod - 1 } else m1
      some (if m2.m_CurrentLod < 0 then { m2 with m_CurrentLod := 0 } else m2)
  else
    some { m with m_CurrentLod := 0 }

/-- A mesh whose bulk data store holds 101 LODs. -/
def sampleManyLodMesh : GLC_Mesh :=
  { GLC_Mesh.new with
    m_MeshData := { m_LodList := List.replicate 101 { accuracy := 0 } } }

/-! ## The material of every ingestion call of a sequence -/

/-- One ingestion call of a sequence together with the mesh before the call, the material
id that `setCurrentMaterial` returns during the call, the primitive id the call returns and
the mesh after the call. -/
structure MaterialStep where
  call : AddCall
  before : GLC_Mesh
  groupId : GLC_uint
  primitiveId : GLC_uint
  after : GLC_Mesh
deriving DecidableEq, Repr

/-- Execution of a sequence of ingestion calls, first call first, that keeps the record of
every call. -/
def materialSteps : GLC_Mesh → List AddCall → Option (List MaterialStep)
  | _, [] => some []
  | m, c :: cs => do
    let (m1, id) ← applyCall m c
    let rest ← materialSteps m1 cs
    pure ({ call := c, before := m,
            groupId := (m.setCurrentMaterial c.pMaterial c.lod c.accuracy c.newId).2,
            primitiveId := id, after := m1 } :: rest)

/-- Three calls with a null material at the LODs 0, 1 and 0, with a call that names the
material 7 in between. -/
def sampleNullMaterialCalls : List AddCall :=
  [{ kind := .triangles, pMaterial := none, indexList := [0, 1, 2], newId := 11 },
   { kind := .strip, pMaterial := some 7, indexList := [0, 1, 2, 3], newId := 12 },
   { kind := .fan, pMaterial := none, indexList := [3, 2, 1, 0], lod := 1, newId := 13 },
   { kind := .triangles, pMaterial := none, indexList := [1, 2, 3], newId := 14 }]

/-! ## Selected primitives and overwrite primitive materials of GLC_RenderProperties -/

/-- The call `QHash::remove`. -/
def QHash.remove {κ ν : Type} [DecidableEq κ] (h : QHash κ ν) (k : κ) : QHash κ ν :=
  h.filter (fun e => !decide (e.1 = k))

/-- The statements `p->delUsage(ownerId); if (p->isUnused()) delete p;`. -/
def MaterialHeap.release (heap : MaterialHeap) (p : Nat) (ownerId : GLC_uint) :
    Except Fault MaterialHeap := do
  let h ← heap.delUsage p ownerId
  let mat ← h.deref p
  if mat.isUnused then h.delete p else pure h

/-- A loop that releases the usage of `ownerId` on every material of a list. -/
def MaterialHeap.releaseAll (ownerId : GLC_uint) : List Nat → MaterialHeap → Except Fault MaterialHeap
  | [], heap => .ok heap
  | p :: rest, heap => do
    let h ← heap.release p ownerId
    MaterialHeap.releaseAll ownerId rest h

/-- A loop that calls `addUsage(ownerId)` on every material of a list. -/
def MaterialHeap.addUsages (ownerId : GLC_uint) : List Nat → MaterialHeap → Except Fault MaterialHeap
  | [], heap => .ok heap
  | p :: rest, heap => do
    let h ← heap.addUsage p ownerId
    MaterialHeap.addUsages ownerId rest h

namespace GLC_RenderProperties

/-- The function `GLC_RenderProperties::primitiveIsSelected(index, id)`
(glc_renderproperties.cpp 306-315). `m_pBodySelectedPrimitvesId->value(index)` is the null
pointer when the hash holds no set for `index`. -/
def primitiveIsSelected (rp : GLC_RenderProperties) (index : Int) (id : GLC_uint) :
    Except Fault Bool :=
  match rp.m_pBodySelectedPrimitvesId with
  | some hash =>
    if QHash.contains hash rp.m_CurrentBody then
      match QHash.value hash index with
      | some set => .ok (decide (id ∈ set))
      | none => .error .nullPointer
    else .ok false
  | none => .ok false

/-- The function `GLC_RenderProperties::addSetOfSelectedPrimitivesId(set, body)`
(glc_renderproperties.cpp 317-333). -/
def addSetOfSelectedPrimitivesId (rp : GLC_RenderProperties) (set : List GLC_uint)
    (body : Int) : GLC_RenderProperties :=
  match rp.m_pBodySelectedPrimitvesId with
  | none => { rp with m_pBodySelectedPrimitvesId := some (QHash.insert [] body set) }
  | some hash =>
    if !(QHash.contains hash body) then
      { rp with m_pBodySelectedPrimitvesId := some (QHash.insert hash body set) }
    else
      { rp with
        m_pBodySelectedPrimitvesId :=
          some (QHash.modify hash body (fun s => s ++ set.filter (fun x => !decide (x ∈ s)))) }

/-- The function `GLC_RenderProperties::addSelectedPrimitive(id, body)`
(glc_renderproperties.cpp 335-349). -/
def addSelectedPrimitive (rp : GLC_RenderProperties) (id : GLC_uint) (body : Int) :
    GLC_RenderProperties :=
  let hash : QHash Int (List GLC_uint) :=
    match rp.m_pBodySelectedPrimitvesId with
    | none => QHash.insert [] body []
    | some hash => if !(QHash.contains hash body) then QHash.insert hash body [] else hash
  { rp with
    m_pBodySelectedPrimitvesId :=
      some (QHash.modify hash body (fun s => if id ∈ s then s else s ++ [id])) }

/-- The function `GLC_RenderProperties::clearSelectedPrimitives`
(glc_renderproperties.cpp 351-365). -/
def clearSelectedPrimitives (rp : GLC_RenderProperties) : GLC_RenderProperties :=
  { rp with m_pBodySelectedPrimitvesId := none }

/-- Modelled from the spec: `useMaterial(pMaterial)` (defined in the header, outside
src/) counts one more use of the material in `m_MaterialsUsage`; a material that enters
the table gets the usage of these properties. -/
def useMaterial (rp : GLC_RenderProperties) (heap : MaterialHeap) (p : Nat) :
    Except Fault (GLC_RenderProperties × MaterialHeap) :=
  match QHash.value rp.m_MaterialsUsage p with
  | some n => .ok ({ rp with m_MaterialsUsage := QHash.insert rp.m_MaterialsUsage p (n + 1) }, heap)
  | none => do
    let heap1 ← heap.addUsage p rp.m_Uid
    pure ({ rp with m_MaterialsUsage := QHash.insert rp.m_MaterialsUsage p 1 }, heap1)

/-- Modelled from the spec: `unUseMaterial(pMaterial)` (defined in the header, outside
src/) counts one use less; a material whose count reaches 0 leaves the table, loses the
usage of these properties and is deleted when it is unused. -/
def unUseMaterial (rp : GLC_RenderProperties) (heap : MaterialHeap) (p : Nat) :
    Except Fault (GLC_RenderProperties × MaterialHeap) :=
  match QHash.value rp.m_MaterialsUsage p with
  | none => .error .assertion
  | some n =>
    if n - 1 = 0 then do
      let heap1 ← heap.release p rp.m_Uid
      pure ({ rp with m_MaterialsUsage := QHash.remove rp.m_MaterialsUsage p }, heap1)
    else .ok ({ rp with m_MaterialsUsage := QHash.insert rp.m_MaterialsUsage p (n - 1) }, heap)

/-- The function `GLC_RenderProperties::addOverwritePrimitiveMaterial(id, pMaterial,
bodyIndex)` (glc_renderproperties.cpp 368-411). -/
def addOverwritePrimitiveMaterial (rp : GLC_RenderProperties) (heap : MaterialHeap)
    (id : GLC_uint) (pMaterial : Option Nat) (bodyIndex : Int) :
    Except Fault (GLC_RenderProperties × MaterialHeap) :=
  match pMaterial with
  | none => .error .assertion
  | some p =>
    match rp.m_pOverwritePrimitiveMaterialMaps with
    | some maps =>
      match QHash.value maps bodyIndex with
      | some pHash =>
        match QHash.value pHash id with
        | some pOldMaterial =>
          if pOldMaterial ≠ p then do
            let (rp1, heap1) ← rp.unUseMaterial heap pOldMaterial
            let rp2 : GLC_RenderProperties :=
              { rp1 with
                m_pOverwritePrimitiveMaterialMaps :=
                  some (QHash.modify maps bodyIndex
                    (fun h => QHash.insert (QHash.remove h id) id p)) }
            rp2.useMaterial heap1 p
          else .ok (rp, heap)
        | none =>
          let rp1 : GLC_RenderProperties :=
            { rp with
              m_pOverwritePrimitiveMaterialMaps :=
                some (QHash.modify maps bodyIndex (fun h => QHash.insert h id p)) }
          rp1.useMaterial heap p
      | none => do
        let (rp1, heap1) ← rp.useMaterial heap p
        pure ({ rp1 with
                m_pOverwritePrimitiveMaterialMaps :=
                  some (QHash.insert maps bodyIndex (QHash.insert [] id p)) }, heap1)
    | none =>
      let rp1 : GLC_RenderProperties :=
        { rp with
          m_pOverwritePrimitiveMaterialMaps :=
            some (QHash.insert [] bodyIndex (QHash.insert [] id p)) }
      rp1.useMaterial heap p

/-- The function `GLC_RenderProperties::clearOverwritePrimitiveMaterials`
(glc_renderproperties.cpp 414-448). `debug` tells whether `Q_ASSERT` is compiled in. -/
def clearOverwritePrimitiveMaterials (debug : Bool) (rp : GLC_RenderProperties)
    (heap : MaterialHeap) : Except Fault (GLC_RenderProperties × MaterialHeap) := do
  let (rp1, heap1) ←
    (match rp.m_pOverwritePrimitiveMaterialMaps with
      | some _ =>
        if debug && rp.m_MaterialsUsage.isEmpty then .error .assertion
        else do
          let h ← MaterialHeap.releaseAll rp.m_Uid (QHash.keys rp.m_MaterialsUsage) heap
          pure ({ rp with m_MaterialsUsage := [] }, h)
      | none =>
        if debug && !rp.m_MaterialsUsage.isEmpty then .error .assertion
        else pure (rp, heap))
  let rp2 : GLC_RenderProperties := { rp1 with m_pOverwritePrimitiveMaterialMaps := none }
  pure (if rp2.m_SavedRenderMode = .OverwritePrimitiveMaterial then
      { rp2 with m_SavedRenderMode := .NormalRenderMode }
    else rp2, heap1)

/-- The function `GLC_RenderProperties::clear` (glc_renderproperties.cpp 277-290). -/
def clear (debug : Bool) (rp : GLC_RenderProperties) (heap : MaterialHeap) :
    Except Fault (GLC_RenderProperties × MaterialHeap) := do
  let (rp1, heap1) ←
    (match rp.m_pOverwriteMaterial with
      | some p => do
        let h ← heap.release p rp.m_Uid
        pure ({ rp with m_pOverwriteMaterial := none }, h)
      | none => pure (rp, heap))
  rp1.clearSelectedPrimitives.clearOverwritePrimitiveMaterials debug heap1

/-- The function `GLC_RenderProperties::fuzzyAssignement(other)`
(glc_renderproperties.cpp 225-275), called on an object `rp` other than `other`. -/
def fuzzyAssignement (debug : Bool) (rp other : GLC_RenderProperties) (heap : MaterialHeap) :
    Except Fault (GLC_RenderProperties × MaterialHeap) := do
  let (rp1, heap1) ← rp.clear debug heap
  let rp2 : GLC_RenderProperties :=
    { rp1 with
      m_RenderMode := other.m_RenderMode
      m_SavedRenderMode := other.m_SavedRenderMode
      m_pOverwriteMaterial := other.m_pOverwriteMaterial
      m_pBodySelectedPrimitvesId := none
      m_pOverwritePrimitiveMaterialMaps := none }
  let heap2 ←
    (match rp2.m_pOverwriteMaterial with
      | some p => heap1.addUsage p rp2.m_Uid
      | none => pure heap1)
  let rp3 : GLC_RenderProperties :=
    { rp2 with m_pBodySelectedPrimitvesId := other.m_pBodySelectedPrimitvesId }
  match other.m_pOverwritePrimitiveMaterialMaps with
  | some maps => do
    let heap3 ← MaterialHeap.addUsages rp3.m_Uid (maps.flatMap (fun e => e.2.map Prod.snd)) heap2
    pure ({ rp3 with m_pOverwritePrimitiveMaterialMaps := some maps }, heap3)
  | none => pure (rp3, heap2)

/-- The operator `GLC_RenderProperties::operator=` (glc_renderproperties.cpp 213-223),
called on an object `rp` other than `renderProperties`. -/
def assign (debug : Bool) (rp renderProperties : GLC_RenderProperties) (heap : MaterialHeap) :
    Except Fault (GLC_RenderProperties × MaterialHeap) := do
  let (rp1, heap1) ← rp.fuzzyAssignement debug renderProperties heap
  pure ({ rp1 with
          m_IsSelected := renderProperties.m_IsSelected
          m_CurrentBody := renderProperties.m_CurrentBody }, heap1)

/-- The copy constructor of `GLC_RenderProperties` (glc_renderproperties.cpp 50-107);
`uid` is the id that `glc::GLC_GenUserID()` gives to the new object. -/
def copy (other : GLC_RenderProperties) (uid : GLC_uint) (heap : MaterialHeap) :
    Except Fault (GLC_RenderProperties × MaterialHeap) := do
  let rp : GLC_RenderProperties :=
    { m_Uid := uid
      m_IsSelected := other.m_IsSelected
      m_RenderMode := other.m_RenderMode
      m_SavedRenderMode := other.m_SavedRenderMode
      m_pOverwriteMaterial := other.m_pOverwriteMaterial
      m_CurrentBody := other.m_CurrentBody
      m_MaterialsUsage := other.m_MaterialsUsage }
  let heap1 ←
    (match rp.m_pOverwriteMaterial with
      | some p => heap.addUsage p rp.m_Uid
      | none => pure heap)
  let rp1 : GLC_RenderProperties :=
    { rp with
      m_pBodySelectedPrimitvesId := other.m_pBodySelectedPrimitvesId
      m_pOverwritePrimitiveMaterialMaps := other.m_pOverwritePrimitiveMaterialMaps }
  let heap2 ← MaterialHeap.addUsages rp1.m_Uid (QHash.keys rp1.m_MaterialsUsage) heap1
  pure (rp1, heap2)

end GLC_RenderProperties

/-! ## Auxiliary functions used to state the packing layout -/

/-- The ranges `(offset, size)` that a group records for its sublists, in the order
triangles, strips, fans: one range for the triangle indices when the group holds some, one
range for every strip and one for every fan. -/
def groupRanges (g : GLC_PrimitiveGroup) : List (Nat × Nat) :=
  (if g.containsTriangles then [(g.m_TrianglesIndexOffseti, g.m_TrianglesIndexSize)] else []) ++
    (if g.containsStrip then g.strips.offseti.zip g.strips.sizes else []) ++
    (if g.containsFan then g.fans.offseti.zip g.fans.sizes else [])

/-- The end of the last range when the ranges `(offset, size)` lie end to end from `start`
on, every range starting where the one before it ends; `none` otherwise. -/
def tiledFrom : Nat → List (Nat × Nat) → Option Nat
  | start, [] => some start
  | start, (o, s) :: rest => if o = start then tiledFrom (start + s) rest else none

/-- A finished mesh of twelve vertices with one LOD used as a test input: material 7 holds
the triangle `[5, 9, 5]` and the strip `[9, 2, 7, 5]`, material 8 holds the fan
`[2, 11, 9]`; the position array holds `0 .. 35`, the normal array `100 .. 135` and the
texel array `200 .. 223`. -/
def sampleBulkSource : GLC_Mesh :=
  ((applyCalls GLC_Mesh.new
      [{ kind := .triangles, pMaterial := some 7, indexList := [5, 9, 5] },
       { kind := .strip, pMaterial := some 7, indexList := [9, 2, 7, 5] },
       { kind := .fan, pMaterial := some 8, indexList := [2, 11, 9] }]).bind
    (fun r => (((r.1.addVertice ((List.range 36).map (fun (i : Nat) => (i : Int)))).addNormals
      ((List.range 36).map (fun (i : Nat) => (100 + i : Int)))).addTexels
      ((List.range 24).map (fun (i : Nat) => (200 + i : Int)))).finish)).getD GLC_Mesh.new

/-! ## The face list of the 3DS exporter -/

/-- The loop over the faces of one material in `GLC_WorldTo3ds::create3dsMeshFromGLC_Mesh`
(glc_worldto3ds.cpp 338-349): the pass `i` reads the indices `i * 3`, `i * 3 + 1` and
`i * 3 + 2` of `currentTriangleIndex`, writes the face at `faceL[currentFaceIndex]`, a list
of `totalFaceCount` faces, and advances `currentFaceIndex`. The result is the value of
`currentFaceIndex` after the loop, `none` when a read or a write leaves its list; a write
that stays in the list keeps the assertion `currentFaceIndex <= totalFaceCount`. -/
def writeFaces (totalFaceCount : Nat) (currentTriangleIndex : IndexList) :
    Nat → Nat → Nat → Option Nat
  | 0, _, currentFaceIndex => some currentFaceIndex
  | faceCount + 1, i, currentFaceIndex => do
    let _ ← currentTriangleIndex[i * 3]?
    let _ ← currentTriangleIndex[i * 3 + 1]?
    let _ ← currentTriangleIndex[i * 3 + 2]?
    if currentFaceIndex < totalFaceCount then
      writeFaces totalFaceCount currentTriangleIndex faceCount (i + 1) (currentFaceIndex + 1)
    else none

/-- The loop over the materials of the mesh in `create3dsMeshFromGLC_Mesh`
(glc_worldto3ds.cpp 332-351), the materials being given by their ids. -/
def writeMaterialFaces (pMesh : GLC_Mesh) (totalFaceCount : Nat) : List GLC_uint → Nat → Option Nat
  | [], currentFaceIndex => some currentFaceIndex
  | id :: rest, currentFaceIndex => do
    let currentTriangleIndex ← pMesh.getEquivalentTrianglesStripsFansIndex 0 id
    let next ←
      writeFaces totalFaceCount currentTriangleIndex (currentTriangleIndex.length / 3) 0
        currentFaceIndex
    writeMaterialFaces pMesh totalFaceCount rest next

/-- The part of `GLC_WorldTo3ds::create3dsMeshFromGLC_Mesh` that fills the face list
(glc_worldto3ds.cpp 324-351): `totalFaceCount` is `faceCount(0)` converted to `uint`, the
material set of the mesh is the list of the distinct ids of its material hash. The result
is `totalFaceCount` and the value of `currentFaceIndex` after the loops. -/
def create3dsFaces (pMesh : GLC_Mesh) : Option (Nat × Nat) := do
  let n ← pMesh.faceCount 0
  let totalFaceCount : Nat := (n % 4294967296).toNat
  let currentFaceIndex ← writeMaterialFaces pMesh totalFaceCount pMesh.m_MaterialHash.dedup 0
  pure (totalFaceCount, currentFaceIndex)

/-- Ingestion calls that open two LODs: a triangle batch and a strip of material 7 and a
fan of the default material at LOD 0, a strip of one index of material 8 at LOD 1. -/
def sampleExportCalls : List AddCall :=
  [{ kind := .triangles, pMaterial := some 7, indexList := [0, 1, 2, 2, 1, 3] },
   { kind := .strip, pMaterial := some 7, indexList := [0, 1, 2, 3, 4] },
   { kind := .fan, pMaterial := none, indexList := [4, 1, 2, 3], newId := 9 },
   { kind := .strip, pMaterial := some 8, indexList := [5], lod := 1 }]

/-! ## The index lists that the CSG recombination hands to `addTriangles` -/

/-- The index lists that the outer loop of `GLC_CsgHelper::meshFromCsgModel`
(glc_csghelper.cpp 182-205) hands to `addTriangles`, in the order of the calls; the second
component is the working index list after the loop. -/
def csgPassedLists (vertices : List csgjs_vertex) :
    QHash GLC_uint (Option GLC_uint) → List Int → Option (List IndexList × List Int)
  | [], indices => some ([], indices)
  | (matId, _) :: rest, indices => do
    let (indexList, left) ← extractMaterial vertices matId indices
    let (lists, final) ← csgPassedLists vertices rest left
    pure ((if !indexList.isEmpty then [indexList] else []) ++ lists, final)

/-- The triangles of an index list: the indices taken three by three. -/
def csgTriangles : List Int → List (List Int)
  | a :: b :: c :: rest => [a, b, c] :: csgTriangles rest
  | _ => []

/-- The material tag of the vertex that the index `i` refers to. -/
def csgTag (vertices : List csgjs_vertex) (i : Int) : Option GLC_uint :=
  (vertexAt vertices i).map csgjs_vertex.matId

/-- The triangles of the model whose three vertices carry the tag `matId`, in the order of
the model, as one index list. -/
def csgWholeTriangles (vertices : List csgjs_vertex) (matId : GLC_uint) (indices : List Int) :
    IndexList :=
  (((csgTriangles indices).filter
    (fun t => t.all (fun i => decide (csgTag vertices i = some matId)))).flatten).map Int.toNat

/-- A model of one triangle whose first vertex is tagged with material 7 and whose other
two vertices are tagged with material 8. -/
def sampleMixedCsgModel : csgjs_model :=
  { vertices :=
      [{ pos := (0, 0, 0), normal := (0, 0, 1), uv := (0, 0), matId := 7 },
       { pos := (1, 0, 0), normal := (0, 0, 1), uv := (1, 0), matId := 8 },
       { pos := (0, 1, 0), normal := (0, 0, 1), uv := (0, 1), matId := 8 }]
    indices := [0, 1, 2] }

/-- A stream that holds a mesh without LOD whose counter of primitive ids is 4294967295,
the largest 32-bit unsigned value, behind the chunk id of the class; used as a test
input. -/
def sampleFullCounterStream : QDataStream :=
  [StreamItem.quint32 0xA701,
   StreamItem.qstring "",
   StreamItem.wireData [],
   StreamItem.glcUint 4294967295,
   StreamItem.meshData {},
   StreamItem.intList [],
   StreamItem.groupLists [],
   StreamItem.uint 0,
   StreamItem.uint 0]

/-- The bulk data store holds the position of the LOD `lod` at every call of the sequence
that is made at that LOD: when such a call has opened its LOD, the number of LODs opened so
far (by the earlier calls, whose LODs are `seen`, and by the call itself) exceeds `lod`. -/
def lodHeld (lod : Int) : List Int → List AddCall → Bool
  | _, [] => true
  | seen, c :: cs =>
    (decide (c.lod ≠ lod) || decide (lod < ((seen ++ [c.lod]).dedup.length : Int))) &&
      lodHeld lod (seen ++ [c.lod]) cs

/-- Ingestion calls that open the LOD 1 before the LOD 0, as `createMeshFromGivenLod` does:
a strip of one index of material 8 at LOD 1, then a triangle batch and a strip of
material 7 and a fan of the default material at LOD 0. -/
def sampleCoarseFirstCalls : List AddCall :=
  [{ kind := .strip, pMaterial := some 8, indexList := [5], lod := 1 },
   { kind := .triangles, pMaterial := some 7, indexList := [0, 1, 2, 2, 1, 3] },
   { kind := .strip, pMaterial := some 7, indexList := [0, 1, 2, 3, 4] },
   { kind := .fan, pMaterial := none, indexList := [4, 1, 2, 3], newId := 9 }]

/-! ## A second `finish()` -/

/-- The strip (or fan) part of a group with another index list. -/
def PrimitiveRuns.withIndex (r : PrimitiveRuns) (index : IndexList) : PrimitiveRuns :=
  { r with index := index }

/-- The group with other index lists for its triangles, strips and fans. -/
def GLC_PrimitiveGroup.withIndexLists (g : GLC_PrimitiveGroup) (t s f : IndexList) :
    GLC_PrimitiveGroup :=
  { g with
    m_TrianglesIndex := t
    strips := g.strips.withIndex s
    fans := g.fans.withIndex f }

/-- What the sources and the spec fix of `GLC_PrimitiveGroup::finish()`, whose class is not
under src/: the getters of the mesh read the recorded sizes and offsets of a group after
`finish()`, so the call keeps them, with the material id and the primitive ids; what it
does with the three index lists (section 4.2 has them moved to the mesh data, the open
question of the spec has a second `finish()` pack them again) is left open. -/
def KeepsRecords (groupFinish : GLC_PrimitiveGroup → GLC_PrimitiveGroup) : Prop :=
  ∀ g, ∃ t s f, groupFinish g = g.withIndexLists t s f

namespace GLC_Mesh

/-- The body of the inner loop of `GLC_Mesh::moveIndexToMeshDataLod` (glc_mesh.cpp
1319-1341) for one group of the LOD `currentLod`, with the `finish()` of the group as a
parameter. -/
def moveGroupIndexWith (groupFinish : GLC_PrimitiveGroup → GLC_PrimitiveGroup)
    (currentLod : Int) (g : GLC_PrimitiveGroup) (d : GLC_MeshData) :
    Option (GLC_PrimitiveGroup × GLC_MeshData) := do
  let (g1, d1) ←
    (if g.containsTriangles then do
      let size ← d.indexVectorSize currentLod
      let d' ← d.appendIndex currentLod g.m_TrianglesIndex
      pure (g.setTrianglesOffseti size, d')
    else pure (g, d))
  let (g2, d2) ←
    (if g1.containsStrip then do
      let size ← d1.indexVectorSize currentLod
      let d' ← d1.appendIndex currentLod g1.strips.index
      pure (g1.setBaseTrianglesStripOffseti size, d')
    else pure (g1, d1))
  let (g3, d3) ←
    (if g2.containsFan then do
      let size ← d2.indexVectorSize currentLod
      let d' ← d2.appendIndex currentLod g2.fans.index
      pure (g2.setBaseTrianglesFanOffseti size, d')
    else pure (g2, d2))
  pure (groupFinish g3.computeVboOffset, d3)

/-- The inner loop of `GLC_Mesh::moveIndexToMeshDataLod` over the groups of one LOD, with
the `finish()` of the group as a parameter. -/
def moveLodGroupsWith (groupFinish : GLC_PrimitiveGroup → GLC_PrimitiveGroup)
    (currentLod : Int) :
    LodPrimitiveGroups → GLC_MeshData → Option (LodPrimitiveGroups × GLC_MeshData)
  | [], d => some ([], d)
  | (id, g) :: rest, d => do
    let (g', d') ← moveGroupIndexWith groupFinish currentLod g d
    let (rest', d'') ← moveLodGroupsWith groupFinish currentLod rest d'
    pure ((id, g') :: rest', d'')

/-- The outer loop of `GLC_Mesh::moveIndexToMeshDataLod` over the LODs, with the `finish()`
of the group as a parameter. -/
def moveAllGroupsWith (groupFinish : GLC_PrimitiveGroup → GLC_PrimitiveGroup) :
    PrimitiveGroupsHash → GLC_MeshData → Option (PrimitiveGroupsHash × GLC_MeshData)
  | [], d => some ([], d)
  | (lod, groups) :: rest, d => do
    let (groups', d') ← moveLodGroupsWith groupFinish lod groups d
    let (rest', d'') ← moveAllGroupsWith groupFinish rest d'
    pure ((lod, groups') :: rest', d'')

/-- The function `GLC_Mesh::moveIndexToMeshDataLod` (glc_mesh.cpp 1309-1346), with the
`finish()` of the group as a parameter. -/
def moveIndexToMeshDataLodWith (groupFinish : GLC_PrimitiveGroup → GLC_PrimitiveGroup)
    (m : GLC_Mesh) : Option GLC_Mesh := do
  let (groups, d) ← moveAllGroupsWith groupFinish m.m_PrimitiveGroups m.m_MeshData
  pure { m with m_PrimitiveGroups := groups, m_MeshData := d }

/-- The function `GLC_Mesh::finish` (glc_mesh.cpp 708-724), with the `finish()` of the
group as a parameter; `finishWith GLC_PrimitiveGroup.finish` is `finish`. -/
def finishWith (groupFinish : GLC_PrimitiveGroup → GLC_PrimitiveGroup) (m : GLC_Mesh) :
    Option GLC_Mesh :=
  if m.m_MeshData.lodCount > 0 then
    if !m.boundingBoxInRange then none
    else moveIndexToMeshDataLodWith groupFinish { m with m_MeshData := m.m_MeshData.finishLod }
  else some m.clear

end GLC_Mesh

/-- The indices that `moveIndexToMeshDataLod` appends for one group: the list of every
kind of primitive that the group contains according to its recorded sizes. -/
def movedContent (g : GLC_PrimitiveGroup) : List GLuint :=
  (if g.containsTriangles then g.m_TrianglesIndex else []) ++
    ((if g.containsStrip then g.strips.index else []) ++
      (if g.containsFan then g.fans.index else []))

/-- The group after the inner loop body of `moveIndexToMeshDataLod`, before its own
`finish()`, when the index array of its LOD holds `base` indices at the moment the group is
reached. -/
def offsetGroup (base : Nat) (g : GLC_PrimitiveGroup) : GLC_PrimitiveGroup :=
  let g1 := if g.containsTriangles then g.setTrianglesOffseti base else g
  let b2 := base + (if g.containsTriangles then g.m_TrianglesIndex.length else 0)
  let g2 := if g1.containsStrip then g1.setBaseTrianglesStripOffseti b2 else g1
  let b3 := b2 + (if g.containsStrip then g.strips.index.length else 0)
  let g3 := if g2.containsFan then g2.setBaseTrianglesFanOffseti b3 else g2
  g3.computeVboOffset

/-- The records of the group `g'` are those of `g` with the offsets of every non-empty
sublist recorded anew: each of them lies at or after `before`, and the sublist that `g`
holds fits between the offset and `after`. -/
def Rerecorded (before after : Nat) (g g' : GLC_PrimitiveGroup) : Prop :=
  g'.m_TrianglesIndexSize = g.m_TrianglesIndexSize ∧
  g'.strips.indexSize = g.strips.indexSize ∧ g'.strips.sizes = g.strips.sizes ∧
  g'.fans.indexSize = g.fans.indexSize ∧ g'.fans.sizes = g.fans.sizes ∧
  (0 < g.m_TrianglesIndexSize →
    before ≤ g'.m_TrianglesIndexOffseti ∧
    g'.m_TrianglesIndexOffseti + g.m_TrianglesIndex.length ≤ after) ∧
  (0 < g.strips.indexSize →
    ∃ b, g'.strips.offseti = runOffsets b g.strips.sizes ∧ before ≤ b ∧
      b + g.strips.index.length ≤ after) ∧
  (0 < g.fans.indexSize →
    ∃ b, g'.fans.offseti = runOffsets b g.fans.sizes ∧ before ≤ b ∧
      b + g.fans.index.length ≤ after)
/-- The mesh of one triangle of material 7 with its three vertices and normals, before
`finish()`. -/
def sampleTriangleInput : GLC_Mesh :=
  ((applyCalls ((GLC_Mesh.new.addVertice [0, 0, 0, 1, 0, 0, 0, 1, 0]).addNormals
      [0, 0, 1, 0, 0, 1, 0, 0, 1]) [sampleTriangleCall]).map Prod.fst).getD GLC_Mesh.new

end GLC

/-! # Theorems -/

namespace GLC

/-! ## Association lists -/

namespace QHash

variable {κ ν : Type} [DecidableEq κ]

theorem contains_eq_false_iff (h : QHash κ ν) (k : κ) :
    contains h k = false ↔ value h k = none := by
  unfold contains
  cases value h k <;> simp

theorem value_eq_none_iff (h : QHash κ ν) (k : κ) : value h k = none ↔ k ∉ keys h := by
  induction h with
  | nil => simp [value, keys]
  | cons e t ih =>
    obtain ⟨k1, v1⟩ := e
    by_cases hk : k1 = k
    · simp [value, keys, hk]
    · have hk2 : ¬ k = k1 := fun h => hk h.symm
      simp only [value, hk, if_false, ih]
      simp [keys, hk2]

theorem value_cons (k2 : κ) (v2 : ν) (t : QHash κ ν) (k : κ) :
    value ((k2, v2) :: t) k = if k2 = k then some v2 else value t k := rfl

theorem modify_cons (k2 : κ) (v2 : ν) (t : QHash κ ν) (k : κ) (f : ν → ν) :
    modify ((k2, v2) :: t) k f = (if k2 = k then (k2, f v2) else (k2, v2)) :: modify t k f := rfl

theorem value_modify (h : QHash κ ν) (k k1 : κ) (f : ν → ν) :
    value (modify h k f) k1 = if k1 = k then (value h k).map f else value h k1 := by
  induction h with
  | nil => simp [value, modify]
  | cons e t ih =>
    obtain ⟨k2, v2⟩ := e
    rw [modify_cons]
    by_cases h2 : k2 = k
    · subst h2
      by_cases h1 : k1 = k2
      · subst h1; simp [value_cons]
      · have h3 : ¬ k2 = k1 := fun h => h1 h.symm
        simp only [if_true, value_cons, h3, if_false, h1] at ih ⊢
        exact ih
    · by_cases h1 : k1 = k
      · subst h1
        simp only [h2, if_false, value_cons, if_true] at ih ⊢
        exact ih
      · simp only [h2, if_false, value_cons, h1] at ih ⊢
        rw [ih]

theorem keys_modify (h : QHash κ ν) (k : κ) (f : ν → ν) : keys (modify h k f) = keys h := by
  unfold keys modify
  rw [List.map_map]
  apply List.map_congr_left
  intro e _
  by_cases he : e.1 = k <;> simp [he]

theorem value_append (h1 h2 : QHash κ ν) (k : κ) :
    value (h1 ++ h2) k = (value h1 k).orElse (fun _ => value h2 k) := by
  induction h1 with
  | nil => simp [value]
  | cons e t ih =>
    obtain ⟨k2, v2⟩ := e
    by_cases h : k2 = k
    · simp [value, h]
    · simp [value, h, ih]

theorem insert_of_not_contains (h : QHash κ ν) (k : κ) (v : ν) (hc : contains h k = false) :
    insert h k v = h ++ [(k, v)] := by
  simp [insert, hc]

theorem value_insert_new (h : QHash κ ν) (k k1 : κ) (v : ν) (hc : contains h k = false) :
    value (insert h k v) k1 = if k1 = k then some v else value h k1 := by
  rw [insert_of_not_contains h k v hc, value_append]
  by_cases h1 : k1 = k
  · subst h1
    rw [(contains_eq_false_iff h k1).1 hc]
    simp [value]
  · have h2 : ¬ k = k1 := fun h => h1 h.symm
    simp [value, h1, h2]

theorem mem_of_value (h : QHash κ ν) (k : κ) (v : ν) (hv : value h k = some v) :
    (k, v) ∈ h := by
  induction h with
  | nil => simp [value] at hv
  | cons e t ih =>
    obtain ⟨k2, v2⟩ := e
    by_cases h2 : k2 = k
    · simp [value, h2] at hv
      simp [h2, hv]
    · simp only [value, h2, if_false] at hv
      exact List.mem_cons_of_mem _ (ih hv)

theorem value_of_mem (h : QHash κ ν) (k : κ) (v : ν) (hn : (keys h).Nodup)
    (hm : (k, v) ∈ h) : value h k = some v := by
  induction h with
  | nil => simp at hm
  | cons e t ih =>
    obtain ⟨k2, v2⟩ := e
    simp only [keys, List.map_cons, List.nodup_cons] at hn
    rcases List.mem_cons.1 hm with h1 | h1
    · simp only [Prod.mk.injEq] at h1
      simp [value, h1.1, h1.2]
    · have hk : k ∈ t.map Prod.fst := List.mem_map.2 ⟨(k, v), h1, rfl⟩
      have h2 : ¬ k2 = k := by
        intro h; subst h; exact hn.1 hk
      simp only [value, h2, if_false]
      exact ih hn.2 h1

end QHash

/-! ## The bulk data store -/

theorem appendAtLod_nil (ls : List GLC_Lod) (n : Nat) : appendAtLod ls n [] = ls := by
  induction ls generalizing n with
  | nil => rfl
  | cons a t ih =>
    cases n with
    | zero => simp [appendAtLod]
    | succ n => simp [appendAtLod, ih]

theorem appendAtLod_append (ls : List GLC_Lod) (n : Nat) (a b : List GLuint) :
    appendAtLod (appendAtLod ls n a) n b = appendAtLod ls n (a ++ b) := by
  induction ls generalizing n with
  | nil => rfl
  | cons x t ih =>
    cases n with
    | zero => simp [appendAtLod]
    | succ n => simp [appendAtLod, ih]

theorem appendAtLod_length (ls : List GLC_Lod) (n : Nat) (a : List GLuint) :
    (appendAtLod ls n a).length = ls.length := by
  induction ls generalizing n with
  | nil => rfl
  | cons x t ih =>
    cases n with
    | zero => simp [appendAtLod]
    | succ n => simp [appendAtLod, ih]

theorem appendAtLod_getElem? (ls : List GLC_Lod) (n k : Nat) (a : List GLuint) :
    (appendAtLod ls n a)[k]? =
      if k = n then (ls[k]?).map (fun lod => { lod with indexVector := lod.indexVector ++ a })
      else ls[k]? := by
  induction ls generalizing n k with
  | nil => simp [appendAtLod]
  | cons x t ih =>
    cases n with
    | zero =>
      cases k with
      | zero => simp [appendAtLod]
      | succ k => simp [appendAtLod]
    | succ n =>
      cases k with
      | zero => simp [appendAtLod]
      | succ k => simp [appendAtLod, ih]

theorem set_eq_appendAtLod (ls : List GLC_Lod) (n : Nat) (lod : GLC_Lod) (a : List GLuint)
    (h : ls[n]? = some lod) :
    ls.set n { lod with indexVector := lod.indexVector ++ a } = appendAtLod ls n a := by
  induction ls generalizing n with
  | nil => simp at h
  | cons x t ih =>
    cases n with
    | zero =>
      simp at h
      subst h
      simp [appendAtLod]
    | succ n =>
      simp at h
      simp [appendAtLod, ih n h]

theorem indexArrayAt_appendAtLod (ls : List GLC_Lod) (n k : Nat) (a : List GLuint)
    (hn : n < ls.length) :
    indexArrayAt (appendAtLod ls n a) k =
      if k = n then indexArrayAt ls k ++ a else indexArrayAt ls k := by
  unfold indexArrayAt
  rw [appendAtLod_getElem?]
  by_cases hk : k = n
  · subst hk
    have : ls[k]? = some ls[k] := List.getElem?_eq_getElem hn
    simp [this]
  · simp [hk]

namespace GLC_MeshData

theorem getLod_eq_some (d : GLC_MeshData) (i : Int) (h0 : 0 ≤ i)
    (h1 : i.toNat < d.m_LodList.length) :
    d.getLod i = some (d.m_LodList[i.toNat]) := by
  unfold getLod
  simp [h0, List.getElem?_eq_getElem h1]

theorem indexVectorSize_eq (d : GLC_MeshData) (i : Int) (h0 : 0 ≤ i)
    (h1 : i.toNat < d.m_LodList.length) :
    d.indexVectorSize i = some (indexArrayAt d.m_LodList i.toNat).length := by
  unfold indexVectorSize
  rw [getLod_eq_some d i h0 h1]
  simp [indexArrayAt, List.getElem?_eq_getElem h1]

theorem indexVector_eq (d : GLC_MeshData) (i : Int) (h0 : 0 ≤ i)
    (h1 : i.toNat < d.m_LodList.length) :
    d.indexVector i = some (indexArrayAt d.m_LodList i.toNat) := by
  unfold indexVector
  rw [getLod_eq_some d i h0 h1]
  simp [indexArrayAt, List.getElem?_eq_getElem h1]

theorem appendIndex_eq (d : GLC_MeshData) (i : Int) (l : List GLuint) (h0 : 0 ≤ i)
    (h1 : i.toNat < d.m_LodList.length) :
    d.appendIndex i l = some (d.withAppended i.toNat l) := by
  unfold appendIndex withAppended
  rw [getLod_eq_some d i h0 h1]
  simp only
  rw [set_eq_appendAtLod _ _ _ _ (List.getElem?_eq_getElem h1)]

theorem withAppended_nil (d : GLC_MeshData) (n : Nat) : d.withAppended n [] = d := by
  simp [withAppended, appendAtLod_nil]

theorem withAppended_append (d : GLC_MeshData) (n : Nat) (a b : List GLuint) :
    (d.withAppended n a).withAppended n b = d.withAppended n (a ++ b) := by
  simp [withAppended, appendAtLod_append]

theorem withAppended_length (d : GLC_MeshData) (n : Nat) (a : List GLuint) :
    (d.withAppended n a).m_LodList.length = d.m_LodList.length := by
  simp [withAppended, appendAtLod_length]

end GLC_MeshData

/-! ## Packing of one group -/

theorem list_eq_nil_of_size {α : Type} (l : List α) (n : Nat) (h : n = l.length)
    (hn : ¬ 0 < n) : l = [] := by
  apply List.eq_nil_of_length_eq_zero
  omega

theorem moveGroupIndex_eq (lod : Int) (g : GLC_PrimitiveGroup) (d : GLC_MeshData)
    (h0 : 0 ≤ lod) (h1 : lod.toNat < d.m_LodList.length) (hs : GroupSized g) :
    GLC_Mesh.moveGroupIndex lod g d =
      some (packedGroup (indexArrayAt d.m_LodList lod.toNat).length g,
        d.withAppended lod.toNat (groupContent g)) := by
  obtain ⟨ht, hs1, _, hf1, _⟩ := hs
  have hlen : ∀ a, lod.toNat < (d.withAppended lod.toNat a).m_LodList.length := by
    intro a; rw [GLC_MeshData.withAppended_length]; exact h1
  have hidx : ∀ a, (indexArrayAt (d.withAppended lod.toNat a).m_LodList lod.toNat).length
      = (indexArrayAt d.m_LodList lod.toNat).length + a.length := by
    intro a
    simp [GLC_MeshData.withAppended, indexArrayAt_appendAtLod _ _ _ _ h1]
  unfold GLC_Mesh.moveGroupIndex packedGroup groupContent
  by_cases c1 : 0 < g.m_TrianglesIndexSize
  · by_cases c2 : 0 < g.strips.indexSize
    · by_cases c3 : 0 < g.fans.indexSize
      · simp [GLC_PrimitiveGroup.containsTriangles, GLC_PrimitiveGroup.containsStrip,
          GLC_PrimitiveGroup.containsFan, PrimitiveRuns.nonEmpty, c1, c2, c3,
          GLC_PrimitiveGroup.setTrianglesOffseti, GLC_PrimitiveGroup.setBaseTrianglesStripOffseti,
          GLC_PrimitiveGroup.setBaseTrianglesFanOffseti, PrimitiveRuns.setBaseOffseti,
          GLC_MeshData.indexVectorSize_eq, GLC_MeshData.appendIndex_eq, h0, h1, hlen, hidx,
          GLC_MeshData.withAppended_append, GLC_MeshData.withAppended_length, Nat.add_assoc]
      · have e3 := list_eq_nil_of_size _ _ hf1 c3
        simp [GLC_PrimitiveGroup.containsTriangles, GLC_PrimitiveGroup.containsStrip,
          GLC_PrimitiveGroup.containsFan, PrimitiveRuns.nonEmpty, c1, c2, c3, e3,
          GLC_PrimitiveGroup.setTrianglesOffseti, GLC_PrimitiveGroup.setBaseTrianglesStripOffseti,
          GLC_PrimitiveGroup.setBaseTrianglesFanOffseti, PrimitiveRuns.setBaseOffseti,
          GLC_MeshData.indexVectorSize_eq, GLC_MeshData.appendIndex_eq, h0, h1, hlen, hidx,
          GLC_MeshData.withAppended_append, GLC_MeshData.withAppended_length, Nat.add_assoc]
    · have e2 := list_eq_nil_of_size _ _ hs1 c2
      by_cases c3 : 0 < g.fans.indexSize
      · simp [GLC_PrimitiveGroup.containsTriangles, GLC_PrimitiveGroup.containsStrip,
          GLC_PrimitiveGroup.containsFan, PrimitiveRuns.nonEmpty, c1, c2, c3, e2,
          GLC_PrimitiveGroup.setTrianglesOffseti, GLC_PrimitiveGroup.setBaseTrianglesStripOffseti,
          GLC_PrimitiveGroup.setBaseTrianglesFanOffseti, PrimitiveRuns.setBaseOffseti,
          GLC_MeshData.indexVectorSize_eq, GLC_MeshData.appendIndex_eq, h0, h1, hlen, hidx,
          GLC_MeshData.withAppended_append, GLC_MeshData.withAppended_length, Nat.add_assoc]
      · have e3 := list_eq_nil_of_size _ _ hf1 c3
        simp [GLC_PrimitiveGroup.containsTriangles, GLC_PrimitiveGroup.containsStrip,
          GLC_PrimitiveGroup.containsFan, PrimitiveRuns.nonEmpty, c1, c2, c3, e2, e3,
          GLC_PrimitiveGroup.setTrianglesOffseti, GLC_PrimitiveGroup.setBaseTrianglesStripOffseti,
          GLC_PrimitiveGroup.setBaseTrianglesFanOffseti, PrimitiveRuns.setBaseOffseti,
          GLC_MeshData.indexVectorSize_eq, GLC_MeshData.appendIndex_eq, h0, h1, hlen, hidx,
          GLC_MeshData.withAppended_append, GLC_MeshData.withAppended_length, Nat.add_assoc]
  · have e1 := list_eq_nil_of_size _ _ ht c1
    by_cases c2 : 0 < g.strips.indexSize
    · by_cases c3 : 0 < g.fans.indexSize
      · simp [GLC_PrimitiveGroup.containsTriangles, GLC_PrimitiveGroup.containsStrip,
          GLC_PrimitiveGroup.containsFan, PrimitiveRuns.nonEmpty, c1, c2, c3, e1,
          GLC_PrimitiveGroup.setTrianglesOffseti, GLC_PrimitiveGroup.setBaseTrianglesStripOffseti,
          GLC_PrimitiveGroup.setBaseTrianglesFanOffseti, PrimitiveRuns.setBaseOffseti,
          GLC_MeshData.indexVectorSize_eq, GLC_MeshData.appendIndex_eq, h0, h1, hlen, hidx,
          GLC_MeshData.withAppended_append, GLC_MeshData.withAppended_length, Nat.add_assoc]
      · have e3 := list_eq_nil_of_size _ _ hf1 c3
        simp [GLC_PrimitiveGroup.containsTriangles, GLC_PrimitiveGroup.containsStrip,
          GLC_PrimitiveGroup.containsFan, PrimitiveRuns.nonEmpty, c1, c2, c3, e1, e3,
          GLC_PrimitiveGroup.setTrianglesOffseti, GLC_PrimitiveGroup.setBaseTrianglesStripOffseti,
          GLC_PrimitiveGroup.setBaseTrianglesFanOffseti, PrimitiveRuns.setBaseOffseti,
          GLC_MeshData.indexVectorSize_eq, GLC_MeshData.appendIndex_eq, h0, h1, hlen, hidx,
          GLC_MeshData.withAppended_append, GLC_MeshData.withAppended_length, Nat.add_assoc]
    · have e2 := list_eq_nil_of_size _ _ hs1 c2
      by_cases c3 : 0 < g.fans.indexSize
      · simp [GLC_PrimitiveGroup.containsTriangles, GLC_PrimitiveGroup.containsStrip,
          GLC_PrimitiveGroup.containsFan, PrimitiveRuns.nonEmpty, c1, c2, c3, e1, e2,
          GLC_PrimitiveGroup.setTrianglesOffseti, GLC_PrimitiveGroup.setBaseTrianglesStripOffseti,
          GLC_PrimitiveGroup.setBaseTrianglesFanOffseti, PrimitiveRuns.setBaseOffseti,
          GLC_MeshData.indexVectorSize_eq, GLC_MeshData.appendIndex_eq, h0, h1, hlen, hidx,
          GLC_MeshData.withAppended_append, GLC_MeshData.withAppended_length, Nat.add_assoc]
      · have e3 := list_eq_nil_of_size _ _ hf1 c3
        simp [GLC_PrimitiveGroup.containsTriangles, GLC_PrimitiveGroup.containsStrip,
          GLC_PrimitiveGroup.containsFan, PrimitiveRuns.nonEmpty, c1, c2, c3, e1, e2, e3,
          GLC_PrimitiveGroup.setTrianglesOffseti, GLC_PrimitiveGroup.setBaseTrianglesStripOffseti,
          GLC_PrimitiveGroup.setBaseTrianglesFanOffseti, PrimitiveRuns.setBaseOffseti,
          GLC_MeshData.indexVectorSize_eq, GLC_MeshData.appendIndex_eq, h0, h1, hlen, hidx,
          GLC_MeshData.withAppended_append, GLC_MeshData.withAppended_length,
          GLC_MeshData.withAppended_nil, Nat.add_assoc]

/-! ## Packing of the groups of a LOD and of a mesh -/

theorem moveLodGroups_eq (lod : Int) (groups : LodPrimitiveGroups) (d : GLC_MeshData)
    (h0 : 0 ≤ lod) (h1 : lod.toNat < d.m_LodList.length)
    (hs : ∀ e ∈ groups, GroupSized e.2) :
    GLC_Mesh.moveLodGroups lod groups d =
      some (packedGroups (indexArrayAt d.m_LodList lod.toNat).length groups,
        d.withAppended lod.toNat (lodContent groups)) := by
  induction groups generalizing d with
  | nil => simp [GLC_Mesh.moveLodGroups, packedGroups, lodContent, GLC_MeshData.withAppended_nil]
  | cons e rest ih =>
    obtain ⟨id, g⟩ := e
    have hg : GroupSized g := hs (id, g) (List.mem_cons_self _ _)
    have hrest : ∀ e ∈ rest, GroupSized e.2 := fun e he => hs e (List.mem_cons_of_mem _ he)
    have hlen : lod.toNat < (d.withAppended lod.toNat (groupContent g)).m_LodList.length := by
      rw [GLC_MeshData.withAppended_length]; exact h1
    have hidx : (indexArrayAt (d.withAppended lod.toNat (groupContent g)).m_LodList
        lod.toNat).length = (indexArrayAt d.m_LodList lod.toNat).length
          + (groupContent g).length := by
      simp [GLC_MeshData.withAppended, indexArrayAt_appendAtLod _ _ _ _ h1]
    simp only [GLC_Mesh.moveLodGroups, moveGroupIndex_eq lod g d h0 h1 hg, Option.bind_eq_bind,
      Option.some_bind, ih _ hlen hrest, hidx, packedGroups, lodContent,
      GLC_MeshData.withAppended_append, Option.pure_def]

theorem appendAll_length (pg : PrimitiveGroupsHash) (ls : List GLC_Lod) :
    (appendAll ls pg).length = ls.length := by
  induction pg generalizing ls with
  | nil => rfl
  | cons e rest ih =>
    obtain ⟨lod, groups⟩ := e
    simp [appendAll, ih, appendAtLod_length]

theorem appendAll_other (pg : PrimitiveGroupsHash) (ls : List GLC_Lod) (n : Nat)
    (hn : ∀ e ∈ pg, e.1.toNat ≠ n) : (appendAll ls pg)[n]? = ls[n]? := by
  induction pg generalizing ls with
  | nil => rfl
  | cons e rest ih =>
    obtain ⟨lod, groups⟩ := e
    have h1 : lod.toNat ≠ n := hn (lod, groups) (List.mem_cons_self _ _)
    have h2 : ¬ n = lod.toNat := fun h => h1 h.symm
    rw [appendAll, ih _ (fun e he => hn e (List.mem_cons_of_mem _ he)), appendAtLod_getElem?]
    simp [h2]

theorem toNat_ne_of_ne (a b : Int) (ha : 0 ≤ a) (hb : 0 ≤ b) (h : a ≠ b) :
    a.toNat ≠ b.toNat := by
  omega

theorem appendAll_indexArrayAt (pg : PrimitiveGroupsHash) (ls : List GLC_Lod)
    (hnodup : (QHash.keys pg).Nodup)
    (hrange : ∀ e ∈ pg, 0 ≤ e.1 ∧ e.1.toNat < ls.length)
    (hempty : ∀ e ∈ pg, indexArrayAt ls e.1.toNat = [])
    (lod : Int) (groups : LodPrimitiveGroups) (hmem : (lod, groups) ∈ pg) :
    indexArrayAt (appendAll ls pg) lod.toNat = lodContent groups := by
  induction pg generalizing ls with
  | nil => simp at hmem
  | cons e rest ih =>
    obtain ⟨lod1, groups1⟩ := e
    simp only [QHash.keys, List.map_cons, List.nodup_cons] at hnodup
    have hr1 : 0 ≤ lod1 ∧ lod1.toNat < _ := hrange (lod1, groups1) (List.mem_cons_self _ _)
    have hne : ∀ e ∈ rest, e.1.toNat ≠ lod1.toNat := by
      intro e he
      have hre := hrange e (List.mem_cons_of_mem _ he)
      apply toNat_ne_of_ne _ _ hre.1 hr1.1
      intro h
      apply hnodup.1
      exact List.mem_map.2 ⟨e, he, h⟩
    rcases List.mem_cons.1 hmem with h | h
    · simp only [Prod.mk.injEq] at h
      obtain ⟨hl, hg⟩ := h
      subst hl; subst hg
      unfold indexArrayAt
      rw [appendAll, appendAll_other _ _ _ hne]
      have := indexArrayAt_appendAtLod ls lod.toNat lod.toNat (lodContent groups) hr1.2
      unfold indexArrayAt at this
      rw [this]
      have he := hempty (lod, groups) (List.mem_cons_self _ _)
      unfold indexArrayAt at he
      simp [he]
    · rw [appendAll]
      apply ih _ hnodup.2
      · intro e he
        rw [appendAtLod_length]
        exact hrange e (List.mem_cons_of_mem _ he)
      · intro e he
        rw [indexArrayAt_appendAtLod _ _ _ _ hr1.2]
        simp [hne e he, hempty e (List.mem_cons_of_mem _ he)]
      · exact h

theorem moveAllGroups_eq (pg : PrimitiveGroupsHash) (d : GLC_MeshData)
    (hnodup : (QHash.keys pg).Nodup)
    (hrange : ∀ e ∈ pg, 0 ≤ e.1 ∧ e.1.toNat < d.m_LodList.length)
    (hempty : ∀ e ∈ pg, indexArrayAt d.m_LodList e.1.toNat = [])
    (hs : ∀ e ∈ pg, ∀ x ∈ e.2, GroupSized x.2) :
    GLC_Mesh.moveAllGroups pg d =
      some (packedAll pg, { d with m_LodList := appendAll d.m_LodList pg }) := by
  induction pg generalizing d with
  | nil => simp [GLC_Mesh.moveAllGroups, packedAll, appendAll]
  | cons e rest ih =>
    obtain ⟨lod1, groups1⟩ := e
    simp only [QHash.keys, List.map_cons, List.nodup_cons] at hnodup
    have hr1 : 0 ≤ lod1 ∧ lod1.toNat < _ := hrange (lod1, groups1) (List.mem_cons_self _ _)
    have hne : ∀ e ∈ rest, e.1.toNat ≠ lod1.toNat := by
      intro e he
      have hre := hrange e (List.mem_cons_of_mem _ he)
      apply toNat_ne_of_ne _ _ hre.1 hr1.1
      intro h
      apply hnodup.1
      exact List.mem_map.2 ⟨e, he, h⟩
    have he1 := hempty (lod1, groups1) (List.mem_cons_self _ _)
    have hstep := moveLodGroups_eq lod1 groups1 d hr1.1 hr1.2
      (hs (lod1, groups1) (List.mem_cons_self _ _))
    have hrec := ih (d.withAppended lod1.toNat (lodContent groups1)) hnodup.2
      (by
        intro e he
        rw [GLC_MeshData.withAppended_length]
        exact hrange e (List.mem_cons_of_mem _ he))
      (by
        intro e he
        simp only [GLC_MeshData.withAppended]
        rw [indexArrayAt_appendAtLod _ _ _ _ hr1.2]
        simp [hne e he, hempty e (List.mem_cons_of_mem _ he)])
      (fun e he => hs e (List.mem_cons_of_mem _ he))
    simp only [GLC_Mesh.moveAllGroups, hstep, Option.bind_eq_bind, Option.some_bind, hrec,
      he1, List.length_nil, Option.pure_def]
    simp [packedAll, appendAll, GLC_MeshData.withAppended]

/-! ## Effect of `setCurrentMaterial` -/

namespace QHash

variable {κ ν : Type} [DecidableEq κ]

theorem modify_congr (h : QHash κ ν) (k : κ) (f g : ν → ν)
    (hfg : ∀ e ∈ h, e.1 = k → f e.2 = g e.2) : modify h k f = modify h k g := by
  unfold modify
  apply List.map_congr_left
  intro e he
  by_cases hk : e.1 = k
  · simp [hk, hfg e he hk]
  · simp [hk]

theorem modify_eq_self (h : QHash κ ν) (k : κ) (f : ν → ν)
    (hf : ∀ e ∈ h, e.1 = k → f e.2 = e.2) : modify h k f = h := by
  unfold modify
  conv_rhs => rw [← List.map_id h]
  apply List.map_congr_left
  intro e he
  by_cases hk : e.1 = k
  · simp only [hk, if_true, id, hf e he hk]
    rw [← hk]
  · simp [hk]

theorem contains_iff_mem_keys (h : QHash κ ν) (k : κ) : contains h k = true ↔ k ∈ keys h := by
  have := value_eq_none_iff h k
  unfold contains
  cases hv : value h k with
  | none => simp [hv] at this; simp [this]
  | some v =>
    simp only [Option.isSome_some, true_iff]
    by_contra hc
    rw [← value_eq_none_iff, hv] at hc
    exact Option.noConfusion hc

theorem entry_eq_of_value (h : QHash κ ν) (k : κ) (v : ν) (hn : (keys h).Nodup)
    (hv : value h k = some v) : ∀ e ∈ h, e.1 = k → e.2 = v := by
  intro e he hk
  have := value_of_mem h e.1 e.2 hn he
  rw [hk, hv] at this
  exact (Option.some.inj this).symm

end QHash

theorem ensureLod_nodup (lod : Int) (pg : PrimitiveGroupsHash) (h : (QHash.keys pg).Nodup) :
    (QHash.keys (ensureLod lod pg)).Nodup := by
  unfold ensureLod
  by_cases hc : QHash.contains pg lod = true
  · simp [hc, h]
  · have hk : lod ∉ QHash.keys pg := by
      rw [← QHash.contains_iff_mem_keys]; exact hc
    rw [if_neg hc]
    simp only [QHash.keys, List.map_append, List.map_cons, List.map_nil] at hk h ⊢
    apply List.Nodup.append h (List.nodup_singleton _)
    intro a ha hb
    rw [List.mem_singleton] at hb
    exact hk (hb ▸ ha)

theorem ensureLod_value (lod : Int) (pg : PrimitiveGroupsHash) :
    QHash.value (ensureLod lod pg) lod = some ((QHash.value pg lod).getD []) := by
  unfold ensureLod
  by_cases hc : QHash.contains pg lod = true
  · simp only [hc, if_true]
    unfold QHash.contains at hc
    cases hv : QHash.value pg lod with
    | none => simp [hv] at hc
    | some v => simp
  · have hn : QHash.value pg lod = none := by
      rw [← QHash.contains_eq_false_iff]; simpa using hc
    rw [if_neg hc, QHash.value_append, hn]
    simp [QHash.value]

theorem ensureLod_mem (lod : Int) (pg : PrimitiveGroupsHash) (e : Int × LodPrimitiveGroups)
    (he : e ∈ ensureLod lod pg) : e ∈ pg ∨ e = (lod, []) := by
  unfold ensureLod at he
  by_cases hc : QHash.contains pg lod = true
  · simp only [hc, if_true] at he; exact Or.inl he
  · rw [if_neg hc] at he
    rcases List.mem_append.1 he with h | h
    · exact Or.inl h
    · right; simpa using h

theorem ensureGroup_of_not_contains (lod : Int) (id : GLC_uint) (pg : PrimitiveGroupsHash)
    (gs0 : LodPrimitiveGroups) (hent : ∀ e ∈ pg, e.1 = lod → e.2 = gs0)
    (hc : QHash.contains gs0 id = false) :
    QHash.modify pg lod (fun groups => QHash.insert groups id (GLC_PrimitiveGroup.new id)) =
      ensureGroup lod id pg := by
  unfold ensureGroup
  apply QHash.modify_congr
  intro e he hk
  rw [hent e he hk]
  simp [QHash.insert, hc]

theorem ensureGroup_of_contains (lod : Int) (id : GLC_uint) (pg : PrimitiveGroupsHash)
    (gs0 : LodPrimitiveGroups) (hent : ∀ e ∈ pg, e.1 = lod → e.2 = gs0)
    (hc : QHash.contains gs0 id = true) :
    ensureGroup lod id pg = pg := by
  unfold ensureGroup
  apply QHash.modify_eq_self
  intro e he hk
  rw [hent e he hk]
  simp [hc]

theorem Ingesting.not_contains_of_not_registered (m : GLC_Mesh) (h : m.Ingesting) (lod : Int)
    (id : GLC_uint) (hid : id ∉ m.m_MaterialHash) :
    QHash.contains ((QHash.value m.m_PrimitiveGroups lod).getD []) id = false := by
  cases hv : QHash.value m.m_PrimitiveGroups lod with
  | none => simp [QHash.contains, QHash.value]
  | some gs =>
    simp only [Option.getD_some]
    by_contra hc
    have hc2 : QHash.contains gs id = true := by simpa using hc
    rw [QHash.contains_iff_mem_keys] at hc2
    obtain ⟨x, hx, hx1⟩ := List.mem_map.1 hc2
    have := h.registered (lod, gs) (QHash.mem_of_value _ _ _ hv) x hx
    rw [hx1] at this
    exact hid this

theorem setCurrentMaterial_eq (m : GLC_Mesh) (h : m.Ingesting) (c : AddCall) :
    m.setCurrentMaterial c.pMaterial c.lod c.accuracy c.newId =
      ({ m with
          m_PrimitiveGroups :=
            ensureGroup c.lod (c.groupId m.m_DefaultMaterialId)
              (ensureLod c.lod m.m_PrimitiveGroups)
          m_MeshData :=
            if QHash.contains m.m_PrimitiveGroups c.lod then m.m_MeshData
            else m.m_MeshData.appendLod c.accuracy
          m_DefaultMaterialId := c.nextDefault m.m_DefaultMaterialId
          m_MaterialHash := c.materials m.m_DefaultMaterialId m.m_MaterialHash },
        c.groupId m.m_DefaultMaterialId) := by
  have hv1 := ensureLod_value c.lod m.m_PrimitiveGroups
  have hn1 := ensureLod_nodup c.lod m.m_PrimitiveGroups h.lodNodup
  have hent := QHash.entry_eq_of_value _ _ _ hn1 hv1
  have hA := fun id => ensureGroup_of_not_contains c.lod id _ _ hent
  have hB := fun id => ensureGroup_of_contains c.lod id _ _ hent
  have hR := fun id => Ingesting.not_contains_of_not_registered m h c.lod id
  have hins : QHash.contains m.m_PrimitiveGroups c.lod = false →
      QHash.insert m.m_PrimitiveGroups c.lod [] = ensureLod c.lod m.m_PrimitiveGroups := by
    intro hc
    rw [QHash.insert_of_not_contains _ _ _ hc]
    simp [ensureLod, hc]
  have hself : QHash.contains m.m_PrimitiveGroups c.lod = true →
      m.m_PrimitiveGroups = ensureLod c.lod m.m_PrimitiveGroups := by
    intro hc
    simp [ensureLod, hc]
  generalize hgs0 : (QHash.value m.m_PrimitiveGroups c.lod).getD [] = gs0 at hv1 hent hA hB hR
  generalize hpg1 : ensureLod c.lod m.m_PrimitiveGroups = pg1 at hv1 hent hA hB hins hself hn1
  unfold GLC_Mesh.setCurrentMaterial AddCall.groupId AddCall.nextDefault AddCall.materials
  cases hp : c.pMaterial with
  | none =>
    by_cases hc : QHash.contains m.m_PrimitiveGroups c.lod = true
    · have hpg := hself hc
      subst hpg
      by_cases hd : m.m_DefaultMaterialId = 0
      · by_cases hg : QHash.contains gs0 c.newId = true
        · simp [hc, hd, hg, GLC_Mesh.addMaterial, hv1, hB _ hg]
        · simp [hc, hd, hg, GLC_Mesh.addMaterial, hv1, hA _ (by simpa using hg)]
      · by_cases hg : QHash.contains gs0 m.m_DefaultMaterialId = true
        · simp [hc, hd, hg, GLC_Mesh.addMaterial, hv1, hB _ hg]
        · simp [hc, hd, hg, GLC_Mesh.addMaterial, hv1, hA _ (by simpa using hg)]
    · have hc2 : QHash.contains m.m_PrimitiveGroups c.lod = false := by simpa using hc
      have hpg := hins hc2
      subst hpg
      by_cases hd : m.m_DefaultMaterialId = 0
      · by_cases hg : QHash.contains gs0 c.newId = true
        · simp [hc2, hd, hg, GLC_Mesh.addMaterial, hv1, hB _ hg]
        · simp [hc2, hd, hg, GLC_Mesh.addMaterial, hv1, hA _ (by simpa using hg)]
      · by_cases hg : QHash.contains gs0 m.m_DefaultMaterialId = true
        · simp [hc2, hd, hg, GLC_Mesh.addMaterial, hv1, hB _ hg]
        · simp [hc2, hd, hg, GLC_Mesh.addMaterial, hv1, hA _ (by simpa using hg)]
  | some id =>
    by_cases hc : QHash.contains m.m_PrimitiveGroups c.lod = true
    · have hpg := hself hc
      subst hpg
      by_cases hm : id ∈ m.m_MaterialHash
      · by_cases hg : QHash.contains gs0 id = true
        · simp [hc, hm, hg, GLC_Mesh.addMaterial, GLC_Mesh.containsMaterial, hv1,
            hB _ hg]
        · simp [hc, hm, hg, GLC_Mesh.addMaterial, GLC_Mesh.containsMaterial, hv1,
            hA _ (by simpa using hg)]
      · simp [hc, hm, GLC_Mesh.addMaterial, GLC_Mesh.containsMaterial, hA _ (hR _ hm)]
    · have hc2 : QHash.contains m.m_PrimitiveGroups c.lod = false := by simpa using hc
      have hpg := hins hc2
      subst hpg
      by_cases hm : id ∈ m.m_MaterialHash
      · by_cases hg : QHash.contains gs0 id = true
        · simp [hc2, hm, hg, GLC_Mesh.addMaterial, GLC_Mesh.containsMaterial, hv1,
            hB _ hg]
        · simp [hc2, hm, hg, GLC_Mesh.addMaterial, GLC_Mesh.containsMaterial, hv1,
            hA _ (by simpa using hg)]
      · simp [hc2, hm, GLC_Mesh.addMaterial, GLC_Mesh.containsMaterial, hA _ (hR _ hm)]

/-! ## Effect of one ingestion call -/

theorem contains_append_self (gs : LodPrimitiveGroups) (id : GLC_uint) (g : GLC_PrimitiveGroup) :
    QHash.contains (gs ++ [(id, g)]) id = true := by
  unfold QHash.contains
  rw [QHash.value_append]
  cases QHash.value gs id <;> simp [QHash.value]

theorem lodContainsGroup_ensure (m : GLC_Mesh) (lod : Int) (id : GLC_uint)
    (pg : PrimitiveGroupsHash) (hm : m.m_PrimitiveGroups = ensureGroup lod id (ensureLod lod pg)) :
    m.lodContainsGroup lod id = true := by
  unfold GLC_Mesh.lodContainsGroup
  rw [hm, ensureGroup, QHash.value_modify, ensureLod_value]
  simp only [if_true, Option.map_some']
  by_cases hc : QHash.contains ((QHash.value pg lod).getD []) id = true
  · simp [hc]
  · simp [hc, contains_append_self]

theorem addTo_eq (c : AddCall) (id : GLC_uint) :
    c.addTo id = fun g =>
      match c.kind with
      | .triangles => g.addTriangles c.indexList id
      | .strip => g.addTrianglesStrip c.indexList id
      | .fan => g.addTrianglesFan c.indexList id := by
  funext g
  rfl

theorem applyCall_eq (m : GLC_Mesh) (h : m.Ingesting) (c : AddCall) (hne : c.indexList ≠ []) :
    applyCall m c =
      some (c.result m, if c.lod = 0 then m.m_NextPrimitiveLocalId else 0) := by
  have hset := setCurrentMaterial_eq m h c
  have hcont := lodContainsGroup_ensure
    (m.setCurrentMaterial c.pMaterial c.lod c.accuracy c.newId).1 c.lod
    (c.groupId m.m_DefaultMaterialId) m.m_PrimitiveGroups (by rw [hset])
  rw [hset] at hcont
  have hemp : c.indexList.isEmpty = false := by
    cases hl : c.indexList with
    | nil => exact absurd hl hne
    | cons a t => rfl
  unfold applyCall
  cases hk : c.kind with
  | triangles =>
    simp only [GLC_Mesh.addTriangles, hset, hcont, hemp]
    by_cases h0 : c.lod = 0
    · simp [AddCall.result, h0, hk, AddCall.triangleCount, addTo_eq, GLC_Mesh.modifyGroup]
    · simp [AddCall.result, h0, hk, AddCall.triangleCount, addTo_eq, GLC_Mesh.modifyGroup]
  | strip =>
    simp only [GLC_Mesh.addTrianglesStrip, hset, hcont, hemp]
    by_cases h0 : c.lod = 0
    · simp [AddCall.result, h0, hk, AddCall.triangleCount, addTo_eq, GLC_Mesh.modifyGroup]
    · simp [AddCall.result, h0, hk, AddCall.triangleCount, addTo_eq, GLC_Mesh.modifyGroup]
  | fan =>
    simp only [GLC_Mesh.addTrianglesFan, hset, hcont, hemp]
    by_cases h0 : c.lod = 0
    · simp [AddCall.result, h0, hk, AddCall.triangleCount, addTo_eq, GLC_Mesh.modifyGroup]
    · simp [AddCall.result, h0, hk, AddCall.triangleCount, addTo_eq, GLC_Mesh.modifyGroup]

theorem applyCall_empty (m : GLC_Mesh) (c : AddCall) (he : c.indexList = []) :
    applyCall m c = none := by
  unfold applyCall
  cases hk : c.kind <;>
    simp [GLC_Mesh.addTriangles, GLC_Mesh.addTrianglesStrip, GLC_Mesh.addTrianglesFan, he]

/-! ## The ingestion invariant -/

namespace QHash

variable {κ ν : Type} [DecidableEq κ]

theorem mem_modify (h : QHash κ ν) (k : κ) (f : ν → ν) (e1 : κ × ν) (he : e1 ∈ modify h k f) :
    ∃ e ∈ h, e1.1 = e.1 ∧ (e1.2 = e.2 ∨ (e.1 = k ∧ e1.2 = f e.2)) := by
  unfold modify at he
  obtain ⟨e, he, heq⟩ := List.mem_map.1 he
  refine ⟨e, he, ?_⟩
  by_cases hk : e.1 = k
  · simp only [hk, if_true] at heq
    subst heq
    exact ⟨hk.symm, Or.inr ⟨hk, rfl⟩⟩
  · simp only [hk, if_false] at heq
    subst heq
    exact ⟨rfl, Or.inl rfl⟩

theorem modify_modify (h : QHash κ ν) (k : κ) (f g : ν → ν) :
    modify (modify h k f) k g = modify h k (fun v => g (f v)) := by
  unfold modify
  rw [List.map_map]
  apply List.map_congr_left
  intro e _
  by_cases hk : e.1 = k <;> simp [hk]

theorem length_modify (h : QHash κ ν) (k : κ) (f : ν → ν) : (modify h k f).length = h.length := by
  simp [modify]

end QHash

/-- The group list with a group of material `id` (helper of `ensureGroup`). -/
theorem ensureGroup_eq (lod : Int) (id : GLC_uint) (pg : PrimitiveGroupsHash)
    (f : GLC_PrimitiveGroup → GLC_PrimitiveGroup) :
    QHash.modify (ensureGroup lod id pg) lod (fun groups => QHash.modify groups id f) =
      QHash.modify pg lod (fun groups =>
        QHash.modify
          (if QHash.contains groups id then groups
            else groups ++ [(id, GLC_PrimitiveGroup.new id)]) id f) := by
  unfold ensureGroup
  rw [QHash.modify_modify]

theorem mem_ensured (gs : LodPrimitiveGroups) (id : GLC_uint)
    (x : GLC_uint × GLC_PrimitiveGroup)
    (hx : x ∈ (if QHash.contains gs id then gs else gs ++ [(id, GLC_PrimitiveGroup.new id)])) :
    x ∈ gs ∨ x = (id, GLC_PrimitiveGroup.new id) := by
  by_cases hc : QHash.contains gs id = true
  · rw [if_pos hc] at hx; exact Or.inl hx
  · rw [if_neg hc] at hx
    rcases List.mem_append.1 hx with h | h
    · exact Or.inl h
    · right; simpa using h

theorem nodup_ensured (gs : LodPrimitiveGroups) (id : GLC_uint) (h : (QHash.keys gs).Nodup) :
    (QHash.keys
      (if QHash.contains gs id then gs else gs ++ [(id, GLC_PrimitiveGroup.new id)])).Nodup := by
  by_cases hc : QHash.contains gs id = true
  · rw [if_pos hc]; exact h
  · have hk : id ∉ QHash.keys gs := by
      rw [← QHash.contains_iff_mem_keys]; exact hc
    rw [if_neg hc]
    simp only [QHash.keys, List.map_append, List.map_cons, List.map_nil] at hk h ⊢
    apply List.Nodup.append h (List.nodup_singleton _)
    intro a ha hb
    rw [List.mem_singleton] at hb
    exact hk (hb ▸ ha)

theorem result_entries (c : AddCall) (m : GLC_Mesh) (e1 : Int × LodPrimitiveGroups)
    (he : e1 ∈ (c.result m).m_PrimitiveGroups) :
    ∃ gs, ((e1.1, gs) ∈ m.m_PrimitiveGroups ∨ gs = []) ∧
      (e1.2 = gs ∨ e1.2 = QHash.modify
        (if QHash.contains gs (c.groupId m.m_DefaultMaterialId) then gs
          else gs ++ [(c.groupId m.m_DefaultMaterialId,
            GLC_PrimitiveGroup.new (c.groupId m.m_DefaultMaterialId))])
        (c.groupId m.m_DefaultMaterialId)
        (c.addTo (if c.lod = 0 then m.m_NextPrimitiveLocalId else 0))) := by
  simp only [AddCall.result] at he
  rw [ensureGroup_eq] at he
  obtain ⟨e, he0, h1, h2⟩ := QHash.mem_modify _ _ _ _ he
  refine ⟨e.2, ?_, ?_⟩
  · rcases ensureLod_mem _ _ _ he0 with h | h
    · left; rw [h1]; exact h
    · right; rw [h]
  · rcases h2 with h | ⟨_, h⟩
    · exact Or.inl h
    · exact Or.inr h

theorem GroupSized_new (id : GLC_uint) : GroupSized (GLC_PrimitiveGroup.new id) := by
  simp [GroupSized, GLC_PrimitiveGroup.new]

theorem GroupSized_addTo (c : AddCall) (id : GLC_uint) (g : GLC_PrimitiveGroup)
    (h : GroupSized g) : GroupSized (c.addTo id g) := by
  obtain ⟨h1, h2, h3, h4, h5⟩ := h
  unfold AddCall.addTo
  cases c.kind
  · simp [GroupSized, GLC_PrimitiveGroup.addTriangles, h1, h2, h3, h4, h5]
  · simp [GroupSized, GLC_PrimitiveGroup.addTrianglesStrip, PrimitiveRuns.add, h1, h2, h3, h4, h5]
  · simp [GroupSized, GLC_PrimitiveGroup.addTrianglesFan, PrimitiveRuns.add, h1, h2, h3, h4, h5]

theorem materials_subset (c : AddCall) (d : GLC_uint) (hash : List GLC_uint) (id : GLC_uint)
    (h : id ∈ hash) : id ∈ c.materials d hash := by
  unfold AddCall.materials
  cases c.pMaterial with
  | none => by_cases hd : d = 0 <;> simp [hd, h]
  | some x => by_cases hx : x ∈ hash <;> simp [hx, h]

theorem groupId_mem_materials (c : AddCall) (d : GLC_uint) (hash : List GLC_uint)
    (hd : d ≠ 0 → d ∈ hash) : c.groupId d ∈ c.materials d hash := by
  unfold AddCall.materials AddCall.groupId
  cases c.pMaterial with
  | none =>
    by_cases h0 : d = 0
    · simp [h0]
    · simp [h0, hd h0]
  | some x => by_cases hx : x ∈ hash <;> simp [hx]

theorem nextDefault_mem_materials (c : AddCall) (d : GLC_uint) (hash : List GLC_uint)
    (hd : d ≠ 0 → d ∈ hash) (hn : c.nextDefault d ≠ 0) :
    c.nextDefault d ∈ c.materials d hash := by
  unfold AddCall.materials AddCall.nextDefault at *
  cases hp : c.pMaterial with
  | none =>
    by_cases h0 : d = 0
    · simp [h0]
    · simp [h0, hd h0]
  | some x =>
    simp only [hp] at hn
    by_cases hx : x ∈ hash <;> simp [hx, hd hn]

namespace GLC_MeshData

theorem trianglesAdded_indexVectors (d : GLC_MeshData) (lod : Int) (n : Int) :
    (d.trianglesAdded lod n).m_LodList.map GLC_Lod.indexVector =
      d.m_LodList.map GLC_Lod.indexVector := by
  unfold trianglesAdded
  cases hg : d.getLod lod with
  | none => rfl
  | some l =>
    simp only [List.map_set]
    unfold getLod at hg
    by_cases h0 : 0 ≤ lod
    · simp only [h0, if_true] at hg
      apply List.ext_getElem?
      intro j
      rw [List.getElem?_set]
      by_cases hj : lod.toNat = j
      · subst hj
        simp only [if_true, List.length_map, List.getElem?_map, hg, Option.map_some']
        have : lod.toNat < d.m_LodList.length := by
          by_contra hc
          rw [List.getElem?_eq_none (by omega)] at hg
          exact Option.noConfusion hg
        simp [this]
      · simp [hj]
    · simp [h0] at hg

theorem trianglesAdded_length (d : GLC_MeshData) (lod : Int) (n : Int) :
    (d.trianglesAdded lod n).m_LodList.length = d.m_LodList.length := by
  have := congrArg List.length (trianglesAdded_indexVectors d lod n)
  simpa using this

theorem trianglesAdded_positions (d : GLC_MeshData) (lod : Int) (n : Int) :
    (d.trianglesAdded lod n).m_Positions = d.m_Positions := by
  unfold trianglesAdded
  cases d.getLod lod <;> rfl

theorem indexEmpty_of_map (ls : List GLC_Lod)
    (h : ls.map GLC_Lod.indexVector = List.replicate ls.length []) :
    ∀ l ∈ ls, l.indexVector = [] := by
  intro l hl
  have : l.indexVector ∈ ls.map GLC_Lod.indexVector := List.mem_map.2 ⟨l, hl, rfl⟩
  rw [h] at this
  exact (List.mem_replicate.1 this).2

theorem map_of_indexEmpty (ls : List GLC_Lod) (h : ∀ l ∈ ls, l.indexVector = []) :
    ls.map GLC_Lod.indexVector = List.replicate ls.length [] := by
  induction ls with
  | nil => rfl
  | cons a t ih =>
    simp only [List.map_cons, List.length_cons, List.replicate_succ]
    rw [h a (List.mem_cons_self _ _), ih (fun l hl => h l (List.mem_cons_of_mem _ hl))]

end GLC_MeshData

theorem Ingesting_new : GLC_Mesh.new.Ingesting := by
  constructor <;> simp [GLC_Mesh.new, QHash.keys]

theorem result_lodList (c : AddCall) (m : GLC_Mesh) :
    (c.result m).m_MeshData.m_LodList.map GLC_Lod.indexVector =
      if QHash.contains m.m_PrimitiveGroups c.lod then
        m.m_MeshData.m_LodList.map GLC_Lod.indexVector
      else m.m_MeshData.m_LodList.map GLC_Lod.indexVector ++ [[]] := by
  simp only [AddCall.result, GLC_MeshData.trianglesAdded_indexVectors]
  by_cases hc : QHash.contains m.m_PrimitiveGroups c.lod = true
  · simp [hc]
  · simp [hc, GLC_MeshData.appendLod]

theorem result_groups_length (c : AddCall) (m : GLC_Mesh) :
    (c.result m).m_PrimitiveGroups.length =
      if QHash.contains m.m_PrimitiveGroups c.lod then m.m_PrimitiveGroups.length
      else m.m_PrimitiveGroups.length + 1 := by
  simp only [AddCall.result, QHash.length_modify, ensureGroup]
  unfold ensureLod
  by_cases hc : QHash.contains m.m_PrimitiveGroups c.lod = true
  · simp [hc]
  · simp [hc]

theorem Ingesting_result (c : AddCall) (m : GLC_Mesh) (h : m.Ingesting) :
    (c.result m).Ingesting := by
  have hsub := materials_subset c m.m_DefaultMaterialId m.m_MaterialHash
  have hgid := groupId_mem_materials c m.m_DefaultMaterialId m.m_MaterialHash
    h.defaultRegistered
  constructor
  · simp only [AddCall.result, QHash.keys_modify, ensureGroup]
    exact ensureLod_nodup _ _ h.lodNodup
  · intro e1 he1 x1 hx1
    obtain ⟨gs, hgs, h2⟩ := result_entries c m e1 he1
    have hreg : ∀ x ∈ gs, x.1 ∈ m.m_MaterialHash := by
      intro x hx
      rcases hgs with h0 | h0
      · exact h.registered _ h0 x hx
      · rw [h0] at hx; simp at hx
    show x1.1 ∈ c.materials m.m_DefaultMaterialId m.m_MaterialHash
    rcases h2 with h2 | h2
    · rw [h2] at hx1
      exact hsub _ (hreg x1 hx1)
    · rw [h2] at hx1
      obtain ⟨x, hx, hx1k, _⟩ := QHash.mem_modify _ _ _ _ hx1
      rw [hx1k]
      rcases mem_ensured _ _ _ hx with h3 | h3
      · exact hsub _ (hreg x h3)
      · rw [h3]; exact hgid
  · intro hn
    exact nextDefault_mem_materials c m.m_DefaultMaterialId m.m_MaterialHash
      h.defaultRegistered hn
  · intro e1 he1
    obtain ⟨gs, hgs, h2⟩ := result_entries c m e1 he1
    have hnd : (QHash.keys gs).Nodup := by
      rcases hgs with h0 | h0
      · exact h.groupNodup _ h0
      · rw [h0]; simp [QHash.keys]
    rcases h2 with h2 | h2
    · rw [h2]; exact hnd
    · rw [h2, QHash.keys_modify]
      exact nodup_ensured _ _ hnd
  · intro e1 he1 x1 hx1
    obtain ⟨gs, hgs, h2⟩ := result_entries c m e1 he1
    have hsz : ∀ x ∈ gs, GroupSized x.2 := by
      intro x hx
      rcases hgs with h0 | h0
      · exact h.sized _ h0 x hx
      · rw [h0] at hx; simp at hx
    rcases h2 with h2 | h2
    · rw [h2] at hx1
      exact hsz x1 hx1
    · rw [h2] at hx1
      obtain ⟨x, hx, _, hx2⟩ := QHash.mem_modify _ _ _ _ hx1
      have hx0 : GroupSized x.2 := by
        rcases mem_ensured _ _ _ hx with h3 | h3
        · exact hsz x h3
        · rw [h3]; exact GroupSized_new _
      rcases hx2 with h4 | ⟨_, h4⟩
      · rw [h4]; exact hx0
      · rw [h4]; exact GroupSized_addTo _ _ _ hx0
  · have h1 := congrArg List.length (result_lodList c m)
    rw [List.length_map] at h1
    rw [h1, result_groups_length]
    by_cases hc : QHash.contains m.m_PrimitiveGroups c.lod = true
    · simp [hc, h.lodCount]
    · simp [hc, h.lodCount]
  · apply GLC_MeshData.indexEmpty_of_map
    have h1 := result_lodList c m
    have h0 := GLC_MeshData.map_of_indexEmpty _ h.indexEmpty
    have hl := congrArg List.length h1
    rw [List.length_map] at hl
    rw [h1, hl]
    by_cases hc : QHash.contains m.m_PrimitiveGroups c.lod = true
    · simp [hc, h0]
    · simp [hc, h0, List.replicate_succ']

theorem Ingesting_resultAll (cs : List AddCall) (m : GLC_Mesh) (h : m.Ingesting) :
    (AddCall.resultAll cs m).Ingesting := by
  induction cs generalizing m with
  | nil => exact h
  | cons c cs ih => exact ih _ (Ingesting_result c m h)

theorem applyCalls_eq (cs : List AddCall) (m : GLC_Mesh) (h : m.Ingesting)
    (hne : ∀ c ∈ cs, c.indexList ≠ []) :
    applyCalls m cs =
      some (AddCall.resultAll cs m, AddCall.idsAll cs m.m_NextPrimitiveLocalId) := by
  induction cs generalizing m with
  | nil => rfl
  | cons c cs ih =>
    have h1 := applyCall_eq m h c (hne c (List.mem_cons_self _ _))
    have h2 := ih (c.result m) (Ingesting_result c m h)
      (fun c hc => hne c (List.mem_cons_of_mem _ hc))
    simp only [applyCalls, h1, h2, Option.bind_eq_bind, Option.some_bind, Option.pure_def,
      AddCall.resultAll, AddCall.idsAll]
    simp [AddCall.result]

/-! ## The group found under a LOD and a material after a call -/

theorem ensured_value (gs : LodPrimitiveGroups) (gid id : GLC_uint) :
    QHash.value
        (if QHash.contains gs gid then gs else gs ++ [(gid, GLC_PrimitiveGroup.new gid)]) id =
      if id = gid then some ((QHash.value gs gid).getD (GLC_PrimitiveGroup.new gid))
      else QHash.value gs id := by
  by_cases hc : QHash.contains gs gid = true
  · rw [if_pos hc]
    by_cases hid : id = gid
    · subst hid
      unfold QHash.contains at hc
      cases hv : QHash.value gs id with
      | none => simp [hv] at hc
      | some g => simp
    · simp [hid]
  · rw [if_neg hc, QHash.value_append]
    have hn : QHash.value gs gid = none := by
      rw [← QHash.contains_eq_false_iff]; simpa using hc
    by_cases hid : id = gid
    · subst hid
      simp [hn, QHash.value]
    · have h2 : ¬ gid = id := fun h => hid h.symm
      simp [hid, h2, QHash.value]

theorem ensureLod_value_other (lod lod1 : Int) (pg : PrimitiveGroupsHash) (h : lod1 ≠ lod) :
    QHash.value (ensureLod lod pg) lod1 = QHash.value pg lod1 := by
  unfold ensureLod
  by_cases hc : QHash.contains pg lod = true
  · rw [if_pos hc]
  · have h2 : ¬ lod = lod1 := fun h3 => h h3.symm
    rw [if_neg hc, QHash.value_append]
    simp [QHash.value, h2]

theorem group_result (c : AddCall) (m : GLC_Mesh) (lod : Int) (id : GLC_uint) :
    (c.result m).group lod id =
      if lod = c.lod ∧ id = c.groupId m.m_DefaultMaterialId then
        some (c.addTo (if c.lod = 0 then m.m_NextPrimitiveLocalId else 0)
          ((m.group lod id).getD (GLC_PrimitiveGroup.new id)))
      else m.group lod id := by
  unfold GLC_Mesh.group
  simp only [AddCall.result]
  rw [ensureGroup_eq, QHash.value_modify]
  by_cases hl : lod = c.lod
  · subst hl
    simp only [if_true, ensureLod_value, Option.map_some', true_and, QHash.value_modify,
      ensured_value]
    by_cases hid : id = c.groupId m.m_DefaultMaterialId
    · subst hid
      cases hv : QHash.value m.m_PrimitiveGroups c.lod <;> simp [QHash.value]
    · cases hv : QHash.value m.m_PrimitiveGroups c.lod <;> simp [hid, QHash.value]
  · simp only [hl, if_false, false_and]
    rw [ensureLod_value_other _ _ _ hl]

/-! ## The indices held by a group after a sequence of calls -/

theorem splitRuns_append (sizes : List Nat) (l input : List GLuint)
    (h : sizes.sum = l.length) :
    splitRuns (sizes ++ [input.length]) (l ++ input) = splitRuns sizes l ++ [input] := by
  induction sizes generalizing l with
  | nil =>
    have hl : l = [] := List.eq_nil_of_length_eq_zero (by simpa using h.symm)
    subst hl
    simp [splitRuns]
  | cons a t ih =>
    simp only [List.sum_cons] at h
    have ha : a ≤ l.length := by omega
    have hrec := ih (l.drop a) (by simp; omega)
    simp only [List.cons_append, splitRuns, List.take_append_of_le_length ha,
      List.drop_append_of_le_length ha, List.append_eq] at hrec ⊢
    rw [hrec]

theorem group_sized (m : GLC_Mesh) (h : m.Ingesting) (lod : Int) (id : GLC_uint)
    (g : GLC_PrimitiveGroup) (hg : m.group lod id = some g) : GroupSized g := by
  unfold GLC_Mesh.group at hg
  cases hv : QHash.value m.m_PrimitiveGroups lod with
  | none => simp [hv] at hg
  | some gs =>
    simp only [hv] at hg
    exact h.sized (lod, gs) (QHash.mem_of_value _ _ _ hv) (id, g) (QHash.mem_of_value _ _ _ hg)

theorem trianglesOf_result (c : AddCall) (m : GLC_Mesh) (lod : Int) (id : GLC_uint) :
    (c.result m).trianglesOf lod id =
      m.trianglesOf lod id ++
        (if c.kind = .triangles ∧ c.lod = lod ∧ c.groupId m.m_DefaultMaterialId = id then
          c.indexList else []) := by
  unfold GLC_Mesh.trianglesOf
  rw [group_result]
  by_cases hl : lod = c.lod ∧ id = c.groupId m.m_DefaultMaterialId
  · obtain ⟨h1, h2⟩ := hl
    subst h1; subst h2
    simp only [and_self, if_true, true_and, and_true]
    cases hk : c.kind <;> cases hg : m.group c.lod (c.groupId m.m_DefaultMaterialId) <;>
      simp [AddCall.addTo, hk, GLC_PrimitiveGroup.addTriangles, GLC_PrimitiveGroup.new,
        GLC_PrimitiveGroup.addTrianglesStrip, GLC_PrimitiveGroup.addTrianglesFan]
  · have h2 : ¬ (c.kind = .triangles ∧ c.lod = lod ∧ c.groupId m.m_DefaultMaterialId = id) := by
      intro h; exact hl ⟨h.2.1.symm, h.2.2.symm⟩
    simp [hl, h2]

theorem stripsOf_result (c : AddCall) (m : GLC_Mesh) (h : m.Ingesting) (lod : Int)
    (id : GLC_uint) :
    (c.result m).stripsOf lod id =
      m.stripsOf lod id ++
        (if c.kind = .strip ∧ c.lod = lod ∧ c.groupId m.m_DefaultMaterialId = id then
          [c.indexList] else []) := by
  unfold GLC_Mesh.stripsOf
  rw [group_result]
  by_cases hl : lod = c.lod ∧ id = c.groupId m.m_DefaultMaterialId
  · obtain ⟨h1, h2⟩ := hl
    subst h1; subst h2
    simp only [and_self, if_true, true_and, and_true]
    cases hg : m.group c.lod (c.groupId m.m_DefaultMaterialId) with
    | none =>
      cases hk : c.kind <;>
        simp [AddCall.addTo, hk, GLC_PrimitiveGroup.addTriangles, GLC_PrimitiveGroup.new,
          GLC_PrimitiveGroup.addTrianglesStrip, GLC_PrimitiveGroup.addTrianglesFan,
          PrimitiveRuns.add, splitRuns]
    | some g =>
      have hs := group_sized m h _ _ g hg
      cases hk : c.kind
      · simp [AddCall.addTo, hk, GLC_PrimitiveGroup.addTriangles]
      · simp [AddCall.addTo, hk, GLC_PrimitiveGroup.addTrianglesStrip, PrimitiveRuns.add,
          splitRuns_append _ _ _ hs.2.2.1]
      · simp [AddCall.addTo, hk, GLC_PrimitiveGroup.addTrianglesFan]
  · have h2 : ¬ (c.kind = .strip ∧ c.lod = lod ∧ c.groupId m.m_DefaultMaterialId = id) := by
      intro h; exact hl ⟨h.2.1.symm, h.2.2.symm⟩
    simp [hl, h2]

theorem fansOf_result (c : AddCall) (m : GLC_Mesh) (h : m.Ingesting) (lod : Int)
    (id : GLC_uint) :
    (c.result m).fansOf lod id =
      m.fansOf lod id ++
        (if c.kind = .fan ∧ c.lod = lod ∧ c.groupId m.m_DefaultMaterialId = id then
          [c.indexList] else []) := by
  unfold GLC_Mesh.fansOf
  rw [group_result]
  by_cases hl : lod = c.lod ∧ id = c.groupId m.m_DefaultMaterialId
  · obtain ⟨h1, h2⟩ := hl
    subst h1; subst h2
    simp only [and_self, if_true, true_and, and_true]
    cases hg : m.group c.lod (c.groupId m.m_DefaultMaterialId) with
    | none =>
      cases hk : c.kind <;>
        simp [AddCall.addTo, hk, GLC_PrimitiveGroup.addTriangles, GLC_PrimitiveGroup.new,
          GLC_PrimitiveGroup.addTrianglesStrip, GLC_PrimitiveGroup.addTrianglesFan,
          PrimitiveRuns.add, splitRuns]
    | some g =>
      have hs := group_sized m h _ _ g hg
      cases hk : c.kind
      · simp [AddCall.addTo, hk, GLC_PrimitiveGroup.addTriangles]
      · simp [AddCall.addTo, hk, GLC_PrimitiveGroup.addTrianglesStrip]
      · simp [AddCall.addTo, hk, GLC_PrimitiveGroup.addTrianglesFan, PrimitiveRuns.add,
          splitRuns_append _ _ _ hs.2.2.2.2]
  · have h2 : ¬ (c.kind = .fan ∧ c.lod = lod ∧ c.groupId m.m_DefaultMaterialId = id) := by
      intro h; exact hl ⟨h.2.1.symm, h.2.2.symm⟩
    simp [hl, h2]

theorem trianglesOf_resultAll (cs : List AddCall) (m : GLC_Mesh) (lod : Int) (id : GLC_uint) :
    (AddCall.resultAll cs m).trianglesOf lod id =
      m.trianglesOf lod id ++
        (AddCall.batches .triangles lod id m.m_DefaultMaterialId cs).flatten := by
  induction cs generalizing m with
  | nil => simp [AddCall.resultAll, AddCall.batches]
  | cons c cs ih =>
    rw [AddCall.resultAll, ih, trianglesOf_result, AddCall.batches]
    have hd : (c.result m).m_DefaultMaterialId = c.nextDefault m.m_DefaultMaterialId := rfl
    rw [hd]
    by_cases hc : c.kind = .triangles ∧ c.lod = lod ∧ c.groupId m.m_DefaultMaterialId = id
    · simp [hc]
    · simp [hc]

theorem stripsOf_resultAll (cs : List AddCall) (m : GLC_Mesh) (h : m.Ingesting) (lod : Int)
    (id : GLC_uint) :
    (AddCall.resultAll cs m).stripsOf lod id =
      m.stripsOf lod id ++ AddCall.batches .strip lod id m.m_DefaultMaterialId cs := by
  induction cs generalizing m with
  | nil => simp [AddCall.resultAll, AddCall.batches]
  | cons c cs ih =>
    rw [AddCall.resultAll, ih _ (Ingesting_result c m h), stripsOf_result c m h, AddCall.batches]
    have hd : (c.result m).m_DefaultMaterialId = c.nextDefault m.m_DefaultMaterialId := rfl
    rw [hd, List.append_assoc]

theorem fansOf_resultAll (cs : List AddCall) (m : GLC_Mesh) (h : m.Ingesting) (lod : Int)
    (id : GLC_uint) :
    (AddCall.resultAll cs m).fansOf lod id =
      m.fansOf lod id ++ AddCall.batches .fan lod id m.m_DefaultMaterialId cs := by
  induction cs generalizing m with
  | nil => simp [AddCall.resultAll, AddCall.batches]
  | cons c cs ih =>
    rw [AddCall.resultAll, ih _ (Ingesting_result c m h), fansOf_result c m h, AddCall.batches]
    have hd : (c.result m).m_DefaultMaterialId = c.nextDefault m.m_DefaultMaterialId := rfl
    rw [hd, List.append_assoc]

/-! ## The mesh after `finish()` -/

theorem indexArrayAt_of_empty (ls : List GLC_Lod) (h : ∀ l ∈ ls, l.indexVector = [])
    (n : Nat) : indexArrayAt ls n = [] := by
  unfold indexArrayAt
  cases hl : ls[n]? with
  | none => rfl
  | some l => exact h l (List.getElem?_mem hl)

theorem finish_eq (m : GLC_Mesh) (h : m.Ingesting) (hpos : m.m_PrimitiveGroups ≠ [])
    (hbb : m.m_MeshData.m_Positions.length % 3 = 0) (hr : m.LodsInRange) :
    m.finish = some m.packed := by
  have hlen : 0 < m.m_MeshData.m_LodList.length := by
    rw [h.lodCount]
    exact List.length_pos.2 hpos
  have hmove := moveAllGroups_eq m.m_PrimitiveGroups m.m_MeshData h.lodNodup hr
    (fun e _ => indexArrayAt_of_empty _ h.indexEmpty _) h.sized
  unfold GLC_Mesh.finish
  have h1 : m.m_MeshData.lodCount > 0 := by
    unfold GLC_MeshData.lodCount
    omega
  simp only [h1, if_true, GLC_Mesh.boundingBoxInRange, hbb, decide_True, Bool.not_true,
    Bool.false_eq_true, if_false, GLC_Mesh.moveIndexToMeshDataLod, GLC_MeshData.finishLod, hmove,
    Option.bind_eq_bind, Option.some_bind, Option.pure_def, GLC_Mesh.packed]

theorem memcpyFrom_mid {α : Type} (a x z : List α) :
    memcpyFrom (a ++ x ++ z) a.length x.length = some x := by
  unfold memcpyFrom
  have hle : a.length + x.length ≤ (a ++ x ++ z).length := by simp
  rw [if_pos hle, List.append_assoc, List.drop_left, List.take_left]

theorem readRuns_mid (sizes : List Nat) (a idx z : List GLuint) (h : sizes.sum = idx.length) :
    readRuns (a ++ idx ++ z) (runOffsets a.length sizes) sizes = some (splitRuns sizes idx) := by
  induction sizes generalizing a idx with
  | nil => rfl
  | cons s ss ih =>
    simp only [List.sum_cons] at h
    have hs : s ≤ idx.length := by omega
    have hsplit : a ++ idx ++ z = a ++ idx.take s ++ (idx.drop s ++ z) := by
      simp only [List.append_assoc]
      rw [← List.append_assoc (idx.take s), List.take_append_drop]
    have hlen : (idx.take s).length = s := by simp [hs]
    have h1 : memcpyFrom (a ++ idx ++ z) a.length s = some (idx.take s) := by
      rw [hsplit]
      have := memcpyFrom_mid a (idx.take s) (idx.drop s ++ z)
      rw [hlen] at this
      exact this
    have hsplit2 : a ++ idx ++ z = (a ++ idx.take s) ++ idx.drop s ++ z := by
      simp only [List.append_assoc]
      rw [← List.append_assoc (idx.take s), List.take_append_drop]
    have h2 := ih (a ++ idx.take s) (idx.drop s) (by simp; omega)
    rw [← hsplit2] at h2
    simp only [List.length_append, hlen] at h2
    simp only [runOffsets, readRuns, h1, h2, splitRuns, Option.bind_eq_bind, Option.some_bind,
      Option.pure_def]

theorem packedGroups_value (gs : LodPrimitiveGroups) (b : Nat) (id : GLC_uint) :
    (∀ g, QHash.value gs id = some g →
      ∃ pre post, lodContent gs = pre ++ groupContent g ++ post ∧
        QHash.value (packedGroups b gs) id = some (packedGroup (b + pre.length) g)) ∧
    (QHash.value gs id = none → QHash.value (packedGroups b gs) id = none) := by
  induction gs generalizing b with
  | nil => simp [QHash.value, packedGroups]
  | cons e rest ih =>
    obtain ⟨id1, g1⟩ := e
    by_cases hid : id1 = id
    · subst hid
      constructor
      · intro g hg
        simp only [QHash.value_cons, if_true, Option.some.injEq] at hg
        subst hg
        refine ⟨[], lodContent rest, ?_, ?_⟩
        · simp [lodContent]
        · simp [packedGroups, QHash.value_cons]
      · intro hn
        simp [QHash.value_cons] at hn
    · obtain ⟨ih1, ih2⟩ := ih (b + (groupContent g1).length)
      constructor
      · intro g hg
        simp only [QHash.value_cons, hid, if_false] at hg
        obtain ⟨pre, post, hp1, hp2⟩ := ih1 g hg
        refine ⟨groupContent g1 ++ pre, post, ?_, ?_⟩
        · simp [lodContent, hp1]
        · simp only [packedGroups, QHash.value_cons, hid, if_false, hp2, List.length_append,
            Nat.add_assoc]
      · intro hn
        simp only [QHash.value_cons, hid, if_false] at hn
        simp only [packedGroups, QHash.value_cons, hid, if_false]
        exact ih2 hn

theorem packedAll_value (pg : PrimitiveGroupsHash) (lod : Int) :
    QHash.value (packedAll pg) lod = (QHash.value pg lod).map (packedGroups 0) := by
  induction pg with
  | nil => rfl
  | cons e rest ih =>
    obtain ⟨lod1, gs1⟩ := e
    unfold packedAll at ih ⊢
    by_cases hl : lod1 = lod
    · simp [QHash.value_cons, hl]
    · simp only [List.map_cons, QHash.value_cons, hl, if_false]
      exact ih

theorem packed_indexVector (m : GLC_Mesh) (h : m.Ingesting) (hr : m.LodsInRange) (lod : Int)
    (gs : LodPrimitiveGroups) (hv : QHash.value m.m_PrimitiveGroups lod = some gs) :
    m.packed.m_MeshData.indexVector lod = some (lodContent gs) := by
  have hmem := QHash.mem_of_value _ _ _ hv
  have hrl := hr _ hmem
  have hlen : lod.toNat < m.packed.m_MeshData.m_LodList.length := by
    simp only [GLC_Mesh.packed, GLC_MeshData.finishLod, appendAll_length]
    exact hrl.2
  rw [GLC_MeshData.indexVector_eq _ _ hrl.1 hlen]
  simp only [GLC_Mesh.packed, GLC_MeshData.finishLod]
  rw [appendAll_indexArrayAt _ _ h.lodNodup hr
    (fun e _ => indexArrayAt_of_empty _ h.indexEmpty _) lod gs hmem]

/-! ## Reading the packed indices back -/

theorem packedGroup_fields (b : Nat) (g : GLC_PrimitiveGroup) :
    (packedGroup b g).m_TrianglesIndexSize = g.m_TrianglesIndexSize ∧
    (packedGroup b g).strips.indexSize = g.strips.indexSize ∧
    (packedGroup b g).strips.sizes = g.strips.sizes ∧
    (packedGroup b g).fans.indexSize = g.fans.indexSize ∧
    (packedGroup b g).fans.sizes = g.fans.sizes ∧
    (0 < g.m_TrianglesIndexSize →
      (packedGroup b g).m_TrianglesIndexOffseti = b ∧
      (packedGroup b g).m_TrianglesIndexOffset = 4 * b) ∧
    (0 < g.strips.indexSize →
      (packedGroup b g).strips.offseti =
        runOffsets (b + g.m_TrianglesIndex.length) g.strips.sizes ∧
      (packedGroup b g).strips.offset =
        (runOffsets (b + g.m_TrianglesIndex.length) g.strips.sizes).map (fun o => 4 * o)) ∧
    (0 < g.fans.indexSize →
      (packedGroup b g).fans.offseti =
        runOffsets (b + g.m_TrianglesIndex.length + g.strips.index.length) g.fans.sizes ∧
      (packedGroup b g).fans.offset =
        (runOffsets (b + g.m_TrianglesIndex.length + g.strips.index.length)
          g.fans.sizes).map (fun o => 4 * o)) := by
  unfold packedGroup
  by_cases c1 : 0 < g.m_TrianglesIndexSize <;> by_cases c2 : 0 < g.strips.indexSize <;>
    by_cases c3 : 0 < g.fans.indexSize <;>
    simp [GLC_PrimitiveGroup.containsTriangles, GLC_PrimitiveGroup.containsStrip,
      GLC_PrimitiveGroup.containsFan, PrimitiveRuns.nonEmpty, c1, c2, c3,
      GLC_PrimitiveGroup.setTrianglesOffseti, GLC_PrimitiveGroup.setBaseTrianglesStripOffseti,
      GLC_PrimitiveGroup.setBaseTrianglesFanOffseti, PrimitiveRuns.setBaseOffseti,
      GLC_PrimitiveGroup.computeVboOffset, GLC_PrimitiveGroup.finish,
      PrimitiveRuns.computeVboOffset, PrimitiveRuns.finish]

theorem packed_group (m : GLC_Mesh) (lod : Int) (id : GLC_uint) (b : Bool)
    (g : GLC_PrimitiveGroup) (hg : m.group lod id = some g) :
    ∃ gs pre post, QHash.value m.m_PrimitiveGroups lod = some gs ∧
      lodContent gs = pre ++ groupContent g ++ post ∧
      ({ m.packed with m_UseVbo := b }).group lod id = some (packedGroup pre.length g) := by
  unfold GLC_Mesh.group at hg
  cases hv : QHash.value m.m_PrimitiveGroups lod with
  | none => simp [hv] at hg
  | some gs =>
    simp only [hv] at hg
    obtain ⟨pre, post, h1, h2⟩ := (packedGroups_value gs 0 id).1 g hg
    refine ⟨gs, pre, post, rfl, h1, ?_⟩
    unfold GLC_Mesh.group
    simp only [GLC_Mesh.packed, packedAll_value, hv, Option.map_some']
    simpa using h2

theorem packed_group_none (m : GLC_Mesh) (lod : Int) (id : GLC_uint) (b : Bool)
    (hg : m.group lod id = none) :
    ({ m.packed with m_UseVbo := b }).group lod id = none := by
  unfold GLC_Mesh.group at hg ⊢
  simp only [GLC_Mesh.packed, packedAll_value]
  cases hv : QHash.value m.m_PrimitiveGroups lod with
  | none => simp
  | some gs =>
    simp only [hv] at hg
    simp only [Option.map_some']
    exact (packedGroups_value gs 0 id).2 hg

theorem map_div_four (l : List Nat) : (l.map (fun o => 4 * o)).map (fun o => o / 4) = l := by
  induction l with
  | nil => rfl
  | cons a t ih => simp [ih]

theorem map_div_four_comp (l : List Nat) :
    l.map ((fun o => o / 4) ∘ fun o => 4 * o) = l := by
  induction l with
  | nil => rfl
  | cons a t ih => simp [ih]

theorem containsTriangles_eq (m : GLC_Mesh) (lod : Int) (id : GLC_uint) :
    m.containsTriangles lod id =
      (QHash.value m.m_PrimitiveGroups lod).map (fun _ =>
        match m.group lod id with
        | some g => g.containsTriangles
        | none => false) := by
  unfold GLC_Mesh.containsTriangles GLC_Mesh.group
  cases hv : QHash.value m.m_PrimitiveGroups lod with
  | none => rfl
  | some gs => cases hg : QHash.value gs id <;> simp [hg]

theorem containsStrips_eq (m : GLC_Mesh) (lod : Int) (id : GLC_uint) :
    m.containsStrips lod id =
      match m.group lod id with
      | some g => g.containsStrip
      | none => false := by
  unfold GLC_Mesh.containsStrips GLC_Mesh.group
  cases hv : QHash.value m.m_PrimitiveGroups lod with
  | none => rfl
  | some gs => cases hg : QHash.value gs id <;> simp [hg]

theorem containsFans_eq (m : GLC_Mesh) (lod : Int) (id : GLC_uint) :
    m.containsFans lod id =
      match m.group lod id with
      | some g => g.containsFan
      | none => false := by
  unfold GLC_Mesh.containsFans GLC_Mesh.group
  cases hv : QHash.value m.m_PrimitiveGroups lod with
  | none => rfl
  | some gs => cases hg : QHash.value gs id <;> simp [hg]

theorem packed_getTrianglesIndex (m : GLC_Mesh) (h : m.Ingesting) (hr : m.LodsInRange)
    (lod : Int) (id : GLC_uint) (b : Bool) (g : GLC_PrimitiveGroup)
    (hg : m.group lod id = some g) (ht : g.m_TrianglesIndex ≠ []) :
    ({ m.packed with m_UseVbo := b }).getTrianglesIndex lod id = some g.m_TrianglesIndex := by
  obtain ⟨gs, pre, post, hv, hcont, hpg⟩ := packed_group m lod id b g hg
  have hs := group_sized m h lod id g hg
  have hpos : 0 < g.m_TrianglesIndexSize := by
    rw [hs.1]; exact List.length_pos.2 ht
  obtain ⟨f1, _, _, _, _, f6, _, _⟩ := packedGroup_fields pre.length g
  have hiv := packed_indexVector m h hr lod gs hv
  have hpv : QHash.value ({ m.packed with m_UseVbo := b }).m_PrimitiveGroups lod
      = some (packedGroups 0 gs) := by
    simp [GLC_Mesh.packed, packedAll_value, hv]
  have hmem : memcpyFrom (lodContent gs) pre.length g.m_TrianglesIndex.length
      = some g.m_TrianglesIndex := by
    have hshape : lodContent gs =
        pre ++ g.m_TrianglesIndex ++ (g.strips.index ++ g.fans.index ++ post) := by
      simp [hcont, groupContent]
    rw [hshape]
    exact memcpyFrom_mid pre g.m_TrianglesIndex _
  unfold GLC_Mesh.getTrianglesIndex
  rw [containsTriangles_eq, hpv, hpg]
  have hd : (4 * pre.length) / 4 = pre.length := by omega
  cases b <;>
    simp [GLC_PrimitiveGroup.containsTriangles, f1, hpos, (f6 hpos).1, (f6 hpos).2, hiv, hs.1,
      hmem, hd, ht]

theorem packed_getStripsIndex (m : GLC_Mesh) (h : m.Ingesting) (hr : m.LodsInRange)
    (lod : Int) (id : GLC_uint) (b : Bool) (g : GLC_PrimitiveGroup)
    (hg : m.group lod id = some g) (ht : g.strips.index ≠ []) :
    ({ m.packed with m_UseVbo := b }).getStripsIndex lod id =
      some (splitRuns g.strips.sizes g.strips.index) := by
  obtain ⟨gs, pre, post, hv, hcont, hpg⟩ := packed_group m lod id b g hg
  have hs := group_sized m h lod id g hg
  have hpos : 0 < g.strips.indexSize := by
    rw [hs.2.1]; exact List.length_pos.2 ht
  obtain ⟨_, f2, f3, _, _, _, f7, _⟩ := packedGroup_fields pre.length g
  have hiv := packed_indexVector m h hr lod gs hv
  have hmem : readRuns (lodContent gs)
      (runOffsets (pre.length + g.m_TrianglesIndex.length) g.strips.sizes) g.strips.sizes
      = some (splitRuns g.strips.sizes g.strips.index) := by
    have hshape : lodContent gs =
        (pre ++ g.m_TrianglesIndex) ++ g.strips.index ++ (g.fans.index ++ post) := by
      simp [hcont, groupContent]
    rw [hshape, ← List.length_append]
    exact readRuns_mid _ _ _ _ hs.2.2.1
  unfold GLC_Mesh.getStripsIndex
  rw [containsStrips_eq, hpg]
  cases b <;>
    simp [GLC_PrimitiveGroup.containsStrip, PrimitiveRuns.nonEmpty, f2, f3, hpos, (f7 hpos).1,
      (f7 hpos).2, hiv, hmem, map_div_four_comp, ht]

theorem packed_getFansIndex (m : GLC_Mesh) (h : m.Ingesting) (hr : m.LodsInRange)
    (lod : Int) (id : GLC_uint) (b : Bool) (g : GLC_PrimitiveGroup)
    (hg : m.group lod id = some g) (ht : g.fans.index ≠ []) :
    ({ m.packed with m_UseVbo := b }).getFansIndex lod id =
      some (splitRuns g.fans.sizes g.fans.index) := by
  obtain ⟨gs, pre, post, hv, hcont, hpg⟩ := packed_group m lod id b g hg
  have hs := group_sized m h lod id g hg
  have hpos : 0 < g.fans.indexSize := by
    rw [hs.2.2.2.1]; exact List.length_pos.2 ht
  obtain ⟨_, _, _, f4, f5, _, _, f8⟩ := packedGroup_fields pre.length g
  have hiv := packed_indexVector m h hr lod gs hv
  have hmem : readRuns (lodContent gs)
      (runOffsets (pre.length + g.m_TrianglesIndex.length + g.strips.index.length) g.fans.sizes)
      g.fans.sizes = some (splitRuns g.fans.sizes g.fans.index) := by
    have hshape : lodContent gs =
        (pre ++ g.m_TrianglesIndex ++ g.strips.index) ++ g.fans.index ++ post := by
      simp [hcont, groupContent]
    rw [hshape, ← List.length_append, ← List.length_append]
    exact readRuns_mid _ _ _ _ hs.2.2.2.2
  unfold GLC_Mesh.getFansIndex
  rw [containsFans_eq, hpg]
  cases b <;>
    simp [GLC_PrimitiveGroup.containsFan, PrimitiveRuns.nonEmpty, f4, f5, hpos, (f8 hpos).1,
      (f8 hpos).2, hiv, hmem, map_div_four_comp, ht]

/-! ## LOD keys and bulk data after a sequence of calls -/

theorem keys_result (c : AddCall) (m : GLC_Mesh) :
    QHash.keys (c.result m).m_PrimitiveGroups =
      if QHash.contains m.m_PrimitiveGroups c.lod then QHash.keys m.m_PrimitiveGroups
      else QHash.keys m.m_PrimitiveGroups ++ [c.lod] := by
  simp only [AddCall.result, QHash.keys_modify, ensureGroup]
  unfold ensureLod
  by_cases hc : QHash.contains m.m_PrimitiveGroups c.lod = true
  · simp [hc]
  · simp [hc, QHash.keys]

theorem mem_keys_result (c : AddCall) (m : GLC_Mesh) (k : Int) :
    k ∈ QHash.keys (c.result m).m_PrimitiveGroups ↔
      k ∈ QHash.keys m.m_PrimitiveGroups ∨ k = c.lod := by
  rw [keys_result]
  by_cases hc : QHash.contains m.m_PrimitiveGroups c.lod = true
  · rw [if_pos hc]
    constructor
    · intro h; exact Or.inl h
    · rintro (h | h)
      · exact h
      · rw [h]; exact (QHash.contains_iff_mem_keys _ _).1 hc
  · rw [if_neg hc]
    simp

theorem mem_keys_resultAll (cs : List AddCall) (m : GLC_Mesh) (k : Int) :
    k ∈ QHash.keys (AddCall.resultAll cs m).m_PrimitiveGroups ↔
      k ∈ QHash.keys m.m_PrimitiveGroups ∨ k ∈ cs.map AddCall.lod := by
  induction cs generalizing m with
  | nil => simp [AddCall.resultAll]
  | cons c cs ih =>
    rw [AddCall.resultAll, ih, mem_keys_result]
    simp only [List.map_cons, List.mem_cons]
    tauto

theorem positions_resultAll (cs : List AddCall) (m : GLC_Mesh) :
    (AddCall.resultAll cs m).m_MeshData.m_Positions = m.m_MeshData.m_Positions := by
  induction cs generalizing m with
  | nil => rfl
  | cons c cs ih =>
    rw [AddCall.resultAll, ih]
    simp only [AddCall.result, GLC_MeshData.trianglesAdded_positions]
    by_cases hc : QHash.contains m.m_PrimitiveGroups c.lod = true
    · simp [hc]
    · simp [hc, GLC_MeshData.appendLod]

theorem lodCount_resultAll_new (cs : List AddCall) :
    (AddCall.resultAll cs GLC_Mesh.new).m_MeshData.m_LodList.length =
      (cs.map AddCall.lod).dedup.length := by
  have hi := Ingesting_resultAll cs GLC_Mesh.new Ingesting_new
  rw [hi.lodCount]
  have hl : (AddCall.resultAll cs GLC_Mesh.new).m_PrimitiveGroups.length =
      (QHash.keys (AddCall.resultAll cs GLC_Mesh.new).m_PrimitiveGroups).length := by
    simp [QHash.keys]
  rw [hl]
  apply List.Perm.length_eq
  rw [List.perm_ext_iff_of_nodup hi.lodNodup (List.nodup_dedup _)]
  intro k
  rw [mem_keys_resultAll, List.mem_dedup]
  simp [GLC_Mesh.new, QHash.keys]

theorem lodsInRange_resultAll_new (cs : List AddCall)
    (hlod : ∀ c ∈ cs, 0 ≤ c.lod ∧ c.lod < ((cs.map AddCall.lod).dedup.length : Int)) :
    (AddCall.resultAll cs GLC_Mesh.new).LodsInRange := by
  intro e he
  have hk : e.1 ∈ QHash.keys (AddCall.resultAll cs GLC_Mesh.new).m_PrimitiveGroups :=
    List.mem_map.2 ⟨e, he, rfl⟩
  rw [mem_keys_resultAll] at hk
  rcases hk with hk | hk
  · simp [GLC_Mesh.new, QHash.keys] at hk
  · obtain ⟨c, hc, hce⟩ := List.mem_map.1 hk
    have := hlod c hc
    rw [hce] at this
    rw [lodCount_resultAll_new]
    omega

theorem groups_ne_nil_resultAll (cs : List AddCall) (m : GLC_Mesh) (h : cs ≠ []) :
    (AddCall.resultAll cs m).m_PrimitiveGroups ≠ [] := by
  cases cs with
  | nil => exact absurd rfl h
  | cons c cs =>
    intro hn
    have hk : c.lod ∈ QHash.keys (AddCall.resultAll (c :: cs) m).m_PrimitiveGroups := by
      rw [mem_keys_resultAll]
      right
      simp
    rw [hn] at hk
    simp [QHash.keys] at hk

theorem finish_resultAll_new (cs : List AddCall) (hcs : cs ≠ [])
    (hlod : ∀ c ∈ cs, 0 ≤ c.lod ∧ c.lod < ((cs.map AddCall.lod).dedup.length : Int)) :
    (AddCall.resultAll cs GLC_Mesh.new).finish =
      some (AddCall.resultAll cs GLC_Mesh.new).packed := by
  apply finish_eq _ (Ingesting_resultAll cs _ Ingesting_new) (groups_ne_nil_resultAll cs _ hcs)
  · rw [positions_resultAll]; rfl
  · exact lodsInRange_resultAll_new cs hlod

theorem packedGroups_sizes (gs : LodPrimitiveGroups) (b : Nat)
    (hs : ∀ x ∈ gs, GroupSized x.2) :
    ((packedGroups b gs).map (fun x =>
      x.2.m_TrianglesIndexSize + x.2.strips.sizes.sum + x.2.fans.sizes.sum)).sum =
      (lodContent gs).length := by
  induction gs generalizing b with
  | nil => rfl
  | cons e rest ih =>
    obtain ⟨id, g⟩ := e
    have hg : GroupSized g := hs (id, g) (List.mem_cons_self _ _)
    obtain ⟨h1, _, h3, _, h5⟩ := hg
    obtain ⟨f1, _, f3, _, f5, _⟩ := packedGroup_fields b g
    simp only [packedGroups, List.map_cons, List.sum_cons, lodContent, List.length_append,
      ih _ (fun x hx => hs x (List.mem_cons_of_mem _ hx)), f1, f3, f5, h1, h3, h5, groupContent]

/-! ## Results on `finish()` and on the index getters -/

/-- C1. For every sequence of `addTriangles` / `addTrianglesStrip` / `addTrianglesFan` calls
on an empty mesh (non-empty index lists, the LOD numbers used being `0 .. n-1`), the calls
and the `finish()` that follows succeed, and for every LOD present the length of its packed
index array is the sum, over the groups of that LOD, of the number of triangle indices plus
the total size of the strips plus the total size of the fans recorded in the group. -/
theorem finish_index_array_length (cs : List AddCall)
    (hne : ∀ c ∈ cs, c.indexList ≠ [])
    (hlod : ∀ c ∈ cs, 0 ≤ c.lod ∧ c.lod < ((cs.map AddCall.lod).dedup.length : Int)) :
    ∃ m ids m1, applyCalls GLC_Mesh.new cs = some (m, ids) ∧ m.finish = some m1 ∧
      ∀ lod groups, (lod, groups) ∈ m1.m_PrimitiveGroups →
        ∃ v, m1.m_MeshData.indexVector lod = some v ∧
          v.length = (groups.map (fun x =>
            x.2.m_TrianglesIndexSize + x.2.strips.sizes.sum + x.2.fans.sizes.sum)).sum := by
  have happ := applyCalls_eq cs GLC_Mesh.new Ingesting_new hne
  by_cases hcs : cs = []
  · subst hcs
    refine ⟨GLC_Mesh.new, [], GLC_Mesh.new.clear, rfl, rfl, ?_⟩
    intro lod groups hmem
    simp [GLC_Mesh.clear] at hmem
  · have hi := Ingesting_resultAll cs GLC_Mesh.new Ingesting_new
    have hr := lodsInRange_resultAll_new cs hlod
    refine ⟨_, _, _, happ, finish_resultAll_new cs hcs hlod, ?_⟩
    intro lod groups hmem
    simp only [GLC_Mesh.packed, packedAll] at hmem
    obtain ⟨e, he, heq⟩ := List.mem_map.1 hmem
    simp only [Prod.mk.injEq] at heq
    obtain ⟨h1, h2⟩ := heq
    have hv := QHash.value_of_mem _ _ _ hi.lodNodup he
    rw [h1] at hv
    refine ⟨lodContent e.2, packed_indexVector _ hi hr lod e.2 hv, ?_⟩
    rw [← h2, packedGroups_sizes e.2 0 (hi.sized e he)]

/-- C1, instance: a triangle batch, a strip and a fan at LOD 0 and a triangle batch at
LOD 1. -/
theorem finish_index_array_length_witness :
    ∃ m ids m1,
      applyCalls GLC_Mesh.new
        [{ kind := .triangles, pMaterial := some 7, indexList := [0, 1, 2] },
         { kind := .strip, pMaterial := some 7, indexList := [0, 1, 2, 3] },
         { kind := .fan, pMaterial := none, indexList := [4, 1, 2, 3], newId := 9 },
         { kind := .triangles, pMaterial := some 7, indexList := [5, 5, 5], lod := 1 }]
        = some (m, ids) ∧ m.finish = some m1 ∧
      ∀ lod groups, (lod, groups) ∈ m1.m_PrimitiveGroups →
        ∃ v, m1.m_MeshData.indexVector lod = some v ∧
          v.length = (groups.map (fun x =>
            x.2.m_TrianglesIndexSize + x.2.strips.sizes.sum + x.2.fans.sizes.sum)).sum :=
  finish_index_array_length _ (by decide) (by decide)

theorem mem_batches (kind : PrimitiveKind) (lod : Int) (id : GLC_uint) (cs : List AddCall)
    (d : GLC_uint) (l : IndexList) (hl : l ∈ AddCall.batches kind lod id d cs) :
    ∃ c ∈ cs, c.indexList = l ∧ c.kind = kind := by
  induction cs generalizing d with
  | nil => simp [AddCall.batches] at hl
  | cons c cs ih =>
    rw [AddCall.batches] at hl
    rcases List.mem_append.1 hl with h | h
    · by_cases hc : c.kind = kind ∧ c.lod = lod ∧ c.groupId d = id
      · rw [if_pos hc] at h
        simp only [List.mem_singleton] at h
        exact ⟨c, List.mem_cons_self _ _, h.symm, hc.1⟩
      · rw [if_neg hc] at h
        simp at h
    · obtain ⟨c1, hc1, h1⟩ := ih _ h
      exact ⟨c1, List.mem_cons_of_mem _ hc1, h1⟩

theorem flatten_batches_ne_nil (kind : PrimitiveKind) (lod : Int) (id : GLC_uint)
    (cs : List AddCall) (d : GLC_uint) (hne : ∀ c ∈ cs, c.indexList ≠ [])
    (hb : AddCall.batches kind lod id d cs ≠ []) :
    (AddCall.batches kind lod id d cs).flatten ≠ [] := by
  cases hbs : AddCall.batches kind lod id d cs with
  | nil => exact absurd hbs hb
  | cons l rest =>
    have hl : l ∈ AddCall.batches kind lod id d cs := by rw [hbs]; exact List.mem_cons_self _ _
    obtain ⟨c, hc, hcl, _⟩ := mem_batches kind lod id cs d l hl
    have hlne : l ≠ [] := by rw [← hcl]; exact hne c hc
    intro hf
    simp only [List.flatten_cons, List.append_eq_nil] at hf
    exact hlne hf.1

theorem trianglesOf_new (lod : Int) (id : GLC_uint) : GLC_Mesh.new.trianglesOf lod id = [] := rfl

theorem stripsOf_new (lod : Int) (id : GLC_uint) : GLC_Mesh.new.stripsOf lod id = [] := rfl

theorem fansOf_new (lod : Int) (id : GLC_uint) : GLC_Mesh.new.fansOf lod id = [] := rfl

theorem group_of_trianglesOf (m : GLC_Mesh) (lod : Int) (id : GLC_uint)
    (h : m.trianglesOf lod id ≠ []) :
    ∃ g, m.group lod id = some g ∧ g.m_TrianglesIndex = m.trianglesOf lod id := by
  unfold GLC_Mesh.trianglesOf at h ⊢
  cases hg : m.group lod id with
  | none => simp [hg] at h
  | some g => exact ⟨g, rfl, rfl⟩

/-- C2. After the ingestion calls and `finish()`, `getTrianglesIndex(lod, material)` of a
LOD and material that received at least one triangle batch is the concatenation, in call
order, of the index lists handed to `addTriangles` for that LOD and material, whatever
else the mesh holds, with and without vertex buffer objects. -/
theorem getTrianglesIndex_concat_batches (cs : List AddCall)
    (hne : ∀ c ∈ cs, c.indexList ≠ [])
    (hlod : ∀ c ∈ cs, 0 ≤ c.lod ∧ c.lod < ((cs.map AddCall.lod).dedup.length : Int))
    (lod : Int) (id : GLC_uint) (useVbo : Bool)
    (hb : AddCall.batches .triangles lod id 0 cs ≠ []) :
    ∃ m ids m1, applyCalls GLC_Mesh.new cs = some (m, ids) ∧ m.finish = some m1 ∧
      ({ m1 with m_UseVbo := useVbo }).getTrianglesIndex lod id =
        some (AddCall.batches .triangles lod id 0 cs).flatten := by
  have happ := applyCalls_eq cs GLC_Mesh.new Ingesting_new hne
  have hcs : cs ≠ [] := by
    intro h; subst h; exact hb rfl
  have hi := Ingesting_resultAll cs GLC_Mesh.new Ingesting_new
  have hr := lodsInRange_resultAll_new cs hlod
  have ht := trianglesOf_resultAll cs GLC_Mesh.new lod id
  rw [trianglesOf_new, List.nil_append] at ht
  have hd : GLC_Mesh.new.m_DefaultMaterialId = 0 := rfl
  rw [hd] at ht
  have hflat := flatten_batches_ne_nil .triangles lod id cs 0 hne hb
  rw [← ht] at hflat
  obtain ⟨g, hg, hgt⟩ := group_of_trianglesOf _ lod id hflat
  refine ⟨_, _, _, happ, finish_resultAll_new cs hcs hlod, ?_⟩
  rw [← ht, ← hgt]
  exact packed_getTrianglesIndex _ hi hr lod id useVbo g hg (by rw [hgt]; exact hflat)

/-- C2, instance: the single batch `[0,1,2]` with material 7 at LOD 0 is read back as
`[0,1,2]`. -/
theorem getTrianglesIndex_concat_batches_witness :
    ∃ m ids m1,
      applyCalls GLC_Mesh.new [{ kind := .triangles, pMaterial := some 7, indexList := [0, 1, 2] }]
        = some (m, ids) ∧ m.finish = some m1 ∧
      ({ m1 with m_UseVbo := false }).getTrianglesIndex 0 7 = some [0, 1, 2] :=
  getTrianglesIndex_concat_batches
    [{ kind := .triangles, pMaterial := some 7, indexList := [0, 1, 2] }]
    (by decide) (by decide) 0 7 false (by decide)

/-! ## Strip expansion -/

theorem stripLoop_eq (s : List GLuint) (count j : Nat) (acc : IndexList) (hj : 2 ≤ j)
    (hlen : j + count ≤ s.length) :
    stripLoop s count j acc =
      some (acc ++ (List.range count).flatMap (fun i => specStripTriangle s (i + j))) := by
  induction count generalizing j acc with
  | zero => simp [stripLoop]
  | succ n ih =>
    have h1 : j < s.length := by omega
    have h2 : j - 1 < s.length := by omega
    have h3 : j - 2 < s.length := by omega
    have e1 : s[j]? = some (s.getD j 0) := by
      rw [List.getD_eq_getElem?_getD, List.getElem?_eq_getElem h1]; rfl
    have e2 : s[j - 1]? = some (s.getD (j - 1) 0) := by
      rw [List.getD_eq_getElem?_getD, List.getElem?_eq_getElem h2]; rfl
    have e3 : s[j - 2]? = some (s.getD (j - 2) 0) := by
      rw [List.getD_eq_getElem?_getD, List.getElem?_eq_getElem h3]; rfl
    have hrec := ih (j + 1)
      (acc ++ (if j % 2 ≠ 0 then [s.getD j 0, s.getD (j - 1) 0, s.getD (j - 2) 0]
        else [s.getD j 0, s.getD (j - 2) 0, s.getD (j - 1) 0])) (by omega) (by omega)
    simp only [stripLoop, e1, e2, e3, Option.bind_eq_bind, Option.some_bind, hrec]
    rw [List.range_succ_eq_map, List.flatMap_cons, List.flatMap_map]
    have hsp : specStripTriangle s (0 + j) =
        (if j % 2 ≠ 0 then [s.getD j 0, s.getD (j - 1) 0, s.getD (j - 2) 0]
          else [s.getD j 0, s.getD (j - 2) 0, s.getD (j - 1) 0]) := by
      unfold specStripTriangle
      rw [Nat.zero_add]
      rcases Nat.mod_two_eq_zero_or_one j with h | h <;> simp [h]
    rw [hsp, List.append_assoc]
    have hfun : (fun i => specStripTriangle s (i + (j + 1))) =
        (fun a => specStripTriangle s (a.succ + j)) := by
      funext i
      congr 1
      omega
    rw [hfun]

theorem stripTriangles_eq (s : List GLuint) (h : 3 ≤ s.length) :
    stripTriangles [] s = some (specStripExpansion s) := by
  have e0 : s[0]? = some (s.getD 0 0) := by
    rw [List.getD_eq_getElem?_getD, List.getElem?_eq_getElem (by omega)]; rfl
  have e1 : s[1]? = some (s.getD 1 0) := by
    rw [List.getD_eq_getElem?_getD, List.getElem?_eq_getElem (by omega)]; rfl
  have e2 : s[2]? = some (s.getD 2 0) := by
    rw [List.getD_eq_getElem?_getD, List.getElem?_eq_getElem (by omega)]; rfl
  unfold stripTriangles specStripExpansion
  simp only [e0, e1, e2, Option.bind_eq_bind, Option.some_bind, List.nil_append]
  rw [stripLoop_eq s (s.length - 3) 3 _ (by omega) (by omega)]

theorem specStripTriangle_length (s : List GLuint) (j : Nat) :
    (specStripTriangle s j).length = 3 := by
  unfold specStripTriangle
  split <;> rfl

theorem flatMap_length_const {α β : Type} (l : List α) (f : α → List β) (k : Nat)
    (h : ∀ a, (f a).length = k) : (l.flatMap f).length = k * l.length := by
  induction l with
  | nil => simp
  | cons a t ih =>
    rw [List.flatMap_cons, List.length_append, ih, h a, List.length_cons]
    ring

theorem specStripExpansion_length (s : List GLuint) (h : 3 ≤ s.length) :
    (specStripExpansion s).length = 3 * (s.length - 2) := by
  unfold specStripExpansion
  rw [List.length_append, flatMap_length_const _ _ 3 (fun i => specStripTriangle_length s _)]
  simp only [List.length_cons, List.length_nil, List.length_range]
  omega

theorem splitRuns_length (sizes : List Nat) (l : List GLuint) :
    (splitRuns sizes l).length = sizes.length := by
  induction sizes generalizing l with
  | nil => rfl
  | cons a t ih => simp [splitRuns, ih]

theorem splitRuns_flatten (sizes : List Nat) (l : List GLuint) (h : sizes.sum = l.length) :
    (splitRuns sizes l).flatten = l := by
  induction sizes generalizing l with
  | nil =>
    have hl : l = [] := List.eq_nil_of_length_eq_zero (by simpa using h.symm)
    subst hl
    rfl
  | cons a t ih =>
    simp only [List.sum_cons] at h
    simp only [splitRuns, List.flatten_cons]
    rw [ih (l.drop a) (by simp; omega), List.take_append_drop]

theorem packed_flags (m : GLC_Mesh) (lod : Int) (id : GLC_uint) (b : Bool)
    (g : GLC_PrimitiveGroup) (hg : m.group lod id = some g) :
    ({ m.packed with m_UseVbo := b }).containsTriangles lod id = some g.containsTriangles ∧
    ({ m.packed with m_UseVbo := b }).containsStrips lod id = g.containsStrip ∧
    ({ m.packed with m_UseVbo := b }).containsFans lod id = g.containsFan := by
  obtain ⟨gs, pre, post, hv, _, hpg⟩ := packed_group m lod id b g hg
  obtain ⟨f1, f2, _, f4, _, _⟩ := packedGroup_fields pre.length g
  have hpv : QHash.value ({ m.packed with m_UseVbo := b }).m_PrimitiveGroups lod
      = some (packedGroups 0 gs) := by
    simp [GLC_Mesh.packed, packedAll_value, hv]
  rw [containsTriangles_eq, containsStrips_eq, containsFans_eq, hpv, hpg]
  simp [GLC_PrimitiveGroup.containsTriangles, GLC_PrimitiveGroup.containsStrip,
    GLC_PrimitiveGroup.containsFan, PrimitiveRuns.nonEmpty, f1, f2, f4]

theorem group_of_stripsOf (m : GLC_Mesh) (lod : Int) (id : GLC_uint)
    (h : m.stripsOf lod id ≠ []) :
    ∃ g, m.group lod id = some g ∧
      splitRuns g.strips.sizes g.strips.index = m.stripsOf lod id ∧
      g.m_TrianglesIndex = m.trianglesOf lod id ∧
      splitRuns g.fans.sizes g.fans.index = m.fansOf lod id := by
  unfold GLC_Mesh.stripsOf GLC_Mesh.trianglesOf GLC_Mesh.fansOf at *
  cases hg : m.group lod id with
  | none => simp [hg] at h
  | some g => exact ⟨g, rfl, rfl, rfl, rfl⟩

/-- C5. A group that was handed exactly one strip `s` of `n >= 3` indices and neither
triangles nor fans: after `finish()`, `getEquivalentTrianglesStripsFansIndex` returns the
`n - 2` triangles `(s[0], s[1], s[2])`, then for `j = 3 .. n-1` the triangle
`(s[j], s[j-1], s[j-2])` when `j` is odd and `(s[j], s[j-2], s[j-1])` when `j` is even,
`3 (n - 2)` indices in all. -/
theorem strip_expansion (cs : List AddCall)
    (hne : ∀ c ∈ cs, c.indexList ≠ [])
    (hlod : ∀ c ∈ cs, 0 ≤ c.lod ∧ c.lod < ((cs.map AddCall.lod).dedup.length : Int))
    (lod : Int) (id : GLC_uint) (useVbo : Bool) (s : IndexList) (hs3 : 3 ≤ s.length)
    (htri : AddCall.batches .triangles lod id 0 cs = [])
    (hstrip : AddCall.batches .strip lod id 0 cs = [s])
    (hfan : AddCall.batches .fan lod id 0 cs = []) :
    ∃ m ids m1, applyCalls GLC_Mesh.new cs = some (m, ids) ∧ m.finish = some m1 ∧
      ({ m1 with m_UseVbo := useVbo }).getEquivalentTrianglesStripsFansIndex lod id =
        some (specStripExpansion s) ∧
      (specStripExpansion s).length = 3 * (s.length - 2) := by
  have happ := applyCalls_eq cs GLC_Mesh.new Ingesting_new hne
  have hcs : cs ≠ [] := by
    intro h; subst h; simp [AddCall.batches] at hstrip
  have hi := Ingesting_resultAll cs GLC_Mesh.new Ingesting_new
  have hr := lodsInRange_resultAll_new cs hlod
  have hd : GLC_Mesh.new.m_DefaultMaterialId = 0 := rfl
  have ht := trianglesOf_resultAll cs GLC_Mesh.new lod id
  rw [trianglesOf_new, List.nil_append, hd, htri] at ht
  have hst := stripsOf_resultAll cs GLC_Mesh.new Ingesting_new lod id
  rw [stripsOf_new, List.nil_append, hd, hstrip] at hst
  have hfa := fansOf_resultAll cs GLC_Mesh.new Ingesting_new lod id
  rw [fansOf_new, List.nil_append, hd, hfan] at hfa
  obtain ⟨g, hg, hg1, hg2, hg3⟩ := group_of_stripsOf _ lod id (by rw [hst]; simp)
  rw [hst] at hg1
  rw [ht] at hg2
  rw [hfa] at hg3
  have hsz := group_sized _ hi lod id g hg
  have hidx : g.strips.index = s := by
    have := splitRuns_flatten _ _ hsz.2.2.1
    rw [hg1] at this
    simpa using this.symm
  have hfl : g.fans.sizes = [] := by
    have := splitRuns_length g.fans.sizes g.fans.index
    rw [hg3] at this
    exact List.eq_nil_of_length_eq_zero this.symm
  have hfi : g.fans.indexSize = 0 := by
    rw [hsz.2.2.2.1, ← hsz.2.2.2.2, hfl]; rfl
  have hti : g.m_TrianglesIndexSize = 0 := by
    rw [hsz.1, hg2]; rfl
  have hsi : 0 < g.strips.indexSize := by
    rw [hsz.2.1, hidx]; omega
  have hsne : g.strips.index ≠ [] := by
    rw [hidx]; intro h; rw [h] at hs3; simp at hs3
  obtain ⟨c1, c2, c3⟩ := packed_flags _ lod id useVbo g hg
  have hgs := packed_getStripsIndex _ hi hr lod id useVbo g hg hsne
  rw [hg1] at hgs
  refine ⟨_, _, _, happ, finish_resultAll_new cs hcs hlod, ?_, specStripExpansion_length s hs3⟩
  unfold GLC_Mesh.getEquivalentTrianglesStripsFansIndex
    GLC_Mesh.equivalentTrianglesIndexOfstripsIndex
  rw [c1, c2, c3]
  simp [GLC_PrimitiveGroup.containsTriangles, GLC_PrimitiveGroup.containsStrip,
    GLC_PrimitiveGroup.containsFan, PrimitiveRuns.nonEmpty, hti, hfi, hsi, hgs, foldRuns,
    stripTriangles_eq s hs3, specStripExpansion_length s hs3]

/-- C5, instance: the strip `[0,1,2,3]` expands to the 6 indices `[0,1,2,3,2,1]`. -/
theorem strip_expansion_witness :
    ∃ m ids m1,
      applyCalls GLC_Mesh.new [{ kind := .strip, pMaterial := some 7, indexList := [0, 1, 2, 3] }]
        = some (m, ids) ∧ m.finish = some m1 ∧
      ({ m1 with m_UseVbo := false }).getEquivalentTrianglesStripsFansIndex 0 7 =
        some [0, 1, 2, 3, 2, 1] ∧
      [0, 1, 2, 3, 2, 1].length = 3 * ([0, 1, 2, 3].length - 2) :=
  strip_expansion [{ kind := .strip, pMaterial := some 7, indexList := [0, 1, 2, 3] }]
    (by decide) (by decide) 0 7 false [0, 1, 2, 3] (by decide) (by decide) (by decide)
    (by decide)

/-! ## Primitive ids -/

theorem setCurrentMaterial_next (m : GLC_Mesh) (pMaterial : Option GLC_uint) (lod : Int)
    (accuracy : Nat) (newId : GLC_uint) :
    (m.setCurrentMaterial pMaterial lod accuracy newId).1.m_NextPrimitiveLocalId =
      m.m_NextPrimitiveLocalId := by
  unfold GLC_Mesh.setCurrentMaterial
  cases pMaterial with
  | none =>
    simp only
    split_ifs <;> simp [GLC_Mesh.addMaterial]
  | some id =>
    simp only
    split_ifs <;> simp [GLC_Mesh.addMaterial]

theorem applyCall_id (m : GLC_Mesh) (c : AddCall) (r : GLC_Mesh × GLC_uint)
    (h : applyCall m c = some r) :
    r.2 = (if c.lod = 0 then m.m_NextPrimitiveLocalId else 0) ∧
    r.1.m_NextPrimitiveLocalId =
      (if c.lod = 0 then (m.m_NextPrimitiveLocalId + 1) % 4294967296
        else m.m_NextPrimitiveLocalId) := by
  unfold applyCall at h
  cases hk : c.kind with
  | triangles =>
    simp only [hk, GLC_Mesh.addTriangles] at h
    split_ifs at h with h1 h2 h3
    all_goals
      simp only [Option.some.injEq] at h
      subst h
      simp [GLC_Mesh.modifyGroup, setCurrentMaterial_next, h3]
  | strip =>
    simp only [hk, GLC_Mesh.addTrianglesStrip] at h
    split_ifs at h with h1 h2 h3
    all_goals
      simp only [Option.some.injEq] at h
      subst h
      simp [GLC_Mesh.modifyGroup, setCurrentMaterial_next, h3]
  | fan =>
    simp only [hk, GLC_Mesh.addTrianglesFan] at h
    split_ifs at h with h1 h2 h3
    all_goals
      simp only [Option.some.injEq] at h
      subst h
      simp [GLC_Mesh.modifyGroup, setCurrentMaterial_next, h3]

/-- The increments of the 32-bit counter of primitive ids give consecutive numbers as long
as the counter stays below `2 ^ 32`. -/
theorem iterate_increment (n : Nat) (k : Nat) (h : k + n ≤ 4294967296) :
    List.iterate (fun x : Nat => (x + 1) % 4294967296) k n = List.range' k n := by
  induction n generalizing k with
  | zero => rfl
  | succ n ih =>
    rw [List.iterate, List.range'_succ]
    cases n with
    | zero => rfl
    | succ n =>
      have e : (k + 1) % 4294967296 = k + 1 := Nat.mod_eq_of_lt (by omega)
      rw [e, ih (k + 1) (by omega)]

theorem idsAll_lod_zero (cs : List AddCall) (next : GLC_uint) (h : ∀ c ∈ cs, c.lod = 0) :
    AddCall.idsAll cs next =
      List.iterate (fun x : Nat => (x + 1) % 4294967296) next cs.length := by
  induction cs generalizing next with
  | nil => rfl
  | cons c cs ih =>
    have hc := h c (List.mem_cons_self _ _)
    simp only [AddCall.idsAll, hc, if_true, List.length_cons, List.iterate]
    rw [ih _ (fun c hc => h c (List.mem_cons_of_mem _ hc))]

/-! ## The entry for LOD 0 -/

theorem keys_insert_lod (pg : PrimitiveGroupsHash) (lod : Int) (gs : LodPrimitiveGroups)
    (k : Int) : k ∈ QHash.keys (QHash.insert pg lod gs) ↔ k ∈ QHash.keys pg ∨ k = lod := by
  unfold QHash.insert
  by_cases hc : QHash.contains pg lod = true
  · rw [if_pos hc]
    have hk : QHash.keys (pg.map (fun e => if e.1 = lod then (e.1, gs) else e)) = QHash.keys pg := by
      unfold QHash.keys
      rw [List.map_map]
      apply List.map_congr_left
      intro e _
      by_cases he : e.1 = lod <;> simp [he]
    rw [hk]
    constructor
    · intro h; exact Or.inl h
    · rintro (h | h)
      · exact h
      · rw [h]; exact (QHash.contains_iff_mem_keys _ _).1 hc
  · rw [if_neg hc]
    simp [QHash.keys]

theorem keys_setCurrentMaterial (m : GLC_Mesh) (pMaterial : Option GLC_uint) (lod : Int)
    (accuracy : Nat) (newId : GLC_uint) (k : Int) :
    k ∈ QHash.keys (m.setCurrentMaterial pMaterial lod accuracy newId).1.m_PrimitiveGroups ↔
      k ∈ QHash.keys m.m_PrimitiveGroups ∨ k = lod := by
  have hin := keys_insert_lod m.m_PrimitiveGroups lod [] k
  have hself : QHash.contains m.m_PrimitiveGroups lod = true →
      (k ∈ QHash.keys m.m_PrimitiveGroups ↔ k ∈ QHash.keys m.m_PrimitiveGroups ∨ k = lod) := by
    intro hc
    constructor
    · intro h; exact Or.inl h
    · rintro (h | h)
      · exact h
      · rw [h]; exact (QHash.contains_iff_mem_keys _ _).1 hc
  unfold GLC_Mesh.setCurrentMaterial
  cases pMaterial with
  | none =>
    simp only
    split_ifs <;>
      simp_all [GLC_Mesh.addMaterial, QHash.keys_modify]
  | some id =>
    simp only
    split_ifs <;>
      simp_all [GLC_Mesh.addMaterial, QHash.keys_modify]

theorem keys_applyCall (m : GLC_Mesh) (c : AddCall) (r : GLC_Mesh × GLC_uint)
    (h : applyCall m c = some r) (k : Int) :
    k ∈ QHash.keys r.1.m_PrimitiveGroups ↔ k ∈ QHash.keys m.m_PrimitiveGroups ∨ k = c.lod := by
  have hk := keys_setCurrentMaterial m c.pMaterial c.lod c.accuracy c.newId k
  unfold applyCall at h
  cases hkind : c.kind with
  | triangles =>
    simp only [hkind, GLC_Mesh.addTriangles] at h
    split_ifs at h with h1 h2 h3
    all_goals
      simp only [Option.some.injEq] at h
      subst h
      simpa [GLC_Mesh.modifyGroup, QHash.keys_modify] using hk
  | strip =>
    simp only [hkind, GLC_Mesh.addTrianglesStrip] at h
    split_ifs at h with h1 h2 h3
    all_goals
      simp only [Option.some.injEq] at h
      subst h
      simpa [GLC_Mesh.modifyGroup, QHash.keys_modify] using hk
  | fan =>
    simp only [hkind, GLC_Mesh.addTrianglesFan] at h
    split_ifs at h with h1 h2 h3
    all_goals
      simp only [Option.some.injEq] at h
      subst h
      simpa [GLC_Mesh.modifyGroup, QHash.keys_modify] using hk

/-- C10, as stated, fails: `addTriangles` with `lod = 1` on a freshly constructed mesh
succeeds and leaves a group map that has an entry for LOD 1 and none for LOD 0. -/
theorem lod_zero_entry_counterexample :
    (GLC_Mesh.new.addTriangles (some 7) [0, 1, 2] 1 0 0).map
        (fun r => (QHash.contains r.1.m_PrimitiveGroups 0, QHash.keys r.1.m_PrimitiveGroups))
      = some (false, [1]) := by
  decide

/-- C10, amended. After a successful add call with LOD argument `lod` the group map has an
entry for `lod`, and every LOD that had an entry before the call still has one; so LOD 0
has an entry after the call when `lod = 0` or when it had one before. -/
theorem lod_entry_after_add (m : GLC_Mesh) (c : AddCall) (r : GLC_Mesh × GLC_uint)
    (h : applyCall m c = some r) :
    QHash.contains r.1.m_PrimitiveGroups c.lod = true ∧
    (∀ k, QHash.contains m.m_PrimitiveGroups k = true →
      QHash.contains r.1.m_PrimitiveGroups k = true) ∧
    ((c.lod = 0 ∨ QHash.contains m.m_PrimitiveGroups 0 = true) →
      QHash.contains r.1.m_PrimitiveGroups 0 = true) := by
  have hk := keys_applyCall m c r h
  refine ⟨?_, ?_, ?_⟩
  · rw [QHash.contains_iff_mem_keys, hk]
    exact Or.inr rfl
  · intro k hc
    rw [QHash.contains_iff_mem_keys] at hc ⊢
    rw [hk]
    exact Or.inl hc
  · intro h0
    rw [QHash.contains_iff_mem_keys, hk]
    rcases h0 with h0 | h0
    · exact Or.inr h0.symm
    · exact Or.inl ((QHash.contains_iff_mem_keys _ _).1 h0)

/-- C10, amended, instance: a fan added at LOD 0 to a fresh mesh. -/
theorem lod_entry_after_add_witness :
    ∃ r, applyCall GLC_Mesh.new
        { kind := .fan, pMaterial := none, indexList := [0, 1, 2, 3], newId := 9 } = some r ∧
      QHash.contains r.1.m_PrimitiveGroups 0 = true :=
  ⟨_, rfl, (lod_entry_after_add GLC_Mesh.new
    { kind := .fan, pMaterial := none, indexList := [0, 1, 2, 3], newId := 9 } _ rfl).2.2
      (Or.inl rfl)⟩

/-! ## CSG recombination -/

theorem extractMaterial_eq (vertices : List csgjs_vertex) (matId : GLC_uint) (w : List Int)
    (hin : ∀ i ∈ w, (vertexAt vertices i).isSome = true) :
    extractMaterial vertices matId w =
      some (csgTagged vertices matId w,
        w.filter (fun i => !decide ((vertexAt vertices i).map csgjs_vertex.matId = some matId))) := by
  induction w with
  | nil => rfl
  | cons i rest ih =>
    have hi := hin i (List.mem_cons_self _ _)
    have hrest := ih (fun j hj => hin j (List.mem_cons_of_mem _ hj))
    cases hv : vertexAt vertices i with
    | none => simp [hv] at hi
    | some v =>
      by_cases hm : v.matId = matId
      · simp [extractMaterial, hv, hrest, hm, csgTagged, List.filter_cons]
      · simp [extractMaterial, hv, hrest, hm, csgTagged, List.filter_cons]

theorem csgTagged_filter (vertices : List csgjs_vertex) (k matId : GLC_uint) (w : List Int)
    (h : matId ≠ k) :
    csgTagged vertices matId
      (w.filter (fun i => !decide ((vertexAt vertices i).map csgjs_vertex.matId = some k))) =
      csgTagged vertices matId w := by
  unfold csgTagged
  rw [List.filter_filter]
  congr 1
  apply List.filter_congr
  intro i _
  by_cases ht : (vertexAt vertices i).map csgjs_vertex.matId = some matId
  · have : ¬ (vertexAt vertices i).map csgjs_vertex.matId = some k := by
      rw [ht]; intro h2; exact h (Option.some.inj h2)
    simp [ht, h]
  · simp [ht]

theorem csgCalls_filter (vertices : List csgjs_vertex) (newId k : GLC_uint) (w : List Int)
    (hash : QHash GLC_uint (Option GLC_uint)) (hk : k ∉ QHash.keys hash) :
    csgCalls vertices newId
      (w.filter (fun i => !decide ((vertexAt vertices i).map csgjs_vertex.matId = some k))) hash =
      csgCalls vertices newId w hash := by
  induction hash with
  | nil => rfl
  | cons e rest ih =>
    obtain ⟨matId, p⟩ := e
    simp only [QHash.keys, List.map_cons, List.mem_cons, not_or] at hk
    have hne : matId ≠ k := fun h => hk.1 h.symm
    simp only [csgCalls, csgTagged_filter vertices k matId w hne]
    rw [ih hk.2]

theorem csgMaterialLoop_eq (vertices : List csgjs_vertex) (newId : GLC_uint)
    (hash : QHash GLC_uint (Option GLC_uint)) (w : List Int) (mesh : GLC_Mesh)
    (hnodup : (QHash.keys hash).Nodup)
    (hin : ∀ i ∈ w, (vertexAt vertices i).isSome = true) (hmesh : mesh.Ingesting) :
    csgMaterialLoop vertices newId hash w mesh =
      some (AddCall.resultAll (csgCalls vertices newId w hash) mesh, csgLeft vertices hash w) := by
  induction hash generalizing w mesh with
  | nil => rfl
  | cons e rest ih =>
    obtain ⟨matId, p⟩ := e
    simp only [QHash.keys, List.map_cons, List.nodup_cons] at hnodup
    have hin2 : ∀ i ∈ w.filter
        (fun i => !decide ((vertexAt vertices i).map csgjs_vertex.matId = some matId)),
        (vertexAt vertices i).isSome = true := fun i hi => hin i (List.mem_of_mem_filter hi)
    simp only [csgMaterialLoop, extractMaterial_eq vertices matId w hin, Option.bind_eq_bind,
      Option.some_bind, csgCalls, csgLeft]
    by_cases ht : csgTagged vertices matId w = []
    · simp only [ht, List.isEmpty_nil, Bool.not_true, Bool.false_eq_true, if_false,
        Option.some_bind, if_true, List.nil_append]
      rw [ih _ _ hnodup.2 hin2 hmesh, csgCalls_filter _ _ _ _ _ hnodup.1]
    · have hemp : (csgTagged vertices matId w).isEmpty = false := by
        cases hl : csgTagged vertices matId w with
        | nil => exact absurd hl ht
        | cons a t => rfl
      have hcall := applyCall_eq mesh hmesh
        { kind := .triangles, pMaterial := p, indexList := csgTagged vertices matId w,
          newId := newId } ht
      simp only [applyCall] at hcall
      simp only [hemp, Bool.not_false, if_true, hcall, Option.map_some', Option.some_bind, ht,
        if_false, List.singleton_append, AddCall.resultAll]
      rw [ih _ _ hnodup.2 hin2 (Ingesting_result _ _ hmesh), csgCalls_filter _ _ _ _ _ hnodup.1]

theorem mem_csgLeft (vertices : List csgjs_vertex) (hash : QHash GLC_uint (Option GLC_uint))
    (w : List Int) (i : Int) (h : i ∈ csgLeft vertices hash w) :
    i ∈ w ∧ ∀ k ∈ QHash.keys hash, (vertexAt vertices i).map csgjs_vertex.matId ≠ some k := by
  induction hash generalizing w with
  | nil => exact ⟨h, by simp [QHash.keys]⟩
  | cons e rest ih =>
    obtain ⟨matId, p⟩ := e
    rw [csgLeft] at h
    obtain ⟨h1, h2⟩ := ih _ h
    rw [List.mem_filter] at h1
    refine ⟨h1.1, ?_⟩
    intro k hk
    simp only [QHash.keys, List.map_cons, List.mem_cons] at hk
    rcases hk with hk | hk
    · rw [hk]; simpa using h1.2
    · exact h2 k hk

theorem csgLeft_eq_nil (vertices : List csgjs_vertex) (hash : QHash GLC_uint (Option GLC_uint))
    (w : List Int)
    (htag : ∀ i ∈ w, ∃ v, vertexAt vertices i = some v ∧ v.matId ∈ QHash.keys hash) :
    csgLeft vertices hash w = [] := by
  apply List.eq_nil_iff_forall_not_mem.2
  intro i hi
  obtain ⟨h1, h2⟩ := mem_csgLeft vertices hash w i hi
  obtain ⟨v, hv, hk⟩ := htag i h1
  exact h2 v.matId hk (by rw [hv]; rfl)

theorem countP_add_of_disjoint {α : Type} (p q : α → Bool) (l : List α)
    (h : ∀ a, ¬ (p a = true ∧ q a = true)) :
    l.countP p + l.countP q = l.countP (fun a => p a || q a) := by
  induction l with
  | nil => rfl
  | cons a t ih =>
    have ha := h a
    simp only [List.countP_cons]
    cases hp : p a <;> cases hq : q a <;> simp [hp, hq] at ha ⊢ <;> omega

theorem csgTagged_length (vertices : List csgjs_vertex) (matId : GLC_uint) (w : List Int) :
    (csgTagged vertices matId w).length =
      w.countP (fun i => decide ((vertexAt vertices i).map csgjs_vertex.matId = some matId)) := by
  unfold csgTagged
  rw [List.length_map, List.countP_eq_length_filter]

theorem csgCalls_head_sum (c : AddCall) :
    ((if c.indexList = [] then [] else [c]).map (fun c => c.indexList.length)).sum =
      c.indexList.length := by
  by_cases ht : c.indexList = []
  · simp [ht]
  · simp [ht]

theorem csgCalls_length_sum (vertices : List csgjs_vertex) (newId : GLC_uint) (w : List Int)
    (hash : QHash GLC_uint (Option GLC_uint)) (hnodup : (QHash.keys hash).Nodup) :
    ((csgCalls vertices newId w hash).map (fun c => c.indexList.length)).sum =
      w.countP (fun i => decide
        ((vertexAt vertices i).map csgjs_vertex.matId ∈ (QHash.keys hash).map some)) := by
  induction hash with
  | nil => simp [csgCalls, QHash.keys]
  | cons e rest ih =>
    obtain ⟨matId, p⟩ := e
    simp only [QHash.keys, List.map_cons, List.nodup_cons] at hnodup
    have hhead := csgCalls_head_sum
      (AddCall.mk .triangles p (csgTagged vertices matId w) 0 0 newId)
    simp only at hhead
    rw [csgCalls, List.map_append, List.sum_append, hhead, ih hnodup.2,
      csgTagged_length, countP_add_of_disjoint]
    · apply List.countP_congr
      intro i _
      simp [QHash.keys]
    · intro i hi
      simp only [decide_eq_true_eq] at hi
      obtain ⟨h1, h2⟩ := hi
      rw [h1] at h2
      obtain ⟨k, hk, hke⟩ := List.mem_map.1 h2
      have := Option.some.inj hke
      rw [this] at hk
      exact hnodup.1 hk

theorem Ingesting_clear (m : GLC_Mesh) : m.clear.Ingesting := by
  constructor <;> simp [GLC_Mesh.clear, GLC_MeshData.clear, QHash.keys]

theorem Ingesting_bulk (m : GLC_Mesh) (h : m.Ingesting) (v n t : List GLfloat) :
    (((m.addVertice v).addNormals n).addTexels t).Ingesting := by
  obtain ⟨h1, h2, h3, h4, h5, h6, h7⟩ := h
  exact ⟨h1, h2, h3, h4, h5, h6, h7⟩

theorem finish_total (m : GLC_Mesh) (h : m.Ingesting)
    (hbb : m.m_MeshData.m_Positions.length % 3 = 0) (hr : m.LodsInRange) :
    m.finish = some (if m.m_PrimitiveGroups = [] then m.clear else m.packed) := by
  by_cases hpg : m.m_PrimitiveGroups = []
  · rw [if_pos hpg]
    have hl := h.lodCount
    rw [hpg] at hl
    unfold GLC_Mesh.finish GLC_MeshData.lodCount
    simp [hl]
  · rw [if_neg hpg]
    exact finish_eq m h hpg hbb hr

theorem flatMap_three_length {α β : Type} (l : List α) (f : α → List β)
    (h : ∀ a, (f a).length = 3) : (l.flatMap f).length % 3 = 0 := by
  rw [flatMap_length_const l f 3 h]
  omega

/-- C9. If every index of the model refers to a vertex whose material tag is a key of the
material hash, the loop of `meshFromCsgModel` leaves an empty working list (the final
assertion holds and the function returns a mesh), the mesh is the one obtained by one
`addTriangles` call per material that tags at least one index, the call of a material
getting the indices tagged with it in the order of the model, and the lengths of these
lists add up to the number of indices of the model. -/
theorem csg_consumption (model : csgjs_model) (materialHash : QHash GLC_uint (Option GLC_uint))
    (pMesh : GLC_Mesh) (newId : GLC_uint) (hnodup : (QHash.keys materialHash).Nodup)
    (htag : ∀ i ∈ model.indices, ∃ v, vertexAt model.vertices i = some v ∧
      v.matId ∈ QHash.keys materialHash) :
    ∃ m ids m1,
      csgMaterialLoop model.vertices newId materialHash model.indices pMesh.clear
        = some (m, []) ∧
      applyCalls pMesh.clear (csgCalls model.vertices newId model.indices materialHash)
        = some (m, ids) ∧
      meshFromCsgModel model materialHash pMesh newId = some m1 ∧
      ((csgCalls model.vertices newId model.indices materialHash).map
        (fun c => c.indexList.length)).sum = model.indices.length := by
  have hin : ∀ i ∈ model.indices, (vertexAt model.vertices i).isSome = true := by
    intro i hi
    obtain ⟨v, hv, _⟩ := htag i hi
    simp [hv]
  have hloop := csgMaterialLoop_eq model.vertices newId materialHash model.indices pMesh.clear
    hnodup hin (Ingesting_clear pMesh)
  rw [csgLeft_eq_nil _ _ _ htag] at hloop
  have hcallsne : ∀ c ∈ csgCalls model.vertices newId model.indices materialHash,
      c.indexList ≠ [] ∧ c.lod = 0 := by
    intro c hc
    generalize materialHash = hash at hc
    induction hash with
    | nil => simp [csgCalls] at hc
    | cons e rest ih =>
      obtain ⟨matId, p⟩ := e
      rw [csgCalls] at hc
      rcases List.mem_append.1 hc with h | h
      · by_cases ht : csgTagged model.vertices matId model.indices = []
        · simp [ht] at h
        · simp only [ht, if_false, List.mem_singleton] at h
          subst h
          exact ⟨ht, rfl⟩
      · exact ih h
  have happ := applyCalls_eq _ pMesh.clear (Ingesting_clear pMesh)
    (fun c hc => (hcallsne c hc).1)
  have hi := Ingesting_resultAll (csgCalls model.vertices newId model.indices materialHash)
    pMesh.clear (Ingesting_clear pMesh)
  have hpos : ∀ n t : List GLfloat,
      ((((AddCall.resultAll (csgCalls model.vertices newId model.indices materialHash)
        pMesh.clear).addVertice
          (model.vertices.flatMap (fun v => [v.pos.1, v.pos.2.1, v.pos.2.2]))).addNormals
            n).addTexels t).m_MeshData.m_Positions.length % 3 = 0 := by
    intro n t
    show (List.length ((AddCall.resultAll _ _).m_MeshData.m_Positions ++ _)) % 3 = 0
    rw [positions_resultAll]
    simp only [GLC_Mesh.clear, GLC_MeshData.clear, List.nil_append]
    exact flatMap_three_length _ _ (fun _ => rfl)
  have hr : ∀ v n t : List GLfloat,
      ((((AddCall.resultAll (csgCalls model.vertices newId model.indices materialHash)
        pMesh.clear).addVertice v).addNormals n).addTexels t).LodsInRange := by
    intro v n t e he
    have he2 : e ∈ (AddCall.resultAll
        (csgCalls model.vertices newId model.indices materialHash)
        pMesh.clear).m_PrimitiveGroups := he
    have hk : e.1 ∈ QHash.keys (AddCall.resultAll
        (csgCalls model.vertices newId model.indices materialHash)
        pMesh.clear).m_PrimitiveGroups := List.mem_map.2 ⟨e, he2, rfl⟩
    rw [mem_keys_resultAll] at hk
    have h0 : e.1 = 0 := by
      rcases hk with hk | hk
      · simp [GLC_Mesh.clear, QHash.keys] at hk
      · obtain ⟨c, hc, hce⟩ := List.mem_map.1 hk
        rw [← hce]
        exact (hcallsne c hc).2
    have hlen : 0 < (AddCall.resultAll
        (csgCalls model.vertices newId model.indices materialHash)
        pMesh.clear).m_MeshData.m_LodList.length := by
      rw [hi.lodCount]
      exact List.length_pos_of_mem he2
    rw [h0]
    exact ⟨le_refl _, hlen⟩
  have hfin : ∃ m1, meshFromCsgModel model materialHash pMesh newId = some m1 := by
    unfold meshFromCsgModel
    simp only [hloop, Option.bind_eq_bind, Option.some_bind, List.isEmpty_nil, Bool.not_true,
      Bool.false_eq_true, if_false]
    exact ⟨_, finish_total _ (Ingesting_bulk _ hi _ _ _) (hpos _ _) (hr _ _ _)⟩
  obtain ⟨m1, hm1⟩ := hfin
  refine ⟨_, _, m1, hloop, happ, hm1, ?_⟩
  rw [csgCalls_length_sum _ _ _ _ hnodup, List.countP_eq_length]
  intro i hi2
  obtain ⟨v, hv, hk⟩ := htag i hi2
  simp only [decide_eq_true_eq, hv, Option.map_some']
  exact List.mem_map.2 ⟨v.matId, hk, rfl⟩

/-- C9, instance: a model of two triangles tagged 7 and 8 and the hash of the materials
7 and 8. -/
theorem csg_consumption_witness :
    ∃ m ids m1,
      csgMaterialLoop sampleCsgModel.vertices 9 [(7, some 7), (8, some 8)]
        sampleCsgModel.indices GLC_Mesh.new.clear = some (m, []) ∧
      applyCalls GLC_Mesh.new.clear
        (csgCalls sampleCsgModel.vertices 9 sampleCsgModel.indices [(7, some 7), (8, some 8)])
        = some (m, ids) ∧
      meshFromCsgModel sampleCsgModel [(7, some 7), (8, some 8)] GLC_Mesh.new 9 = some m1 ∧
      ((csgCalls sampleCsgModel.vertices 9 sampleCsgModel.indices
        [(7, some 7), (8, some 8)]).map (fun c => c.indexList.length)).sum =
          sampleCsgModel.indices.length :=
  csg_consumption sampleCsgModel [(7, some 7), (8, some 8)] GLC_Mesh.new 9 (by decide)
    (by
      intro i hi
      simp only [sampleCsgModel, List.mem_cons, List.mem_singleton, List.not_mem_nil,
        or_false] at hi
      rcases hi with h | h | h | h | h | h <;> subst h <;> exact ⟨_, rfl, by decide⟩)

/-! ## Index compaction -/

theorem s2tOf_append (start : Nat) (seen : List GLuint) (x : GLuint) :
    s2tOf start (seen ++ [x]) = s2tOf start seen ++ [(x, start + seen.length)] := by
  induction seen generalizing start with
  | nil => simp [s2tOf]
  | cons a t ih =>
    have h := ih (start + 1)
    rw [show start + 1 + t.length = start + (t.length + 1) by omega] at h
    simp only [List.cons_append, s2tOf, List.length_cons, List.append_eq] at h ⊢
    rw [h]

theorem t2sOf_append (start : Nat) (seen : List GLuint) (x : GLuint) :
    t2sOf start (seen ++ [x]) = t2sOf start seen ++ [(start + seen.length, x)] := by
  induction seen generalizing start with
  | nil => simp [t2sOf]
  | cons a t ih =>
    have h := ih (start + 1)
    rw [show start + 1 + t.length = start + (t.length + 1) by omega] at h
    simp only [List.cons_append, t2sOf, List.length_cons, List.append_eq] at h ⊢
    rw [h]

theorem s2tOf_value (start : Nat) (seen : List GLuint) (x : GLuint) :
    QHash.value (s2tOf start seen) x =
      if x ∈ seen then some (start + List.indexOf x seen) else none := by
  induction seen generalizing start with
  | nil => simp [s2tOf, QHash.value]
  | cons a t ih =>
    rw [s2tOf, QHash.value_cons]
    by_cases ha : a = x
    · subst ha
      simp
    · have hx : x ≠ a := fun h => ha h.symm
      rw [if_neg ha, ih, List.indexOf_cons_ne _ ha]
      by_cases hm : x ∈ t
      · simp only [hm, if_true, List.mem_cons, or_true]
        congr 1
        omega
      · simp [hm, hx]

theorem t2sOf_value (start : Nat) (seen : List GLuint) (k : Nat) :
    QHash.value (t2sOf start seen) (start + k) = seen[k]? := by
  induction seen generalizing start k with
  | nil => simp [t2sOf, QHash.value]
  | cons a t ih =>
    rw [t2sOf, QHash.value_cons]
    cases k with
    | zero => simp
    | succ k =>
      have hne : ¬ start = start + (k + 1) := by omega
      rw [if_neg hne]
      have := ih (start + 1) k
      rw [show start + 1 + k = start + (k + 1) by omega] at this
      simpa using this

theorem t2sOf_value_lt (start : Nat) (seen : List GLuint) (k : Nat) (h : k < start) :
    QHash.value (t2sOf start seen) k = none := by
  induction seen generalizing start with
  | nil => simp [t2sOf, QHash.value]
  | cons a t ih =>
    rw [t2sOf, QHash.value_cons]
    have hne : ¬ start = k := by omega
    rw [if_neg hne]
    exact ih (start + 1) (by omega)

theorem mapsOf_insert (seen : List GLuint) (x : GLuint) (hx : x ∉ seen) :
    ({ sourceToTargetIndexMap :=
        QHash.insert (mapsOf seen).sourceToTargetIndexMap x ((mapsOf seen).maxIndex + 1).toNat
       tagetToSourceIndexMap :=
        QHash.insert (mapsOf seen).tagetToSourceIndexMap ((mapsOf seen).maxIndex + 1).toNat x
       maxIndex := (mapsOf seen).maxIndex + 1 } : IndexMaps) = mapsOf (seen ++ [x]) := by
  have hmax : ((mapsOf seen).maxIndex + 1).toNat = seen.length := by
    simp [mapsOf]
  have h1 : QHash.contains (s2tOf 0 seen) x = false := by
    rw [QHash.contains_eq_false_iff, s2tOf_value]
    simp [hx]
  have h2 : QHash.contains (t2sOf 0 seen) seen.length = false := by
    rw [QHash.contains_eq_false_iff]
    have := t2sOf_value 0 seen seen.length
    rw [Nat.zero_add] at this
    rw [this]
    simp
  rw [hmax]
  simp only [mapsOf, QHash.insert_of_not_contains _ _ _ h1, QHash.insert_of_not_contains _ _ _ h2,
    s2tOf_append, t2sOf_append, Nat.zero_add, List.length_append, List.length_cons,
    List.length_nil, IndexMaps.mk.injEq, true_and]
  push_cast
  ring

theorem foldl_addSeen_prefix (src seen : List GLuint) :
    ∃ extra, src.foldl addSeen seen = seen ++ extra := by
  induction src generalizing seen with
  | nil => exact ⟨[], by simp⟩
  | cons a t ih =>
    rw [List.foldl_cons]
    obtain ⟨extra, he⟩ := ih (addSeen seen a)
    unfold addSeen at he ⊢
    by_cases ha : a ∈ seen
    · rw [if_pos ha] at he ⊢
      exact ⟨extra, he⟩
    · rw [if_neg ha] at he ⊢
      exact ⟨[a] ++ extra, by rw [he, List.append_assoc]⟩

theorem mem_foldl_addSeen (src seen : List GLuint) (x : GLuint) :
    x ∈ src.foldl addSeen seen ↔ x ∈ seen ∨ x ∈ src := by
  induction src generalizing seen with
  | nil => simp
  | cons a t ih =>
    rw [List.foldl_cons, ih]
    unfold addSeen
    by_cases ha : a ∈ seen
    · rw [if_pos ha]
      constructor
      · rintro (h | h)
        · exact Or.inl h
        · exact Or.inr (List.mem_cons_of_mem _ h)
      · rintro (h | h)
        · exact Or.inl h
        · rcases List.mem_cons.1 h with h1 | h1
          · left; rw [h1]; exact ha
          · exact Or.inr h1
    · rw [if_neg ha]
      simp only [List.mem_append, List.mem_singleton, List.mem_cons]
      tauto

theorem nodup_foldl_addSeen (src seen : List GLuint) (h : seen.Nodup) :
    (src.foldl addSeen seen).Nodup := by
  induction src generalizing seen with
  | nil => exact h
  | cons a t ih =>
    rw [List.foldl_cons]
    apply ih
    unfold addSeen
    by_cases ha : a ∈ seen
    · rw [if_pos ha]; exact h
    · rw [if_neg ha]
      apply List.Nodup.append h (List.nodup_singleton _)
      intro b hb hb2
      rw [List.mem_singleton] at hb2
      exact ha (hb2 ▸ hb)

theorem remapIndices_eq (src seen : List GLuint) (target : List GLuint) :
    remapIndices src (mapsOf seen) target =
      (mapsOf (src.foldl addSeen seen),
        target ++ src.map (fun x => List.indexOf x (src.foldl addSeen seen))) := by
  induction src generalizing seen target with
  | nil => simp [remapIndices]
  | cons a t ih =>
    obtain ⟨extra, hextra⟩ := foldl_addSeen_prefix t (addSeen seen a)
    have hmem : a ∈ addSeen seen a := by
      unfold addSeen
      by_cases ha : a ∈ seen <;> simp [ha]
    have hidx : List.indexOf a (t.foldl addSeen (addSeen seen a)) =
        List.indexOf a (addSeen seen a) := by
      rw [hextra]; exact List.indexOf_append_of_mem hmem
    rw [remapIndices, List.foldl_cons, List.map_cons, hidx]
    by_cases ha : a ∈ seen
    · have hc : QHash.contains (mapsOf seen).sourceToTargetIndexMap a = true := by
        unfold QHash.contains mapsOf
        rw [s2tOf_value]
        simp [ha]
      have hv : (QHash.value (mapsOf seen).sourceToTargetIndexMap a).getD 0
          = List.indexOf a seen := by
        unfold mapsOf
        rw [s2tOf_value]
        simp [ha]
      have hs : addSeen seen a = seen := by simp [addSeen, ha]
      simp only [hc, Bool.not_true, Bool.false_eq_true, if_false, hv]
      rw [ih, hs, List.append_assoc]
      rfl
    · have hc : QHash.contains (mapsOf seen).sourceToTargetIndexMap a = false := by
        rw [QHash.contains_eq_false_iff]
        unfold mapsOf
        rw [s2tOf_value]
        simp [ha]
      have hs : addSeen seen a = seen ++ [a] := by simp [addSeen, ha]
      have hmax : ((mapsOf seen).maxIndex + 1).toNat = seen.length := by
        simp [mapsOf]
      simp only [hc, Bool.not_false, if_true]
      rw [mapsOf_insert seen a ha, ih, hs, hmax, List.append_assoc,
        List.indexOf_append_of_not_mem ha]
      simp

theorem copyRuns_eq_emitPlan (kind : PrimitiveKind) (pMaterial : Option GLC_uint)
    (targetLod : Int) (accuracy : Option Nat) (newId : GLC_uint) (runs : List (List GLuint))
    (st : CopyState) :
    copyRuns kind pMaterial targetLod accuracy newId runs st =
      emitPlan targetLod accuracy newId (runs.map (fun l => (pMaterial, kind, l))) st := by
  induction runs generalizing st with
  | nil => rfl
  | cons a t ih =>
    simp only [copyRuns, List.map_cons, emitPlan, ih]

theorem emitPlan_append (targetLod : Int) (accuracy : Option Nat) (newId : GLC_uint)
    (a b : List (Option GLC_uint × PrimitiveKind × List GLuint)) (st : CopyState) :
    emitPlan targetLod accuracy newId (a ++ b) st =
      (emitPlan targetLod accuracy newId a st).bind (emitPlan targetLod accuracy newId b) := by
  induction a generalizing st with
  | nil => simp [emitPlan]
  | cons x t ih =>
    obtain ⟨pm, kind, source⟩ := x
    simp only [List.cons_append, emitPlan, Option.bind_eq_bind]
    cases accuracy with
    | none => simp
    | some acc =>
      simp only [Option.some_bind]
      cases applyCall st.pLodMesh
        { kind := kind, pMaterial := pm, indexList := (remapIndices source st.maps []).2,
          lod := targetLod, accuracy := acc, newId := newId } with
      | none => simp
      | some r => simp [ih]

theorem bind_none_right {α β : Type} (x : Option α) : x.bind (fun _ => (none : Option β)) = none := by
  cases x <;> rfl

theorem bind_comm_option {α β γ : Type} (x : Option α) (y : Option β) (f : α → β → Option γ) :
    x.bind (fun a => y.bind (fun b => f a b)) = y.bind (fun b => x.bind (fun a => f a b)) := by
  cases x <;> cases y <;> rfl

theorem copyIndexMaterial_eq (m : GLC_Mesh) (lodIndex targetLod : Int) (newId id : GLC_uint)
    (st : CopyState) :
    m.copyIndexMaterial lodIndex targetLod newId id st =
      (m.readMaterial lodIndex id).bind (fun prims =>
        emitPlan targetLod ((m.m_MeshData.getLod lodIndex).map GLC_Lod.accuracy) newId
          (prims.map (fun p => (m.material id, p))) st) := by
  unfold GLC_Mesh.copyIndexMaterial GLC_Mesh.readMaterial
  simp only [copyRuns_eq_emitPlan, Option.bind_eq_bind, Option.pure_def]
  cases m.containsTriangles lodIndex id with
  | none => rfl
  | some c =>
    simp only [Option.some_bind]
    cases c with
    | true =>
      simp only [if_true]
      cases m.getTrianglesIndex lodIndex id with
      | none => rfl
      | some tri =>
        simp only [Option.some_bind, Option.map_some']
        by_cases hs : m.containsStrips lodIndex id = true
        · simp only [hs, if_true]
          cases m.getStripsIndex lodIndex id with
          | none => simp [bind_none_right]
          | some strips =>
            simp only [Option.some_bind, Option.map_some']
            by_cases hf : m.containsFans lodIndex id = true
            · simp only [hf, if_true]
              cases m.getFansIndex lodIndex id with
              | none => simp [bind_none_right]
              | some fans =>
                simp only [Option.some_bind, Option.map_some', List.map_append, emitPlan_append,
                  List.map_map, Option.bind_assoc]
                rfl
            · simp only [hf, Bool.false_eq_true, if_false, Option.some_bind, List.map_append,
                emitPlan_append, List.map_map, List.append_nil, List.map_nil]
              simp [Option.bind_assoc, Function.comp]
              rfl
        · simp only [hs, Bool.false_eq_true, if_false, Option.some_bind]
          by_cases hf : m.containsFans lodIndex id = true
          · simp only [hf, if_true]
            cases m.getFansIndex lodIndex id with
            | none => simp [bind_none_right]
            | some fans =>
              simp only [Option.some_bind, Option.map_some', List.map_append, emitPlan_append,
                List.map_map, List.append_nil, List.map_nil]
              simp [Option.bind_assoc, Function.comp, emitPlan]
              rfl
          · simp [hf, emitPlan_append, emitPlan]
    | false =>
      simp only [Bool.false_eq_true, if_false, Option.some_bind]
      by_cases hs : m.containsStrips lodIndex id = true
      · simp only [hs, if_true]
        cases m.getStripsIndex lodIndex id with
        | none => simp
        | some strips =>
          simp only [Option.some_bind, Option.map_some']
          by_cases hf : m.containsFans lodIndex id = true
          · simp only [hf, if_true]
            cases m.getFansIndex lodIndex id with
            | none => simp [bind_none_right]
            | some fans =>
              simp only [Option.some_bind, Option.map_some', List.map_append, emitPlan_append,
                List.map_map, List.nil_append]
              rfl
          · simp [hf, emitPlan_append, Function.comp]
            rfl
      · simp only [hs, Bool.false_eq_true, if_false, Option.some_bind]
        by_cases hf : m.containsFans lodIndex id = true
        · simp only [hf, if_true]
          cases m.getFansIndex lodIndex id with
          | none => simp
          | some fans =>
            simp [Function.comp]
            rfl
        · simp [hf, emitPlan]

theorem copyIndexLoop_eq (m : GLC_Mesh) (lodIndex targetLod : Int) (newId : GLC_uint)
    (ids : List GLC_uint) (st : CopyState) :
    m.copyIndexLoop lodIndex targetLod newId ids st =
      (m.readPlan lodIndex ids).bind (fun plan =>
        emitPlan targetLod ((m.m_MeshData.getLod lodIndex).map GLC_Lod.accuracy) newId plan st) := by
  induction ids generalizing st with
  | nil => rfl
  | cons id rest ih =>
    simp only [GLC_Mesh.copyIndexLoop, GLC_Mesh.readPlan, copyIndexMaterial_eq,
      Option.bind_eq_bind, Option.pure_def, Option.bind_assoc, Option.some_bind,
      emitPlan_append]
    cases m.readMaterial lodIndex id with
    | none => rfl
    | some prims =>
      simp only [Option.some_bind]
      simp only [ih]
      rw [bind_comm_option]

theorem remapIndices_length (src : List GLuint) (maps : IndexMaps) (target : List GLuint) :
    (remapIndices src maps target).2.length = target.length + src.length := by
  induction src generalizing maps target with
  | nil => simp [remapIndices]
  | cons a t ih =>
    rw [remapIndices]
    split
    · rw [ih]; simp; omega
    · rw [ih]; simp; omega

theorem emitPlan_success_inv (targetLod : Int) (accuracy : Option Nat) (newId : GLC_uint)
    (plan : List (Option GLC_uint × PrimitiveKind × List GLuint)) (st st1 : CopyState)
    (h : emitPlan targetLod accuracy newId plan st = some st1) :
    (plan ≠ [] → ∃ a, accuracy = some a) ∧ ∀ p ∈ plan, p.2.2 ≠ [] := by
  induction plan generalizing st with
  | nil => simp
  | cons x rest ih =>
    obtain ⟨pm, kind, src⟩ := x
    simp only [emitPlan, Option.bind_eq_bind] at h
    cases hacc : accuracy with
    | none => simp [hacc] at h
    | some acc =>
      simp only [hacc, Option.some_bind] at h
      cases hcall : applyCall st.pLodMesh
        { kind := kind, pMaterial := pm, indexList := (remapIndices src st.maps []).2,
          lod := targetLod, accuracy := acc, newId := newId } with
      | none => simp [hcall] at h
      | some r =>
        simp only [hcall, Option.some_bind] at h
        rw [← hacc] at h
        have hrec := ih _ h
        have hsrc : src ≠ [] := by
          intro he
          have hl := remapIndices_length src st.maps []
          rw [he] at hl
          have hnil : (remapIndices [] st.maps []).2 = [] := rfl
          rw [he, applyCall_empty _ _ hnil] at hcall
          exact Option.noConfusion hcall
        refine ⟨fun _ => ⟨acc, rfl⟩, ?_⟩
        intro p hp
        rcases List.mem_cons.1 hp with hp | hp
        · rw [hp]; exact hsrc
        · exact hrec.2 p hp

theorem map_indexOf_prefix (src seen extra : List GLuint) (h : ∀ x ∈ src, x ∈ seen) :
    src.map (fun x => List.indexOf x (seen ++ extra)) = src.map (fun x => List.indexOf x seen) := by
  apply List.map_congr_left
  intro x hx
  exact List.indexOf_append_of_mem (h x hx)

theorem emitPlan_eq (targetLod : Int) (acc : Nat) (newId : GLC_uint)
    (plan : List (Option GLC_uint × PrimitiveKind × List GLuint)) (mesh : GLC_Mesh)
    (seen : List GLuint) (hne : ∀ p ∈ plan, p.2.2 ≠ []) (hmesh : mesh.Ingesting) :
    emitPlan targetLod (some acc) newId plan { pLodMesh := mesh, maps := mapsOf seen } =
      some
        { pLodMesh := AddCall.resultAll
            (planCalls targetLod acc newId ((plan.flatMap (fun p => p.2.2)).foldl addSeen seen)
              plan) mesh
          maps := mapsOf ((plan.flatMap (fun p => p.2.2)).foldl addSeen seen) } := by
  induction plan generalizing mesh seen with
  | nil => rfl
  | cons x rest ih =>
    obtain ⟨pm, kind, src⟩ := x
    have hsrc : src ≠ [] := hne (pm, kind, src) (List.mem_cons_self _ _)
    have hrest : ∀ p ∈ rest, p.2.2 ≠ [] := fun p hp => hne p (List.mem_cons_of_mem _ hp)
    obtain ⟨extra, hextra⟩ := foldl_addSeen_prefix (rest.flatMap (fun p => p.2.2))
      (src.foldl addSeen seen)
    have hmem : ∀ x ∈ src, x ∈ src.foldl addSeen seen := by
      intro x hx
      rw [mem_foldl_addSeen]
      exact Or.inr hx
    have hlist : (src.map (fun x => List.indexOf x (src.foldl addSeen seen))) ≠ [] := by
      intro h
      exact hsrc (List.map_eq_nil_iff.1 h)
    have hcall := applyCall_eq mesh hmesh
      { kind := kind, pMaterial := pm,
        indexList := src.map (fun x => List.indexOf x (src.foldl addSeen seen)),
        lod := targetLod, accuracy := acc, newId := newId } hlist
    simp only [emitPlan, remapIndices_eq, List.nil_append, Option.bind_eq_bind, Option.some_bind,
      hcall, List.flatMap_cons, List.foldl_append]
    rw [ih _ _ hrest (Ingesting_result _ _ hmesh)]
    simp only [planCalls, List.map_cons, AddCall.resultAll]
    rw [hextra, map_indexOf_prefix src _ extra hmem]

theorem mem_lodContent (gs : LodPrimitiveGroups) (t : GLuint) :
    t ∈ lodContent gs ↔ ∃ x ∈ gs, t ∈ groupContent x.2 := by
  induction gs with
  | nil => simp [lodContent]
  | cons e rest ih =>
    obtain ⟨id, g⟩ := e
    simp only [lodContent, List.mem_append, ih, List.mem_cons, exists_eq_or_imp]

theorem mem_groupContent_addTo (c : AddCall) (id : GLC_uint) (g : GLC_PrimitiveGroup)
    (t : GLuint) :
    t ∈ groupContent (c.addTo id g) ↔ t ∈ groupContent g ∨ t ∈ c.indexList := by
  unfold AddCall.addTo groupContent
  cases c.kind <;>
    simp [GLC_PrimitiveGroup.addTriangles, GLC_PrimitiveGroup.addTrianglesStrip,
      GLC_PrimitiveGroup.addTrianglesFan, PrimitiveRuns.add] <;> tauto

theorem mem_lodContent_modify (gs : LodPrimitiveGroups) (gid : GLC_uint)
    (f : GLC_PrimitiveGroup → GLC_PrimitiveGroup) (l : List GLuint) (t : GLuint)
    (hf : ∀ g, t ∈ groupContent (f g) ↔ t ∈ groupContent g ∨ t ∈ l)
    (hk : gid ∈ QHash.keys gs) :
    t ∈ lodContent (QHash.modify gs gid f) ↔ t ∈ lodContent gs ∨ t ∈ l := by
  rw [mem_lodContent, mem_lodContent]
  constructor
  · rintro ⟨x, hx, ht⟩
    obtain ⟨x0, hx0, _, h2⟩ := QHash.mem_modify _ _ _ _ hx
    rcases h2 with h2 | ⟨_, h2⟩
    · rw [h2] at ht
      exact Or.inl ⟨x0, hx0, ht⟩
    · rw [h2, hf] at ht
      rcases ht with ht | ht
      · exact Or.inl ⟨x0, hx0, ht⟩
      · exact Or.inr ht
  · rintro (⟨x, hx, ht⟩ | ht)
    · by_cases hxk : x.1 = gid
      · refine ⟨(x.1, f x.2), ?_, ?_⟩
        · unfold QHash.modify
          exact List.mem_map.2 ⟨x, hx, by simp [hxk]⟩
        · rw [hf]; exact Or.inl ht
      · refine ⟨x, ?_, ht⟩
        unfold QHash.modify
        exact List.mem_map.2 ⟨x, hx, by simp [hxk]⟩
    · obtain ⟨x, hx, hxk⟩ := List.mem_map.1 hk
      refine ⟨(x.1, f x.2), ?_, ?_⟩
      · unfold QHash.modify
        exact List.mem_map.2 ⟨x, hx, by simp [hxk]⟩
      · rw [hf]; exact Or.inr ht

theorem mem_heldIndices (m : GLC_Mesh) (t : GLuint) :
    t ∈ m.heldIndices ↔ ∃ e ∈ m.m_PrimitiveGroups, t ∈ lodContent e.2 := by
  unfold GLC_Mesh.heldIndices
  rw [List.mem_flatMap]

theorem mem_heldIndices_result (c : AddCall) (m : GLC_Mesh) (t : GLuint) :
    t ∈ (c.result m).heldIndices ↔ t ∈ m.heldIndices ∨ t ∈ c.indexList := by
  have hG : ∀ gs : LodPrimitiveGroups,
      t ∈ lodContent (QHash.modify
        (if QHash.contains gs (c.groupId m.m_DefaultMaterialId) then gs
          else gs ++ [(c.groupId m.m_DefaultMaterialId,
            GLC_PrimitiveGroup.new (c.groupId m.m_DefaultMaterialId))])
        (c.groupId m.m_DefaultMaterialId)
        (c.addTo (if c.lod = 0 then m.m_NextPrimitiveLocalId else 0))) ↔
      t ∈ lodContent gs ∨ t ∈ c.indexList := by
    intro gs
    rw [mem_lodContent_modify _ _ _ c.indexList t (fun g => mem_groupContent_addTo c _ g t)]
    · by_cases hc : QHash.contains gs (c.groupId m.m_DefaultMaterialId) = true
      · rw [if_pos hc]
      · rw [if_neg hc]
        have hnew : t ∈ lodContent (gs ++ [(c.groupId m.m_DefaultMaterialId,
            GLC_PrimitiveGroup.new (c.groupId m.m_DefaultMaterialId))]) ↔ t ∈ lodContent gs := by
          rw [mem_lodContent, mem_lodContent]
          constructor
          · rintro ⟨x, hx, ht⟩
            rcases List.mem_append.1 hx with h | h
            · exact ⟨x, h, ht⟩
            · rw [List.mem_singleton] at h
              rw [h] at ht
              simp [groupContent, GLC_PrimitiveGroup.new] at ht
          · rintro ⟨x, hx, ht⟩
            exact ⟨x, List.mem_append_left _ hx, ht⟩
        rw [hnew]
    · by_cases hc : QHash.contains gs (c.groupId m.m_DefaultMaterialId) = true
      · rw [if_pos hc]; exact (QHash.contains_iff_mem_keys _ _).1 hc
      · rw [if_neg hc]; simp [QHash.keys]
  rw [mem_heldIndices, mem_heldIndices]
  simp only [AddCall.result]
  rw [ensureGroup_eq]
  constructor
  · rintro ⟨e, he, ht⟩
    obtain ⟨e0, he0, _, h2⟩ := QHash.mem_modify _ _ _ _ he
    have hcase : t ∈ lodContent e0.2 ∨ t ∈ c.indexList := by
      rcases h2 with h2 | ⟨_, h2⟩
      · rw [h2] at ht; exact Or.inl ht
      · rw [h2, hG] at ht; exact ht
    rcases hcase with h3 | h3
    · rcases ensureLod_mem _ _ _ he0 with h4 | h4
      · exact Or.inl ⟨e0, h4, h3⟩
      · rw [h4] at h3; simp [lodContent] at h3
    · exact Or.inr h3
  · have hex : ∃ e ∈ ensureLod c.lod m.m_PrimitiveGroups, e.1 = c.lod := by
      have hv := ensureLod_value c.lod m.m_PrimitiveGroups
      exact ⟨_, QHash.mem_of_value _ _ _ hv, rfl⟩
    have hsub : ∀ e ∈ m.m_PrimitiveGroups, e ∈ ensureLod c.lod m.m_PrimitiveGroups := by
      intro e he
      unfold ensureLod
      split
      · exact he
      · exact List.mem_append_left _ he
    rintro (⟨e, he, ht⟩ | ht)
    · by_cases hek : e.1 = c.lod
      · refine ⟨(e.1, _), List.mem_map.2 ⟨e, hsub e he, by simp only [hek, if_true]; rfl⟩, ?_⟩
        rw [hG]; exact Or.inl ht
      · exact ⟨e, List.mem_map.2 ⟨e, hsub e he, by simp [hek]⟩, ht⟩
    · obtain ⟨e, he, hek⟩ := hex
      refine ⟨(e.1, _), List.mem_map.2 ⟨e, he, by simp only [hek, if_true]; rfl⟩, ?_⟩
      rw [hG]; exact Or.inr ht

theorem mem_heldIndices_resultAll (cs : List AddCall) (m : GLC_Mesh) (t : GLuint) :
    t ∈ (AddCall.resultAll cs m).heldIndices ↔ t ∈ m.heldIndices ∨ ∃ c ∈ cs, t ∈ c.indexList := by
  induction cs generalizing m with
  | nil => simp [AddCall.resultAll]
  | cons c cs ih =>
    rw [AddCall.resultAll, ih, mem_heldIndices_result]
    simp only [List.mem_cons, exists_eq_or_imp]
    tauto

theorem foldl_addSeen_length (src : List GLuint) :
    (src.foldl addSeen []).length = src.dedup.length := by
  apply List.Perm.length_eq
  rw [List.perm_ext_iff_of_nodup (nodup_foldl_addSeen src [] List.nodup_nil) (List.nodup_dedup _)]
  intro x
  rw [mem_foldl_addSeen, List.mem_dedup]
  simp

theorem mem_rank_iff (src : List GLuint) (t : Nat) :
    (∃ x ∈ src, List.indexOf x (src.foldl addSeen []) = t) ↔
      t < (src.foldl addSeen []).length := by
  constructor
  · rintro ⟨x, hx, ht⟩
    rw [← ht, List.indexOf_lt_length, mem_foldl_addSeen]
    exact Or.inr hx
  · intro ht
    have hmem : (src.foldl addSeen [])[t] ∈ src.foldl addSeen [] := List.getElem_mem ht
    rw [mem_foldl_addSeen] at hmem
    rcases hmem with hmem | hmem
    · simp at hmem
    · exact ⟨_, hmem, List.indexOf_getElem (nodup_foldl_addSeen src [] List.nodup_nil) t ht⟩

theorem mem_planCalls (targetLod : Int) (acc : Nat) (newId : GLC_uint) (final : List GLuint)
    (plan : List (Option GLC_uint × PrimitiveKind × List GLuint)) (t : GLuint) :
    (∃ c ∈ planCalls targetLod acc newId final plan, t ∈ c.indexList) ↔
      ∃ x ∈ plan.flatMap (fun p => p.2.2), List.indexOf x final = t := by
  unfold planCalls
  constructor
  · rintro ⟨c, hc, ht⟩
    obtain ⟨p, hp, hpc⟩ := List.mem_map.1 hc
    rw [← hpc] at ht
    obtain ⟨x, hx, hxt⟩ := List.mem_map.1 ht
    exact ⟨x, List.mem_flatMap.2 ⟨p, hp, hx⟩, hxt⟩
  · rintro ⟨x, hx, hxt⟩
    obtain ⟨p, hp, hxp⟩ := List.mem_flatMap.1 hx
    exact ⟨_, List.mem_map.2 ⟨p, hp, rfl⟩, List.mem_map.2 ⟨x, hxp, hxt⟩⟩

theorem copyIndex_eq (m : GLC_Mesh) (lodIndex targetLod : Int) (newId : GLC_uint)
    (st0 st : CopyState) (h : m.copyIndex lodIndex st0 targetLod newId = some st) :
    ∃ groups plan, QHash.value m.m_PrimitiveGroups lodIndex = some groups ∧
      m.readPlan lodIndex (QHash.keys groups) = some plan ∧
      emitPlan targetLod ((m.m_MeshData.getLod lodIndex).map GLC_Lod.accuracy) newId plan st0
        = some st := by
  unfold GLC_Mesh.copyIndex at h
  cases hv : QHash.value m.m_PrimitiveGroups lodIndex with
  | none => simp [hv] at h
  | some groups =>
    simp only [hv, Option.bind_eq_bind, Option.some_bind, copyIndexLoop_eq] at h
    cases hp : m.readPlan lodIndex (QHash.keys groups) with
    | none => simp [hp] at h
    | some plan =>
      simp only [hp, Option.some_bind] at h
      exact ⟨groups, plan, rfl, hp, h⟩

theorem emitPlan_new (targetLod : Int) (accuracy : Option Nat) (newId : GLC_uint)
    (plan : List (Option GLC_uint × PrimitiveKind × List GLuint)) (st : CopyState)
    (h : emitPlan targetLod accuracy newId plan { pLodMesh := GLC_Mesh.new, maps := {} }
      = some st) :
    st = { pLodMesh := AddCall.resultAll
            (planCalls targetLod (accuracy.getD 0) newId
              ((plan.flatMap (fun p => p.2.2)).foldl addSeen []) plan) GLC_Mesh.new
           maps := mapsOf ((plan.flatMap (fun p => p.2.2)).foldl addSeen []) } ∧
      ∀ p ∈ plan, p.2.2 ≠ [] := by
  obtain ⟨hacc, hne⟩ := emitPlan_success_inv _ _ _ _ _ _ h
  refine ⟨?_, hne⟩
  have hmaps : ({} : IndexMaps) = mapsOf [] := by
    simp [mapsOf, s2tOf, t2sOf]
  rw [hmaps] at h
  cases plan with
  | nil =>
    simp only [emitPlan, Option.some.injEq] at h
    rw [← h]
    rfl
  | cons x rest =>
    obtain ⟨a, ha⟩ := hacc (List.cons_ne_nil _ _)
    rw [ha] at h
    rw [emitPlan_eq targetLod a newId (x :: rest) GLC_Mesh.new [] hne Ingesting_new] at h
    rw [ha]
    exact (Option.some.inj h).symm

/-- C3. When `copyIndex` has processed a source LOD starting from an empty new mesh, empty
maps and `maxIndex = -1`, the target indices held by the new mesh are exactly
`0, 1, ..., maxIndex`, and `maxIndex + 1` is the number of distinct source vertex indices
referenced by the triangles, strips and fans of that LOD. -/
theorem index_compaction (m : GLC_Mesh) (lodIndex targetLod : Int) (newId : GLC_uint)
    (st : CopyState)
    (h : m.copyIndex lodIndex { pLodMesh := GLC_Mesh.new, maps := {} } targetLod newId
      = some st) :
    ∃ src, m.lodSourceIndices lodIndex = some src ∧
      (∀ t : GLuint, t ∈ st.pLodMesh.heldIndices ↔ (t : Int) ≤ st.maps.maxIndex) ∧
      st.maps.maxIndex + 1 = (src.dedup.length : Int) := by
  obtain ⟨groups, plan, hv, hplan, hemit⟩ := copyIndex_eq m lodIndex targetLod newId _ st h
  obtain ⟨hst, _⟩ := emitPlan_new _ _ _ _ _ hemit
  refine ⟨plan.flatMap (fun p => p.2.2), ?_, ?_, ?_⟩
  · simp [GLC_Mesh.lodSourceIndices, hv, hplan]
  · intro t
    rw [hst]
    simp only [mapsOf]
    rw [mem_heldIndices_resultAll, mem_planCalls, mem_rank_iff]
    have hnew : t ∉ GLC_Mesh.new.heldIndices := by
      simp [GLC_Mesh.heldIndices, GLC_Mesh.new]
    constructor
    · rintro (h1 | h1)
      · exact absurd h1 hnew
      · omega
    · intro h1
      right
      omega
  · rw [hst]
    simp only [mapsOf]
    rw [← foldl_addSeen_length]
    omega

/-- C3, instance: a LOD that references the source indices 5, 9, 2, 7 and 11 is copied
to the target indices 0 to 4. -/
theorem index_compaction_witness :
    ∃ st, sampleLodSource.copyIndex 0 { pLodMesh := GLC_Mesh.new, maps := {} } 0 1 = some st ∧
      st.maps.maxIndex = 4 ∧
      ∃ src, sampleLodSource.lodSourceIndices 0 = some src ∧
        (∀ t : GLuint, t ∈ st.pLodMesh.heldIndices ↔ (t : Int) ≤ st.maps.maxIndex) ∧
        st.maps.maxIndex + 1 = (src.dedup.length : Int) :=
  ⟨_, rfl, rfl, index_compaction sampleLodSource 0 0 1 _ rfl⟩

/-! ## The triangle counter of a mesh filled at LOD 0 -/

theorem QHash.sum_modify {κ ν : Type} [DecidableEq κ] (w : ν → Int) (h : QHash κ ν) (k : κ)
    (f : ν → ν) (δ : Int) (hk : k ∈ QHash.keys h) (hn : (QHash.keys h).Nodup)
    (hf : ∀ e ∈ h, e.1 = k → w (f e.2) = w e.2 + δ) :
    ((QHash.modify h k f).map (fun e => w e.2)).sum = (h.map (fun e => w e.2)).sum + δ := by
  induction h with
  | nil => simp [QHash.keys] at hk
  | cons e t ih =>
    obtain ⟨k2, v2⟩ := e
    simp only [QHash.keys, List.map_cons, List.nodup_cons, List.mem_cons] at hk hn
    rw [QHash.modify_cons]
    by_cases hkk : k2 = k
    · have ht : QHash.modify t k f = t := by
        apply QHash.modify_eq_self
        intro e he hek
        exact absurd (List.mem_map.2 ⟨e, he, hek.trans hkk.symm⟩) hn.1
      have hw := hf (k2, v2) (List.mem_cons_self _ _) hkk
      simp only at hw
      simp only [if_pos hkk, ht, List.map_cons, List.sum_cons, hw]
      omega
    · have hk2 : k ∈ QHash.keys t := by
        rcases hk with h1 | h1
        · exact absurd h1.symm hkk
        · exact h1
      have := ih hk2 hn.2 (fun e he => hf e (List.mem_cons_of_mem _ he))
      simp only [if_neg hkk, List.map_cons, List.sum_cons, this]
      omega

theorem QHash.mem_modify_sharp {κ ν : Type} [DecidableEq κ] (h : QHash κ ν) (k : κ)
    (f : ν → ν) (e1 : κ × ν) (he : e1 ∈ QHash.modify h k f) :
    ∃ e ∈ h, e1 = (if e.1 = k then (e.1, f e.2) else e) := by
  unfold QHash.modify at he
  obtain ⟨e, he1, he2⟩ := List.mem_map.1 he
  exact ⟨e, he1, he2.symm⟩

theorem groupFaces_new (id : GLC_uint) : groupFaces (GLC_PrimitiveGroup.new id) = 0 := by
  simp [groupFaces, GLC_PrimitiveGroup.new]

theorem groupFaces_addTo (c : AddCall) (id : GLC_uint) (g : GLC_PrimitiveGroup)
    (hc : c.kind = .triangles → c.indexList.length % 3 = 0)
    (hg : g.m_TrianglesIndexSize % 3 = 0) :
    groupFaces (c.addTo id g) = groupFaces g + c.triangleCount := by
  unfold AddCall.addTo AddCall.triangleCount groupFaces
  cases hk : c.kind with
  | triangles =>
    have h3 := hc hk
    simp only [GLC_PrimitiveGroup.addTriangles, Nat.cast_add]
    omega
  | strip =>
    simp only [GLC_PrimitiveGroup.addTrianglesStrip, PrimitiveRuns.add, List.map_append,
      List.sum_append, List.map_cons, List.map_nil, List.sum_cons, List.sum_nil]
    omega
  | fan =>
    simp only [GLC_PrimitiveGroup.addTrianglesFan, PrimitiveRuns.add, List.map_append,
      List.sum_append, List.map_cons, List.map_nil, List.sum_cons, List.sum_nil]
    omega

theorem GroupValid_new (id : GLC_uint) : GroupValid (GLC_PrimitiveGroup.new id) := by
  simp [GroupValid, GLC_PrimitiveGroup.new]

theorem GroupValid_addTo (c : AddCall) (id : GLC_uint) (g : GLC_PrimitiveGroup)
    (hne : c.indexList ≠ []) (hc : c.kind = .triangles → c.indexList.length % 3 = 0)
    (hg : GroupValid g) : GroupValid (c.addTo id g) := by
  obtain ⟨h1, h2, h3⟩ := hg
  have hpos : 0 < c.indexList.length := List.length_pos.2 hne
  unfold AddCall.addTo GroupValid
  cases hk : c.kind with
  | triangles =>
    have := hc hk
    refine ⟨?_, h2, h3⟩
    simp only [GLC_PrimitiveGroup.addTriangles]
    omega
  | strip =>
    refine ⟨h1, ?_, h3⟩
    intro s hs
    simp only [GLC_PrimitiveGroup.addTrianglesStrip, PrimitiveRuns.add, List.mem_append,
      List.mem_singleton] at hs
    rcases hs with hs | hs
    · exact h2 s hs
    · omega
  | fan =>
    refine ⟨h1, h2, ?_⟩
    intro s hs
    simp only [GLC_PrimitiveGroup.addTrianglesFan, PrimitiveRuns.add, List.mem_append,
      List.mem_singleton] at hs
    rcases hs with hs | hs
    · exact h3 s hs
    · omega

theorem groupContent_addTo_ne_nil (c : AddCall) (id : GLC_uint) (g : GLC_PrimitiveGroup)
    (hne : c.indexList ≠ []) : groupContent (c.addTo id g) ≠ [] := by
  obtain ⟨t, ht⟩ := List.exists_mem_of_ne_nil _ hne
  intro h
  have := (mem_groupContent_addTo c id g t).2 (Or.inr ht)
  rw [h] at this
  simp at this

theorem trianglesAdded_sum (d : GLC_MeshData) (n : Int) (h : d.m_LodList ≠ []) :
    ((d.trianglesAdded 0 n).m_LodList.map GLC_Lod.trianglesCount).sum =
      (d.m_LodList.map GLC_Lod.trianglesCount).sum + n := by
  unfold GLC_MeshData.trianglesAdded GLC_MeshData.getLod
  cases hl : d.m_LodList with
  | nil => exact absurd hl h
  | cons l t =>
    simp only [le_refl, if_true, Int.toNat_zero, List.getElem?_cons_zero, List.set_cons_zero,
      List.map_cons, List.sum_cons]
    omega

theorem lodFaces_ensured (gs : LodPrimitiveGroups) (gid : GLC_uint) :
    ((if QHash.contains gs gid then gs
      else gs ++ [(gid, GLC_PrimitiveGroup.new gid)]).map (fun x => groupFaces x.2)).sum =
      (gs.map (fun x => groupFaces x.2)).sum := by
  by_cases hc : QHash.contains gs gid = true
  · rw [if_pos hc]
  · rw [if_neg hc]
    simp [groupFaces_new]

theorem mem_keys_ensured (gs : LodPrimitiveGroups) (gid : GLC_uint) :
    gid ∈ QHash.keys
      (if QHash.contains gs gid then gs else gs ++ [(gid, GLC_PrimitiveGroup.new gid)]) := by
  by_cases hc : QHash.contains gs gid = true
  · rw [if_pos hc]
    exact (QHash.contains_iff_mem_keys gs gid).1 hc
  · rw [if_neg hc]
    simp [QHash.keys]

theorem meshFaces_ensureLod (lod : Int) (pg : PrimitiveGroupsHash) :
    meshFaces (ensureLod lod pg) = meshFaces pg := by
  unfold ensureLod meshFaces
  by_cases hc : QHash.contains pg lod = true
  · rw [if_pos hc]
  · rw [if_neg hc]
    simp

theorem mem_keys_ensureLod (lod : Int) (pg : PrimitiveGroupsHash) :
    lod ∈ QHash.keys (ensureLod lod pg) := by
  unfold ensureLod
  by_cases hc : QHash.contains pg lod = true
  · rw [if_pos hc]
    exact (QHash.contains_iff_mem_keys pg lod).1 hc
  · rw [if_neg hc]
    simp [QHash.keys]

theorem meshFaces_result (c : AddCall) (m : GLC_Mesh) (hi : m.Ingesting)
    (hv : ∀ e ∈ m.m_PrimitiveGroups, ∀ x ∈ e.2, GroupValid x.2)
    (hc : c.kind = .triangles → c.indexList.length % 3 = 0) :
    meshFaces (c.result m).m_PrimitiveGroups = meshFaces m.m_PrimitiveGroups + c.triangleCount := by
  have hg : (c.result m).m_PrimitiveGroups =
      QHash.modify
        (ensureGroup c.lod (c.groupId m.m_DefaultMaterialId)
          (ensureLod c.lod m.m_PrimitiveGroups)) c.lod
        (fun groups => QHash.modify groups (c.groupId m.m_DefaultMaterialId)
          (c.addTo (if c.lod = 0 then m.m_NextPrimitiveLocalId else 0))) := rfl
  rw [hg, ensureGroup_eq, ← meshFaces_ensureLod c.lod m.m_PrimitiveGroups]
  unfold meshFaces
  apply QHash.sum_modify (fun gs : LodPrimitiveGroups => (gs.map (fun x => groupFaces x.2)).sum)
  · exact mem_keys_ensureLod _ _
  · exact ensureLod_nodup _ _ hi.lodNodup
  · intro e he _
    have hgs : (QHash.keys e.2).Nodup ∧ ∀ x ∈ e.2, GroupValid x.2 := by
      rcases ensureLod_mem _ _ _ he with h0 | h0
      · exact ⟨hi.groupNodup _ h0, hv _ h0⟩
      · rw [h0]
        simp [QHash.keys]
    rw [← lodFaces_ensured e.2 (c.groupId m.m_DefaultMaterialId)]
    apply QHash.sum_modify groupFaces
    · exact mem_keys_ensured _ _
    · exact nodup_ensured _ _ hgs.1
    · intro x hx _
      apply groupFaces_addTo _ _ _ hc
      rcases mem_ensured _ _ _ hx with h3 | h3
      · exact (hgs.2 x h3).1
      · rw [h3]; exact (GroupValid_new _).1

theorem countSum_result (c : AddCall) (m : GLC_Mesh) (hi : m.Ingesting) (hl : c.lod = 0) :
    ((c.result m).m_MeshData.m_LodList.map GLC_Lod.trianglesCount).sum =
      (m.m_MeshData.m_LodList.map GLC_Lod.trianglesCount).sum + c.triangleCount := by
  show (((if QHash.contains m.m_PrimitiveGroups c.lod then m.m_MeshData
    else m.m_MeshData.appendLod c.accuracy).trianglesAdded c.lod c.triangleCount).m_LodList.map
      GLC_Lod.trianglesCount).sum = _
  rw [hl]
  by_cases hc : QHash.contains m.m_PrimitiveGroups 0 = true
  · rw [if_pos hc]
    apply trianglesAdded_sum
    intro h0
    have hlen := hi.lodCount
    rw [h0] at hlen
    have hk := (QHash.contains_iff_mem_keys _ _).1 hc
    have : m.m_PrimitiveGroups = [] := List.length_eq_zero.1 hlen.symm
    rw [this] at hk
    simp [QHash.keys] at hk
  · rw [if_neg hc, trianglesAdded_sum]
    · simp [GLC_MeshData.appendLod]
    · simp [GLC_MeshData.appendLod]

theorem countSum_resultAll (cs : List AddCall) (m : GLC_Mesh) (hi : m.Ingesting)
    (hl : ∀ c ∈ cs, c.lod = 0) :
    ((AddCall.resultAll cs m).m_MeshData.m_LodList.map GLC_Lod.trianglesCount).sum =
      (m.m_MeshData.m_LodList.map GLC_Lod.trianglesCount).sum +
        (cs.map AddCall.triangleCount).sum := by
  induction cs generalizing m with
  | nil => simp [AddCall.resultAll]
  | cons c cs ih =>
    simp only [AddCall.resultAll, List.map_cons, List.sum_cons]
    rw [ih _ (Ingesting_result c m hi) (fun c hc => hl c (List.mem_cons_of_mem _ hc)),
      countSum_result c m hi (hl c (List.mem_cons_self _ _))]
    omega

theorem Counted_new : GLC_Mesh.new.Counted := by
  constructor <;> simp [GLC_Mesh.new, QHash.keys, meshFaces]

theorem Counted_result (c : AddCall) (m : GLC_Mesh) (hi : m.Ingesting) (hm : m.Counted)
    (hl : c.lod = 0) (hne : c.indexList ≠ [])
    (hc : c.kind = .triangles → c.indexList.length % 3 = 0) : (c.result m).Counted := by
  constructor
  · intro k hk
    rcases (mem_keys_result c m k).1 hk with h1 | h1
    · exact hm.keys0 k h1
    · rw [h1, hl]
  · intro e1 he1 x1 hx1
    obtain ⟨gs, hgs, h2⟩ := result_entries c m e1 he1
    have hsz : ∀ x ∈ gs, GroupValid x.2 := by
      intro x hx
      rcases hgs with h0 | h0
      · exact hm.valid _ h0 x hx
      · rw [h0] at hx; simp at hx
    rcases h2 with h2 | h2
    · rw [h2] at hx1
      exact hsz x1 hx1
    · rw [h2] at hx1
      obtain ⟨x, hx, _, hx2⟩ := QHash.mem_modify _ _ _ _ hx1
      have hx0 : GroupValid x.2 := by
        rcases mem_ensured _ _ _ hx with h3 | h3
        · exact hsz x h3
        · rw [h3]; exact GroupValid_new _
      rcases hx2 with h4 | ⟨_, h4⟩
      · rw [h4]; exact hx0
      · rw [h4]; exact GroupValid_addTo _ _ _ hne hc hx0
  · intro e1 he1 x1 hx1
    obtain ⟨gs, hgs, h2⟩ := result_entries c m e1 he1
    have hsz : ∀ x ∈ gs, groupContent x.2 ≠ [] := by
      intro x hx
      rcases hgs with h0 | h0
      · exact hm.content _ h0 x hx
      · rw [h0] at hx; simp at hx
    rcases h2 with h2 | h2
    · rw [h2] at hx1
      exact hsz x1 hx1
    · rw [h2] at hx1
      obtain ⟨x, hx, hx2⟩ := QHash.mem_modify_sharp _ _ _ _ hx1
      by_cases hk : x.1 = c.groupId m.m_DefaultMaterialId
      · rw [if_pos hk] at hx2
        rw [hx2]
        exact groupContent_addTo_ne_nil _ _ _ hne
      · rw [if_neg hk] at hx2
        rw [hx2]
        rcases mem_ensured _ _ _ hx with h3 | h3
        · exact hsz x h3
        · rw [h3] at hk
          exact absurd rfl hk
  · rw [countSum_result c m hi hl, meshFaces_result c m hi hm.valid hc, hm.count]

theorem Counted_resultAll (cs : List AddCall) (m : GLC_Mesh) (hi : m.Ingesting)
    (hm : m.Counted)
    (hcs : ∀ c ∈ cs, c.lod = 0 ∧ c.indexList ≠ [] ∧
      (c.kind = .triangles → c.indexList.length % 3 = 0)) :
    (AddCall.resultAll cs m).Counted := by
  induction cs generalizing m with
  | nil => exact hm
  | cons c cs ih =>
    obtain ⟨h1, h2, h3⟩ := hcs c (List.mem_cons_self _ _)
    exact ih _ (Ingesting_result c m hi) (Counted_result c m hi hm h1 h2 h3)
      (fun c hc => hcs c (List.mem_cons_of_mem _ hc))

/-! ## What `copyIndex` reads from a finished mesh -/

theorem packed_useVbo (m : GLC_Mesh) : { m.packed with m_UseVbo := m.m_UseVbo } = m.packed := rfl

theorem readMaterial_packed (m : GLC_Mesh) (hi : m.Ingesting) (hr : m.LodsInRange)
    (lod : Int) (id : GLC_uint) (g : GLC_PrimitiveGroup) (hg : m.group lod id = some g) :
    m.packed.readMaterial lod id = some (groupPrims g) := by
  have hs := group_sized m hi lod id g hg
  obtain ⟨f1, f2, f3⟩ := packed_flags m lod id m.m_UseVbo g hg
  rw [packed_useVbo] at f1 f2 f3
  have hT : (if g.containsTriangles = true then
        (m.packed.getTrianglesIndex lod id).map (fun l => [(PrimitiveKind.triangles, l)])
      else some []) =
      some (if g.containsTriangles = true then [(PrimitiveKind.triangles, g.m_TrianglesIndex)]
        else []) := by
    by_cases hc : g.containsTriangles = true
    · have hne : g.m_TrianglesIndex ≠ [] := by
        intro h0
        simp [GLC_PrimitiveGroup.containsTriangles, hs.1, h0] at hc
      have := packed_getTrianglesIndex m hi hr lod id m.m_UseVbo g hg hne
      rw [packed_useVbo] at this
      rw [if_pos hc, if_pos hc, this]
      rfl
    · rw [if_neg hc, if_neg hc]
  have hS : (if g.containsStrip = true then
        (m.packed.getStripsIndex lod id).map
          (fun ls => ls.map (fun l => (PrimitiveKind.strip, l)))
      else some []) =
      some (if g.containsStrip = true then
        (splitRuns g.strips.sizes g.strips.index).map (fun l => (PrimitiveKind.strip, l))
        else []) := by
    by_cases hc : g.containsStrip = true
    · have hne : g.strips.index ≠ [] := by
        intro h0
        simp [GLC_PrimitiveGroup.containsStrip, PrimitiveRuns.nonEmpty, hs.2.1, h0] at hc
      have := packed_getStripsIndex m hi hr lod id m.m_UseVbo g hg hne
      rw [packed_useVbo] at this
      rw [if_pos hc, if_pos hc, this]
      rfl
    · rw [if_neg hc, if_neg hc]
  have hF : (if g.containsFan = true then
        (m.packed.getFansIndex lod id).map
          (fun ls => ls.map (fun l => (PrimitiveKind.fan, l)))
      else some []) =
      some (if g.containsFan = true then
        (splitRuns g.fans.sizes g.fans.index).map (fun l => (PrimitiveKind.fan, l))
        else []) := by
    by_cases hc : g.containsFan = true
    · have hne : g.fans.index ≠ [] := by
        intro h0
        simp [GLC_PrimitiveGroup.containsFan, PrimitiveRuns.nonEmpty, hs.2.2.2.1, h0] at hc
      have := packed_getFansIndex m hi hr lod id m.m_UseVbo g hg hne
      rw [packed_useVbo] at this
      rw [if_pos hc, if_pos hc, this]
      rfl
    · rw [if_neg hc, if_neg hc]
  unfold GLC_Mesh.readMaterial
  rw [f1, f2, f3]
  simp only [Option.bind_eq_bind, Option.some_bind, hT, hS, hF, Option.pure_def]
  rfl

theorem material_packed (m : GLC_Mesh) (id : GLC_uint) (h : id ∈ m.m_MaterialHash) :
    m.packed.material id = some id := by
  simp [GLC_Mesh.material, GLC_Mesh.containsMaterial, GLC_Mesh.packed, h]

theorem readPlan_packed (m : GLC_Mesh) (hi : m.Ingesting) (hr : m.LodsInRange) (lod : Int)
    (gs : LodPrimitiveGroups)
    (hg : ∀ x ∈ gs, m.group lod x.1 = some x.2 ∧ x.1 ∈ m.m_MaterialHash) :
    m.packed.readPlan lod (QHash.keys gs) = some (lodPlan gs) := by
  induction gs with
  | nil => rfl
  | cons x rest ih =>
    obtain ⟨h1, h2⟩ := hg x (List.mem_cons_self _ _)
    have h3 := ih (fun y hy => hg y (List.mem_cons_of_mem _ hy))
    simp only [QHash.keys, List.map_cons] at h3 ⊢
    simp only [GLC_Mesh.readPlan, readMaterial_packed m hi hr lod x.1 x.2 h1, h3,
      material_packed m x.1 h2, Option.bind_eq_bind, Option.some_bind, Option.pure_def,
      lodPlan, List.flatMap_cons]

theorem splitRuns_ne_nil (sizes : List Nat) (l : List GLuint) (hp : ∀ s ∈ sizes, 0 < s)
    (hs : sizes.sum = l.length) : ∀ r ∈ splitRuns sizes l, r ≠ [] := by
  induction sizes generalizing l with
  | nil => simp [splitRuns]
  | cons s ss ih =>
    intro r hr
    simp only [List.sum_cons] at hs
    simp only [splitRuns, List.mem_cons] at hr
    have hs0 := hp s (List.mem_cons_self _ _)
    rcases hr with h1 | h1
    · rw [h1]
      intro h0
      have := congrArg List.length h0
      simp only [List.length_take, List.length_nil] at this
      omega
    · exact ih (l.drop s) (fun t ht => hp t (List.mem_cons_of_mem _ ht))
        (by rw [List.length_drop]; omega) r h1

theorem splitRuns_lengths (sizes : List Nat) (l : List GLuint) (hs : sizes.sum = l.length) :
    (splitRuns sizes l).map List.length = sizes := by
  induction sizes generalizing l with
  | nil => simp [splitRuns]
  | cons s ss ih =>
    simp only [List.sum_cons] at hs
    simp only [splitRuns, List.map_cons, List.length_take]
    rw [ih (l.drop s) (by rw [List.length_drop]; omega)]
    congr 1
    omega

theorem groupPrims_ne_nil (g : GLC_PrimitiveGroup) (hs : GroupSized g) (hv : GroupValid g) :
    ∀ p ∈ groupPrims g, p.2 ≠ [] := by
  intro p hp
  unfold groupPrims at hp
  simp only [List.mem_append] at hp
  rcases hp with (hp | hp) | hp
  · by_cases hc : g.containsTriangles = true
    · rw [if_pos hc, List.mem_singleton] at hp
      rw [hp]
      intro h0
      simp only at h0
      simp [GLC_PrimitiveGroup.containsTriangles, hs.1, h0] at hc
    · rw [if_neg hc] at hp
      simp at hp
  · by_cases hc : g.containsStrip = true
    · rw [if_pos hc] at hp
      obtain ⟨r, hr, hrp⟩ := List.mem_map.1 hp
      rw [← hrp]
      exact splitRuns_ne_nil _ _ hv.2.1 hs.2.2.1 r hr
    · rw [if_neg hc] at hp
      simp at hp
  · by_cases hc : g.containsFan = true
    · rw [if_pos hc] at hp
      obtain ⟨r, hr, hrp⟩ := List.mem_map.1 hp
      rw [← hrp]
      exact splitRuns_ne_nil _ _ hv.2.2 hs.2.2.2.2 r hr
    · rw [if_neg hc] at hp
      simp at hp

theorem lodPlan_ne_nil (gs : LodPrimitiveGroups) (hs : ∀ x ∈ gs, GroupSized x.2)
    (hv : ∀ x ∈ gs, GroupValid x.2) : ∀ p ∈ lodPlan gs, p.2.2 ≠ [] := by
  intro p hp
  unfold lodPlan at hp
  obtain ⟨x, hx, hpx⟩ := List.mem_flatMap.1 hp
  obtain ⟨q, hq, hqp⟩ := List.mem_map.1 hpx
  rw [← hqp]
  exact groupPrims_ne_nil x.2 (hs x hx) (hv x hx) q hq

theorem keys_packedGroups (gs : LodPrimitiveGroups) (b : Nat) :
    QHash.keys (packedGroups b gs) = QHash.keys gs := by
  induction gs generalizing b with
  | nil => rfl
  | cons x rest ih =>
    obtain ⟨id, g⟩ := x
    simp only [packedGroups, QHash.keys, List.map_cons] at ih ⊢
    rw [ih]

theorem group_of_mem (m : GLC_Mesh) (hi : m.Ingesting) (lod : Int) (gs : LodPrimitiveGroups)
    (hgs : QHash.value m.m_PrimitiveGroups lod = some gs) :
    ∀ x ∈ gs, m.group lod x.1 = some x.2 ∧ x.1 ∈ m.m_MaterialHash := by
  intro x hx
  have hmem := QHash.mem_of_value _ _ _ hgs
  refine ⟨?_, hi.registered _ hmem x hx⟩
  unfold GLC_Mesh.group
  rw [hgs]
  exact QHash.value_of_mem gs x.1 x.2 (hi.groupNodup _ hmem) hx

theorem getLod_packed (m : GLC_Mesh) (hr : m.LodsInRange) (lod : Int)
    (gs : LodPrimitiveGroups) (hgs : QHash.value m.m_PrimitiveGroups lod = some gs) :
    ∃ l, m.packed.m_MeshData.getLod lod = some l := by
  have hmem := QHash.mem_of_value _ _ _ hgs
  obtain ⟨h0, h1⟩ := hr _ hmem
  have hlen : lod.toNat < m.packed.m_MeshData.m_LodList.length := by
    simp only [GLC_Mesh.packed, appendAll_length, GLC_MeshData.finishLod]
    exact h1
  exact ⟨_, GLC_MeshData.getLod_eq_some _ lod h0 hlen⟩

theorem copyIndex_packed (m : GLC_Mesh) (hi : m.Ingesting) (hr : m.LodsInRange)
    (hv : ∀ e ∈ m.m_PrimitiveGroups, ∀ x ∈ e.2, GroupValid x.2)
    (lod targetLod : Int) (newId : GLC_uint) (gs : LodPrimitiveGroups)
    (hgs : QHash.value m.m_PrimitiveGroups lod = some gs) :
    ∃ acc, m.packed.copyIndex lod { pLodMesh := GLC_Mesh.new, maps := {} } targetLod newId =
      some
        { pLodMesh := AddCall.resultAll
            (planCalls targetLod acc newId
              (((lodPlan gs).flatMap (fun p => p.2.2)).foldl addSeen []) (lodPlan gs))
            GLC_Mesh.new
          maps := mapsOf (((lodPlan gs).flatMap (fun p => p.2.2)).foldl addSeen []) } := by
  have hmem := QHash.mem_of_value _ _ _ hgs
  obtain ⟨l, hl⟩ := getLod_packed m hr lod gs hgs
  refine ⟨l.accuracy, ?_⟩
  have hpv : QHash.value m.packed.m_PrimitiveGroups lod = some (packedGroups 0 gs) := by
    simp [GLC_Mesh.packed, packedAll_value, hgs]
  have hmaps : ({} : IndexMaps) = mapsOf [] := by
    simp [mapsOf, s2tOf, t2sOf]
  unfold GLC_Mesh.copyIndex
  rw [hpv]
  simp only [Option.bind_eq_bind, Option.some_bind, copyIndexLoop_eq, keys_packedGroups,
    readPlan_packed m hi hr lod gs (group_of_mem m hi lod gs hgs), hl, Option.map_some', hmaps]
  exact emitPlan_eq targetLod l.accuracy newId (lodPlan gs) GLC_Mesh.new []
    (lodPlan_ne_nil gs (hi.sized _ hmem) (hv _ hmem)) Ingesting_new

/-! ## The bulk data that `copyBulkData` hands to the new mesh -/

theorem copyVertices_range (source : List GLfloat) (stride : Nat) (pre rest : List GLuint)
    (hvalid : ∀ s ∈ rest, s * stride + stride ≤ source.length) :
    copyVertices source (t2sOf 0 (pre ++ rest)) stride (List.range' pre.length rest.length) =
      some (rest.flatMap (chunkAt source stride)) := by
  induction rest generalizing pre with
  | nil => rfl
  | cons a t ih =>
    have hv : QHash.value (t2sOf 0 (pre ++ a :: t)) pre.length = some a := by
      have := t2sOf_value 0 (pre ++ a :: t) pre.length
      rw [Nat.zero_add] at this
      rw [this, List.getElem?_append_right (Nat.le_refl _), Nat.sub_self,
        List.getElem?_cons_zero]
    have ha := hvalid a (List.mem_cons_self _ _)
    have hrec := ih (pre ++ [a]) (fun s hs => hvalid s (List.mem_cons_of_mem _ hs))
    rw [List.append_assoc, List.singleton_append, List.length_append, List.length_singleton]
      at hrec
    simp only [List.length_cons, List.range'_succ, copyVertices, hv, Option.getD_some,
      memcpyFrom, if_pos ha, hrec, Option.bind_eq_bind, Option.some_bind, Option.pure_def,
      List.flatMap_cons, chunkAt]

theorem copyVertices_eq (source : List GLfloat) (stride : Nat) (final : List GLuint)
    (hvalid : ∀ s ∈ final, s * stride + stride ≤ source.length) :
    copyVertices source (t2sOf 0 final) stride (List.range final.length) =
      some (final.flatMap (chunkAt source stride)) := by
  have := copyVertices_range source stride [] final hvalid
  simpa [List.range_eq_range'] using this

theorem chunkAt_length (source : List GLfloat) (stride : Nat) (s : GLuint)
    (h : s * stride + stride ≤ source.length) : (chunkAt source stride s).length = stride := by
  have h1 : @HMul.hMul Nat Nat Nat _ s stride + stride ≤ source.length := h
  simp only [chunkAt, List.length_take, List.length_drop]
  omega

theorem memcpyFrom_flatMap (source : List GLfloat) (stride : Nat) (final : List GLuint)
    (hvalid : ∀ s ∈ final, s * stride + stride ≤ source.length) (i : Nat) (x : GLuint)
    (hx : final[i]? = some x) :
    memcpyFrom (final.flatMap (chunkAt source stride)) (i * stride) stride =
      some (chunkAt source stride x) := by
  induction final generalizing i with
  | nil => simp at hx
  | cons a t ih =>
    have hla := chunkAt_length source stride a (hvalid a (List.mem_cons_self _ _))
    have hlt : (t.flatMap (chunkAt source stride)).length = stride * t.length := by
      clear ih hx
      induction t with
      | nil => simp
      | cons b u ihu =>
        rw [List.flatMap_cons, List.length_append,
          ihu (fun s hs => by
            rcases List.mem_cons.1 hs with h1 | h1
            · exact hvalid s (h1 ▸ List.mem_cons_self _ _)
            · exact hvalid s (List.mem_cons_of_mem _ (List.mem_cons_of_mem _ h1))),
          chunkAt_length source stride b
            (hvalid b (List.mem_cons_of_mem _ (List.mem_cons_self _ _))),
          List.length_cons]
        ring
    cases i with
    | zero =>
      simp only [List.getElem?_cons_zero, Option.some.injEq] at hx
      subst hx
      unfold memcpyFrom
      rw [if_pos (by
        rw [List.flatMap_cons, List.length_append, hla]
        omega)]
      rw [List.flatMap_cons, Nat.zero_mul, List.drop_zero, List.take_append_of_le_length
        (by omega), List.take_of_length_le (by omega)]
    | succ j =>
      simp only [List.getElem?_cons_succ] at hx
      have hrec := ih (fun s hs => hvalid s (List.mem_cons_of_mem _ hs)) j hx
      unfold memcpyFrom at hrec ⊢
      have hj : j < t.length := by
        rcases Nat.lt_or_ge j t.length with h1 | h1
        · exact h1
        · rw [List.getElem?_eq_none h1] at hx
          exact absurd hx (by simp)
      have hb : j * stride + stride ≤ stride * t.length := by
        have : (j + 1) * stride ≤ t.length * stride := Nat.mul_le_mul_right _ hj
        rw [Nat.mul_comm t.length] at this
        rw [Nat.add_mul, Nat.one_mul] at this
        exact this
      rw [if_pos (by rw [hlt]; exact hb)] at hrec
      rw [if_pos (by
        rw [List.flatMap_cons, List.length_append, hla, hlt, Nat.add_mul, Nat.one_mul]
        omega)]
      rw [List.flatMap_cons, show (j + 1) * stride = (chunkAt source stride a).length + j * stride
        by rw [hla, Nat.add_mul, Nat.one_mul, Nat.add_comm], List.drop_append]
      exact hrec

theorem flatMap_chunkAt_length (source : List GLfloat) (stride : Nat) (final : List GLuint)
    (hvalid : ∀ s ∈ final, s * stride + stride ≤ source.length) :
    (final.flatMap (chunkAt source stride)).length = stride * final.length := by
  induction final with
  | nil => simp
  | cons b u ihu =>
    rw [List.flatMap_cons, List.length_append,
      ihu (fun s hs => hvalid s (List.mem_cons_of_mem _ hs)),
      chunkAt_length source stride b (hvalid b (List.mem_cons_self _ _)), List.length_cons]
    ring

theorem addTexels_nil (m : GLC_Mesh) : m.addTexels [] = m := by
  cases m with
  | mk a b c d e f data g h i j k l n =>
    cases data
    simp [GLC_Mesh.addTexels, GLC_MeshData.appendTexels]

theorem copyBulkData_eq (M pLodMesh : GLC_Mesh) (final : List GLuint)
    (hP : M.m_MeshData.m_Positions ≠ []) (hN : M.m_MeshData.m_Normals ≠ [])
    (hvalid : ∀ s ∈ final, s * 3 + 3 ≤ M.m_MeshData.m_Positions.length ∧
      s * 3 + 3 ≤ M.m_MeshData.m_Normals.length ∧
      (M.m_MeshData.m_Texels ≠ [] → s * 2 + 2 ≤ M.m_MeshData.m_Texels.length)) :
    ∃ texels, M.copyBulkData pLodMesh (mapsOf final).tagetToSourceIndexMap (mapsOf final).maxIndex =
      some (((pLodMesh.addVertice (final.flatMap (chunkAt M.m_MeshData.m_Positions 3))).addNormals
        (final.flatMap (chunkAt M.m_MeshData.m_Normals 3))).addTexels texels) := by
  have hn : (((final.length : Int) - 1) + 1).toNat = final.length := by omega
  have h1 := copyVertices_eq M.m_MeshData.m_Positions 3 final (fun s hs => (hvalid s hs).1)
  have h2 := copyVertices_eq M.m_MeshData.m_Normals 3 final (fun s hs => (hvalid s hs).2.1)
  have hPe : M.m_MeshData.m_Positions.isEmpty = false := by
    cases hp : M.m_MeshData.m_Positions with
    | nil => exact absurd hp hP
    | cons a t => rfl
  have hNe : M.m_MeshData.m_Normals.isEmpty = false := by
    cases hp : M.m_MeshData.m_Normals with
    | nil => exact absurd hp hN
    | cons a t => rfl
  unfold GLC_Mesh.copyBulkData
  simp only [mapsOf, hn, hPe, hNe, h1, h2, Bool.false_eq_true, if_false, Option.bind_eq_bind,
    Option.some_bind, Option.pure_def]
  by_cases hT : M.m_MeshData.m_Texels = []
  · refine ⟨[], ?_⟩
    rw [hT, addTexels_nil]
    rfl
  · have h3 := copyVertices_eq M.m_MeshData.m_Texels 2 final
      (fun s hs => (hvalid s hs).2.2 hT)
    have hTe : M.m_MeshData.m_Texels.isEmpty = false := by
      cases hp : M.m_MeshData.m_Texels with
      | nil => exact absurd hp hT
      | cons a t => rfl
    refine ⟨final.flatMap (chunkAt M.m_MeshData.m_Texels 2), ?_⟩
    simp only [hTe, h3, Bool.not_false, if_true, Option.some_bind]

/-! ## The face count of a mesh with one LOD -/

theorem single_groups (m : GLC_Mesh) (hi : m.Ingesting)
    (hk : ∀ k ∈ QHash.keys m.m_PrimitiveGroups, k = 0) (gs : LodPrimitiveGroups)
    (hgs : QHash.value m.m_PrimitiveGroups 0 = some gs) : m.m_PrimitiveGroups = [(0, gs)] := by
  have hn := hi.lodNodup
  cases hpg : m.m_PrimitiveGroups with
  | nil => rw [hpg] at hgs; simp [QHash.value] at hgs
  | cons e t =>
    rw [hpg] at hn hk hgs
    obtain ⟨k, v⟩ := e
    simp only [QHash.keys, List.map_cons, List.nodup_cons, List.mem_cons] at hn hk
    have hk0 : k = 0 := hk k (Or.inl rfl)
    have ht : t = [] := by
      cases t with
      | nil => rfl
      | cons e2 t2 =>
        exfalso
        apply hn.1
        have := hk e2.1 (Or.inr (by simp))
        rw [hk0, ← this]
        simp
    subst hk0
    rw [QHash.value_cons, if_pos rfl] at hgs
    rw [ht, Option.some.inj hgs]

theorem appendAtLod_counts (ls : List GLC_Lod) (n : Nat) (a : List GLuint) :
    (appendAtLod ls n a).map GLC_Lod.trianglesCount = ls.map GLC_Lod.trianglesCount := by
  induction ls generalizing n with
  | nil => rfl
  | cons l t ih =>
    cases n with
    | zero => simp [appendAtLod]
    | succ k => simp [appendAtLod, ih]

theorem appendAll_counts (pg : PrimitiveGroupsHash) (ls : List GLC_Lod) :
    (appendAll ls pg).map GLC_Lod.trianglesCount = ls.map GLC_Lod.trianglesCount := by
  induction pg generalizing ls with
  | nil => rfl
  | cons e t ih =>
    obtain ⟨lod, groups⟩ := e
    simp only [appendAll]
    rw [ih, appendAtLod_counts]

theorem faceCount_packed (m : GLC_Mesh) (hi : m.Ingesting)
    (hk : ∀ k ∈ QHash.keys m.m_PrimitiveGroups, k = 0) (gs : LodPrimitiveGroups)
    (hgs : QHash.value m.m_PrimitiveGroups 0 = some gs) :
    m.packed.faceCount 0 =
      some ((m.m_MeshData.m_LodList.map GLC_Lod.trianglesCount).sum % 4294967296) := by
  have hsingle := single_groups m hi hk gs hgs
  have hlen : m.m_MeshData.m_LodList.length = 1 := by
    rw [hi.lodCount, hsingle]
    rfl
  have hc := appendAll_counts m.m_PrimitiveGroups m.m_MeshData.m_LodList
  have hl2 : (appendAll m.m_MeshData.m_LodList m.m_PrimitiveGroups).length = 1 := by
    rw [appendAll_length, hlen]
  unfold GLC_Mesh.faceCount GLC_MeshData.trianglesCount GLC_MeshData.getLod
  simp only [GLC_Mesh.packed, GLC_MeshData.finishLod, le_refl, if_true, Int.toNat_zero]
  rw [← hc]
  cases hx : appendAll m.m_MeshData.m_LodList m.m_PrimitiveGroups with
  | nil => rw [hx] at hl2; simp at hl2
  | cons l t =>
    rw [hx] at hl2
    have ht : t = [] := by
      cases t with
      | nil => rfl
      | cons a b => simp at hl2
    subst ht
    simp

theorem sum_primFaces_runs (kind : PrimitiveKind) (hk : kind ≠ .triangles)
    (runs : List (List GLuint)) :
    ((runs.map (fun l => (kind, l))).map primFaces).sum =
      ((runs.map List.length).map (fun (s : Nat) => (s : Int) - 2)).sum := by
  induction runs with
  | nil => rfl
  | cons r t ih =>
    simp only [List.map_cons, List.sum_cons, ih]
    cases kind with
    | triangles => exact absurd rfl hk
    | strip => simp [primFaces]
    | fan => simp [primFaces]

theorem sizes_eq_nil (sizes : List Nat) (hp : ∀ s ∈ sizes, 0 < s) (h0 : sizes.sum = 0) :
    sizes = [] := by
  cases sizes with
  | nil => rfl
  | cons a t =>
    have := hp a (List.mem_cons_self _ _)
    simp only [List.sum_cons] at h0
    omega

theorem sum_primFaces_group (g : GLC_PrimitiveGroup) (hs : GroupSized g) (hv : GroupValid g) :
    ((groupPrims g).map primFaces).sum = groupFaces g := by
  obtain ⟨s1, s2, s3, s4, s5⟩ := hs
  obtain ⟨_, v2, v3⟩ := hv
  have hT : ((if g.containsTriangles = true then
      [(PrimitiveKind.triangles, g.m_TrianglesIndex)] else []).map primFaces).sum =
      (g.m_TrianglesIndexSize : Int) / 3 := by
    by_cases hc : g.containsTriangles = true
    · rw [if_pos hc]
      simp [primFaces, s1]
    · rw [if_neg hc]
      have : g.m_TrianglesIndexSize = 0 := by
        simp [GLC_PrimitiveGroup.containsTriangles] at hc
        exact hc
      simp [this]
  have hS : ((if g.containsStrip = true then
      (splitRuns g.strips.sizes g.strips.index).map (fun l => (PrimitiveKind.strip, l))
      else []).map primFaces).sum =
      (g.strips.sizes.map (fun (s : Nat) => (s : Int) - 2)).sum := by
    by_cases hc : g.containsStrip = true
    · rw [if_pos hc, sum_primFaces_runs _ (by decide), splitRuns_lengths _ _ s3]
    · rw [if_neg hc]
      have h0 : g.strips.indexSize = 0 := by
        simp [GLC_PrimitiveGroup.containsStrip, PrimitiveRuns.nonEmpty] at hc
        exact hc
      rw [sizes_eq_nil _ v2 (by rw [s3, ← s2, h0])]
      rfl
  have hF : ((if g.containsFan = true then
      (splitRuns g.fans.sizes g.fans.index).map (fun l => (PrimitiveKind.fan, l))
      else []).map primFaces).sum =
      (g.fans.sizes.map (fun (s : Nat) => (s : Int) - 2)).sum := by
    by_cases hc : g.containsFan = true
    · rw [if_pos hc, sum_primFaces_runs _ (by decide), splitRuns_lengths _ _ s5]
    · rw [if_neg hc]
      have h0 : g.fans.indexSize = 0 := by
        simp [GLC_PrimitiveGroup.containsFan, PrimitiveRuns.nonEmpty] at hc
        exact hc
      rw [sizes_eq_nil _ v3 (by rw [s5, ← s4, h0])]
      rfl
  unfold groupPrims groupFaces
  rw [List.map_append, List.map_append, List.sum_append, List.sum_append, hT, hS, hF]

theorem triangleCount_planCalls (targetLod : Int) (acc : Nat) (newId : GLC_uint)
    (final : List GLuint) (plan : List (Option GLC_uint × PrimitiveKind × List GLuint)) :
    ((planCalls targetLod acc newId final plan).map AddCall.triangleCount).sum =
      (plan.map (fun p => primFaces p.2)).sum := by
  unfold planCalls
  rw [List.map_map]
  congr 1
  apply List.map_congr_left
  intro p _
  simp only [Function.comp, AddCall.triangleCount, primFaces, List.length_map]

theorem sum_primFaces_lodPlan (gs : LodPrimitiveGroups) (hs : ∀ x ∈ gs, GroupSized x.2)
    (hv : ∀ x ∈ gs, GroupValid x.2) :
    ((lodPlan gs).map (fun p => primFaces p.2)).sum = (gs.map (fun x => groupFaces x.2)).sum := by
  induction gs with
  | nil => rfl
  | cons x t ih =>
    have h1 := sum_primFaces_group x.2 (hs x (List.mem_cons_self _ _))
      (hv x (List.mem_cons_self _ _))
    have h2 := ih (fun y hy => hs y (List.mem_cons_of_mem _ hy))
      (fun y hy => hv y (List.mem_cons_of_mem _ hy))
    unfold lodPlan at h2 ⊢
    rw [List.flatMap_cons, List.map_append, List.sum_append, h2, List.map_map, List.map_cons,
      List.sum_cons, ← h1]
    rfl

/-! ## The triangle list of the extracted mesh -/

theorem batches_planCalls (kind : PrimitiveKind) (lod : Int) (id d : GLC_uint) (acc : Nat)
    (newId : GLC_uint) (final : List GLuint)
    (plan : List (Option GLC_uint × PrimitiveKind × List GLuint))
    (hsome : ∀ p ∈ plan, ∃ i, p.1 = some i) :
    AddCall.batches kind lod id d (planCalls lod acc newId final plan) =
      (plan.filter (fun p => decide (p.2.1 = kind ∧ p.1 = some id))).map
        (fun p => p.2.2.map (fun x => List.indexOf x final)) := by
  induction plan with
  | nil => rfl
  | cons p rest ih =>
    obtain ⟨i, hi⟩ := hsome p (List.mem_cons_self _ _)
    have hrec := ih (fun q hq => hsome q (List.mem_cons_of_mem _ hq))
    unfold planCalls at hrec ⊢
    simp only [List.map_cons, AddCall.batches, AddCall.groupId, AddCall.nextDefault, hi, hrec,
      true_and, List.filter_cons, Option.some.injEq]
    by_cases hc : p.2.1 = kind ∧ i = id
    · simp [hc]
    · simp [hc]

theorem filter_groupPrims (g : GLC_PrimitiveGroup) (k id : GLC_uint) :
    ((groupPrims g).map (fun p => (some k, p))).filter
        (fun p => decide (p.2.1 = PrimitiveKind.triangles ∧ p.1 = some id)) =
      if k = id then
        (if g.containsTriangles = true then
          [(some k, PrimitiveKind.triangles, g.m_TrianglesIndex)] else [])
      else [] := by
  unfold groupPrims
  rw [List.map_append, List.map_append, List.filter_append, List.filter_append]
  have hS : ((if g.containsStrip = true then
      (splitRuns g.strips.sizes g.strips.index).map (fun l => (PrimitiveKind.strip, l))
      else []).map (fun p => (some k, p))).filter
        (fun p => decide (p.2.1 = PrimitiveKind.triangles ∧ p.1 = some id)) = [] := by
    rw [List.filter_eq_nil_iff]
    intro a ha
    obtain ⟨q, hq, hqa⟩ := List.mem_map.1 ha
    by_cases hc : g.containsStrip = true
    · rw [if_pos hc] at hq
      obtain ⟨r, _, hr⟩ := List.mem_map.1 hq
      rw [← hqa, ← hr]
      simp
    · rw [if_neg hc] at hq
      simp at hq
  have hF : ((if g.containsFan = true then
      (splitRuns g.fans.sizes g.fans.index).map (fun l => (PrimitiveKind.fan, l))
      else []).map (fun p => (some k, p))).filter
        (fun p => decide (p.2.1 = PrimitiveKind.triangles ∧ p.1 = some id)) = [] := by
    rw [List.filter_eq_nil_iff]
    intro a ha
    obtain ⟨q, hq, hqa⟩ := List.mem_map.1 ha
    by_cases hc : g.containsFan = true
    · rw [if_pos hc] at hq
      obtain ⟨r, _, hr⟩ := List.mem_map.1 hq
      rw [← hqa, ← hr]
      simp
    · rw [if_neg hc] at hq
      simp at hq
  rw [hS, hF, List.append_nil, List.append_nil]
  by_cases hc : g.containsTriangles = true
  · by_cases hk : k = id
    · simp [hc, hk]
    · simp [hc, hk]
  · simp [hc]

theorem filter_lodPlan (gs : LodPrimitiveGroups) (id : GLC_uint) :
    (lodPlan gs).filter (fun p => decide (p.2.1 = PrimitiveKind.triangles ∧ p.1 = some id)) =
      gs.flatMap (fun x =>
        if x.1 = id then
          (if x.2.containsTriangles = true then
            [(some x.1, PrimitiveKind.triangles, x.2.m_TrianglesIndex)] else [])
        else []) := by
  induction gs with
  | nil => rfl
  | cons x t ih =>
    unfold lodPlan at ih ⊢
    rw [List.flatMap_cons, List.filter_append, ih, filter_groupPrims, List.flatMap_cons]

theorem flatMap_at_key {β : Type} (gs : LodPrimitiveGroups) (id : GLC_uint)
    (g : GLC_PrimitiveGroup) (hn : (QHash.keys gs).Nodup) (hv : QHash.value gs id = some g)
    (F : GLC_uint × GLC_PrimitiveGroup → List β) :
    gs.flatMap (fun x => if x.1 = id then F x else []) = F (id, g) := by
  induction gs with
  | nil => simp [QHash.value] at hv
  | cons x t ih =>
    obtain ⟨k, v⟩ := x
    simp only [QHash.keys, List.map_cons, List.nodup_cons] at hn
    rw [QHash.value_cons] at hv
    rw [List.flatMap_cons]
    by_cases hk : k = id
    · rw [if_pos hk] at hv
      have hrest : t.flatMap (fun x => if x.1 = id then F x else []) = [] := by
        rw [List.flatMap_eq_nil_iff]
        intro y hy
        have hne : y.1 ≠ id := by
          intro h0
          apply hn.1
          rw [hk, ← h0]
          exact List.mem_map.2 ⟨y, hy, rfl⟩
        rw [if_neg hne]
      simp only [hk, if_true, hrest, List.append_nil]
      rw [Option.some.inj hv]
    · rw [if_neg hk] at hv
      simp only [hk, if_false, List.nil_append]
      exact ih hn.2 hv

theorem lodPlan_some (gs : LodPrimitiveGroups) : ∀ p ∈ lodPlan gs, ∃ i, p.1 = some i := by
  intro p hp
  unfold lodPlan at hp
  obtain ⟨x, _, hpx⟩ := List.mem_flatMap.1 hp
  obtain ⟨q, _, hqp⟩ := List.mem_map.1 hpx
  exact ⟨x.1, by rw [← hqp]⟩

theorem trianglesOf_extracted (gs : LodPrimitiveGroups) (id : GLC_uint)
    (g : GLC_PrimitiveGroup) (hn : (QHash.keys gs).Nodup) (hv : QHash.value gs id = some g)
    (acc : Nat) (newId : GLC_uint) (final : List GLuint) :
    (AddCall.resultAll (planCalls 0 acc newId final (lodPlan gs)) GLC_Mesh.new).trianglesOf 0 id =
      if g.containsTriangles = true then
        g.m_TrianglesIndex.map (fun x => List.indexOf x final)
      else [] := by
  rw [trianglesOf_resultAll, trianglesOf_new, List.nil_append,
    batches_planCalls _ _ _ _ _ _ _ _ (lodPlan_some gs), filter_lodPlan,
    flatMap_at_key gs id g hn hv
      (fun x => if x.2.containsTriangles = true then
        [(some x.1, PrimitiveKind.triangles, x.2.m_TrianglesIndex)] else [])]
  by_cases hc : g.containsTriangles = true
  · simp [hc]
  · simp [hc]

theorem mem_splitRuns_iff (sizes : List Nat) (l : List GLuint) (h : sizes.sum = l.length)
    (s : GLuint) : (∃ r ∈ splitRuns sizes l, s ∈ r) ↔ s ∈ l := by
  have hf := splitRuns_flatten sizes l h
  constructor
  · rintro ⟨r, hr, hs⟩
    rw [← hf]
    exact List.mem_flatten.2 ⟨r, hr, hs⟩
  · intro hs
    rw [← hf] at hs
    exact List.mem_flatten.1 hs

theorem mem_groupPrims_iff (g : GLC_PrimitiveGroup) (hs : GroupSized g) (s : GLuint) :
    (∃ p ∈ groupPrims g, s ∈ p.2) ↔ s ∈ groupContent g := by
  obtain ⟨s1, s2, s3, s4, s5⟩ := hs
  unfold groupPrims groupContent
  simp only [List.mem_append]
  constructor
  · rintro ⟨p, (hp | hp) | hp, hsp⟩
    · by_cases hc : g.containsTriangles = true
      · rw [if_pos hc, List.mem_singleton] at hp
        rw [hp] at hsp
        exact Or.inl (Or.inl hsp)
      · rw [if_neg hc] at hp
        simp at hp
    · by_cases hc : g.containsStrip = true
      · rw [if_pos hc] at hp
        obtain ⟨r, hr, hrp⟩ := List.mem_map.1 hp
        rw [← hrp] at hsp
        exact Or.inl (Or.inr ((mem_splitRuns_iff _ _ s3 s).1 ⟨r, hr, hsp⟩))
      · rw [if_neg hc] at hp
        simp at hp
    · by_cases hc : g.containsFan = true
      · rw [if_pos hc] at hp
        obtain ⟨r, hr, hrp⟩ := List.mem_map.1 hp
        rw [← hrp] at hsp
        exact Or.inr ((mem_splitRuns_iff _ _ s5 s).1 ⟨r, hr, hsp⟩)
      · rw [if_neg hc] at hp
        simp at hp
  · rintro ((h1 | h1) | h1)
    · have hc : g.containsTriangles = true := by
        have : 0 < g.m_TrianglesIndex.length := List.length_pos_of_mem h1
        simp [GLC_PrimitiveGroup.containsTriangles, s1, this]
      refine ⟨(PrimitiveKind.triangles, g.m_TrianglesIndex), Or.inl (Or.inl ?_), h1⟩
      rw [if_pos hc]
      exact List.mem_singleton.2 rfl
    · have hc : g.containsStrip = true := by
        have : 0 < g.strips.index.length := List.length_pos_of_mem h1
        simp [GLC_PrimitiveGroup.containsStrip, PrimitiveRuns.nonEmpty, s2, this]
      obtain ⟨r, hr, hsr⟩ := (mem_splitRuns_iff _ _ s3 s).2 h1
      refine ⟨(PrimitiveKind.strip, r), Or.inl (Or.inr ?_), hsr⟩
      rw [if_pos hc]
      exact List.mem_map.2 ⟨r, hr, rfl⟩
    · have hc : g.containsFan = true := by
        have : 0 < g.fans.index.length := List.length_pos_of_mem h1
        simp [GLC_PrimitiveGroup.containsFan, PrimitiveRuns.nonEmpty, s4, this]
      obtain ⟨r, hr, hsr⟩ := (mem_splitRuns_iff _ _ s5 s).2 h1
      refine ⟨(PrimitiveKind.fan, r), Or.inr ?_, hsr⟩
      rw [if_pos hc]
      exact List.mem_map.2 ⟨r, hr, rfl⟩

theorem mem_lodPlan_iff (gs : LodPrimitiveGroups) (hs : ∀ x ∈ gs, GroupSized x.2)
    (s : GLuint) : s ∈ (lodPlan gs).flatMap (fun p => p.2.2) ↔ s ∈ lodContent gs := by
  rw [mem_lodContent, List.mem_flatMap]
  unfold lodPlan
  constructor
  · rintro ⟨p, hp, hsp⟩
    obtain ⟨x, hx, hpx⟩ := List.mem_flatMap.1 hp
    obtain ⟨q, hq, hqp⟩ := List.mem_map.1 hpx
    rw [← hqp] at hsp
    exact ⟨x, hx, (mem_groupPrims_iff x.2 (hs x hx) s).1 ⟨q, hq, hsp⟩⟩
  · rintro ⟨x, hx, hsx⟩
    obtain ⟨q, hq, hsq⟩ := (mem_groupPrims_iff x.2 (hs x hx) s).2 hsx
    exact ⟨(some x.1, q), List.mem_flatMap.2 ⟨x, hx, List.mem_map.2 ⟨q, hq, rfl⟩⟩, hsq⟩

theorem lod_zero_range (cs : List AddCall) (h : ∀ c ∈ cs, c.lod = 0) :
    ∀ c ∈ cs, 0 ≤ c.lod ∧ c.lod < ((cs.map AddCall.lod).dedup.length : Int) := by
  intro c hc
  have hm : c.lod ∈ (cs.map AddCall.lod).dedup :=
    List.mem_dedup.2 (List.mem_map.2 ⟨c, hc, rfl⟩)
  have hpos : 0 < (cs.map AddCall.lod).dedup.length := List.length_pos_of_mem hm
  rw [h c hc]
  omega

theorem trianglesAdded_normals (d : GLC_MeshData) (lod : Int) (n : Int) :
    (d.trianglesAdded lod n).m_Normals = d.m_Normals ∧
      (d.trianglesAdded lod n).m_Texels = d.m_Texels := by
  unfold GLC_MeshData.trianglesAdded
  cases d.getLod lod <;> exact ⟨rfl, rfl⟩

theorem normals_resultAll (cs : List AddCall) (m : GLC_Mesh) :
    (AddCall.resultAll cs m).m_MeshData.m_Normals = m.m_MeshData.m_Normals ∧
      (AddCall.resultAll cs m).m_MeshData.m_Texels = m.m_MeshData.m_Texels := by
  induction cs generalizing m with
  | nil => exact ⟨rfl, rfl⟩
  | cons c cs ih =>
    rw [AddCall.resultAll, (ih _).1, (ih _).2]
    simp only [AddCall.result, (trianglesAdded_normals _ _ _).1, (trianglesAdded_normals _ _ _).2]
    by_cases hc : QHash.contains m.m_PrimitiveGroups c.lod = true
    · simp [hc]
    · simp [hc, GLC_MeshData.appendLod]

theorem tripleAt_eq (v : List GLfloat) (x : GLuint) (h : x * 3 + 3 ≤ v.length) :
    tripleAt v x = some (chunkAt v 3 x) := by
  unfold tripleAt memcpyFrom chunkAt
  rw [if_pos h]

theorem getTrianglesIndex_packed_inv (m : GLC_Mesh) (hi : m.Ingesting) (hr : m.LodsInRange)
    (lod : Int) (id : GLC_uint) (l : List GLuint)
    (hl : m.packed.getTrianglesIndex lod id = some l) :
    ∃ g, m.group lod id = some g ∧ g.containsTriangles = true ∧ g.m_TrianglesIndex = l ∧
      l ≠ [] := by
  cases hg : m.group lod id with
  | none =>
    exfalso
    have h1 := packed_group_none m lod id m.m_UseVbo hg
    rw [packed_useVbo] at h1
    unfold GLC_Mesh.getTrianglesIndex at hl
    rw [containsTriangles_eq, h1] at hl
    cases hv : QHash.value m.packed.m_PrimitiveGroups lod <;> simp [hv] at hl
  | some g =>
    obtain ⟨f1, _, _⟩ := packed_flags m lod id m.m_UseVbo g hg
    rw [packed_useVbo] at f1
    have hs := group_sized m hi lod id g hg
    by_cases hc : g.containsTriangles = true
    · have hne : g.m_TrianglesIndex ≠ [] := by
        intro h0
        simp [GLC_PrimitiveGroup.containsTriangles, hs.1, h0] at hc
      have := packed_getTrianglesIndex m hi hr lod id m.m_UseVbo g hg hne
      rw [packed_useVbo, hl] at this
      have hgl := (Option.some.inj this).symm
      exact ⟨g, rfl, hc, hgl, by rw [← hgl]; exact hne⟩
    · exfalso
      unfold GLC_Mesh.getTrianglesIndex at hl
      rw [f1] at hl
      simp [hc] at hl

theorem createMeshOfGivenLod_packed (mb : GLC_Mesh) (hib : mb.Ingesting)
    (hrb : mb.LodsInRange) (hcb : mb.Counted) (gs : LodPrimitiveGroups)
    (hgs : QHash.value mb.m_PrimitiveGroups 0 = some gs) (hgne : gs ≠ []) (newId : GLC_uint)
    (hvalid : ∀ s ∈ lodContent gs, s * 3 + 3 ≤ mb.m_MeshData.m_Positions.length ∧
      s * 3 + 3 ≤ mb.m_MeshData.m_Normals.length ∧
      (mb.m_MeshData.m_Texels ≠ [] → s * 2 + 2 ≤ mb.m_MeshData.m_Texels.length)) :
    ∃ acc texels,
      mb.packed.createMeshOfGivenLod 0 newId =
        some (extractedMesh mb gs acc newId texels).packed ∧
      (extractedMesh mb gs acc newId texels).LodsInRange ∧
      (∀ c ∈ extractedCalls gs acc newId,
        c.lod = 0 ∧ c.indexList ≠ [] ∧ (c.kind = .triangles → c.indexList.length % 3 = 0)) ∧
      extractedCalls gs acc newId ≠ [] := by
  unfold extractedMesh extractedCalls lodSeen
  have hmem := QHash.mem_of_value _ _ _ hgs
  have hsz := hib.sized _ hmem
  have hval := hcb.valid _ hmem
  obtain ⟨acc, hcopy⟩ := copyIndex_packed mb hib hrb hcb.valid 0 0 newId gs hgs
  -- the indices of the plan are valid offsets
  have hfinal : ∀ s ∈ ((lodPlan gs).flatMap (fun p => p.2.2)).foldl addSeen [],
      s ∈ lodContent gs := by
    intro s hs
    rw [mem_foldl_addSeen] at hs
    rcases hs with h1 | h1
    · simp at h1
    · exact (mem_lodPlan_iff gs hsz s).1 h1
  -- the source mesh has positions and normals
  obtain ⟨x0, hx0⟩ := List.exists_mem_of_ne_nil _ hgne
  obtain ⟨s0, hs0⟩ := List.exists_mem_of_ne_nil _ (hcb.content _ hmem x0 hx0)
  have hs0c : s0 ∈ lodContent gs := (mem_lodContent gs s0).2 ⟨x0, hx0, hs0⟩
  have hPne : mb.packed.m_MeshData.m_Positions ≠ [] := by
    intro h0
    have := (hvalid s0 hs0c).1
    have h1 : mb.m_MeshData.m_Positions = [] := h0
    rw [h1] at this
    simp at this
  have hNne : mb.packed.m_MeshData.m_Normals ≠ [] := by
    intro h0
    have := (hvalid s0 hs0c).2.1
    have h1 : mb.m_MeshData.m_Normals = [] := h0
    rw [h1] at this
    simp at this
  obtain ⟨texels, hbulk⟩ := copyBulkData_eq mb.packed
    (AddCall.resultAll
      (planCalls 0 acc newId (((lodPlan gs).flatMap (fun p => p.2.2)).foldl addSeen [])
        (lodPlan gs)) GLC_Mesh.new)
    (((lodPlan gs).flatMap (fun p => p.2.2)).foldl addSeen []) hPne hNne
    (fun s hs => hvalid s (hfinal s hs))
  -- the calls of the plan
  have hplan_ne : lodPlan gs ≠ [] := by
    intro h0
    have := (mem_lodPlan_iff gs hsz s0).2 hs0c
    rw [h0] at this
    simp at this
  have hpcs_ne : planCalls 0 acc newId
      (((lodPlan gs).flatMap (fun p => p.2.2)).foldl addSeen []) (lodPlan gs) ≠ [] := by
    unfold planCalls
    intro h0
    exact hplan_ne (List.map_eq_nil_iff.1 h0)
  have hpcs : ∀ c ∈ planCalls 0 acc newId
      (((lodPlan gs).flatMap (fun p => p.2.2)).foldl addSeen []) (lodPlan gs),
      c.lod = 0 ∧ c.indexList ≠ [] ∧ (c.kind = .triangles → c.indexList.length % 3 = 0) := by
    intro c hc
    unfold planCalls at hc
    obtain ⟨p, hp, hpc⟩ := List.mem_map.1 hc
    rw [← hpc]
    refine ⟨rfl, ?_, ?_⟩
    · intro h0
      exact lodPlan_ne_nil gs hsz hval p hp (List.map_eq_nil_iff.1 h0)
    · intro hk
      simp only at hk
      simp only [List.length_map]
      unfold lodPlan at hp
      obtain ⟨x, hx, hpx⟩ := List.mem_flatMap.1 hp
      have hf : p ∈ ((groupPrims x.2).map (fun q => (some x.1, q))).filter
          (fun p => decide (p.2.1 = PrimitiveKind.triangles ∧ p.1 = some x.1)) := by
        rw [List.mem_filter]
        refine ⟨hpx, ?_⟩
        obtain ⟨q, _, hqp⟩ := List.mem_map.1 hpx
        rw [← hqp] at hk ⊢
        simp only at hk
        simp [hk]
      rw [filter_groupPrims, if_pos rfl] at hf
      by_cases hct : x.2.containsTriangles = true
      · rw [if_pos hct, List.mem_singleton] at hf
        rw [hf]
        simp only
        rw [← (hsz x hx).1]
        exact (hval x hx).1
      · rw [if_neg hct] at hf
        simp at hf
  have hr1 := lodsInRange_resultAll_new _ (lod_zero_range _ (fun c hc => (hpcs c hc).1))
  have hi1 := Ingesting_resultAll (planCalls 0 acc newId
      (((lodPlan gs).flatMap (fun p => p.2.2)).foldl addSeen []) (lodPlan gs)) GLC_Mesh.new
    Ingesting_new
  refine ⟨acc, texels, ?_, hr1, hpcs, hpcs_ne⟩
  have hfin := finish_eq _ (Ingesting_bulk _ hi1
      ((((lodPlan gs).flatMap (fun p => p.2.2)).foldl addSeen []).flatMap
        (chunkAt mb.m_MeshData.m_Positions 3))
      ((((lodPlan gs).flatMap (fun p => p.2.2)).foldl addSeen []).flatMap
        (chunkAt mb.m_MeshData.m_Normals 3)) texels)
    (groups_ne_nil_resultAll _ GLC_Mesh.new hpcs_ne)
    (by
      show (List.length ((AddCall.resultAll _ _).m_MeshData.m_Positions ++ _)) % 3 = 0
      rw [positions_resultAll, List.length_append,
        flatMap_chunkAt_length _ _ _ (fun s hs => (hvalid s (hfinal s hs)).1)]
      simp [GLC_Mesh.new])
    hr1
  have hcount : mb.packed.m_MeshData.lodCount > 0 := by
    obtain ⟨h0, h1⟩ := hrb _ hmem
    simp only [GLC_MeshData.lodCount, GLC_Mesh.packed, appendAll_length,
      GLC_MeshData.finishLod]
    have : 0 < mb.m_MeshData.m_LodList.length := by omega
    exact_mod_cast this
  unfold GLC_Mesh.createMeshOfGivenLod
  simp only [hcount, decide_True, Bool.not_true, Bool.false_eq_true, if_false, hcopy,
    Option.bind_eq_bind, Option.some_bind]
  have hbulk2 : mb.packed.copyBulkData
      (AddCall.resultAll
        (planCalls 0 acc newId (((lodPlan gs).flatMap (fun p => p.2.2)).foldl addSeen [])
          (lodPlan gs)) GLC_Mesh.new)
      (mapsOf (((lodPlan gs).flatMap (fun p => p.2.2)).foldl addSeen [])).tagetToSourceIndexMap
      (mapsOf (((lodPlan gs).flatMap (fun p => p.2.2)).foldl addSeen [])).maxIndex = _ := hbulk
  rw [hbulk2]
  exact hfin

theorem round_trip_packed (mb : GLC_Mesh) (hib : mb.Ingesting)
    (hrb : mb.LodsInRange) (hcb : mb.Counted) (gs : LodPrimitiveGroups)
    (hgs : QHash.value mb.m_PrimitiveGroups 0 = some gs) (hgne : gs ≠ []) (newId : GLC_uint)
    (hvalid : ∀ s ∈ lodContent gs, s * 3 + 3 ≤ mb.m_MeshData.m_Positions.length ∧
      s * 3 + 3 ≤ mb.m_MeshData.m_Normals.length ∧
      (mb.m_MeshData.m_Texels ≠ [] → s * 2 + 2 ≤ mb.m_MeshData.m_Texels.length)) :
    ∃ M' n, mb.packed.createMeshOfGivenLod 0 newId = some M' ∧
      mb.packed.faceCount 0 = some n ∧ M'.faceCount 0 = some n ∧
      ∀ id l, mb.packed.getTrianglesIndex 0 id = some l →
        ∃ l', M'.getTrianglesIndex 0 id = some l' ∧ l'.length = l.length ∧
          ∀ (k : Nat) (x : GLuint), l[k]? = some x → ∃ x' p q, l'[k]? = some x' ∧
            tripleAt M'.m_MeshData.m_Positions x' = some p ∧
            tripleAt mb.packed.m_MeshData.m_Positions x = some p ∧
            tripleAt M'.m_MeshData.m_Normals x' = some q ∧
            tripleAt mb.packed.m_MeshData.m_Normals x = some q := by
  obtain ⟨acc, texels, hcreate, hr1, hpcs, hpcs_ne⟩ :=
    createMeshOfGivenLod_packed mb hib hrb hcb gs hgs hgne newId hvalid
  have hmem := QHash.mem_of_value _ _ _ hgs
  have hsz := hib.sized _ hmem
  have hval := hcb.valid _ hmem
  have hi1 := Ingesting_resultAll (extractedCalls gs acc newId) GLC_Mesh.new Ingesting_new
  have hc1 := Counted_resultAll (extractedCalls gs acc newId) GLC_Mesh.new Ingesting_new
    Counted_new hpcs
  have hi2 : (extractedMesh mb gs acc newId texels).Ingesting :=
    Ingesting_bulk _ hi1 _ _ _
  have hfinal : ∀ s ∈ lodSeen gs, s ∈ lodContent gs := by
    intro s hs
    unfold lodSeen at hs
    rw [mem_foldl_addSeen] at hs
    rcases hs with h1 | h1
    · simp at h1
    · exact (mem_lodPlan_iff gs hsz s).1 h1
  -- the face count of the source
  have hfM := faceCount_packed mb hib hcb.keys0 gs hgs
  have hsumM : (mb.m_MeshData.m_LodList.map GLC_Lod.trianglesCount).sum =
      (gs.map (fun x => groupFaces x.2)).sum := by
    rw [hcb.count, single_groups mb hib hcb.keys0 gs hgs]
    simp [meshFaces]
  -- the face count of the new mesh
  obtain ⟨c0, hc0⟩ := List.exists_mem_of_ne_nil _ hpcs_ne
  have hkey : (0 : Int) ∈
      QHash.keys (AddCall.resultAll (extractedCalls gs acc newId) GLC_Mesh.new).m_PrimitiveGroups :=
    (mem_keys_resultAll _ _ 0).2 (Or.inr (List.mem_map.2 ⟨c0, hc0, (hpcs c0 hc0).1⟩))
  have hcont := (QHash.contains_iff_mem_keys _ _).2 hkey
  obtain ⟨gs1, hgs1⟩ := Option.isSome_iff_exists.1 hcont
  have hfM1 := faceCount_packed (extractedMesh mb gs acc newId texels) hi2 hc1.keys0 gs1 hgs1
  have hsumM1 :
      ((extractedMesh mb gs acc newId texels).m_MeshData.m_LodList.map
        GLC_Lod.trianglesCount).sum = (gs.map (fun x => groupFaces x.2)).sum := by
    have h1 := countSum_resultAll (extractedCalls gs acc newId) GLC_Mesh.new Ingesting_new
      (fun c hc => (hpcs c hc).1)
    have h2 : (extractedCalls gs acc newId).map AddCall.triangleCount =
        (planCalls 0 acc newId (lodSeen gs) (lodPlan gs)).map AddCall.triangleCount := rfl
    rw [h2, triangleCount_planCalls, sum_primFaces_lodPlan gs hsz hval] at h1
    have h3 : (GLC_Mesh.new.m_MeshData.m_LodList.map GLC_Lod.trianglesCount).sum = 0 := rfl
    rw [h3, Int.zero_add] at h1
    exact h1
  refine ⟨_, _, hcreate, by rw [hfM, hsumM], by rw [hfM1, hsumM1], ?_⟩
  -- the triangle lists
  intro id l hl
  obtain ⟨g, hg, hct, hgl, hlne⟩ := getTrianglesIndex_packed_inv mb hib hrb 0 id l hl
  have hvg : QHash.value gs id = some g := by
    unfold GLC_Mesh.group at hg
    rw [hgs] at hg
    exact hg
  have ht := trianglesOf_extracted gs id g (hib.groupNodup _ hmem) hvg acc newId (lodSeen gs)
  rw [if_pos hct, hgl] at ht
  have ht1 : (extractedMesh mb gs acc newId texels).trianglesOf 0 id =
      l.map (fun x => List.indexOf x (lodSeen gs)) := ht
  have hne1 : (extractedMesh mb gs acc newId texels).trianglesOf 0 id ≠ [] := by
    rw [ht1]
    intro h0
    exact hlne (List.map_eq_nil_iff.1 h0)
  obtain ⟨g1, hg1, hgt1⟩ := group_of_trianglesOf _ 0 id hne1
  have hget := packed_getTrianglesIndex _ hi2 hr1 0 id
    (extractedMesh mb gs acc newId texels).m_UseVbo g1 hg1 (by rw [hgt1]; exact hne1)
  rw [packed_useVbo, hgt1, ht1] at hget
  refine ⟨_, hget, List.length_map _ _, ?_⟩
  intro k x hkx
  have hxl : x ∈ l := List.getElem?_mem hkx
  have hxc : x ∈ lodContent gs := by
    refine (mem_lodContent gs x).2 ⟨(id, g), QHash.mem_of_value gs id g hvg, ?_⟩
    simp [groupContent, hgl, hxl]
  have hxs : x ∈ lodSeen gs := by
    unfold lodSeen
    rw [mem_foldl_addSeen]
    exact Or.inr ((mem_lodPlan_iff gs hsz x).2 hxc)
  have hget2 : (lodSeen gs)[List.indexOf x (lodSeen gs)]? = some x := List.getElem?_indexOf hxs
  refine ⟨List.indexOf x (lodSeen gs), chunkAt mb.m_MeshData.m_Positions 3 x,
    chunkAt mb.m_MeshData.m_Normals 3 x, ?_, ?_, ?_, ?_, ?_⟩
  · rw [List.getElem?_map, hkx]
    rfl
  · show memcpyFrom ((AddCall.resultAll (extractedCalls gs acc newId)
        GLC_Mesh.new).m_MeshData.m_Positions ++ _) (List.indexOf x (lodSeen gs) * 3) 3 = _
    rw [positions_resultAll]
    exact memcpyFrom_flatMap _ 3 _ (fun s hs => (hvalid s (hfinal s hs)).1) _ _ hget2
  · exact tripleAt_eq _ _ (hvalid x hxc).1
  · show memcpyFrom ((AddCall.resultAll (extractedCalls gs acc newId)
        GLC_Mesh.new).m_MeshData.m_Normals ++ _) (List.indexOf x (lodSeen gs) * 3) 3 = _
    rw [(normals_resultAll _ _).1]
    exact memcpyFrom_flatMap _ 3 _ (fun s hs => (hvalid s (hfinal s hs)).2.1) _ _ hget2
  · exact tripleAt_eq _ _ (hvalid x hxc).2.1

/-- C4. Let a mesh be filled at LOD 0 only, with non-empty index lists whose indices are
valid offsets into the positions, normals and texels given to the mesh and with triangle
lists made of triples, and let `M` be the mesh after `finish()`. Then
`M.createMeshOfGivenLod(0)` returns a mesh `M'` with the face count of `M`, and for every
material the triangle index list of `M'` has the length of the one of `M` and, at every
position `k`, the position triple and the normal triple that `M'` stores at its `k`-th
index are the ones that `M` stores at its `k`-th index. -/
theorem lod_extraction_round_trip (cs : List AddCall) (P N T : List GLfloat)
    (newId : GLC_uint) (hcs : cs ≠ [])
    (hcalls : ∀ c ∈ cs, c.lod = 0 ∧ c.indexList ≠ [] ∧
      (c.kind = .triangles → c.indexList.length % 3 = 0))
    (hP : P.length % 3 = 0)
    (hidx : ∀ c ∈ cs, ∀ x ∈ c.indexList, x * 3 + 3 ≤ P.length ∧ x * 3 + 3 ≤ N.length ∧
      (T ≠ [] → x * 2 + 2 ≤ T.length)) :
    ∃ m ids M M' n, applyCalls GLC_Mesh.new cs = some (m, ids) ∧
      (((m.addVertice P).addNormals N).addTexels T).finish = some M ∧
      M.createMeshOfGivenLod 0 newId = some M' ∧
      M.faceCount 0 = some n ∧ M'.faceCount 0 = some n ∧
      ∀ id l, M.getTrianglesIndex 0 id = some l →
        ∃ l', M'.getTrianglesIndex 0 id = some l' ∧ l'.length = l.length ∧
          ∀ (k : Nat) (x : GLuint), l[k]? = some x → ∃ x' p q, l'[k]? = some x' ∧
            tripleAt M'.m_MeshData.m_Positions x' = some p ∧
            tripleAt M.m_MeshData.m_Positions x = some p ∧
            tripleAt M'.m_MeshData.m_Normals x' = some q ∧
            tripleAt M.m_MeshData.m_Normals x = some q := by
  have hne : ∀ c ∈ cs, c.indexList ≠ [] := fun c hc => (hcalls c hc).2.1
  have hl0 : ∀ c ∈ cs, c.lod = 0 := fun c hc => (hcalls c hc).1
  have happ := applyCalls_eq cs GLC_Mesh.new Ingesting_new hne
  have hi0 := Ingesting_resultAll cs GLC_Mesh.new Ingesting_new
  have hc0 := Counted_resultAll cs GLC_Mesh.new Ingesting_new Counted_new hcalls
  have hr0 := lodsInRange_resultAll_new cs (lod_zero_range cs hl0)
  have hib := Ingesting_bulk _ hi0 P N T
  have hrb : ((((AddCall.resultAll cs GLC_Mesh.new).addVertice P).addNormals N).addTexels
      T).LodsInRange := hr0
  have hcb : ((((AddCall.resultAll cs GLC_Mesh.new).addVertice P).addNormals N).addTexels
      T).Counted := ⟨hc0.keys0, hc0.valid, hc0.content, hc0.count⟩
  have hpos : ((((AddCall.resultAll cs GLC_Mesh.new).addVertice P).addNormals N).addTexels
      T).m_MeshData.m_Positions = P := by
    show (AddCall.resultAll cs GLC_Mesh.new).m_MeshData.m_Positions ++ P = P
    rw [positions_resultAll]
    rfl
  have hnor : ((((AddCall.resultAll cs GLC_Mesh.new).addVertice P).addNormals N).addTexels
      T).m_MeshData.m_Normals = N := by
    show (AddCall.resultAll cs GLC_Mesh.new).m_MeshData.m_Normals ++ N = N
    rw [(normals_resultAll _ _).1]
    rfl
  have htex : ((((AddCall.resultAll cs GLC_Mesh.new).addVertice P).addNormals N).addTexels
      T).m_MeshData.m_Texels = T := by
    show (AddCall.resultAll cs GLC_Mesh.new).m_MeshData.m_Texels ++ T = T
    rw [(normals_resultAll _ _).2]
    rfl
  have hfin := finish_eq _ hib (groups_ne_nil_resultAll cs GLC_Mesh.new hcs)
    (by rw [hpos]; exact hP) hrb
  -- the groups of LOD 0
  obtain ⟨c0, hc0m⟩ := List.exists_mem_of_ne_nil _ hcs
  have hkey : (0 : Int) ∈ QHash.keys (AddCall.resultAll cs GLC_Mesh.new).m_PrimitiveGroups :=
    (mem_keys_resultAll _ _ 0).2 (Or.inr (List.mem_map.2 ⟨c0, hc0m, hl0 c0 hc0m⟩))
  have hcont := (QHash.contains_iff_mem_keys _ _).2 hkey
  obtain ⟨gs, hgs⟩ := Option.isSome_iff_exists.1 hcont
  have hsingle := single_groups _ hi0 hc0.keys0 gs hgs
  have hheld : ∀ s, s ∈ lodContent gs ↔ ∃ c ∈ cs, s ∈ c.indexList := by
    intro s
    have h1 := mem_heldIndices_resultAll cs GLC_Mesh.new s
    have h2 : s ∉ GLC_Mesh.new.heldIndices := by
      simp [GLC_Mesh.heldIndices, GLC_Mesh.new]
    rw [mem_heldIndices, hsingle] at h1
    simp only [List.mem_singleton, exists_eq_left] at h1
    rw [h1]
    constructor
    · rintro (h3 | h3)
      · exact absurd h3 h2
      · exact h3
    · intro h3
      exact Or.inr h3
  have hgne : gs ≠ [] := by
    intro h0
    obtain ⟨x, hx⟩ := List.exists_mem_of_ne_nil _ (hne c0 hc0m)
    have := (hheld x).2 ⟨c0, hc0m, hx⟩
    rw [h0] at this
    simp [lodContent] at this
  have hvalid : ∀ s ∈ lodContent gs,
      s * 3 + 3 ≤ ((((AddCall.resultAll cs GLC_Mesh.new).addVertice P).addNormals N).addTexels
        T).m_MeshData.m_Positions.length ∧
      s * 3 + 3 ≤ ((((AddCall.resultAll cs GLC_Mesh.new).addVertice P).addNormals N).addTexels
        T).m_MeshData.m_Normals.length ∧
      (((((AddCall.resultAll cs GLC_Mesh.new).addVertice P).addNormals N).addTexels
        T).m_MeshData.m_Texels ≠ [] →
        s * 2 + 2 ≤ ((((AddCall.resultAll cs GLC_Mesh.new).addVertice P).addNormals N).addTexels
          T).m_MeshData.m_Texels.length) := by
    intro s hs
    obtain ⟨c, hc, hsc⟩ := (hheld s).1 hs
    rw [hpos, hnor, htex]
    exact hidx c hc s hsc
  obtain ⟨M', n, h1, h2, h3, h4⟩ := round_trip_packed _ hib hrb hcb gs hgs hgne newId hvalid
  exact ⟨_, _, _, M', n, happ, hfin, h1, h2, h3, h4⟩

/-- C4, instance: a mesh of four vertices with two triangles of material 7 and a strip of
material 8, whose triangles reference the vertices 3, 1 and 2 only. -/
theorem lod_extraction_round_trip_witness :
    ∃ m ids M M' n,
      applyCalls GLC_Mesh.new
        [{ kind := .triangles, pMaterial := some 7, indexList := [3, 1, 2] },
         { kind := .strip, pMaterial := some 8, indexList := [0, 1, 2, 3] },
         { kind := .triangles, pMaterial := some 7, indexList := [2, 1, 3] }] = some (m, ids) ∧
      (((m.addVertice [0, 0, 0, 1, 0, 0, 0, 1, 0, 0, 0, 1]).addNormals
        [0, 0, 1, 0, 0, 1, 0, 0, 1, 1, 0, 0]).addTexels []).finish = some M ∧
      M.createMeshOfGivenLod 0 1 = some M' ∧
      M.faceCount 0 = some n ∧ M'.faceCount 0 = some n ∧
      ∀ id l, M.getTrianglesIndex 0 id = some l →
        ∃ l', M'.getTrianglesIndex 0 id = some l' ∧ l'.length = l.length ∧
          ∀ (k : Nat) (x : GLuint), l[k]? = some x → ∃ x' p q, l'[k]? = some x' ∧
            tripleAt M'.m_MeshData.m_Positions x' = some p ∧
            tripleAt M.m_MeshData.m_Positions x = some p ∧
            tripleAt M'.m_MeshData.m_Normals x' = some q ∧
            tripleAt M.m_MeshData.m_Normals x = some q :=
  lod_extraction_round_trip
    [{ kind := .triangles, pMaterial := some 7, indexList := [3, 1, 2] },
     { kind := .strip, pMaterial := some 8, indexList := [0, 1, 2, 3] },
     { kind := .triangles, pMaterial := some 7, indexList := [2, 1, 3] }]
    [0, 0, 0, 1, 0, 0, 0, 1, 0, 0, 0, 1] [0, 0, 1, 0, 0, 1, 0, 0, 1, 1, 0, 0] [] 1
    (by decide) (by decide) (by decide) (by decide)

/-! ## The chunk id of a serialized mesh -/

/-- C8, counterexample: in a build without assertions, `loadFromDataStream` reads a stream
whose leading chunk id is `0xA702` to its end and populates the mesh from it: the mesh has
the LOD 0, three vertices and the triangle `[0, 1, 2]` of material 7. -/
theorem load_wrong_chunk_counterexample :
    (GLC_Mesh.new.loadFromDataStream false sampleWrongChunkStream [(7, some 7)] [(7, 7)]).map
        (fun r => (QHash.keys r.1.m_PrimitiveGroups, r.1.m_NumberOfVertice,
          r.1.getTrianglesIndex 0 7, r.2)) =
      some ([0], 3, some [0, 1, 2], []) := by
  decide

/-- C8, amended. `loadFromDataStream` guards the leading chunk id with an assertion: in a
build with assertions, a stream that does not start with the chunk id `0xA701` ends the
run at that point, whatever the rest of the stream, the mesh that is loaded into and the
tables are. The function has no result value. -/
theorem load_wrong_chunk_asserts (m : GLC_Mesh) (stream : QDataStream)
    (materialHash : QHash GLC_uint (Option GLC_uint)) (materialIdMap : QHash GLC_uint GLC_uint)
    (h : stream.head? ≠ some (StreamItem.quint32 m_ChunkId)) :
    m.loadFromDataStream true stream materialHash materialIdMap = none := by
  unfold GLC_Mesh.loadFromDataStream
  cases stream with
  | nil => rfl
  | cons item rest =>
    cases item with
    | quint32 v =>
      have hv : v ≠ m_ChunkId := by
        intro h0
        apply h
        rw [h0]
        rfl
      simp [hv]
    | qstring _ => rfl
    | wireData _ => rfl
    | glcUint _ => rfl
    | meshData _ => rfl
    | intList _ => rfl
    | groupLists _ => rfl
    | uint _ => rfl

/-- C8, instance: the stream with the chunk id `0xA702` is not loaded when assertions are
compiled in. -/
theorem load_wrong_chunk_asserts_witness :
    GLC_Mesh.new.loadFromDataStream true sampleWrongChunkStream [(7, some 7)] [(7, 7)] = none :=
  load_wrong_chunk_asserts GLC_Mesh.new sampleWrongChunkStream [(7, some 7)] [(7, 7)]
    (by decide)

/-! ## The groups of a finished mesh -/

theorem addTo_id (c : AddCall) (id : GLC_uint) (g : GLC_PrimitiveGroup) :
    (c.addTo id g).m_Id = g.m_Id := by
  unfold AddCall.addTo
  cases c.kind <;> rfl

theorem Keyed_new : GLC_Mesh.new.Keyed := by
  intro e he
  simp [GLC_Mesh.new] at he

theorem Keyed_result (c : AddCall) (m : GLC_Mesh) (h : m.Keyed) : (c.result m).Keyed := by
  intro e1 he1 x1 hx1
  obtain ⟨gs, hgs, h2⟩ := result_entries c m e1 he1
  have hk : ∀ x ∈ gs, x.2.m_Id = x.1 := by
    intro x hx
    rcases hgs with h0 | h0
    · exact h _ h0 x hx
    · rw [h0] at hx; simp at hx
  rcases h2 with h2 | h2
  · rw [h2] at hx1
    exact hk x1 hx1
  · rw [h2] at hx1
    obtain ⟨x, hx, hx2⟩ := QHash.mem_modify_sharp _ _ _ _ hx1
    have hx0 : x.2.m_Id = x.1 := by
      rcases mem_ensured _ _ _ hx with h3 | h3
      · exact hk x h3
      · rw [h3]; rfl
    by_cases hkk : x.1 = c.groupId m.m_DefaultMaterialId
    · rw [if_pos hkk] at hx2
      rw [hx2]
      simp only [addTo_id]
      exact hx0
    · rw [if_neg hkk] at hx2
      rw [hx2]
      exact hx0

theorem Keyed_resultAll (cs : List AddCall) (m : GLC_Mesh) (h : m.Keyed) :
    (AddCall.resultAll cs m).Keyed := by
  induction cs generalizing m with
  | nil => exact h
  | cons c cs ih => exact ih _ (Keyed_result c m h)

theorem packedGroup_id (b : Nat) (g : GLC_PrimitiveGroup) : (packedGroup b g).m_Id = g.m_Id := by
  unfold packedGroup
  simp only [GLC_PrimitiveGroup.finish, GLC_PrimitiveGroup.computeVboOffset]
  split_ifs <;> rfl

theorem packedGroup_offsets (b : Nat) (g : GLC_PrimitiveGroup) :
    (packedGroup b g).computeVboOffset = packedGroup b g := by
  unfold packedGroup
  simp only [GLC_PrimitiveGroup.finish, GLC_PrimitiveGroup.computeVboOffset,
    PrimitiveRuns.finish, PrimitiveRuns.computeVboOffset]

theorem mem_packedGroups (gs : LodPrimitiveGroups) (b : Nat)
    (x : GLC_uint × GLC_PrimitiveGroup) (hx : x ∈ packedGroups b gs) :
    ∃ b1 g, (x.1, g) ∈ gs ∧ x.2 = packedGroup b1 g := by
  induction gs generalizing b with
  | nil => simp [packedGroups] at hx
  | cons y rest ih =>
    obtain ⟨id, g⟩ := y
    simp only [packedGroups, List.mem_cons] at hx
    rcases hx with h1 | h1
    · exact ⟨b, g, by rw [h1]; exact List.mem_cons_self _ _, by rw [h1]⟩
    · obtain ⟨b1, g1, hm, he⟩ := ih _ h1
      exact ⟨b1, g1, List.mem_cons_of_mem _ hm, he⟩

theorem Saveable_packed (m : GLC_Mesh) (hi : m.Ingesting) (hk : m.Keyed) :
    m.packed.Saveable := by
  have hmem : ∀ e ∈ m.packed.m_PrimitiveGroups, ∃ e0 ∈ m.m_PrimitiveGroups,
      e = (e0.1, packedGroups 0 e0.2) := by
    intro e he
    simp only [GLC_Mesh.packed, packedAll] at he
    obtain ⟨e0, h0, h1⟩ := List.mem_map.1 he
    exact ⟨e0, h0, h1.symm⟩
  constructor
  · have : QHash.keys m.packed.m_PrimitiveGroups = QHash.keys m.m_PrimitiveGroups := by
      simp [GLC_Mesh.packed, packedAll, QHash.keys, Function.comp]
    rw [this]
    exact hi.lodNodup
  · intro e he
    obtain ⟨e0, h0, h1⟩ := hmem e he
    rw [h1]
    simp only [keys_packedGroups]
    exact hi.groupNodup _ h0
  · intro e he x hx
    obtain ⟨e0, h0, h1⟩ := hmem e he
    rw [h1] at hx
    obtain ⟨b1, g, hm, hg⟩ := mem_packedGroups _ _ _ hx
    rw [hg, packedGroup_id]
    exact hk _ h0 _ hm
  · intro e he x hx
    obtain ⟨e0, h0, h1⟩ := hmem e he
    rw [h1] at hx
    obtain ⟨b1, g, _, hg⟩ := mem_packedGroups _ _ _ hx
    rw [hg, packedGroup_offsets]

theorem Saveable_clear (m : GLC_Mesh) : m.clear.Saveable := by
  constructor <;> simp [GLC_Mesh.clear, QHash.keys]

/-! ## Loading what has been saved -/

theorem QHash.modify_const_self {κ ν : Type} [DecidableEq κ] (h : QHash κ ν) (k : κ) (v : ν)
    (hn : (QHash.keys h).Nodup) (hv : QHash.value h k = some v) :
    QHash.modify h k (fun _ => v) = h :=
  QHash.modify_eq_self h k _ (fun e he hk => (QHash.entry_eq_of_value h k v hn hv e he hk).symm)

theorem QHash.modify_const {κ ν : Type} [DecidableEq κ] (h : QHash κ ν) (k : κ) (v : ν)
    (f : ν → ν) (hn : (QHash.keys h).Nodup) (hv : QHash.value h k = some v) :
    QHash.modify h k f = QHash.modify h k (fun _ => f v) :=
  QHash.modify_congr h k _ _ (fun e he hk => by
    rw [QHash.entry_eq_of_value h k v hn hv e he hk])

theorem QHash.modify_append_new {κ ν : Type} [DecidableEq κ] (h : QHash κ ν) (k : κ) (v : ν)
    (f : ν → ν) (hk : k ∉ QHash.keys h) :
    QHash.modify (h ++ [(k, v)]) k f = h ++ [(k, f v)] := by
  unfold QHash.modify
  rw [List.map_append]
  congr 1
  · have := QHash.modify_eq_self h k f (fun e he hek =>
      absurd (List.mem_map.2 ⟨e, he, hek⟩) hk)
    exact this
  · simp

theorem loadGroups_eq (debug : Bool) (materialHash : QHash GLC_uint (Option GLC_uint))
    (materialIdMap : QHash GLC_uint GLC_uint) (lod : Int) (todo : List GLC_PrimitiveGroup)
    (m : GLC_Mesh) (done : LodPrimitiveGroups)
    (hn : (QHash.keys m.m_PrimitiveGroups).Nodup)
    (hv : QHash.value m.m_PrimitiveGroups lod = some done)
    (hdef : ∀ g ∈ todo, QHash.contains materialIdMap g.m_Id = true)
    (hmat : ∀ g ∈ todo, ∃ p, QHash.value materialHash (remapId materialIdMap g.m_Id)
      = some (some p))
    (hnd : (QHash.keys done ++ todo.map (fun g => remapId materialIdMap g.m_Id)).Nodup) :
    ∃ mats, GLC_Mesh.loadGroups debug materialHash materialIdMap lod todo m =
      some { m with
        m_PrimitiveGroups := QHash.modify m.m_PrimitiveGroups lod
          (fun _ => done ++ remapGroups materialIdMap todo)
        m_MaterialHash := mats } := by
  induction todo generalizing m done with
  | nil =>
    refine ⟨m.m_MaterialHash, ?_⟩
    simp only [GLC_Mesh.loadGroups, remapGroups, List.map_nil, List.append_nil]
    rw [QHash.modify_const_self _ _ _ hn hv]
  | cons g rest ih =>
    have hg := hdef g (List.mem_cons_self _ _)
    obtain ⟨p, hp⟩ := hmat g (List.mem_cons_self _ _)
    have hnew : remapId materialIdMap g.m_Id ∉ QHash.keys done := by
      intro h0
      rw [List.nodup_append] at hnd
      exact hnd.2.2 h0 (by simp)
    have hcont : QHash.contains done (remapId materialIdMap g.m_Id) = false := by
      cases hc : QHash.contains done (remapId materialIdMap g.m_Id) with
      | false => rfl
      | true => exact absurd ((QHash.contains_iff_mem_keys _ _).1 hc) hnew
    have hnd2 : (QHash.keys (done ++ [(remapId materialIdMap g.m_Id,
        g.copyWithId (remapId materialIdMap g.m_Id))]) ++
        rest.map (fun g => remapId materialIdMap g.m_Id)).Nodup := by
      simpa [QHash.keys] using hnd
    obtain ⟨mats1, hm1⟩ : ∃ mats1,
        (if !(m.containsMaterial (remapId materialIdMap g.m_Id)) then
          match (QHash.value materialHash (remapId materialIdMap g.m_Id)).join with
          | some pMaterial => some (m.addMaterial pMaterial)
          | none => none
        else some m) = some { m with m_MaterialHash := mats1 } := by
      by_cases hc : m.containsMaterial (remapId materialIdMap g.m_Id) = true
      · exact ⟨m.m_MaterialHash, by simp [hc]⟩
      · exact ⟨m.m_MaterialHash ++ [p], by simp [hc, hp, GLC_Mesh.addMaterial]⟩
    have hrec := ih
      { m with
        m_MaterialHash := mats1
        m_PrimitiveGroups := QHash.modify m.m_PrimitiveGroups lod
          (fun gs => QHash.insert gs (remapId materialIdMap g.m_Id)
            (g.copyWithId (remapId materialIdMap g.m_Id))) }
      (done ++ [(remapId materialIdMap g.m_Id, g.copyWithId (remapId materialIdMap g.m_Id))])
      (by simp only [QHash.keys_modify]; exact hn)
      (by
        simp only [QHash.value_modify, if_true, hv, Option.map_some']
        rw [QHash.insert_of_not_contains _ _ _ hcont])
      (fun g1 h1 => hdef g1 (List.mem_cons_of_mem _ h1))
      (fun g1 h1 => hmat g1 (List.mem_cons_of_mem _ h1))
      hnd2
    obtain ⟨mats, hrec⟩ := hrec
    refine ⟨mats, ?_⟩
    unfold GLC_Mesh.loadGroups
    have hid : (QHash.value materialIdMap g.m_Id).getD 0 = remapId materialIdMap g.m_Id := rfl
    simp only [hg, Bool.not_true, Bool.and_false, Bool.false_eq_true, if_false, hid, hm1, hv,
      hcont]
    rw [hrec]
    simp only [QHash.modify_modify, remapGroups, List.map_cons, List.append_assoc,
      List.singleton_append]

theorem loadLods_eq (debug : Bool) (materialHash : QHash GLC_uint (Option GLC_uint))
    (materialIdMap : QHash GLC_uint GLC_uint) (todo : PrimitiveGroupsHash) (m : GLC_Mesh)
    (hn : (QHash.keys m.m_PrimitiveGroups ++ QHash.keys todo).Nodup)
    (hdef : ∀ e ∈ todo, ∀ x ∈ e.2, QHash.contains materialIdMap x.2.m_Id = true)
    (hmat : ∀ e ∈ todo, ∀ x ∈ e.2, ∃ p,
      QHash.value materialHash (remapId materialIdMap x.2.m_Id) = some (some p))
    (hnd : ∀ e ∈ todo, (e.2.map (fun x => remapId materialIdMap x.2.m_Id)).Nodup) :
    ∃ mats, GLC_Mesh.loadLods debug materialHash materialIdMap (QHash.keys todo)
        (todo.map (fun e => e.2.map Prod.snd)) m =
      some { m with
        m_PrimitiveGroups := m.m_PrimitiveGroups ++
          todo.map (fun e => (e.1, remapGroups materialIdMap (e.2.map Prod.snd)))
        m_MaterialHash := mats } := by
  induction todo generalizing m with
  | nil =>
    refine ⟨m.m_MaterialHash, ?_⟩
    simp [GLC_Mesh.loadLods, QHash.keys]
  | cons e rest ih =>
    obtain ⟨lod, gs⟩ := e
    have hlod : lod ∉ QHash.keys m.m_PrimitiveGroups := by
      intro h0
      rw [List.nodup_append] at hn
      exact hn.2.2 h0 (by simp [QHash.keys])
    have hcont : QHash.contains m.m_PrimitiveGroups lod = false := by
      cases hc : QHash.contains m.m_PrimitiveGroups lod with
      | false => rfl
      | true => exact absurd ((QHash.contains_iff_mem_keys _ _).1 hc) hlod
    have hnone : QHash.value m.m_PrimitiveGroups lod = none :=
      (QHash.contains_eq_false_iff _ _).1 hcont
    have hn1 : (QHash.keys (m.m_PrimitiveGroups ++ [(lod, ([] : LodPrimitiveGroups))])).Nodup := by
      have : (QHash.keys m.m_PrimitiveGroups ++ [lod]).Nodup := by
        rw [List.nodup_append] at hn ⊢
        refine ⟨hn.1, List.nodup_singleton _, ?_⟩
        intro a ha hb
        rw [List.mem_singleton] at hb
        rw [hb] at ha
        exact hlod ha
      simpa [QHash.keys] using this
    obtain ⟨mats1, h1⟩ := loadGroups_eq debug materialHash materialIdMap lod
      (gs.map Prod.snd)
      { m with m_PrimitiveGroups := m.m_PrimitiveGroups ++ [(lod, [])] } []
      hn1
      (by simp [QHash.value_append, hnone, QHash.value_cons])
      (fun g hg => by
        obtain ⟨x, hx, hxg⟩ := List.mem_map.1 hg
        rw [← hxg]
        exact hdef _ (List.mem_cons_self _ _) x hx)
      (fun g hg => by
        obtain ⟨x, hx, hxg⟩ := List.mem_map.1 hg
        rw [← hxg]
        exact hmat _ (List.mem_cons_self _ _) x hx)
      (by
        have := hnd _ (List.mem_cons_self _ _)
        simpa [QHash.keys, List.map_map, Function.comp] using this)
    simp only [List.nil_append] at h1
    rw [QHash.modify_append_new _ _ _ _ hlod] at h1
    obtain ⟨mats, h2⟩ := ih
      { m with
        m_PrimitiveGroups := m.m_PrimitiveGroups ++
          [(lod, remapGroups materialIdMap (gs.map Prod.snd))]
        m_MaterialHash := mats1 }
      (by
        have : (QHash.keys m.m_PrimitiveGroups ++ lod :: QHash.keys rest).Nodup := by
          simpa [QHash.keys] using hn
        simpa [QHash.keys] using this)
      (fun e he => hdef e (List.mem_cons_of_mem _ he))
      (fun e he => hmat e (List.mem_cons_of_mem _ he))
      (fun e he => hnd e (List.mem_cons_of_mem _ he))
    refine ⟨mats, ?_⟩
    simp only [QHash.keys, List.map_cons] at h2 ⊢
    simp only [GLC_Mesh.loadLods, QHash.insert_of_not_contains _ _ _ hcont, h1, h2,
      List.append_assoc, List.singleton_append]

theorem value_remap (gs : LodPrimitiveGroups) (f : GLC_uint → GLC_uint)
    (F : GLC_uint → GLC_PrimitiveGroup → GLC_PrimitiveGroup)
    (hinj : ∀ x ∈ gs, ∀ y ∈ gs, f x.1 = f y.1 → x.1 = y.1) (id : GLC_uint)
    (g : GLC_PrimitiveGroup) (hv : QHash.value gs id = some g) :
    QHash.value (gs.map (fun x => (f x.1, F x.1 x.2))) (f id) = some (F id g) := by
  induction gs with
  | nil => simp [QHash.value] at hv
  | cons x t ih =>
    obtain ⟨k, v⟩ := x
    rw [QHash.value_cons] at hv
    rw [List.map_cons, QHash.value_cons]
    by_cases hk : k = id
    · rw [if_pos hk] at hv
      rw [hk, if_pos rfl, Option.some.inj hv]
    · rw [if_neg hk] at hv
      have hmem := QHash.mem_of_value _ _ _ hv
      have hne : ¬ f k = f id := by
        intro h0
        exact hk (hinj (k, v) (List.mem_cons_self _ _) (id, g) (List.mem_cons_of_mem _ hmem) h0)
      rw [if_neg hne]
      exact ih (fun a ha b hb => hinj a (List.mem_cons_of_mem _ ha) b (List.mem_cons_of_mem _ hb))
        hv

theorem value_mapLod (pg : PrimitiveGroupsHash) (H : LodPrimitiveGroups → LodPrimitiveGroups)
    (lod : Int) :
    QHash.value (pg.map (fun e => (e.1, H e.2))) lod = (QHash.value pg lod).map H := by
  induction pg with
  | nil => rfl
  | cons e t ih =>
    obtain ⟨k, v⟩ := e
    rw [List.map_cons, QHash.value_cons, QHash.value_cons]
    by_cases hk : k = lod
    · rw [if_pos hk, if_pos hk]
      rfl
    · rw [if_neg hk, if_neg hk]
      exact ih

theorem getters_eq_of_group (A B : GLC_Mesh) (hd : A.m_MeshData = B.m_MeshData)
    (hu : A.m_UseVbo = B.m_UseVbo) (lod : Int) (ida idb newId : GLC_uint)
    (gsa gsb : LodPrimitiveGroups) (g : GLC_PrimitiveGroup)
    (ha : QHash.value A.m_PrimitiveGroups lod = some gsa)
    (hga : QHash.value gsa ida = some (g.copyWithId newId))
    (hb : QHash.value B.m_PrimitiveGroups lod = some gsb)
    (hgb : QHash.value gsb idb = some g) :
    A.getTrianglesIndex lod ida = B.getTrianglesIndex lod idb ∧
    A.getStripsIndex lod ida = B.getStripsIndex lod idb ∧
    A.getFansIndex lod ida = B.getFansIndex lod idb := by
  refine ⟨?_, ?_, ?_⟩
  · simp [GLC_Mesh.getTrianglesIndex, GLC_Mesh.containsTriangles, GLC_Mesh.group, ha, hga, hb,
      hgb, hd, hu, GLC_PrimitiveGroup.copyWithId, GLC_PrimitiveGroup.containsTriangles]
  · simp [GLC_Mesh.getStripsIndex, GLC_Mesh.containsStrips, GLC_Mesh.group, ha, hga, hb,
      hgb, hd, hu, GLC_PrimitiveGroup.copyWithId, GLC_PrimitiveGroup.containsStrip]
  · simp [GLC_Mesh.getFansIndex, GLC_Mesh.containsFans, GLC_Mesh.group, ha, hga, hb,
      hgb, hd, hu, GLC_PrimitiveGroup.copyWithId, GLC_PrimitiveGroup.containsFan]

theorem load_save_groups (debug : Bool) (M : GLC_Mesh) (hM : M.Saveable)
    (materialHash : QHash GLC_uint (Option GLC_uint)) (materialIdMap : QHash GLC_uint GLC_uint)
    (hdef : ∀ e ∈ M.m_PrimitiveGroups, ∀ x ∈ e.2, QHash.contains materialIdMap x.1 = true)
    (hinj : ∀ e ∈ M.m_PrimitiveGroups, ∀ x ∈ e.2, ∀ y ∈ e.2,
      remapId materialIdMap x.1 = remapId materialIdMap y.1 → x.1 = y.1)
    (hmat : ∀ e ∈ M.m_PrimitiveGroups, ∀ x ∈ e.2, ∃ p,
      QHash.value materialHash (remapId materialIdMap x.1) = some (some p)) :
    ∃ L, GLC_Mesh.new.loadFromDataStream debug (M.saveToDataStream []) materialHash
        materialIdMap = some (L, []) ∧
      L.m_NumberOfVertice = M.m_NumberOfVertice ∧
      L.m_NumberOfNormals = M.m_NumberOfNormals ∧
      L.m_NextPrimitiveLocalId = M.m_NextPrimitiveLocalId ∧
      L.m_MeshData = M.m_MeshData ∧
      L.m_PrimitiveGroups = M.m_PrimitiveGroups.map (fun e =>
        (e.1, e.2.map (fun x =>
          (remapId materialIdMap x.1, x.2.copyWithId (remapId materialIdMap x.1))))) := by
  obtain ⟨mats, hload⟩ := loadLods_eq debug materialHash materialIdMap M.m_PrimitiveGroups
    { GLC_Mesh.new with
      m_Name := M.m_Name
      m_WireData := M.m_WireData
      m_NextPrimitiveLocalId := M.m_NextPrimitiveLocalId
      m_MeshData := M.m_MeshData }
    (by
      show (QHash.keys ([] : PrimitiveGroupsHash) ++ QHash.keys M.m_PrimitiveGroups).Nodup
      simpa [QHash.keys] using hM.lodNodup)
    (fun e he x hx => by rw [hM.keyed e he x hx]; exact hdef e he x hx)
    (fun e he x hx => by rw [hM.keyed e he x hx]; exact hmat e he x hx)
    (fun e he => by
      have h1 : e.2.map (fun x => remapId materialIdMap x.2.m_Id) =
          (QHash.keys e.2).map (remapId materialIdMap) := by
        unfold QHash.keys
        rw [List.map_map]
        apply List.map_congr_left
        intro x hx
        simp only [Function.comp, hM.keyed e he x hx]
      rw [h1]
      apply List.Nodup.map_on _ (hM.groupNodup e he)
      intro a ha b hb hab
      obtain ⟨x, hx, hxa⟩ := List.mem_map.1 ha
      obtain ⟨y, hy, hyb⟩ := List.mem_map.1 hb
      rw [← hxa, ← hyb] at hab ⊢
      exact hinj e he x hx y hy hab)
  have hchunk : (debug && decide (m_ChunkId ≠ m_ChunkId)) = false := by simp
  have hres : GLC_Mesh.new.loadFromDataStream debug (M.saveToDataStream []) materialHash
      materialIdMap =
      some (GLC_Mesh.finishSerialized
        { GLC_Mesh.new with
          m_Name := M.m_Name
          m_WireData := M.m_WireData
          m_NextPrimitiveLocalId := M.m_NextPrimitiveLocalId
          m_MeshData := M.m_MeshData
          m_PrimitiveGroups := GLC_Mesh.new.m_PrimitiveGroups ++
            M.m_PrimitiveGroups.map
              (fun e => (e.1, remapGroups materialIdMap (e.2.map Prod.snd)))
          m_MaterialHash := mats
          m_NumberOfVertice := M.m_NumberOfVertice
          m_NumberOfNormals := M.m_NumberOfNormals }, []) := by
    unfold GLC_Mesh.loadFromDataStream GLC_Mesh.saveToDataStream
    simp only [List.nil_append, hchunk, Bool.false_eq_true, if_false, hload]
  refine ⟨_, hres, rfl, rfl, rfl, rfl, ?_⟩
  · simp only [GLC_Mesh.finishSerialized, GLC_Mesh.new, List.nil_append, List.map_map]
    apply List.map_congr_left
    intro e he
    simp only [Function.comp, remapGroups, List.map_map, Prod.mk.injEq, true_and]
    apply List.map_congr_left
    intro x hx
    have hk := hM.keyed e he x hx
    have ho := hM.offsets e he x hx
    simp only [Function.comp, hk, Prod.mk.injEq, true_and]
    show (x.2.computeVboOffset).copyWithId (remapId materialIdMap x.1) = _
    rw [ho]

/-- C7. Let `M` be the mesh that `finish()` leaves after ingestion calls and the bulk data,
and let the remap table be defined and injective on the material ids of the groups of `M`,
the material hash holding a material for every remapped id. Loading the stream written by
`M.saveToDataStream` into a fresh mesh, with or without assertions, consumes the stream
and yields a mesh with the vertex count, the normal count and the next primitive id of
`M` and with the LOD keys of `M`; for every LOD and material id of `M` it has a group
under the remapped id, a copy of the group of `M`, and the triangle, strip and fan indices
read from it are the ones read from `M`, with and without vertex buffer objects. -/
theorem serialization_round_trip (cs : List AddCall) (P N T : List GLfloat)
    (m : GLC_Mesh) (ids : List GLC_uint) (M : GLC_Mesh) (debug : Bool)
    (materialHash : QHash GLC_uint (Option GLC_uint)) (materialIdMap : QHash GLC_uint GLC_uint)
    (hne : ∀ c ∈ cs, c.indexList ≠ [])
    (hlod : ∀ c ∈ cs, 0 ≤ c.lod ∧ c.lod < ((cs.map AddCall.lod).dedup.length : Int))
    (hP : P.length % 3 = 0)
    (happ : applyCalls GLC_Mesh.new cs = some (m, ids))
    (hfin : (((m.addVertice P).addNormals N).addTexels T).finish = some M)
    (hdef : ∀ e ∈ M.m_PrimitiveGroups, ∀ x ∈ e.2, QHash.contains materialIdMap x.1 = true)
    (hinj : ∀ e1 ∈ M.m_PrimitiveGroups, ∀ x1 ∈ e1.2, ∀ e2 ∈ M.m_PrimitiveGroups, ∀ x2 ∈ e2.2,
      remapId materialIdMap x1.1 = remapId materialIdMap x2.1 → x1.1 = x2.1)
    (hmat : ∀ e ∈ M.m_PrimitiveGroups, ∀ x ∈ e.2,
      (QHash.value materialHash (remapId materialIdMap x.1)).join.isSome = true) :
    ∃ L, GLC_Mesh.new.loadFromDataStream debug (M.saveToDataStream []) materialHash
        materialIdMap = some (L, []) ∧
      L.m_NumberOfVertice = M.m_NumberOfVertice ∧
      L.m_NumberOfNormals = M.m_NumberOfNormals ∧
      L.m_NextPrimitiveLocalId = M.m_NextPrimitiveLocalId ∧
      QHash.keys L.m_PrimitiveGroups = QHash.keys M.m_PrimitiveGroups ∧
      ∀ lod id g, M.group lod id = some g →
        L.group lod (remapId materialIdMap id) =
          some (g.copyWithId (remapId materialIdMap id)) ∧
        ∀ b : Bool,
          ({ L with m_UseVbo := b }).getTrianglesIndex lod (remapId materialIdMap id) =
            ({ M with m_UseVbo := b }).getTrianglesIndex lod id ∧
          ({ L with m_UseVbo := b }).getStripsIndex lod (remapId materialIdMap id) =
            ({ M with m_UseVbo := b }).getStripsIndex lod id ∧
          ({ L with m_UseVbo := b }).getFansIndex lod (remapId materialIdMap id) =
            ({ M with m_UseVbo := b }).getFansIndex lod id := by
  have h1 := applyCalls_eq cs GLC_Mesh.new Ingesting_new hne
  rw [h1] at happ
  simp only [Option.some.injEq, Prod.mk.injEq] at happ
  obtain ⟨hm, _⟩ := happ
  subst hm
  have hi0 := Ingesting_resultAll cs GLC_Mesh.new Ingesting_new
  have hib := Ingesting_bulk _ hi0 P N T
  have hrb : ((((AddCall.resultAll cs GLC_Mesh.new).addVertice P).addNormals N).addTexels
      T).LodsInRange := lodsInRange_resultAll_new cs hlod
  have hkb : ((((AddCall.resultAll cs GLC_Mesh.new).addVertice P).addNormals N).addTexels
      T).Keyed := Keyed_resultAll cs GLC_Mesh.new Keyed_new
  have hpos : ((((AddCall.resultAll cs GLC_Mesh.new).addVertice P).addNormals N).addTexels
      T).m_MeshData.m_Positions.length % 3 = 0 := by
    show ((AddCall.resultAll cs GLC_Mesh.new).m_MeshData.m_Positions ++ P).length % 3 = 0
    rw [positions_resultAll]
    exact hP
  rw [finish_total _ hib hpos hrb] at hfin
  have hMeq := (Option.some.inj hfin).symm
  have hS : M.Saveable := by
    rw [hMeq]
    split_ifs
    · exact Saveable_clear _
    · exact Saveable_packed _ hib hkb
  obtain ⟨L, hL, h3, h4, h5, h6, h7⟩ := load_save_groups debug M hS materialHash materialIdMap
    hdef (fun e he x hx y hy => hinj e he x hx e he y hy)
    (fun e he x hx => by
      have := hmat e he x hx
      cases hj : (QHash.value materialHash (remapId materialIdMap x.1)).join with
      | none => rw [hj] at this; simp at this
      | some p =>
        refine ⟨p, ?_⟩
        cases hv : QHash.value materialHash (remapId materialIdMap x.1) with
        | none => rw [hv] at hj; simp at hj
        | some o =>
          rw [hv] at hj
          have ho : o = some p := hj
          rw [ho])
  refine ⟨L, hL, h3, h4, h5, ?_, ?_⟩
  · rw [h7]
    simp [QHash.keys, Function.comp]
  · intro lod id g hg
    unfold GLC_Mesh.group at hg
    cases hv : QHash.value M.m_PrimitiveGroups lod with
    | none => rw [hv] at hg; simp at hg
    | some gs =>
      rw [hv] at hg
      have hvg : QHash.value gs id = some g := hg
      have hmem := QHash.mem_of_value _ _ _ hv
      have hLv : QHash.value L.m_PrimitiveGroups lod =
          some (gs.map (fun x =>
            (remapId materialIdMap x.1, x.2.copyWithId (remapId materialIdMap x.1)))) := by
        rw [h7, value_mapLod, hv]
        rfl
      have hLg := value_remap gs (remapId materialIdMap)
        (fun i g => g.copyWithId (remapId materialIdMap i))
        (fun x hx y hy => hinj _ hmem x hx _ hmem y hy) id g hvg
      refine ⟨?_, ?_⟩
      · unfold GLC_Mesh.group
        rw [hLv]
        exact hLg
      · intro b
        exact getters_eq_of_group { L with m_UseVbo := b } { M with m_UseVbo := b } h6 rfl lod
          (remapId materialIdMap id) id (remapId materialIdMap id) _ gs g hLv hLg hv hvg

/-- C7, instance: the finished mesh with the materials 7 and 8 is saved and loaded with
the remap table that sends 7 to 70 and 8 to 80. -/
theorem serialization_round_trip_witness :
    ∃ L, GLC_Mesh.new.loadFromDataStream true (sampleLodSource.saveToDataStream [])
        [(70, some 70), (80, some 80)] [(7, 70), (8, 80)] = some (L, []) ∧
      L.m_NumberOfVertice = sampleLodSource.m_NumberOfVertice ∧
      L.m_NumberOfNormals = sampleLodSource.m_NumberOfNormals ∧
      L.m_NextPrimitiveLocalId = sampleLodSource.m_NextPrimitiveLocalId ∧
      QHash.keys L.m_PrimitiveGroups = QHash.keys sampleLodSource.m_PrimitiveGroups ∧
      ∀ lod id g, sampleLodSource.group lod id = some g →
        L.group lod (remapId [(7, 70), (8, 80)] id) =
          some (g.copyWithId (remapId [(7, 70), (8, 80)] id)) ∧
        ∀ b : Bool,
          ({ L with m_UseVbo := b }).getTrianglesIndex lod (remapId [(7, 70), (8, 80)] id) =
            ({ sampleLodSource with m_UseVbo := b }).getTrianglesIndex lod id ∧
          ({ L with m_UseVbo := b }).getStripsIndex lod (remapId [(7, 70), (8, 80)] id) =
            ({ sampleLodSource with m_UseVbo := b }).getStripsIndex lod id ∧
          ({ L with m_UseVbo := b }).getFansIndex lod (remapId [(7, 70), (8, 80)] id) =
            ({ sampleLodSource with m_UseVbo := b }).getFansIndex lod id :=
  serialization_round_trip
    [{ kind := .triangles, pMaterial := some 7, indexList := [5, 9, 5] },
     { kind := .strip, pMaterial := some 7, indexList := [9, 2, 7, 5] },
     { kind := .fan, pMaterial := some 8, indexList := [2, 11, 9] }]
    [] [] [] _ _ sampleLodSource true [(70, some 70), (80, some 80)] [(7, 70), (8, 80)]
    (by decide) (by decide) (by decide) rfl rfl (by decide) (by decide) (by decide)

/-! ## Primitive ids over sequences of operations -/

theorem appendIndex_length (d d' : GLC_MeshData) (i : Int) (l : List GLuint)
    (h : d.appendIndex i l = some d') : d'.m_LodList.length = d.m_LodList.length := by
  unfold GLC_MeshData.appendIndex at h
  cases hg : d.getLod i with
  | none => simp [hg] at h
  | some lod =>
    simp only [hg, Option.some.injEq] at h
    subst h
    simp

theorem moveStep_length (c : Bool) (d : GLC_MeshData) (g : GLC_PrimitiveGroup) (lod : Int)
    (l : List GLuint) (f : Nat → GLC_PrimitiveGroup) (r : GLC_PrimitiveGroup × GLC_MeshData)
    (h : (if c then do
        let size ← d.indexVectorSize lod
        let d' ← d.appendIndex lod l
        pure (f size, d')
      else pure (g, d)) = some r) :
    r.2.m_LodList.length = d.m_LodList.length := by
  cases c with
  | false =>
    simp only [Bool.false_eq_true, if_false] at h
    cases h
    rfl
  | true =>
    simp only [if_true] at h
    cases hs : d.indexVectorSize lod with
    | none => simp [hs] at h
    | some size =>
      cases ha : d.appendIndex lod l with
      | none => simp [hs, ha] at h
      | some d' =>
        simp only [hs, ha, Option.bind_eq_bind, Option.some_bind] at h
        cases h
        exact appendIndex_length d d' lod l ha

theorem moveGroupIndex_length (lod : Int) (g : GLC_PrimitiveGroup) (d : GLC_MeshData)
    (r : GLC_PrimitiveGroup × GLC_MeshData) (h : GLC_Mesh.moveGroupIndex lod g d = some r) :
    r.2.m_LodList.length = d.m_LodList.length := by
  unfold GLC_Mesh.moveGroupIndex at h
  simp only [Option.bind_eq_bind, Option.bind_eq_some] at h
  obtain ⟨r1, h1, r2, h2, r3, h3, h4⟩ := h
  have e1 := moveStep_length _ _ _ _ _ _ _ h1
  have e2 := moveStep_length _ _ _ _ _ _ _ h2
  have e3 := moveStep_length _ _ _ _ _ _ _ h3
  cases h4
  show r3.2.m_LodList.length = _
  omega

theorem moveLodGroups_length (lod : Int) (groups : LodPrimitiveGroups) (d : GLC_MeshData)
    (r : LodPrimitiveGroups × GLC_MeshData) (h : GLC_Mesh.moveLodGroups lod groups d = some r) :
    r.2.m_LodList.length = d.m_LodList.length := by
  induction groups generalizing d r with
  | nil =>
    simp only [GLC_Mesh.moveLodGroups, Option.some.injEq] at h
    subst h
    rfl
  | cons x rest ih =>
    obtain ⟨id, g⟩ := x
    simp only [GLC_Mesh.moveLodGroups, Option.bind_eq_bind, Option.bind_eq_some] at h
    obtain ⟨r1, h1, r2, h2, h3⟩ := h
    have e1 := moveGroupIndex_length _ _ _ _ h1
    have e2 := ih _ _ h2
    cases h3
    show r2.2.m_LodList.length = _
    omega

theorem moveAllGroups_length (pg : PrimitiveGroupsHash) (d : GLC_MeshData)
    (r : PrimitiveGroupsHash × GLC_MeshData) (h : GLC_Mesh.moveAllGroups pg d = some r) :
    r.2.m_LodList.length = d.m_LodList.length := by
  induction pg generalizing d r with
  | nil =>
    simp only [GLC_Mesh.moveAllGroups, Option.some.injEq] at h
    subst h
    rfl
  | cons x rest ih =>
    obtain ⟨lod, groups⟩ := x
    simp only [GLC_Mesh.moveAllGroups, Option.bind_eq_bind, Option.bind_eq_some] at h
    obtain ⟨r1, h1, r2, h2, h3⟩ := h
    have e1 := moveLodGroups_length _ _ _ _ h1
    have e2 := ih _ _ h2
    cases h3
    show r2.2.m_LodList.length = _
    omega

/-- What `finish()` leaves of the counter of primitive ids and of the list of LODs. -/
theorem finish_counter (m r : GLC_Mesh) (h : m.finish = some r) :
    (m.m_MeshData.m_LodList ≠ [] ∧ r.m_MeshData.m_LodList ≠ [] ∧
      r.m_NextPrimitiveLocalId = m.m_NextPrimitiveLocalId) ∨
    (m.m_MeshData.m_LodList = [] ∧ r = m.clear) := by
  unfold GLC_Mesh.finish at h
  by_cases hl : m.m_MeshData.lodCount > 0
  · left
    have hne : m.m_MeshData.m_LodList ≠ [] := by
      intro h0
      simp [GLC_MeshData.lodCount, h0] at hl
    rw [if_pos hl] at h
    split_ifs at h
    simp only [GLC_Mesh.moveIndexToMeshDataLod, Option.bind_eq_bind, Option.bind_eq_some] at h
    obtain ⟨r1, h1, h2⟩ := h
    have e1 := moveAllGroups_length _ _ _ h1
    cases h2
    refine ⟨hne, ?_, rfl⟩
    intro h0
    simp only [GLC_MeshData.finishLod] at e1
    simp only at h0
    rw [h0] at e1
    exact hne (List.eq_nil_of_length_eq_zero e1.symm)
  · right
    rw [if_neg hl] at h
    have : m.m_MeshData.m_LodList = [] := by
      cases hm : m.m_MeshData.m_LodList with
      | nil => rfl
      | cons a t => simp [GLC_MeshData.lodCount, hm] at hl
    exact ⟨this, by cases h; rfl⟩

theorem setCurrentMaterial_meshData (m : GLC_Mesh) (pMaterial : Option GLC_uint) (lod : Int)
    (accuracy : Nat) (newId : GLC_uint) :
    (m.setCurrentMaterial pMaterial lod accuracy newId).1.m_MeshData =
      (if QHash.contains m.m_PrimitiveGroups lod then m.m_MeshData
        else m.m_MeshData.appendLod accuracy) := by
  unfold GLC_Mesh.setCurrentMaterial
  cases pMaterial with
  | none =>
    simp only
    split_ifs <;> simp_all [GLC_Mesh.addMaterial]
  | some id =>
    simp only
    split_ifs <;> simp_all [GLC_Mesh.addMaterial]

theorem trianglesAdded_lodList_length (d : GLC_MeshData) (lod : Int) (n : Int) :
    (d.trianglesAdded lod n).m_LodList.length = d.m_LodList.length := by
  unfold GLC_MeshData.trianglesAdded
  cases d.getLod lod <;> simp

theorem applyCall_lodList (m : GLC_Mesh) (c : AddCall) (r : GLC_Mesh × GLC_uint)
    (hm : CounterFresh m) (h : applyCall m c = some r) : r.1.m_MeshData.m_LodList ≠ [] := by
  have hd := setCurrentMaterial_meshData m c.pMaterial c.lod c.accuracy c.newId
  have hpre : (m.setCurrentMaterial c.pMaterial c.lod c.accuracy c.newId).1.m_MeshData.m_LodList
      ≠ [] := by
    rw [hd]
    by_cases hc : QHash.contains m.m_PrimitiveGroups c.lod = true
    · rw [if_pos hc]
      intro h0
      have := (hm h0).1
      rw [this] at hc
      simp [QHash.contains, QHash.value] at hc
    · rw [if_neg hc]
      simp [GLC_MeshData.appendLod]
  have hlen : ∀ n, ((m.setCurrentMaterial c.pMaterial c.lod c.accuracy c.newId).1.m_MeshData.trianglesAdded
      c.lod n).m_LodList ≠ [] := by
    intro n h0
    have := trianglesAdded_lodList_length
      (m.setCurrentMaterial c.pMaterial c.lod c.accuracy c.newId).1.m_MeshData c.lod n
    rw [h0] at this
    exact hpre (List.eq_nil_of_length_eq_zero this.symm)
  unfold applyCall at h
  cases hk : c.kind with
  | triangles =>
    simp only [hk, GLC_Mesh.addTriangles] at h
    split_ifs at h with h1 h2 h3
    all_goals
      simp only [Option.some.injEq] at h
      subst h
      simpa [GLC_Mesh.modifyGroup] using hlen _
  | strip =>
    simp only [hk, GLC_Mesh.addTrianglesStrip] at h
    split_ifs at h with h1 h2 h3
    all_goals
      simp only [Option.some.injEq] at h
      subst h
      simpa [GLC_Mesh.modifyGroup] using hlen _
  | fan =>
    simp only [hk, GLC_Mesh.addTrianglesFan] at h
    split_ifs at h with h1 h2 h3
    all_goals
      simp only [Option.some.injEq] at h
      subst h
      simpa [GLC_Mesh.modifyGroup] using hlen _

theorem counterFresh_of_lodList (m : GLC_Mesh) (h : m.m_MeshData.m_LodList ≠ []) :
    CounterFresh m := fun h0 => absurd h0 h

theorem counterFresh_new : CounterFresh GLC_Mesh.new := fun _ => ⟨rfl, rfl⟩

theorem counterFresh_clear (m : GLC_Mesh) : CounterFresh m.clear := fun _ => ⟨rfl, rfl⟩

theorem lodZeroIds_append (a b : List (Int × GLC_uint)) :
    lodZeroIds (a ++ b) = lodZeroIds a ++ lodZeroIds b := by
  simp [lodZeroIds]

/-- Without `clear()`, the ingestion calls at LOD 0 get the ids that the successive
increments of the 32-bit counter of the mesh give. -/
theorem applyOps_ids (ops : List MeshOp) (m : GLC_Mesh) (r : GLC_Mesh × List (Int × GLC_uint))
    (hm : CounterFresh m) (hclear : MeshOp.clear ∉ ops) (h : applyOps m ops = some r) :
    lodZeroIds r.2 =
      List.iterate (fun x : Nat => (x + 1) % 4294967296) m.m_NextPrimitiveLocalId
        (lodZeroIds r.2).length := by
  induction ops generalizing m r with
  | nil =>
    simp only [applyOps, Option.some.injEq] at h
    subst h
    simp [lodZeroIds, List.iterate]
  | cons op rest ih =>
    simp only [applyOps, Option.bind_eq_bind, Option.bind_eq_some] at h
    obtain ⟨r1, h1, r2, h2, h3⟩ := h
    have hrest : MeshOp.clear ∉ rest := fun hc => hclear (List.mem_cons_of_mem _ hc)
    cases h3
    show lodZeroIds (r1.2 ++ r2.2) = List.iterate _ _ (lodZeroIds (r1.2 ++ r2.2)).length
    rw [lodZeroIds_append, List.length_append]
    cases op with
    | clear => exact absurd (List.mem_cons_self _ _) hclear
    | finish =>
      simp only [applyOp, Option.map_eq_some'] at h1
      obtain ⟨m1, hf, e⟩ := h1
      subst e
      have hnext : m1.m_NextPrimitiveLocalId = m.m_NextPrimitiveLocalId ∧ CounterFresh m1 := by
        rcases finish_counter m m1 hf with ⟨_, hr, hn⟩ | ⟨h0, hr⟩
        · exact ⟨hn, counterFresh_of_lodList m1 hr⟩
        · subst hr
          exact ⟨(hm h0).2.symm, counterFresh_clear m⟩
      have := ih m1 r2 hnext.2 hrest h2
      rw [hnext.1] at this
      simpa [lodZeroIds] using this
    | add c =>
      simp only [applyOp, Option.map_eq_some'] at h1
      obtain ⟨a, ha, e⟩ := h1
      subst e
      have hid := applyCall_id m c a ha
      have hfresh := counterFresh_of_lodList a.1 (applyCall_lodList m c a hm ha)
      have := ih a.1 r2 hfresh hrest h2
      by_cases h0 : c.lod = 0
      · simp only [if_pos h0] at hid
        rw [hid.2] at this
        have e1 : lodZeroIds [(c.lod, a.2)] = [m.m_NextPrimitiveLocalId] := by
          simp [lodZeroIds, h0, hid.1]
        rw [e1, this]
        simp only [List.length_singleton, List.length_iterate, List.singleton_append]
        rw [Nat.add_comm 1, List.iterate]
      · simp only [if_neg h0] at hid
        rw [hid.2] at this
        have e1 : lodZeroIds [(c.lod, a.2)] = [] := by
          simp [lodZeroIds, h0]
        rw [e1]
        simpa using this

/-- The ids that the successive increments of the 32-bit counter give from the value 1. -/
theorem iterate_increment_one (n : Nat) :
    List.iterate (fun x : Nat => (x + 1) % 4294967296) 1 n =
      (List.range n).map (fun i => (1 + i) % 4294967296) := by
  have key : ∀ (n k : Nat), List.iterate (fun x : Nat => (x + 1) % 4294967296)
      (k % 4294967296) n = (List.range n).map (fun i => (k + i) % 4294967296) := by
    intro n
    induction n with
    | zero => intro k; rfl
    | succ n ih =>
      intro k
      rw [List.iterate, List.range_succ_eq_map, List.map_cons, List.map_map]
      have e : (k % 4294967296 + 1) % 4294967296 = (k + 1) % 4294967296 := by omega
      rw [e, ih (k + 1)]
      congr 1
      apply List.map_congr_left
      intro i _
      show (k + 1 + i) % 4294967296 = (k + (i + 1)) % 4294967296
      congr 1
      omega
  exact key n 1

theorem counterFresh_of_clear_eq (m : GLC_Mesh) (hm : m.clear = m) : CounterFresh m := by
  rw [← hm]
  exact counterFresh_clear m

theorem applyOps_replicate_add (n : Nat) (m : GLC_Mesh) (h : m.Ingesting) :
    ∃ r, applyOps m (List.replicate n (.add sampleTriangleCall)) = some r ∧
      (lodZeroIds r.2).length = n := by
  induction n generalizing m with
  | zero => exact ⟨(m, []), rfl, rfl⟩
  | succ n ih =>
    obtain ⟨r, hr, hl⟩ := ih (sampleTriangleCall.result m) (Ingesting_result _ m h)
    refine ⟨(r.1, [((0 : Int), m.m_NextPrimitiveLocalId)] ++ r.2), ?_, ?_⟩
    · rw [List.replicate_succ]
      simp only [applyOps, applyOp, applyCall_eq m h sampleTriangleCall (by decide),
        Option.map_some', Option.bind_eq_bind, Option.some_bind, hr]
      rfl
    · rw [lodZeroIds_append, List.length_append, hl, Nat.add_comm]
      rfl

/-- C11, counterexample: a triangle batch at LOD 0, `clear()`, and the same batch again on
one mesh; both add calls return the id 1. And without any `clear()`: of `2 ^ 32 + 1` add
calls at LOD 0 on a fresh mesh the last one gets the id of the first one, the 32-bit
counter having come back to 1. -/
theorem primitive_id_reuse_counterexample :
    (applyOps GLC_Mesh.new [.add sampleTriangleCall, .clear, .add sampleTriangleCall]).map
      (fun r => lodZeroIds r.2) = some [1, 1] ∧
    ∃ r, applyOps GLC_Mesh.new (List.replicate 4294967297 (.add sampleTriangleCall)) =
        some r ∧ ¬ (lodZeroIds r.2).Nodup := by
  refine ⟨by decide, ?_⟩
  obtain ⟨r, hr, hl⟩ := applyOps_replicate_add 4294967297 GLC_Mesh.new Ingesting_new
  refine ⟨r, hr, fun hnd => ?_⟩
  have hclear : MeshOp.clear ∉ List.replicate 4294967297 (MeshOp.add sampleTriangleCall) := by
    intro hc
    exact absurd (List.eq_of_mem_replicate hc) (by simp)
  have hids := applyOps_ids _ GLC_Mesh.new r counterFresh_new hclear hr
  have e : GLC_Mesh.new.m_NextPrimitiveLocalId = 1 := rfl
  rw [e, hl, iterate_increment_one] at hids
  rw [hids] at hnd
  have := List.inj_on_of_nodup_map hnd (List.mem_range.2 (by norm_num : 0 < 4294967297))
    (List.mem_range.2 (by norm_num : 4294967296 < 4294967297)) (by norm_num)
  exact absurd this (by norm_num)

/-- C11, amended. On a mesh as the constructor or `clear()` leaves it, over every sequence
of add calls and `finish()` calls that contains no `clear()`, the ids returned by the add
calls at LOD 0 are the successive values of the 32-bit counter that starts at 1, the
`i`-th of them (counted from 0) being `(1 + i) mod 2 ^ 32`; as long as fewer than `2 ^ 32`
ids have been returned these are 1, 2, 3, ... in call order, hence pairwise distinct;
`clear()` sets the counter of primitive ids back to 1. -/
theorem primitive_ids_distinct_until_clear (m : GLC_Mesh) (ops : List MeshOp)
    (r : GLC_Mesh × List (Int × GLC_uint)) (hm : m.clear = m) (hclear : MeshOp.clear ∉ ops)
    (h : applyOps m ops = some r) :
    lodZeroIds r.2 =
        (List.range (lodZeroIds r.2).length).map (fun i => (1 + i) % 4294967296) ∧
      ((lodZeroIds r.2).length < 4294967296 →
        (lodZeroIds r.2).Nodup ∧ lodZeroIds r.2 = List.range' 1 (lodZeroIds r.2).length) ∧
      ∀ x : GLC_Mesh, x.clear.m_NextPrimitiveLocalId = 1 := by
  have h1 := applyOps_ids ops m r (counterFresh_of_clear_eq m hm) hclear h
  have hn : m.m_NextPrimitiveLocalId = 1 := by rw [← hm]; rfl
  rw [hn] at h1
  refine ⟨?_, fun hlen => ?_, fun _ => rfl⟩
  · rw [← iterate_increment_one]
    exact h1
  · have h2 : lodZeroIds r.2 = List.range' 1 (lodZeroIds r.2).length := by
      rw [← iterate_increment _ 1 (by omega)]
      exact h1
    refine ⟨?_, h2⟩
    rw [h2]
    exact List.nodup_range' _ _

/-- C11, instance: a triangle batch, `finish()` and a second triangle batch on a fresh
mesh return the ids 1 and 2. -/
theorem primitive_ids_distinct_until_clear_witness :
    (applyOps GLC_Mesh.new [.add sampleTriangleCall, .finish, .add sampleTriangleCall]).map
        Prod.snd = some [(0, 1), (0, 2)] ∧
      (lodZeroIds [(0, 1), (0, 2)]).Nodup :=
  ⟨by decide,
    ((primitive_ids_distinct_until_clear GLC_Mesh.new
      [.add sampleTriangleCall, .finish, .add sampleTriangleCall] (_, [(0, 1), (0, 2)])
      (by decide) (by decide) rfl).2.1 (by decide)).1⟩

/-! ## The cumulative face count -/

theorem cumulativeTriangles_cons (c : AddCall) (cs : List AddCall) (lod : Int) :
    cumulativeTriangles (c :: cs) lod =
      (if c.lod = lod then c.triangleCount else 0) + cumulativeTriangles cs lod := by
  unfold cumulativeTriangles AddCall.triangleCount
  by_cases hl : c.lod = lod
  · cases hk : c.kind <;> simp [List.filter_cons, hk, hl] <;> ring
  · simp [List.filter_cons, hl]

theorem faceCount_of_countAt (m : GLC_Mesh) (lod : Int) (h0 : 0 ≤ lod)
    (h1 : lod.toNat < m.m_MeshData.m_LodList.length) :
    m.faceCount lod = some (m.countAt lod.toNat % 4294967296) := by
  unfold GLC_Mesh.faceCount GLC_MeshData.trianglesCount GLC_Mesh.countAt
  rw [GLC_MeshData.getLod_eq_some _ _ h0 h1]
  simp [List.getElem?_eq_getElem h1]

theorem countAt_packed (m : GLC_Mesh) (j : Nat) : m.packed.countAt j = m.countAt j := by
  have hc := appendAll_counts m.m_PrimitiveGroups m.m_MeshData.m_LodList
  unfold GLC_Mesh.countAt
  simp only [GLC_Mesh.packed, GLC_MeshData.finishLod]
  rw [← List.getElem?_map, ← List.getElem?_map, hc]

theorem lodList_length_packed (m : GLC_Mesh) :
    m.packed.m_MeshData.m_LodList.length = m.m_MeshData.m_LodList.length := by
  simp only [GLC_Mesh.packed, GLC_MeshData.finishLod]
  rw [appendAll_length]

/-! ## Render dispatch -/

/-- The loop that `glDraw` runs in selection mode. -/
theorem glDraw_selection_mode_eq (debug : Bool) (env : DrawEnv) (m : GLC_Mesh)
    (rp : RenderPropertiesView) (hctx : env.contextIsSet = true)
    (hvalid : (m.m_GeometryIsValid || !env.positionSizeIsSet) = true)
    (hflag : rp.renderingFlag ≠ .OutlineSilhouetteRenderFlag)
    (hsel : env.isInSelectionMode = true) :
    (m.glDraw debug env rp).map (fun r => (r.mesh, r.loops)) =
      some (m, [⟨(if rp.renderingMode = .PrimitiveSelection then .primitiveSelectionRenderLoop
        else if rp.renderingMode = .BodySelection then .bodySelectionRenderLoop
        else .normalRenderLoop), m⟩]) := by
  unfold GLC_Mesh.glDraw
  simp only [hctx, hvalid, hsel, hflag, Bool.not_true, Bool.and_false, Bool.false_eq_true,
    if_false, Bool.and_true, if_true]
  split_ifs <;> simp_all

/-- C14. In selection mode, a draw call whose render flag is not OutlineSilhouette runs one
loop: the primitive-selection loop when the rendering mode is PrimitiveSelection, the
body-selection loop when it is BodySelection, the normal loop for every other rendering
mode; this holds whatever the selected flag of the mesh is, and the mesh is left as it
was. -/
theorem dispatch_selection_mode (debug : Bool) (env : DrawEnv) (m : GLC_Mesh)
    (rp : RenderPropertiesView) (hctx : env.contextIsSet = true)
    (hvalid : (m.m_GeometryIsValid || !env.positionSizeIsSet) = true)
    (hflag : rp.renderingFlag ≠ .OutlineSilhouetteRenderFlag)
    (hsel : env.isInSelectionMode = true) :
    ∃ r, m.glDraw debug env rp = some r ∧ r.mesh = m ∧
      (rp.renderingMode = .PrimitiveSelection →
        r.loops = [⟨.primitiveSelectionRenderLoop, m⟩]) ∧
      (rp.renderingMode = .BodySelection → r.loops = [⟨.bodySelectionRenderLoop, m⟩]) ∧
      (rp.renderingMode ≠ .PrimitiveSelection → rp.renderingMode ≠ .BodySelection →
        r.loops = [⟨.normalRenderLoop, m⟩]) := by
  have h := glDraw_selection_mode_eq debug env m rp hctx hvalid hflag hsel
  cases hr : m.glDraw debug env rp with
  | none => rw [hr] at h; simp at h
  | some r =>
    rw [hr] at h
    simp only [Option.map_some', Option.some.injEq, Prod.mk.injEq] at h
    refine ⟨r, rfl, h.1, ?_, ?_, ?_⟩
    · intro hm
      rw [h.2, if_pos hm]
    · intro hm
      have : rp.renderingMode ≠ .PrimitiveSelection := by rw [hm]; decide
      rw [h.2, if_neg this, if_pos hm]
    · intro h1 h2
      rw [h.2, if_neg h1, if_neg h2]

/-- C14, instance: in selection mode and in the mode BodySelection, a selected mesh is
drawn by the body-selection loop. -/
theorem dispatch_selection_mode_witness :
    ∃ r, sampleSelectedMesh.glDraw true { isInSelectionMode := true }
        { renderingMode := .BodySelection } = some r ∧ r.mesh = sampleSelectedMesh ∧
      (RenderMode.BodySelection = .PrimitiveSelection →
        r.loops = [⟨.primitiveSelectionRenderLoop, sampleSelectedMesh⟩]) ∧
      (RenderMode.BodySelection = .BodySelection →
        r.loops = [⟨.bodySelectionRenderLoop, sampleSelectedMesh⟩]) ∧
      (RenderMode.BodySelection ≠ .PrimitiveSelection →
        RenderMode.BodySelection ≠ .BodySelection →
        r.loops = [⟨.normalRenderLoop, sampleSelectedMesh⟩]) :=
  dispatch_selection_mode true { isInSelectionMode := true } sampleSelectedMesh
    { renderingMode := .BodySelection } (by decide) (by decide) (by decide) (by decide)

theorem mesh_selected_eta (m : GLC_Mesh) (hm : m.m_IsSelected = true) :
    ({ ({ m with m_IsSelected := false } : GLC_Mesh) with m_IsSelected := true } : GLC_Mesh) = m := by
  cases m
  simp only at hm
  subst hm
  rfl

/-- The loop that `glDraw` runs on a selected mesh outside selection mode. -/
theorem glDraw_selected_eq (debug : Bool) (env : DrawEnv) (m : GLC_Mesh)
    (rp : RenderPropertiesView) (hctx : env.contextIsSet = true)
    (hvalid : (m.m_GeometryIsValid || !env.positionSizeIsSet) = true)
    (hflag : rp.renderingFlag ≠ .OutlineSilhouetteRenderFlag)
    (hsel : env.isInSelectionMode = false) (hm : m.m_IsSelected = true) :
    (m.glDraw debug env rp).map (fun r => (r.mesh, r.loops)) =
      some (
        if rp.renderingMode = .PrimitiveSelected then
          if rp.setOfSelectedPrimitiveIdIsEmpty = false then
            (({ m with m_CurrentLod := 0 } : GLC_Mesh),
              [⟨.primitiveSelectedRenderLoop, { m with m_CurrentLod := 0 }⟩])
          else
            (m, [⟨(if m.m_CurrentLod = 0 ∧
                  rp.savedRenderingMode = .OverwritePrimitiveMaterial ∧
                  rp.hashOfOverwritePrimitiveMaterialsIsEmpty = false
                then .primitiveRenderLoop else .normalRenderLoop),
              { m with m_IsSelected := false }⟩])
        else (m, [⟨.normalRenderLoop, m⟩])) := by
  unfold GLC_Mesh.glDraw
  simp only [hctx, hvalid, hsel, hflag, hm, Bool.not_true, Bool.and_false, Bool.false_eq_true,
    if_false, Bool.and_true, if_true, Bool.not_false, Bool.true_and]
  by_cases h1 : rp.renderingMode = .PrimitiveSelected
  · by_cases h2 : rp.setOfSelectedPrimitiveIdIsEmpty = false
    · simp [h1, h2, hm]
    · have h2' : rp.setOfSelectedPrimitiveIdIsEmpty = true := by
        cases h : rp.setOfSelectedPrimitiveIdIsEmpty
        · exact absurd h h2
        · rfl
      simp only [h1, h2', decide_True, Bool.not_true, Bool.and_false, Bool.false_eq_true,
        if_false, hm, if_true, Option.map_some', Option.some.injEq, Prod.mk.injEq]
      rw [if_neg (by decide : ¬ (true = false))]
      refine Prod.ext (mesh_selected_eta m hm) ?_
      by_cases h3 : m.m_CurrentLod = 0 <;>
      by_cases h4 : rp.savedRenderingMode = .OverwritePrimitiveMaterial <;>
      cases h5 : rp.hashOfOverwritePrimitiveMaterialsIsEmpty <;> simp [h3, h4]
  · simp [h1, hm]

/-- C15, counterexample: a selected mesh drawn in the mode NormalRenderMode outside
selection mode is handed to the normal loop with its selected flag on. -/
theorem dispatch_selected_counterexample :
    (sampleSelectedMesh.glDraw true {} {}).map
      (fun r => r.loops.map (fun l => (l.loop, l.during.m_IsSelected))) =
      some [(RenderLoop.normalRenderLoop, true)] := by
  decide

/-- C15, amended. For a draw call with render flag not OutlineSilhouette, selection mode
off and the mesh flagged selected: in the mode PrimitiveSelected with a non-empty set of
selected primitive ids `glDraw` runs the primitive-selected loop (at LOD 0); in the mode
PrimitiveSelected with an empty set it runs, with the selected flag switched off, the
primitive loop when the current LOD is 0, the saved rendering mode is
OverwritePrimitiveMaterial and the hash of overwrite primitive materials is not empty, and
the normal loop otherwise; in every other mode it runs the normal loop with the selected
flag on. The selected flag is on when `glDraw` returns. -/
theorem dispatch_selected (debug : Bool) (env : DrawEnv) (m : GLC_Mesh)
    (rp : RenderPropertiesView) (hctx : env.contextIsSet = true)
    (hvalid : (m.m_GeometryIsValid || !env.positionSizeIsSet) = true)
    (hflag : rp.renderingFlag ≠ .OutlineSilhouetteRenderFlag)
    (hsel : env.isInSelectionMode = false) (hm : m.m_IsSelected = true) :
    ∃ r, m.glDraw debug env rp = some r ∧ r.mesh.m_IsSelected = true ∧
      (rp.renderingMode = .PrimitiveSelected → rp.setOfSelectedPrimitiveIdIsEmpty = false →
        r.loops = [⟨.primitiveSelectedRenderLoop, { m with m_CurrentLod := 0 }⟩]) ∧
      (rp.renderingMode = .PrimitiveSelected → rp.setOfSelectedPrimitiveIdIsEmpty = true →
        r.mesh = m ∧
        r.loops = [⟨(if m.m_CurrentLod = 0 ∧
              rp.savedRenderingMode = .OverwritePrimitiveMaterial ∧
              rp.hashOfOverwritePrimitiveMaterialsIsEmpty = false
            then .primitiveRenderLoop else .normalRenderLoop),
          { m with m_IsSelected := false }⟩]) ∧
      (rp.renderingMode ≠ .PrimitiveSelected →
        r.mesh = m ∧ r.loops = [⟨.normalRenderLoop, m⟩]) := by
  have h := glDraw_selected_eq debug env m rp hctx hvalid hflag hsel hm
  cases hr : m.glDraw debug env rp with
  | none => rw [hr] at h; simp at h
  | some r =>
    rw [hr] at h
    simp only [Option.map_some', Option.some.injEq] at h
    refine ⟨r, rfl, ?_, ?_, ?_, ?_⟩
    · have : r.mesh = (r.mesh, r.loops).1 := rfl
      rw [this, h]
      split_ifs <;> exact hm
    · intro h1 h2
      rw [if_pos h1, if_pos h2] at h
      exact (Prod.mk.inj h).2
    · intro h1 h2
      have h2' : ¬ rp.setOfSelectedPrimitiveIdIsEmpty = false := by rw [h2]; decide
      rw [if_pos h1, if_neg h2'] at h
      exact ⟨(Prod.mk.inj h).1, (Prod.mk.inj h).2⟩
    · intro h1
      rw [if_neg h1] at h
      exact ⟨(Prod.mk.inj h).1, (Prod.mk.inj h).2⟩

/-- C15, instance: a selected mesh in the mode PrimitiveSelected with an empty set of
selected primitive ids and the saved mode OverwritePrimitiveMaterial is drawn by the
primitive loop with the selected flag off, and is selected again afterwards. -/
theorem dispatch_selected_witness :
    (sampleSelectedMesh.glDraw true {}
        { renderingMode := .PrimitiveSelected
          savedRenderingMode := .OverwritePrimitiveMaterial
          hashOfOverwritePrimitiveMaterialsIsEmpty := false }).map
      (fun r => (r.mesh.m_IsSelected, r.loops.map (fun l => (l.loop, l.during.m_IsSelected)))) =
      some (true, [(RenderLoop.primitiveRenderLoop, false)]) ∧
    ∃ r, sampleSelectedMesh.glDraw true {}
        { renderingMode := .PrimitiveSelected
          savedRenderingMode := .OverwritePrimitiveMaterial
          hashOfOverwritePrimitiveMaterialsIsEmpty := false } = some r ∧
      r.mesh.m_IsSelected = true :=
  ⟨by decide,
    (dispatch_selected true {} sampleSelectedMesh
      { renderingMode := .PrimitiveSelected
        savedRenderingMode := .OverwritePrimitiveMaterial
        hashOfOverwritePrimitiveMaterialsIsEmpty := false }
      (by decide) (by decide) (by decide) (by decide) (by decide)).imp
      (fun _ h => ⟨h.1, h.2.1⟩)⟩

/-- The loop that `glDraw` runs on a mesh that is not selected, outside selection mode. -/
theorem glDraw_by_mode_eq (debug : Bool) (env : DrawEnv) (m : GLC_Mesh)
    (rp : RenderPropertiesView) (hctx : env.contextIsSet = true)
    (hvalid : (m.m_GeometryIsValid || !env.positionSizeIsSet) = true)
    (hflag : rp.renderingFlag ≠ .OutlineSilhouetteRenderFlag)
    (hsel : env.isInSelectionMode = false) (hm : m.m_IsSelected = false) :
    (m.glDraw debug env rp).map (fun r => (r.mesh, r.loops)) =
      match rp.renderingMode with
      | .NormalRenderMode => some (m, [⟨.normalRenderLoop, m⟩])
      | .OverwriteMaterial => some (m, [⟨.OverwriteMaterialRenderLoop, m⟩])
      | .OverwriteTransparency => some (m, [⟨.OverwriteTransparencyRenderLoop, m⟩])
      | .OverwriteTransparencyAndMaterial =>
        some (m, [⟨.OverwriteTransparencyAndMaterialRenderLoop, m⟩])
      | .OverwritePrimitiveMaterial =>
        some (m, [⟨(if m.m_CurrentLod = 0 ∧ rp.hashOfOverwritePrimitiveMaterialsIsEmpty = false
          then .primitiveRenderLoop else .normalRenderLoop), m⟩])
      | _ => if debug then none else some (m, []) := by
  unfold GLC_Mesh.glDraw
  simp only [hctx, hvalid, hsel, hflag, hm, Bool.not_true, Bool.and_false, Bool.false_eq_true,
    if_false, Bool.false_and]
  cases hmode : rp.renderingMode
  case OverwritePrimitiveMaterial =>
    by_cases h3 : m.m_CurrentLod = 0 <;>
    cases h5 : rp.hashOfOverwritePrimitiveMaterialsIsEmpty <;> simp [h3]
  all_goals
    cases debug <;> simp

/-- C16, counterexample: a mesh that is not selected, drawn outside selection mode in the
mode PrimitiveSelected, reaches the `Q_ASSERT(false)` of the default branch; where the
assertion is compiled out, the draw call runs no loop at all. -/
theorem dispatch_by_mode_counterexample :
    GLC_Mesh.new.glDraw true {} { renderingMode := .PrimitiveSelected } = none ∧
    (GLC_Mesh.new.glDraw false {} { renderingMode := .PrimitiveSelected }).map
      (fun r => r.loops) = some [] := by
  decide

/-- C16, amended. For a draw call with render flag not OutlineSilhouette, selection mode
off and the mesh not flagged selected, `glDraw` runs exactly one loop in each of the modes
Normal (normal loop), OverwriteMaterial, OverwriteTransparency,
OverwriteTransparencyAndMaterial (the loop of that name) and OverwritePrimitiveMaterial
(the primitive loop when the current LOD is 0 and the hash of overwrite primitive
materials is not empty, the normal loop otherwise), and leaves the mesh as it was; in the
modes PrimitiveSelected, PrimitiveSelection and BodySelection it reaches the default
branch, where `Q_ASSERT(false)` fails; with the assertion compiled out it runs no loop. -/
theorem dispatch_by_mode (debug : Bool) (env : DrawEnv) (m : GLC_Mesh)
    (rp : RenderPropertiesView) (hctx : env.contextIsSet = true)
    (hvalid : (m.m_GeometryIsValid || !env.positionSizeIsSet) = true)
    (hflag : rp.renderingFlag ≠ .OutlineSilhouetteRenderFlag)
    (hsel : env.isInSelectionMode = false) (hm : m.m_IsSelected = false) :
    (rp.renderingMode = .NormalRenderMode →
      (m.glDraw debug env rp).map (fun r => (r.mesh, r.loops)) =
        some (m, [⟨.normalRenderLoop, m⟩])) ∧
    (rp.renderingMode = .OverwriteMaterial →
      (m.glDraw debug env rp).map (fun r => (r.mesh, r.loops)) =
        some (m, [⟨.OverwriteMaterialRenderLoop, m⟩])) ∧
    (rp.renderingMode = .OverwriteTransparency →
      (m.glDraw debug env rp).map (fun r => (r.mesh, r.loops)) =
        some (m, [⟨.OverwriteTransparencyRenderLoop, m⟩])) ∧
    (rp.renderingMode = .OverwriteTransparencyAndMaterial →
      (m.glDraw debug env rp).map (fun r => (r.mesh, r.loops)) =
        some (m, [⟨.OverwriteTransparencyAndMaterialRenderLoop, m⟩])) ∧
    (rp.renderingMode = .OverwritePrimitiveMaterial →
      (m.glDraw debug env rp).map (fun r => (r.mesh, r.loops)) =
        some (m, [⟨(if m.m_CurrentLod = 0 ∧ rp.hashOfOverwritePrimitiveMaterialsIsEmpty = false
          then .primitiveRenderLoop else .normalRenderLoop), m⟩])) ∧
    (rp.renderingMode = .PrimitiveSelected ∨ rp.renderingMode = .PrimitiveSelection ∨
        rp.renderingMode = .BodySelection →
      m.glDraw true env rp = none ∧
      (m.glDraw false env rp).map (fun r => (r.mesh, r.loops)) = some (m, [])) := by
  have h := fun d => glDraw_by_mode_eq d env m rp hctx hvalid hflag hsel hm
  refine ⟨?_, ?_, ?_, ?_, ?_, ?_⟩
  · intro e; rw [h, e]
  · intro e; rw [h, e]
  · intro e; rw [h, e]
  · intro e; rw [h, e]
  · intro e; rw [h, e]
  · intro e
    have h1 := h true
    have h2 := h false
    rcases e with e | e | e <;>
    · rw [e] at h1 h2
      exact ⟨by simpa using h1, by simpa using h2⟩

/-- C16, instance: a mesh that is not selected is drawn in the mode OverwriteMaterial by
the overwrite-material loop. -/
theorem dispatch_by_mode_witness :
    (GLC_Mesh.new.glDraw true {} { renderingMode := .OverwriteMaterial }).map
        (fun r => (r.mesh, r.loops)) =
      some (GLC_Mesh.new, [⟨.OverwriteMaterialRenderLoop, GLC_Mesh.new⟩]) :=
  (dispatch_by_mode true {} GLC_Mesh.new { renderingMode := .OverwriteMaterial }
    (by decide) (by decide) (by decide) (by decide) (by decide)).2.1 rfl

theorem primitiveSelectedRenderLoopGroups_visits (m : GLC_Mesh) (isTransparent : Bool)
    (materialIsTransparent : GLC_uint → Bool) (groups : LodPrimitiveGroups)
    (hmat : ∀ e ∈ groups, m.containsMaterial e.2.m_Id = true) :
    (m.primitiveSelectedRenderLoopGroups isTransparent materialIsTransparent groups).map
      (List.map Prod.fst) = some groups := by
  induction groups with
  | nil => rfl
  | cons e rest ih =>
    have h1 : m.material e.2.m_Id = some e.2.m_Id := by
      simp [GLC_Mesh.material, hmat e (List.mem_cons_self _ _)]
    have h2 := ih (fun x hx => hmat x (List.mem_cons_of_mem _ hx))
    cases hr : m.primitiveSelectedRenderLoopGroups isTransparent materialIsTransparent rest with
    | none => rw [hr] at h2; simp at h2
    | some visited =>
      rw [hr] at h2
      simp only [Option.map_some', Option.some.injEq] at h2
      simp [GLC_Mesh.primitiveSelectedRenderLoopGroups, h1, hr, h2]

/-- C17. In a draw call on a selected mesh in the mode PrimitiveSelected with a non-empty
set of selected primitive ids, outside selection mode and with a render flag other than
OutlineSilhouette, `glDraw` runs the primitive-selected loop and nothing else; during that
loop the current LOD of the mesh is 0, whatever it was before the call, and the loop
visits the groups of LOD 0, all of them when their materials are registered. -/
theorem lod_pin (debug : Bool) (env : DrawEnv) (m : GLC_Mesh) (rp : RenderPropertiesView)
    (materialIsTransparent : GLC_uint → Bool) (hctx : env.contextIsSet = true)
    (hvalid : (m.m_GeometryIsValid || !env.positionSizeIsSet) = true)
    (hflag : rp.renderingFlag ≠ .OutlineSilhouetteRenderFlag)
    (hsel : env.isInSelectionMode = false) (hm : m.m_IsSelected = true)
    (hmode : rp.renderingMode = .PrimitiveSelected)
    (hset : rp.setOfSelectedPrimitiveIdIsEmpty = false) :
    ∃ r run, m.glDraw debug env rp = some r ∧ r.loops = [run] ∧
      run.loop = .primitiveSelectedRenderLoop ∧ run.during.m_CurrentLod = 0 ∧
      run.during.currentLodGroups = QHash.value m.m_PrimitiveGroups 0 ∧
      ∀ groups, QHash.value m.m_PrimitiveGroups 0 = some groups →
        (∀ e ∈ groups, m.containsMaterial e.2.m_Id = true) →
        (run.during.primitiveSelectedRenderLoop rp materialIsTransparent).map
          (List.map Prod.fst) = some groups := by
  have h := glDraw_selected_eq debug env m rp hctx hvalid hflag hsel hm
  rw [if_pos hmode, if_pos hset] at h
  cases hr : m.glDraw debug env rp with
  | none => rw [hr] at h; simp at h
  | some r =>
    rw [hr] at h
    simp only [Option.map_some', Option.some.injEq] at h
    have hl : r.loops = [⟨.primitiveSelectedRenderLoop, { m with m_CurrentLod := 0 }⟩] :=
      (Prod.mk.inj h).2
    refine ⟨r, _, rfl, hl, rfl, rfl, rfl, ?_⟩
    intro groups hg hmat
    have hc : ({ m with m_CurrentLod := 0 } : GLC_Mesh).currentLodGroups = some groups := hg
    simp only [GLC_Mesh.primitiveSelectedRenderLoop, hc]
    exact primitiveSelectedRenderLoopGroups_visits _ _ _ groups hmat

/-- C17, instance: a selected mesh whose current LOD is 3 is drawn by the
primitive-selected loop at LOD 0. -/
theorem lod_pin_witness :
    (({ sampleSelectedMesh with m_CurrentLod := 3 } : GLC_Mesh).glDraw true {}
        { renderingMode := .PrimitiveSelected, setOfSelectedPrimitiveIdIsEmpty := false }).map
      (fun r => r.loops.map (fun l => (l.loop, l.during.m_CurrentLod))) =
      some [(RenderLoop.primitiveSelectedRenderLoop, 0)] ∧
    ∃ r run, ({ sampleSelectedMesh with m_CurrentLod := 3 } : GLC_Mesh).glDraw true {}
        { renderingMode := .PrimitiveSelected, setOfSelectedPrimitiveIdIsEmpty := false }
        = some r ∧ r.loops = [run] ∧ run.during.m_CurrentLod = 0 :=
  ⟨by decide,
    (lod_pin true {} { sampleSelectedMesh with m_CurrentLod := 3 }
      { renderingMode := .PrimitiveSelected, setOfSelectedPrimitiveIdIsEmpty := false }
      (fun _ => false) (by decide) (by decide) (by decide) (by decide) (by decide) (by decide)
      (by decide)).imp
      (fun _ h => h.imp (fun _ h2 => ⟨h2.1, h2.2.1, h2.2.2.2.1⟩))⟩

/-! ## The transparency filter of the normal render loop -/

theorem normalRenderLoopGroups_eq (m : GLC_Mesh) (isInSelectionMode isTransparent : Bool)
    (materialIsTransparent : GLC_uint → Bool) (groups : LodPrimitiveGroups)
    (hmat : ∀ e ∈ groups, m.containsMaterial e.2.m_Id = true) :
    m.normalRenderLoopGroups isInSelectionMode isTransparent materialIsTransparent groups =
      some (groups.filter (fun e =>
        m.m_IsSelected || isInSelectionMode || (materialIsTransparent e.2.m_Id == isTransparent))) := by
  induction groups with
  | nil => rfl
  | cons e rest ih =>
    have h1 : m.material e.2.m_Id = some e.2.m_Id := by
      simp [GLC_Mesh.material, hmat e (List.mem_cons_self _ _)]
    have h2 := ih (fun x hx => hmat x (List.mem_cons_of_mem _ hx))
    simp only [GLC_Mesh.normalRenderLoopGroups, h1, h2, List.filter_cons]
    split_ifs <;> rfl

/-- C18, counterexample: a selected mesh with one group at its current LOD, drawn by the
normal loop outside selection mode with the render flag Transparent: no group is drawn. -/
theorem normal_loop_filter_counterexample :
    sampleSelectedMesh.m_IsSelected = true ∧
    (sampleSelectedMesh.currentLodGroups.map (fun groups => QHash.keys groups)) = some [7] ∧
    sampleSelectedMesh.normalRenderLoop false { renderingFlag := .TransparentRenderFlag }
      (fun _ => true) = some [] := by
  decide

/-- C18, amended. The normal render loop, run on a mesh whose current LOD has an entry and
whose groups have registered materials, draws the groups of the current LOD that pass its
filter, in order: in selection mode every group; outside selection mode, for a mesh
flagged selected, every group when the render flag is not Transparent and no group when
it is Transparent; for a mesh that is not selected, the groups whose material satisfies
`isTransparent() == (render flag == Transparent)`. -/
theorem normal_loop_filter (m : GLC_Mesh) (isInSelectionMode : Bool)
    (rp : RenderPropertiesView) (materialIsTransparent : GLC_uint → Bool)
    (groups : LodPrimitiveGroups) (hg : m.currentLodGroups = some groups)
    (hmat : ∀ e ∈ groups, m.containsMaterial e.2.m_Id = true) :
    ∃ drawn, m.normalRenderLoop isInSelectionMode rp materialIsTransparent = some drawn ∧
      drawn.Sublist groups ∧
      ∀ e, e ∈ drawn ↔ e ∈ groups ∧
        (isInSelectionMode = true ∨
          (m.m_IsSelected = true ∧ rp.renderingFlag ≠ .TransparentRenderFlag) ∨
          (m.m_IsSelected = false ∧
            materialIsTransparent e.2.m_Id = decide (rp.renderingFlag = .TransparentRenderFlag))) := by
  have h := normalRenderLoopGroups_eq m isInSelectionMode
    (decide (rp.renderingFlag = .TransparentRenderFlag)) materialIsTransparent groups hmat
  unfold GLC_Mesh.normalRenderLoop
  simp only [hg, h]
  by_cases hguard : ((!m.m_IsSelected || !decide (rp.renderingFlag = .TransparentRenderFlag))
      || isInSelectionMode) = true
  · rw [if_pos hguard]
    refine ⟨_, rfl, List.filter_sublist _, ?_⟩
    intro e
    rw [List.mem_filter]
    apply and_congr_right
    intro _
    cases hs : m.m_IsSelected <;> cases hm : isInSelectionMode <;>
      by_cases hf : rp.renderingFlag = .TransparentRenderFlag <;>
      simp_all
  · rw [if_neg hguard]
    refine ⟨[], rfl, List.nil_sublist _, ?_⟩
    intro e
    cases hs : m.m_IsSelected <;> cases hm : isInSelectionMode <;>
      by_cases hf : rp.renderingFlag = .TransparentRenderFlag <;>
      simp_all

/-- C18, instance: the selected sample mesh is drawn in the opaque pass. -/
theorem normal_loop_filter_witness :
    ∃ drawn, sampleSelectedMesh.normalRenderLoop false {} (fun _ => true) = some drawn ∧
      drawn.Sublist [(7, (GLC_PrimitiveGroup.new 7).addTriangles [0, 1, 2] 1)] ∧
      ∀ e, e ∈ drawn ↔ e ∈ [(7, (GLC_PrimitiveGroup.new 7).addTriangles [0, 1, 2] 1)] ∧
        (false = true ∨
          (sampleSelectedMesh.m_IsSelected = true ∧
            RenderFlag.ShadingFlag ≠ .TransparentRenderFlag) ∨
          (sampleSelectedMesh.m_IsSelected = false ∧
            (fun _ => true) e.2.m_Id = decide (RenderFlag.ShadingFlag = .TransparentRenderFlag))) :=
  normal_loop_filter sampleSelectedMesh false {} (fun _ => true)
    [(7, (GLC_PrimitiveGroup.new 7).addTriangles [0, 1, 2] 1)] (by decide) (by decide)

/-! ## Material usage of GLC_RenderProperties -/

/-- C19, failing input: the render properties of owner id 1 get the fresh material at
address 5 as overwrite material, which makes owner 1 its only user; a second
`setOverwriteMaterial` with the same material drops the last usage, deletes the material
and then calls `addUsage` on the deleted material. -/
theorem set_overwrite_material_twice :
    GLC_RenderProperties.setOverwriteMaterial { m_Uid := 1 } [(5, some {})] (some 5) =
      .ok ({ m_Uid := 1, m_pOverwriteMaterial := some 5 }, [(5, some { usage := [1] })]) ∧
    GLC_RenderProperties.setOverwriteMaterial { m_Uid := 1, m_pOverwriteMaterial := some 5 }
      [(5, some { usage := [1] })] (some 5) = .error .useAfterFree := by
  constructor <;> rfl

/-! ## The comparison tolerance around `createSharpEdges` -/

/-- C20, counterexample: on a finished mesh of one triangle, with the tolerance 1 in force,
`createSharpEdges(5, 30)` whose parallel pass raises an error leaves the tolerance 5. -/
theorem sharp_edges_precision_counterexample :
    sampleTriangleMesh.m_MaterialHash = [7] ∧
    sampleTriangleMesh.createSharpEdges true raisingGeometry 1 5 30 = (none, 5) := by
  decide

/-- C20, amended. Whenever the pass of `createSharpEdges(precision, angleThreshold)` runs to
its end, the call leaves `glc::comparedPrecision` equal to the value it had before the
call, for every mesh and every argument. -/
theorem sharp_edges_precision_restored (debug : Bool) (geometry : SharpEdgeGeometry)
    (m m' : GLC_Mesh) (comparedPrecision precision angleThreshold : Int)
    (h : (m.createSharpEdges debug geometry comparedPrecision precision angleThreshold).1 =
      some m') :
    (m.createSharpEdges debug geometry comparedPrecision precision angleThreshold).2 =
      comparedPrecision := by
  unfold GLC_Mesh.createSharpEdges at h ⊢
  cases hp : m.createSharpEdgesPass debug geometry precision (geometry.toRadian angleThreshold) with
  | none => simp [hp] at h
  | some m1 => simp only [hp]

/-- C20, instance: on a finished mesh of one triangle, with the tolerance 1 in force,
`createSharpEdges(5, 30)` with a pass that finds no sharp edge completes and leaves the
tolerance 1. -/
theorem sharp_edges_precision_restored_witness :
    (sampleTriangleMesh.createSharpEdges true smoothGeometry 1 5 30).1.isSome = true ∧
    (sampleTriangleMesh.createSharpEdges true smoothGeometry 1 5 30).2 = 1 :=
  ⟨by decide,
    sharp_edges_precision_restored true smoothGeometry sampleTriangleMesh _ 1 5 30 rfl⟩

/-! ## Meshes filled at several LODs -/

theorem Filled_new : GLC_Mesh.new.Filled := by
  constructor <;> simp [GLC_Mesh.new]

theorem runs_addTo (c : AddCall) (id : GLC_uint) (g : GLC_PrimitiveGroup)
    (hne : c.indexList ≠ [])
    (hg : (∀ s ∈ g.strips.sizes, 0 < s) ∧ (∀ s ∈ g.fans.sizes, 0 < s)) :
    (∀ s ∈ (c.addTo id g).strips.sizes, 0 < s) ∧ (∀ s ∈ (c.addTo id g).fans.sizes, 0 < s) := by
  obtain ⟨h2, h3⟩ := hg
  have hpos : 0 < c.indexList.length := List.length_pos.2 hne
  unfold AddCall.addTo
  cases hk : c.kind with
  | triangles => exact ⟨h2, h3⟩
  | strip =>
    refine ⟨?_, h3⟩
    intro s hs
    simp only [GLC_PrimitiveGroup.addTrianglesStrip, PrimitiveRuns.add, List.mem_append,
      List.mem_singleton] at hs
    rcases hs with hs | hs
    · exact h2 s hs
    · omega
  | fan =>
    refine ⟨h2, ?_⟩
    intro s hs
    simp only [GLC_PrimitiveGroup.addTrianglesFan, PrimitiveRuns.add, List.mem_append,
      List.mem_singleton] at hs
    rcases hs with hs | hs
    · exact h3 s hs
    · omega

theorem result_entries_sharp (c : AddCall) (m : GLC_Mesh) (e1 : Int × LodPrimitiveGroups)
    (he : e1 ∈ (c.result m).m_PrimitiveGroups) :
    e1 ∈ m.m_PrimitiveGroups ∨
      ∃ gs, ((e1.1, gs) ∈ m.m_PrimitiveGroups ∨ gs = []) ∧
        e1.2 = QHash.modify
          (if QHash.contains gs (c.groupId m.m_DefaultMaterialId) then gs
            else gs ++ [(c.groupId m.m_DefaultMaterialId,
              GLC_PrimitiveGroup.new (c.groupId m.m_DefaultMaterialId))])
          (c.groupId m.m_DefaultMaterialId)
          (c.addTo (if c.lod = 0 then m.m_NextPrimitiveLocalId else 0)) := by
  simp only [AddCall.result] at he
  rw [ensureGroup_eq] at he
  obtain ⟨e, he0, h1⟩ := QHash.mem_modify_sharp _ _ _ _ he
  by_cases hk : e.1 = c.lod
  · right
    rw [if_pos hk] at h1
    refine ⟨e.2, ?_, by rw [h1]⟩
    rcases ensureLod_mem _ _ _ he0 with h | h
    · left; rw [h1]; exact h
    · right; rw [h]
  · left
    rw [if_neg hk] at h1
    rcases ensureLod_mem _ _ _ he0 with h | h
    · rw [h1]; exact h
    · rw [h] at hk
      exact absurd rfl hk

theorem Filled_result (c : AddCall) (m : GLC_Mesh) (hm : m.Filled) (hne : c.indexList ≠ []) :
    (c.result m).Filled := by
  constructor
  · intro e1 he1 x1 hx1
    obtain ⟨gs, hgs, h2⟩ := result_entries c m e1 he1
    have hsz : ∀ x ∈ gs, (∀ s ∈ x.2.strips.sizes, 0 < s) ∧ (∀ s ∈ x.2.fans.sizes, 0 < s) := by
      intro x hx
      rcases hgs with h0 | h0
      · exact hm.runs _ h0 x hx
      · rw [h0] at hx; simp at hx
    rcases h2 with h2 | h2
    · rw [h2] at hx1
      exact hsz x1 hx1
    · rw [h2] at hx1
      obtain ⟨x, hx, hx2⟩ := QHash.mem_modify_sharp _ _ _ _ hx1
      have hx0 : (∀ s ∈ x.2.strips.sizes, 0 < s) ∧ (∀ s ∈ x.2.fans.sizes, 0 < s) := by
        rcases mem_ensured _ _ _ hx with h3 | h3
        · exact hsz x h3
        · rw [h3]; simp [GLC_PrimitiveGroup.new]
      by_cases hk : x.1 = c.groupId m.m_DefaultMaterialId
      · rw [if_pos hk] at hx2
        rw [hx2]
        exact runs_addTo _ _ _ hne hx0
      · rw [if_neg hk] at hx2
        rw [hx2]
        exact hx0
  · intro e1 he1 x1 hx1
    obtain ⟨gs, hgs, h2⟩ := result_entries c m e1 he1
    have hsz : ∀ x ∈ gs, groupContent x.2 ≠ [] := by
      intro x hx
      rcases hgs with h0 | h0
      · exact hm.content _ h0 x hx
      · rw [h0] at hx; simp at hx
    rcases h2 with h2 | h2
    · rw [h2] at hx1
      exact hsz x1 hx1
    · rw [h2] at hx1
      obtain ⟨x, hx, hx2⟩ := QHash.mem_modify_sharp _ _ _ _ hx1
      by_cases hk : x.1 = c.groupId m.m_DefaultMaterialId
      · rw [if_pos hk] at hx2
        rw [hx2]
        exact groupContent_addTo_ne_nil _ _ _ hne
      · rw [if_neg hk] at hx2
        rw [hx2]
        rcases mem_ensured _ _ _ hx with h3 | h3
        · exact hsz x h3
        · rw [h3] at hk
          exact absurd rfl hk
  · intro e1 he1
    rcases result_entries_sharp c m e1 he1 with h0 | ⟨gs, _, h2⟩
    · exact hm.groups _ h0
    · rw [h2]
      intro h0
      have hk := mem_keys_ensured gs (c.groupId m.m_DefaultMaterialId)
      rw [← QHash.keys_modify _ (c.groupId m.m_DefaultMaterialId)
        (c.addTo (if c.lod = 0 then m.m_NextPrimitiveLocalId else 0)), h0] at hk
      simp [QHash.keys] at hk

theorem Filled_resultAll (cs : List AddCall) (m : GLC_Mesh) (hm : m.Filled)
    (hne : ∀ c ∈ cs, c.indexList ≠ []) : (AddCall.resultAll cs m).Filled := by
  induction cs generalizing m with
  | nil => exact hm
  | cons c cs ih =>
    exact ih _ (Filled_result c m hm (hne c (List.mem_cons_self _ _)))
      (fun c hc => hne c (List.mem_cons_of_mem _ hc))

theorem resultAll_append (a b : List AddCall) (m : GLC_Mesh) :
    AddCall.resultAll (a ++ b) m = AddCall.resultAll b (AddCall.resultAll a m) := by
  induction a generalizing m with
  | nil => rfl
  | cons c a ih => exact ih _

/-! ## The primitives of one kind in what `copyIndex` reads -/

theorem groupPrims_eq (g : GLC_PrimitiveGroup) :
    groupPrims g =
      (groupRuns .triangles g).map (fun l => (PrimitiveKind.triangles, l)) ++
        (groupRuns .strip g).map (fun l => (PrimitiveKind.strip, l)) ++
        (groupRuns .fan g).map (fun l => (PrimitiveKind.fan, l)) := by
  unfold groupPrims groupRuns
  by_cases h1 : g.containsTriangles = true <;> by_cases h2 : g.containsStrip = true <;>
    by_cases h3 : g.containsFan = true <;> simp [h1, h2, h3]

theorem filter_tagged (K K2 : PrimitiveKind) (k id : GLC_uint) (L : List (List GLuint)) :
    ((L.map (fun l => (K2, l))).map (fun p => (some k, p))).filter
        (fun p => decide (p.2.1 = K ∧ p.1 = some id)) =
      if K2 = K ∧ k = id then L.map (fun l => (some k, K, l)) else [] := by
  by_cases h : K2 = K ∧ k = id
  · rw [if_pos h]
    obtain ⟨h1, h2⟩ := h
    subst h1 h2
    rw [List.filter_eq_self.2]
    · simp
    · intro a ha
      simp only [List.map_map, List.mem_map, Function.comp] at ha
      obtain ⟨l, _, hl⟩ := ha
      rw [← hl]
      simp
  · rw [if_neg h, List.filter_eq_nil_iff]
    intro a ha
    simp only [List.map_map, List.mem_map, Function.comp] at ha
    obtain ⟨l, _, hl⟩ := ha
    rw [← hl]
    simpa using fun h1 h2 => h ⟨h1, h2⟩

theorem filter_groupPrims_kind (K : PrimitiveKind) (g : GLC_PrimitiveGroup) (k id : GLC_uint) :
    ((groupPrims g).map (fun p => (some k, p))).filter
        (fun p => decide (p.2.1 = K ∧ p.1 = some id)) =
      if k = id then (groupRuns K g).map (fun l => (some k, K, l)) else [] := by
  rw [groupPrims_eq, List.map_append, List.map_append, List.filter_append, List.filter_append,
    filter_tagged, filter_tagged, filter_tagged]
  by_cases hk : k = id
  · cases K <;> simp [hk]
  · simp [hk]

theorem filter_lodPlan_kind (K : PrimitiveKind) (gs : LodPrimitiveGroups) (id : GLC_uint) :
    (lodPlan gs).filter (fun p => decide (p.2.1 = K ∧ p.1 = some id)) =
      gs.flatMap (fun x =>
        if x.1 = id then (groupRuns K x.2).map (fun l => (some x.1, K, l)) else []) := by
  induction gs with
  | nil => rfl
  | cons x t ih =>
    unfold lodPlan at ih ⊢
    rw [List.flatMap_cons, List.filter_append, ih, filter_groupPrims_kind, List.flatMap_cons]

theorem flatMap_at_key_none {β : Type} (gs : LodPrimitiveGroups) (id : GLC_uint)
    (hv : QHash.value gs id = none) (F : GLC_uint × GLC_PrimitiveGroup → List β) :
    gs.flatMap (fun x => if x.1 = id then F x else []) = [] := by
  rw [List.flatMap_eq_nil_iff]
  intro y hy
  have hne : y.1 ≠ id := by
    intro h0
    have := (QHash.value_eq_none_iff gs id).1 hv
    exact this (List.mem_map.2 ⟨y, hy, h0⟩)
  rw [if_neg hne]

/-- The index lists that the add calls for the primitives of a LOD hand to the group of
material `id` at the target LOD: the primitives of that kind of the source group, with the
indices replaced by their ranks. -/
theorem batches_lodPlan (kind : PrimitiveKind) (lod : Int) (id d : GLC_uint) (acc : Nat)
    (newId : GLC_uint) (final : List GLuint) (gs : LodPrimitiveGroups)
    (hn : (QHash.keys gs).Nodup) :
    AddCall.batches kind lod id d (planCalls lod acc newId final (lodPlan gs)) =
      (lodRuns kind gs id).map (fun l => l.map (fun x => List.indexOf x final)) := by
  rw [batches_planCalls _ _ _ _ _ _ _ _ (lodPlan_some gs), filter_lodPlan_kind]
  unfold lodRuns
  cases hv : QHash.value gs id with
  | none =>
    rw [flatMap_at_key_none gs id hv]
    rfl
  | some g =>
    rw [flatMap_at_key gs id g hn hv (fun x => (groupRuns kind x.2).map (fun l => (some x.1, kind, l)))]
    simp [List.map_map, Function.comp]

/-! ## `copyIndex` on a finished mesh, from any state of the copy -/

theorem groupPrims_ne_nil_of_runs (g : GLC_PrimitiveGroup) (hs : GroupSized g)
    (h2 : ∀ s ∈ g.strips.sizes, 0 < s) (h3 : ∀ s ∈ g.fans.sizes, 0 < s) :
    ∀ p ∈ groupPrims g, p.2 ≠ [] := by
  intro p hp
  unfold groupPrims at hp
  simp only [List.mem_append] at hp
  rcases hp with (hp | hp) | hp
  · by_cases hc : g.containsTriangles = true
    · rw [if_pos hc, List.mem_singleton] at hp
      rw [hp]
      intro h0
      simp only at h0
      simp [GLC_PrimitiveGroup.containsTriangles, hs.1, h0] at hc
    · rw [if_neg hc] at hp
      simp at hp
  · by_cases hc : g.containsStrip = true
    · rw [if_pos hc] at hp
      obtain ⟨r, hr, hrp⟩ := List.mem_map.1 hp
      rw [← hrp]
      exact splitRuns_ne_nil _ _ h2 hs.2.2.1 r hr
    · rw [if_neg hc] at hp
      simp at hp
  · by_cases hc : g.containsFan = true
    · rw [if_pos hc] at hp
      obtain ⟨r, hr, hrp⟩ := List.mem_map.1 hp
      rw [← hrp]
      exact splitRuns_ne_nil _ _ h3 hs.2.2.2.2 r hr
    · rw [if_neg hc] at hp
      simp at hp

theorem lodPlan_ne_nil_of_runs (gs : LodPrimitiveGroups) (hs : ∀ x ∈ gs, GroupSized x.2)
    (hv : ∀ x ∈ gs, (∀ s ∈ x.2.strips.sizes, 0 < s) ∧ (∀ s ∈ x.2.fans.sizes, 0 < s)) :
    ∀ p ∈ lodPlan gs, p.2.2 ≠ [] := by
  intro p hp
  unfold lodPlan at hp
  obtain ⟨x, hx, hpx⟩ := List.mem_flatMap.1 hp
  obtain ⟨q, hq, hqp⟩ := List.mem_map.1 hpx
  rw [← hqp]
  exact groupPrims_ne_nil_of_runs x.2 (hs x hx) (hv x hx).1 (hv x hx).2 q hq

theorem copyIndex_packed_from (m : GLC_Mesh) (hi : m.Ingesting) (hr : m.LodsInRange)
    (hf : m.Filled) (lod targetLod : Int) (newId : GLC_uint) (gs : LodPrimitiveGroups)
    (hgs : QHash.value m.m_PrimitiveGroups lod = some gs) (mesh : GLC_Mesh)
    (hmesh : mesh.Ingesting) (seen : List GLuint) :
    m.packed.copyIndex lod { pLodMesh := mesh, maps := mapsOf seen } targetLod newId =
      some
        { pLodMesh := AddCall.resultAll
            (planCalls targetLod (m.packed.accuracyAt lod) newId
              (((lodPlan gs).flatMap (fun p => p.2.2)).foldl addSeen seen) (lodPlan gs))
            mesh
          maps := mapsOf (((lodPlan gs).flatMap (fun p => p.2.2)).foldl addSeen seen) } := by
  have hmem := QHash.mem_of_value _ _ _ hgs
  obtain ⟨l, hl⟩ := getLod_packed m hr lod gs hgs
  have hacc : m.packed.accuracyAt lod = l.accuracy := by
    simp [GLC_Mesh.accuracyAt, hl]
  have hpv : QHash.value m.packed.m_PrimitiveGroups lod = some (packedGroups 0 gs) := by
    simp [GLC_Mesh.packed, packedAll_value, hgs]
  unfold GLC_Mesh.copyIndex
  rw [hpv, hacc]
  simp only [Option.bind_eq_bind, Option.some_bind, copyIndexLoop_eq, keys_packedGroups,
    readPlan_packed m hi hr lod gs (group_of_mem m hi lod gs hgs), hl, Option.map_some']
  exact emitPlan_eq targetLod l.accuracy newId (lodPlan gs) mesh seen
    (lodPlan_ne_nil_of_runs gs (hi.sized _ hmem) (hf.runs _ hmem)) hmesh

theorem stageSeen_prefix (pg : PrimitiveGroupsHash) (stages : List (Int × Int))
    (seen : List GLuint) : ∃ extra, stageSeen pg stages seen = seen ++ extra := by
  induction stages generalizing seen with
  | nil => exact ⟨[], by simp [stageSeen]⟩
  | cons s rest ih =>
    obtain ⟨e1, h1⟩ := foldl_addSeen_prefix ((stagePlan pg s.1).flatMap (fun p => p.2.2)) seen
    obtain ⟨e2, h2⟩ := ih (((stagePlan pg s.1).flatMap (fun p => p.2.2)).foldl addSeen seen)
    exact ⟨e1 ++ e2, by rw [stageSeen, h2, h1, List.append_assoc]⟩

theorem planCalls_prefix (t : Int) (acc : Nat) (newId : GLC_uint) (seen extra : List GLuint)
    (plan : List (Option GLC_uint × PrimitiveKind × List GLuint))
    (h : ∀ p ∈ plan, ∀ x ∈ p.2.2, x ∈ seen) :
    planCalls t acc newId (seen ++ extra) plan = planCalls t acc newId seen plan := by
  unfold planCalls
  apply List.map_congr_left
  intro p hp
  rw [ map_indexOf_prefix p.2.2 seen extra (h p hp)]

/-- The calls of `copyIndex` for a list of stages, on a finished mesh: the new mesh gets
the add calls of the stages and the maps record the distinct source indices. -/
theorem copyStages_packed (m : GLC_Mesh) (hi : m.Ingesting) (hr : m.LodsInRange)
    (hf : m.Filled) (newId : GLC_uint) (stages : List (Int × Int))
    (hst : ∀ s ∈ stages, ∃ gs, QHash.value m.m_PrimitiveGroups s.1 = some gs)
    (mesh : GLC_Mesh) (hmesh : mesh.Ingesting) (seen : List GLuint) :
    m.packed.copyStages newId stages { pLodMesh := mesh, maps := mapsOf seen } =
      some
        { pLodMesh := AddCall.resultAll
            (stageCalls m.m_PrimitiveGroups m.packed.accuracyAt newId
              (stageSeen m.m_PrimitiveGroups stages seen) stages) mesh
          maps := mapsOf (stageSeen m.m_PrimitiveGroups stages seen) } := by
  induction stages generalizing mesh seen with
  | nil => rfl
  | cons s rest ih =>
    obtain ⟨gs, hgs⟩ := hst s (List.mem_cons_self _ _)
    have hplan : stagePlan m.m_PrimitiveGroups s.1 = lodPlan gs := by
      simp [stagePlan, hgs]
    have h1 := copyIndex_packed_from m hi hr hf s.1 s.2 newId gs hgs mesh hmesh seen
    rw [← hplan] at h1
    have h2 := ih (fun x hx => hst x (List.mem_cons_of_mem _ hx))
      (AddCall.resultAll
        (planCalls s.2 (m.packed.accuracyAt s.1) newId
          (((stagePlan m.m_PrimitiveGroups s.1).flatMap (fun p => p.2.2)).foldl addSeen seen)
          (stagePlan m.m_PrimitiveGroups s.1)) mesh)
      (Ingesting_resultAll _ mesh hmesh)
      (((stagePlan m.m_PrimitiveGroups s.1).flatMap (fun p => p.2.2)).foldl addSeen seen)
    obtain ⟨extra, hex⟩ := stageSeen_prefix m.m_PrimitiveGroups rest
      (((stagePlan m.m_PrimitiveGroups s.1).flatMap (fun p => p.2.2)).foldl addSeen seen)
    simp only [GLC_Mesh.copyStages, h1, Option.bind_eq_bind, Option.some_bind, h2]
    have hcalls : planCalls s.2 (m.packed.accuracyAt s.1) newId
        (stageSeen m.m_PrimitiveGroups (s :: rest) seen) (stagePlan m.m_PrimitiveGroups s.1) =
        planCalls s.2 (m.packed.accuracyAt s.1) newId
        (((stagePlan m.m_PrimitiveGroups s.1).flatMap (fun p => p.2.2)).foldl addSeen seen)
        (stagePlan m.m_PrimitiveGroups s.1) := by
      rw [stageSeen, hex]
      apply planCalls_prefix
      intro p hp x hx
      rw [mem_foldl_addSeen]
      right
      exact List.mem_flatMap.2 ⟨p, hp, hx⟩
    simp only [stageCalls, List.flatMap_cons, resultAll_append, hcalls]
    rfl

/-! ## The stages of `createMeshFromGivenLod` -/

theorem copyCoarserLods_eq (m : GLC_Mesh) (newId : GLC_uint) (count : Nat) (i t : Int)
    (st : CopyState) :
    m.copyCoarserLods newId count i t st = m.copyStages newId (stagesFrom count i t) st := by
  induction count generalizing i t st with
  | zero => rfl
  | succ n ih =>
    simp only [GLC_Mesh.copyCoarserLods, stagesFrom, GLC_Mesh.copyStages, ih]

theorem copyStages_append (m : GLC_Mesh) (newId : GLC_uint) (a b : List (Int × Int))
    (st : CopyState) :
    m.copyStages newId (a ++ b) st = (m.copyStages newId a st).bind (m.copyStages newId b) := by
  induction a generalizing st with
  | nil => rfl
  | cons s rest ih =>
    simp only [List.cons_append, GLC_Mesh.copyStages, Option.bind_eq_bind]
    cases h : m.copyIndex s.1 st s.2 newId with
    | none => rfl
    | some st1 => simp [ih]

theorem mem_stagesFrom (count : Nat) (i t : Int) (s : Int × Int) :
    s ∈ stagesFrom count i t ↔ ∃ j : Nat, j < count ∧ s = (i + j, t + j) := by
  induction count generalizing i t with
  | zero => simp [stagesFrom]
  | succ n ih =>
    rw [stagesFrom, List.mem_cons, ih]
    constructor
    · rintro (h | ⟨j, hj, h⟩)
      · exact ⟨0, by omega, by simp [h]⟩
      · refine ⟨j + 1, by omega, ?_⟩
        rw [h]
        simp only [Nat.cast_add, Nat.cast_one, Prod.mk.injEq]
        constructor <;> ring
    · rintro ⟨j, hj, h⟩
      cases j with
      | zero => left; simp [h]
      | succ j =>
        right
        refine ⟨j, by omega, ?_⟩
        rw [h]
        simp only [Nat.cast_add, Nat.cast_one, Prod.mk.injEq]
        constructor <;> ring

theorem stagesFrom_pairwise (count : Nat) (i t : Int) :
    (stagesFrom count i t).Pairwise (fun a b => a.2 ≠ b.2) := by
  induction count generalizing i t with
  | zero => simp [stagesFrom]
  | succ n ih =>
    rw [stagesFrom, List.pairwise_cons]
    refine ⟨?_, ih _ _⟩
    intro s hs
    obtain ⟨j, _, h⟩ := (mem_stagesFrom n (i + 1) (t + 1) s).1 hs
    rw [h]
    simp only
    omega

/-- The stages of `createMeshFromGivenLod(k)` on a mesh of `n` LODs: the source LODs are
`k .. n-1`, the target LOD of the source LOD `i` is `i - k`. -/
theorem mem_lodStages (n k : Int) (hk : k < n) (s : Int × Int) :
    s ∈ lodStages n k ↔ k ≤ s.1 ∧ s.1 < n ∧ s.2 = s.1 - k := by
  unfold lodStages
  rw [List.mem_append, mem_stagesFrom, List.mem_singleton]
  constructor
  · rintro (⟨j, hj, h⟩ | h)
    · rw [h]
      simp only
      omega
    · rw [h]
      simp only
      omega
  · rintro ⟨h1, h2, h3⟩
    by_cases h0 : s.1 = k
    · right
      apply Prod.ext
      · exact h0
      · simp only
        omega
    · left
      refine ⟨(s.1 - (k + 1)).toNat, by omega, ?_⟩
      apply Prod.ext
      · simp only
        omega
      · simp only
        omega

theorem lodStages_pairwise (n k : Int) : (lodStages n k).Pairwise (fun a b => a.2 ≠ b.2) := by
  unfold lodStages
  rw [List.pairwise_append]
  refine ⟨stagesFrom_pairwise _ _ _, by simp, ?_⟩
  intro a ha b hb
  obtain ⟨j, _, h⟩ := (mem_stagesFrom _ _ _ a).1 ha
  rw [List.mem_singleton] at hb
  rw [h, hb]
  simp only
  omega

/-! ## The index lists handed to a group of the new mesh -/

theorem batches_planCalls_other (kind : PrimitiveKind) (lod t : Int) (id d : GLC_uint)
    (acc : Nat) (newId : GLC_uint) (final : List GLuint)
    (plan : List (Option GLC_uint × PrimitiveKind × List GLuint)) (ht : t ≠ lod) :
    AddCall.batches kind lod id d (planCalls t acc newId final plan) = [] := by
  induction plan generalizing d with
  | nil => rfl
  | cons p rest ih =>
    unfold planCalls at ih ⊢
    simp only [List.map_cons, AddCall.batches, ht, false_and, and_false, if_false,
      List.nil_append]
    exact ih _

theorem batches_append_of_some (kind : PrimitiveKind) (lod : Int) (id d : GLC_uint)
    (a b : List AddCall) (h : ∀ c ∈ a, ∃ i, c.pMaterial = some i) :
    AddCall.batches kind lod id d (a ++ b) =
      AddCall.batches kind lod id d a ++ AddCall.batches kind lod id d b := by
  induction a with
  | nil => rfl
  | cons c cs ih =>
    obtain ⟨i, hi⟩ := h c (List.mem_cons_self _ _)
    have hrec := ih (fun q hq => h q (List.mem_cons_of_mem _ hq))
    have hd : c.nextDefault d = d := by simp [AddCall.nextDefault, hi]
    rw [List.cons_append, AddCall.batches, AddCall.batches, hd, hrec, List.append_assoc]

theorem batches_append_planCalls (kind : PrimitiveKind) (lod t : Int) (id d : GLC_uint)
    (acc : Nat) (newId : GLC_uint) (final : List GLuint)
    (plan : List (Option GLC_uint × PrimitiveKind × List GLuint))
    (hsome : ∀ p ∈ plan, ∃ i, p.1 = some i) (rest : List AddCall) :
    AddCall.batches kind lod id d (planCalls t acc newId final plan ++ rest) =
      AddCall.batches kind lod id d (planCalls t acc newId final plan) ++
        AddCall.batches kind lod id d rest := by
  apply batches_append_of_some
  intro c hc
  unfold planCalls at hc
  obtain ⟨p, hp, hpc⟩ := List.mem_map.1 hc
  obtain ⟨i, hi⟩ := hsome p hp
  exact ⟨i, by rw [← hpc]; exact hi⟩

theorem stagePlan_some (pg : PrimitiveGroupsHash) (i : Int) :
    ∀ p ∈ stagePlan pg i, ∃ j, p.1 = some j := lodPlan_some _

theorem batches_stageCalls_other (kind : PrimitiveKind) (t : Int) (id d : GLC_uint)
    (pg : PrimitiveGroupsHash) (accuracy : Int → Nat) (newId : GLC_uint) (final : List GLuint)
    (stages : List (Int × Int)) (h : ∀ s ∈ stages, s.2 ≠ t) :
    AddCall.batches kind t id d (stageCalls pg accuracy newId final stages) = [] := by
  induction stages with
  | nil => rfl
  | cons s rest ih =>
    unfold stageCalls at ih ⊢
    rw [List.flatMap_cons, batches_append_planCalls _ _ _ _ _ _ _ _ _ (stagePlan_some pg s.1),
      batches_planCalls_other _ _ _ _ _ _ _ _ _ (h s (List.mem_cons_self _ _)),
      ih (fun x hx => h x (List.mem_cons_of_mem _ hx))]
    rfl

/-- The index lists that the add calls of the stages hand to the group of material `id` at
the target LOD of one stage: the primitives of that kind of the source group, with the
indices replaced by their ranks. -/
theorem batches_stageCalls (kind : PrimitiveKind) (id d : GLC_uint)
    (pg : PrimitiveGroupsHash) (hn : ∀ e ∈ pg, (QHash.keys e.2).Nodup)
    (accuracy : Int → Nat) (newId : GLC_uint) (final : List GLuint)
    (stages : List (Int × Int)) (hp : stages.Pairwise (fun a b => a.2 ≠ b.2))
    (s : Int × Int) (hs : s ∈ stages) :
    AddCall.batches kind s.2 id d (stageCalls pg accuracy newId final stages) =
      (lodRuns kind ((QHash.value pg s.1).getD []) id).map
        (fun l => l.map (fun x => List.indexOf x final)) := by
  induction stages with
  | nil => simp at hs
  | cons s0 rest ih =>
    rw [List.pairwise_cons] at hp
    have hunf : stageCalls pg accuracy newId final (s0 :: rest) =
        planCalls s0.2 (accuracy s0.1) newId final (stagePlan pg s0.1) ++
          stageCalls pg accuracy newId final rest := by
      simp [stageCalls]
    rw [hunf, batches_append_planCalls _ _ _ _ _ _ _ _ _ (stagePlan_some pg s0.1)]
    rcases List.mem_cons.1 hs with h | h
    · subst h
      rw [batches_stageCalls_other _ _ _ _ _ _ _ _ _ (fun x hx => (hp.1 x hx).symm),
        List.append_nil]
      unfold stagePlan
      apply batches_lodPlan
      cases hv : QHash.value pg s.1 with
      | none => simp [QHash.keys]
      | some gs => exact hn _ (QHash.mem_of_value _ _ _ hv)
    · rw [batches_planCalls_other _ _ _ _ _ _ _ _ _ (hp.1 s h), List.nil_append]
      exact ih hp.2 h

/-! ## The getters of a finished mesh in terms of what its groups held -/

theorem group_runs (m : GLC_Mesh) (hf : m.Filled) (lod : Int) (id : GLC_uint)
    (g : GLC_PrimitiveGroup) (hg : m.group lod id = some g) :
    (∀ s ∈ g.strips.sizes, 0 < s) ∧ (∀ s ∈ g.fans.sizes, 0 < s) := by
  unfold GLC_Mesh.group at hg
  cases hv : QHash.value m.m_PrimitiveGroups lod with
  | none => simp [hv] at hg
  | some gs =>
    simp only [hv] at hg
    exact hf.runs _ (QHash.mem_of_value _ _ _ hv) _ (QHash.mem_of_value _ _ _ hg)

theorem sizes_nil_of_index_nil (sizes : List Nat) (hp : ∀ s ∈ sizes, 0 < s)
    (hs : sizes.sum = 0) : sizes = [] := by
  cases sizes with
  | nil => rfl
  | cons a t =>
    have := hp a (List.mem_cons_self _ _)
    simp only [List.sum_cons] at hs
    omega

theorem splitRuns_eq_nil_iff (sizes : List Nat) (l : List GLuint) (hp : ∀ s ∈ sizes, 0 < s)
    (hs : sizes.sum = l.length) : splitRuns sizes l = [] ↔ l = [] := by
  constructor
  · intro h
    cases sizes with
    | nil =>
      simp only [List.sum_nil] at hs
      exact List.eq_nil_of_length_eq_zero hs.symm
    | cons a t => simp [splitRuns] at h
  · intro h
    subst h
    rw [sizes_nil_of_index_nil sizes hp (by simpa using hs)]
    rfl

theorem getTrianglesIndex_packed_eq (m : GLC_Mesh) (hi : m.Ingesting) (hr : m.LodsInRange)
    (lod : Int) (id : GLC_uint) :
    m.packed.getTrianglesIndex lod id =
      if m.trianglesOf lod id = [] then none else some (m.trianglesOf lod id) := by
  by_cases h0 : m.trianglesOf lod id = []
  · rw [if_pos h0]
    cases hl : m.packed.getTrianglesIndex lod id with
    | none => rfl
    | some l =>
      exfalso
      obtain ⟨g, hg, _, hgl, hne⟩ := getTrianglesIndex_packed_inv m hi hr lod id l hl
      apply hne
      rw [← hgl]
      simpa [GLC_Mesh.trianglesOf, hg] using h0
  · rw [if_neg h0]
    obtain ⟨g, hg, hgt⟩ := group_of_trianglesOf m lod id h0
    have := packed_getTrianglesIndex m hi hr lod id m.m_UseVbo g hg (by rw [hgt]; exact h0)
    rw [packed_useVbo] at this
    rw [this, hgt]

theorem getStripsIndex_packed_eq (m : GLC_Mesh) (hi : m.Ingesting) (hr : m.LodsInRange)
    (hf : m.Filled) (lod : Int) (id : GLC_uint) :
    m.packed.getStripsIndex lod id =
      if m.stripsOf lod id = [] then none else some (m.stripsOf lod id) := by
  cases hg : m.group lod id with
  | none =>
    have h1 := packed_group_none m lod id m.m_UseVbo hg
    rw [packed_useVbo] at h1
    have h0 : m.stripsOf lod id = [] := by simp [GLC_Mesh.stripsOf, hg]
    rw [if_pos h0]
    unfold GLC_Mesh.getStripsIndex
    rw [containsStrips_eq, h1]
    rfl
  | some g =>
    have hs := group_sized m hi lod id g hg
    have hruns := group_runs m hf lod id g hg
    have hso : m.stripsOf lod id = splitRuns g.strips.sizes g.strips.index := by
      simp [GLC_Mesh.stripsOf, hg]
    rw [hso]
    by_cases h0 : g.strips.index = []
    · rw [if_pos ((splitRuns_eq_nil_iff _ _ hruns.1 hs.2.2.1).2 h0)]
      obtain ⟨_, f2, _⟩ := packed_flags m lod id m.m_UseVbo g hg
      rw [packed_useVbo] at f2
      unfold GLC_Mesh.getStripsIndex
      rw [f2]
      have : g.containsStrip = false := by
        simp [GLC_PrimitiveGroup.containsStrip, PrimitiveRuns.nonEmpty, hs.2.1, h0]
      rw [this]
      rfl
    · rw [if_neg (fun h => h0 ((splitRuns_eq_nil_iff _ _ hruns.1 hs.2.2.1).1 h))]
      have := packed_getStripsIndex m hi hr lod id m.m_UseVbo g hg h0
      rw [packed_useVbo] at this
      exact this

theorem getFansIndex_packed_eq (m : GLC_Mesh) (hi : m.Ingesting) (hr : m.LodsInRange)
    (hf : m.Filled) (lod : Int) (id : GLC_uint) :
    m.packed.getFansIndex lod id =
      if m.fansOf lod id = [] then none else some (m.fansOf lod id) := by
  cases hg : m.group lod id with
  | none =>
    have h1 := packed_group_none m lod id m.m_UseVbo hg
    rw [packed_useVbo] at h1
    have h0 : m.fansOf lod id = [] := by simp [GLC_Mesh.fansOf, hg]
    rw [if_pos h0]
    unfold GLC_Mesh.getFansIndex
    rw [containsFans_eq, h1]
    rfl
  | some g =>
    have hs := group_sized m hi lod id g hg
    have hruns := group_runs m hf lod id g hg
    have hso : m.fansOf lod id = splitRuns g.fans.sizes g.fans.index := by
      simp [GLC_Mesh.fansOf, hg]
    rw [hso]
    by_cases h0 : g.fans.index = []
    · rw [if_pos ((splitRuns_eq_nil_iff _ _ hruns.2 hs.2.2.2.2).2 h0)]
      obtain ⟨_, _, f3⟩ := packed_flags m lod id m.m_UseVbo g hg
      rw [packed_useVbo] at f3
      unfold GLC_Mesh.getFansIndex
      rw [f3]
      have : g.containsFan = false := by
        simp [GLC_PrimitiveGroup.containsFan, PrimitiveRuns.nonEmpty, hs.2.2.2.1, h0]
      rw [this]
      rfl
    · rw [if_neg (fun h => h0 ((splitRuns_eq_nil_iff _ _ hruns.2 hs.2.2.2.2).1 h))]
      have := packed_getFansIndex m hi hr lod id m.m_UseVbo g hg h0
      rw [packed_useVbo] at this
      exact this

/-- The triangles, strips and fans held by a group in terms of its primitives by kind. -/
theorem runsOf_eq (m : GLC_Mesh) (hi : m.Ingesting) (hf : m.Filled) (lod : Int)
    (id : GLC_uint) :
    (m.runsOf .triangles lod id).flatten = m.trianglesOf lod id ∧
    m.runsOf .strip lod id = m.stripsOf lod id ∧
    m.runsOf .fan lod id = m.fansOf lod id := by
  unfold GLC_Mesh.runsOf lodRuns GLC_Mesh.trianglesOf GLC_Mesh.stripsOf GLC_Mesh.fansOf
  cases hv : QHash.value m.m_PrimitiveGroups lod with
  | none => simp [GLC_Mesh.group, hv, QHash.value]
  | some gs =>
    cases hg : QHash.value gs id with
    | none => simp [GLC_Mesh.group, hv, hg]
    | some g =>
      have hgr : m.group lod id = some g := by simp [GLC_Mesh.group, hv, hg]
      have hs := group_sized m hi lod id g hgr
      have hruns := group_runs m hf lod id g hgr
      simp only [Option.getD_some, hg, hgr, groupRuns]
      refine ⟨?_, ?_, ?_⟩
      · by_cases hc : g.containsTriangles = true
        · simp [hc]
        · rw [if_neg hc]
          have : g.m_TrianglesIndex = [] := by
            apply List.eq_nil_of_length_eq_zero
            simp only [GLC_PrimitiveGroup.containsTriangles, decide_eq_true_eq] at hc
            rw [← hs.1]
            omega
          simp [this]
      · by_cases hc : g.containsStrip = true
        · rw [if_pos hc]
        · rw [if_neg hc]
          have : g.strips.index = [] := by
            apply List.eq_nil_of_length_eq_zero
            simp only [GLC_PrimitiveGroup.containsStrip, PrimitiveRuns.nonEmpty,
              decide_eq_true_eq] at hc
            rw [← hs.2.1]
            omega
          exact ((splitRuns_eq_nil_iff _ _ hruns.1 hs.2.2.1).2 this).symm
      · by_cases hc : g.containsFan = true
        · rw [if_pos hc]
        · rw [if_neg hc]
          have : g.fans.index = [] := by
            apply List.eq_nil_of_length_eq_zero
            simp only [GLC_PrimitiveGroup.containsFan, PrimitiveRuns.nonEmpty,
              decide_eq_true_eq] at hc
            rw [← hs.2.2.2.1]
            omega
          exact ((splitRuns_eq_nil_iff _ _ hruns.2 hs.2.2.2.2).2 this).symm

/-! ## Counting LOD keys -/

theorem keys_length_of_range (L : List Int) (N : Nat) (hn : L.Nodup)
    (h : ∀ t : Int, t ∈ L ↔ 0 ≤ t ∧ t < (N : Int)) : L.length = N := by
  have hp : L.Perm ((List.range N).map (fun (j : Nat) => (j : Int))) := by
    rw [List.perm_ext_iff_of_nodup hn]
    · intro t
      rw [h, List.mem_map]
      constructor
      · intro ht
        exact ⟨t.toNat, List.mem_range.2 (by omega), by omega⟩
      · rintro ⟨j, hj, rfl⟩
        have := List.mem_range.1 hj
        omega
    · apply List.Nodup.map_on _ (List.nodup_range N)
      intro a _ b _ hab
      exact_mod_cast hab
  rw [hp.length_eq, List.length_map, List.length_range]

theorem keys_complete (L : List Int) (N : Nat) (hn : L.Nodup) (hlen : L.length = N)
    (h : ∀ t ∈ L, 0 ≤ t ∧ t < (N : Int)) (i : Int) (h0 : 0 ≤ i) (h1 : i < (N : Int)) :
    i ∈ L := by
  have hsub : L.toFinset ⊆ (Finset.range N).image (fun (j : Nat) => (j : Int)) := by
    intro t ht
    rw [List.mem_toFinset] at ht
    rw [Finset.mem_image]
    have := h t ht
    exact ⟨t.toNat, Finset.mem_range.2 (by omega), by omega⟩
  have hcard : ((Finset.range N).image (fun (j : Nat) => (j : Int))).card ≤ L.toFinset.card := by
    rw [List.toFinset_card_of_nodup hn, hlen]
    exact le_trans Finset.card_image_le (by simp)
  have heq := Finset.eq_of_subset_of_card_le hsub hcard
  rw [← List.mem_toFinset, heq, Finset.mem_image]
  exact ⟨i.toNat, Finset.mem_range.2 (by omega), by omega⟩

/-! ## The copy phase of `createMeshFromGivenLod` -/

theorem copyStages_single (m : GLC_Mesh) (newId : GLC_uint) (s : Int × Int) (st : CopyState) :
    m.copyStages newId [s] st = m.copyIndex s.1 st s.2 newId := by
  simp only [GLC_Mesh.copyStages, Option.bind_eq_bind]
  cases m.copyIndex s.1 st s.2 newId <;> rfl

theorem copyPhase_eq (m : GLC_Mesh) (newId : GLC_uint) (lodCount lodIndex : Int)
    (st0 : CopyState) :
    (if lodCount - lodIndex > 1 then
        (m.copyCoarserLods newId (lodCount - (lodIndex + 1)).toNat (lodIndex + 1) 1 st0).bind
          (fun st1 => m.copyIndex lodIndex st1 0 newId)
      else m.copyIndex lodIndex st0 0 newId) =
      m.copyStages newId (lodStages lodCount lodIndex) st0 := by
  unfold lodStages
  rw [copyStages_append, ← copyCoarserLods_eq]
  by_cases h : lodCount - lodIndex > 1
  · rw [if_pos h]
    congr 1
    funext st1
    rw [copyStages_single]
  · rw [if_neg h]
    have h0 : (lodCount - (lodIndex + 1)).toNat = 0 := by omega
    rw [h0]
    simp only [GLC_Mesh.copyCoarserLods, Option.some_bind]
    rw [copyStages_single]

theorem mem_stageSeen (pg : PrimitiveGroupsHash) (stages : List (Int × Int))
    (seen : List GLuint) (x : GLuint) :
    x ∈ stageSeen pg stages seen ↔
      x ∈ seen ∨ ∃ s ∈ stages, x ∈ (stagePlan pg s.1).flatMap (fun p => p.2.2) := by
  induction stages generalizing seen with
  | nil => simp [stageSeen]
  | cons s rest ih =>
    rw [stageSeen, ih, mem_foldl_addSeen]
    constructor
    · rintro ((h | h) | ⟨s1, hs1, h⟩)
      · exact Or.inl h
      · exact Or.inr ⟨s, List.mem_cons_self _ _, h⟩
      · exact Or.inr ⟨s1, List.mem_cons_of_mem _ hs1, h⟩
    · rintro (h | ⟨s1, hs1, h⟩)
      · exact Or.inl (Or.inl h)
      · rcases List.mem_cons.1 hs1 with e | e
        · subst e
          exact Or.inl (Or.inr h)
        · exact Or.inr ⟨s1, e, h⟩

theorem nodup_stageSeen (pg : PrimitiveGroupsHash) (stages : List (Int × Int))
    (seen : List GLuint) (h : seen.Nodup) : (stageSeen pg stages seen).Nodup := by
  induction stages generalizing seen with
  | nil => exact h
  | cons s rest ih => exact ih _ (nodup_foldl_addSeen _ _ h)

theorem stagePlan_ne_nil (m : GLC_Mesh) (hi : m.Ingesting) (hf : m.Filled) (i : Int)
    (gs : LodPrimitiveGroups) (hgs : QHash.value m.m_PrimitiveGroups i = some gs) :
    stagePlan m.m_PrimitiveGroups i ≠ [] := by
  have hmem := QHash.mem_of_value _ _ _ hgs
  obtain ⟨x0, hx0⟩ := List.exists_mem_of_ne_nil _ (hf.groups _ hmem)
  obtain ⟨s0, hs0⟩ := List.exists_mem_of_ne_nil _ (hf.content _ hmem x0 hx0)
  have hs0c : s0 ∈ lodContent gs := (mem_lodContent gs s0).2 ⟨x0, hx0, hs0⟩
  intro h0
  have := (mem_lodPlan_iff gs (hi.sized _ hmem) s0).2 hs0c
  simp only [stagePlan, hgs, Option.getD_some] at h0
  rw [h0] at this
  simp at this

theorem mem_stageCalls_lod (pg : PrimitiveGroupsHash) (accuracy : Int → Nat)
    (newId : GLC_uint) (final : List GLuint) (stages : List (Int × Int)) (t : Int) :
    t ∈ (stageCalls pg accuracy newId final stages).map AddCall.lod ↔
      ∃ s ∈ stages, s.2 = t ∧ stagePlan pg s.1 ≠ [] := by
  unfold stageCalls planCalls
  simp only [List.mem_map, List.mem_flatMap]
  constructor
  · rintro ⟨c, ⟨s, hs, p, hp, hpc⟩, hct⟩
    refine ⟨s, hs, ?_, List.ne_nil_of_mem hp⟩
    rw [← hct, ← hpc]
  · rintro ⟨s, hs, hst, hne⟩
    obtain ⟨p, hp⟩ := List.exists_mem_of_ne_nil _ hne
    exact ⟨_, ⟨s, hs, p, hp, rfl⟩, hst⟩

/-! ## The new mesh of `createMeshFromGivenLod` -/

theorem Ingesting_named (name : String) :
    (GLC_Mesh.new.setName name).Ingesting := by
  constructor <;> simp [GLC_Mesh.new, GLC_Mesh.setName, QHash.keys]

theorem Filled_named (name : String) :
    (GLC_Mesh.new.setName name).Filled := by
  constructor <;> simp [GLC_Mesh.new, GLC_Mesh.setName]

theorem Filled_bulk (m : GLC_Mesh) (h : m.Filled) (v n t : List GLfloat) :
    (((m.addVertice v).addNormals n).addTexels t).Filled :=
  ⟨h.runs, h.content, h.groups⟩

theorem stageCalls_ne_nil (m : GLC_Mesh) (hi : m.Ingesting) (hf : m.Filled)
    (accuracy : Int → Nat) (newId : GLC_uint) (final : List GLuint)
    (stages : List (Int × Int)) :
    ∀ c ∈ stageCalls m.m_PrimitiveGroups accuracy newId final stages, c.indexList ≠ [] := by
  intro c hc
  unfold stageCalls planCalls at hc
  obtain ⟨s, _, hcs⟩ := List.mem_flatMap.1 hc
  obtain ⟨p, hp, hpc⟩ := List.mem_map.1 hcs
  rw [← hpc]
  simp only
  intro h0
  have hp0 : p.2.2 = [] := List.map_eq_nil_iff.1 h0
  unfold stagePlan at hp
  cases hv : QHash.value m.m_PrimitiveGroups s.1 with
  | none =>
    rw [hv] at hp
    simp [lodPlan] at hp
  | some gs =>
    rw [hv] at hp
    have hmem := QHash.mem_of_value _ _ _ hv
    exact lodPlan_ne_nil_of_runs gs (hi.sized _ hmem) (hf.runs _ hmem) p hp hp0

/-- The LODs of the new mesh of `createMeshFromGivenLod(k)` on a mesh of `n` LODs. -/
theorem keys_fromLod (mb : GLC_Mesh) (hib : mb.Ingesting) (hfb : mb.Filled) (n : Nat)
    (hn : mb.m_MeshData.m_LodList.length = n)
    (hall : ∀ i : Int, 0 ≤ i → i < (n : Int) →
      ∃ gs, QHash.value mb.m_PrimitiveGroups i = some gs)
    (k : Int) (hk0 : 0 ≤ k) (hkn : k < (n : Int)) (newId : GLC_uint) (name : String)
    (t : Int) :
    t ∈ QHash.keys (AddCall.resultAll (fromLodCalls mb k newId)
        (GLC_Mesh.new.setName name)).m_PrimitiveGroups ↔
      0 ≤ t ∧ t < (n : Int) - k := by
  have hcount : mb.m_MeshData.lodCount = (n : Int) := by
    simp [GLC_MeshData.lodCount, hn]
  rw [mem_keys_resultAll]
  unfold fromLodCalls
  rw [mem_stageCalls_lod, hcount]
  constructor
  · rintro (h | ⟨s, hs, hst, _⟩)
    · simp [GLC_Mesh.new, GLC_Mesh.setName, QHash.keys] at h
    · have := (mem_lodStages n k hkn s).1 hs
      omega
  · intro ht
    right
    have hs : (t + k, t) ∈ lodStages n k := by
      rw [mem_lodStages n k hkn]
      simp only
      omega
    obtain ⟨gs, hgs⟩ := hall (t + k) (by omega) (by omega)
    exact ⟨(t + k, t), hs, rfl, stagePlan_ne_nil mb hib hfb (t + k) gs hgs⟩

theorem createMeshFromGivenLod_packed (mb : GLC_Mesh) (hib : mb.Ingesting)
    (hrb : mb.LodsInRange) (hfb : mb.Filled) (n : Nat)
    (hn : mb.m_MeshData.m_LodList.length = n)
    (hall : ∀ i : Int, 0 ≤ i → i < (n : Int) →
      ∃ gs, QHash.value mb.m_PrimitiveGroups i = some gs)
    (k : Int) (hk0 : 0 ≤ k) (hkn : k < (n : Int)) (newId : GLC_uint)
    (hvalid : ∀ e ∈ mb.m_PrimitiveGroups, ∀ s ∈ lodContent e.2,
      s * 3 + 3 ≤ mb.m_MeshData.m_Positions.length ∧
      s * 3 + 3 ≤ mb.m_MeshData.m_Normals.length ∧
      (mb.m_MeshData.m_Texels ≠ [] → s * 2 + 2 ≤ mb.m_MeshData.m_Texels.length)) :
    ∃ texels,
      mb.packed.createMeshFromGivenLod k newId = some (fromLodMesh mb k newId texels).packed ∧
      (fromLodMesh mb k newId texels).Ingesting ∧
      (fromLodMesh mb k newId texels).LodsInRange ∧
      (fromLodMesh mb k newId texels).Filled := by
  have hcount : mb.m_MeshData.lodCount = (n : Int) := by
    simp [GLC_MeshData.lodCount, hn]
  have hcountp : mb.packed.m_MeshData.lodCount = (n : Int) := by
    simp [GLC_MeshData.lodCount, GLC_Mesh.packed, appendAll_length, GLC_MeshData.finishLod, hn]
  have hstages : ∀ s ∈ lodStages n k, ∃ gs, QHash.value mb.m_PrimitiveGroups s.1 = some gs := by
    intro s hs
    have := (mem_lodStages n k hkn s).1 hs
    exact hall s.1 (by omega) this.2.1
  have hmaps : ({} : IndexMaps) = mapsOf [] := by
    simp [mapsOf, s2tOf, t2sOf]
  have hcopy := copyStages_packed mb hib hrb hfb newId (lodStages n k) hstages
    (GLC_Mesh.new.setName (mb.m_Name ++ "-LOD-" ++ toString k))
    (Ingesting_named _) []
  -- the indices met are valid offsets
  have hseen : ∀ s ∈ fromLodSeen mb k,
      s * 3 + 3 ≤ mb.m_MeshData.m_Positions.length ∧
      s * 3 + 3 ≤ mb.m_MeshData.m_Normals.length ∧
      (mb.m_MeshData.m_Texels ≠ [] → s * 2 + 2 ≤ mb.m_MeshData.m_Texels.length) := by
    intro s hs
    unfold fromLodSeen at hs
    rw [hcount, mem_stageSeen] at hs
    rcases hs with h | ⟨st, hst, h⟩
    · simp at h
    · obtain ⟨gs, hgs⟩ := hstages st hst
      have hmem := QHash.mem_of_value _ _ _ hgs
      simp only [stagePlan, hgs, Option.getD_some] at h
      exact hvalid _ hmem s ((mem_lodPlan_iff gs (hib.sized _ hmem) s).1 h)
  -- the source mesh has positions and normals
  obtain ⟨gk, hgk⟩ := hall k hk0 hkn
  have hmemk := QHash.mem_of_value _ _ _ hgk
  obtain ⟨x0, hx0⟩ := List.exists_mem_of_ne_nil _ (hfb.groups _ hmemk)
  obtain ⟨s0, hs0⟩ := List.exists_mem_of_ne_nil _ (hfb.content _ hmemk x0 hx0)
  have hs0c : s0 ∈ lodContent gk := (mem_lodContent gk s0).2 ⟨x0, hx0, hs0⟩
  have hPne : mb.packed.m_MeshData.m_Positions ≠ [] := by
    intro h0
    have := (hvalid _ hmemk s0 hs0c).1
    have h1 : mb.m_MeshData.m_Positions = [] := h0
    rw [h1] at this
    simp at this
  have hNne : mb.packed.m_MeshData.m_Normals ≠ [] := by
    intro h0
    have := (hvalid _ hmemk s0 hs0c).2.1
    have h1 : mb.m_MeshData.m_Normals = [] := h0
    rw [h1] at this
    simp at this
  obtain ⟨texels, hbulk⟩ := copyBulkData_eq mb.packed
    (AddCall.resultAll (fromLodCalls mb k newId)
      (GLC_Mesh.new.setName (mb.m_Name ++ "-LOD-" ++ toString k)))
    (fromLodSeen mb k) hPne hNne hseen
  -- the new mesh before its finish()
  have hi0 := Ingesting_resultAll (fromLodCalls mb k newId)
    (GLC_Mesh.new.setName (mb.m_Name ++ "-LOD-" ++ toString k)) (Ingesting_named _)
  have hcalls_ne : ∀ c ∈ fromLodCalls mb k newId, c.indexList ≠ [] :=
    stageCalls_ne_nil mb hib hfb _ _ _ _
  have hf0 := Filled_resultAll (fromLodCalls mb k newId)
    (GLC_Mesh.new.setName (mb.m_Name ++ "-LOD-" ++ toString k)) (Filled_named _)
    hcalls_ne
  have hkeys := keys_fromLod mb hib hfb n hn hall k hk0 hkn newId
    (mb.m_Name ++ "-LOD-" ++ toString k)
  have hlen : (AddCall.resultAll (fromLodCalls mb k newId)
      (GLC_Mesh.new.setName (mb.m_Name ++ "-LOD-" ++ toString k))).m_MeshData.m_LodList.length
      = ((n : Int) - k).toNat := by
    rw [hi0.lodCount]
    have := keys_length_of_range _ ((n : Int) - k).toNat hi0.lodNodup (fun t => by
      rw [hkeys t]
      omega)
    simpa [QHash.keys] using this
  have hi1 := Ingesting_bulk _ hi0
    ((fromLodSeen mb k).flatMap (chunkAt mb.m_MeshData.m_Positions 3))
    ((fromLodSeen mb k).flatMap (chunkAt mb.m_MeshData.m_Normals 3)) texels
  have hr1 : (fromLodMesh mb k newId texels).LodsInRange := by
    intro e he
    have hk : e.1 ∈ QHash.keys (AddCall.resultAll (fromLodCalls mb k newId)
        (GLC_Mesh.new.setName (mb.m_Name ++ "-LOD-" ++ toString k))).m_PrimitiveGroups :=
      List.mem_map.2 ⟨e, he, rfl⟩
    have := (hkeys e.1).1 hk
    have hl : (fromLodMesh mb k newId texels).m_MeshData.m_LodList.length =
        ((n : Int) - k).toNat := hlen
    rw [hl]
    omega
  have hgne : (fromLodMesh mb k newId texels).m_PrimitiveGroups ≠ [] := by
    intro h0
    have hk : (0 : Int) ∈ QHash.keys (AddCall.resultAll (fromLodCalls mb k newId)
        (GLC_Mesh.new.setName (mb.m_Name ++ "-LOD-" ++ toString k))).m_PrimitiveGroups :=
      (hkeys 0).2 ⟨le_refl _, by omega⟩
    have h1 : (AddCall.resultAll (fromLodCalls mb k newId)
        (GLC_Mesh.new.setName (mb.m_Name ++ "-LOD-" ++ toString k))).m_PrimitiveGroups
        = [] := h0
    rw [h1] at hk
    simp [QHash.keys] at hk
  have hfin := finish_eq (fromLodMesh mb k newId texels) hi1 hgne
    (by
      show (List.length ((AddCall.resultAll _ _).m_MeshData.m_Positions ++ _)) % 3 = 0
      rw [positions_resultAll, List.length_append,
        flatMap_chunkAt_length _ _ _ (fun s hs => (hseen s hs).1)]
      simp [GLC_Mesh.new, GLC_Mesh.setName])
    hr1
  refine ⟨texels, ?_, hi1, hr1, Filled_bulk _ hf0 _ _ _⟩
  have hgt : mb.packed.m_MeshData.lodCount > k := by rw [hcountp]; exact hkn
  simp only [GLC_Mesh.createMeshFromGivenLod, hgt, decide_True, Bool.not_true,
    Bool.false_eq_true, if_false, Option.bind_eq_bind]
  rw [copyPhase_eq, hcountp, hmaps]
  have hname : mb.packed.m_Name = mb.m_Name := rfl
  rw [hname, hcopy]
  simp only [Option.some_bind]
  have hbulk2 : mb.packed.copyBulkData
      (AddCall.resultAll (fromLodCalls mb k newId)
        (GLC_Mesh.new.setName (mb.m_Name ++ "-LOD-" ++ toString k)))
      (mapsOf (fromLodSeen mb k)).tagetToSourceIndexMap
      (mapsOf (fromLodSeen mb k)).maxIndex = _ := hbulk
  unfold fromLodCalls fromLodSeen at hbulk2
  rw [hcount] at hbulk2
  rw [hbulk2]
  simp only [Option.some_bind]
  unfold fromLodMesh fromLodCalls fromLodSeen at hfin
  rw [hcount] at hfin
  unfold fromLodMesh fromLodCalls fromLodSeen
  rw [hcount]
  exact hfin

/-! ## What the LODs of the new mesh hold -/

theorem bulk_group (m : GLC_Mesh) (v n t : List GLfloat) (lod : Int) (id : GLC_uint) :
    (((m.addVertice v).addNormals n).addTexels t).group lod id = m.group lod id := rfl

/-- The index lists handed to the group of material `id` at the target LOD `i - k`: the
primitives of the source group at LOD `i`, with the indices replaced by their ranks. -/
theorem batches_fromLod (mb : GLC_Mesh) (hib : mb.Ingesting) (n : Nat)
    (hn : mb.m_MeshData.m_LodList.length = n) (k : Int) (hkn : k < (n : Int))
    (newId : GLC_uint) (kind : PrimitiveKind) (i : Int) (hki : k ≤ i) (hin : i < (n : Int))
    (id d : GLC_uint) :
    AddCall.batches kind (i - k) id d (fromLodCalls mb k newId) =
      (mb.runsOf kind i id).map (fun l => l.map (fun x => List.indexOf x (fromLodSeen mb k))) := by
  have hcount : mb.m_MeshData.lodCount = (n : Int) := by
    simp [GLC_MeshData.lodCount, hn]
  unfold fromLodCalls GLC_Mesh.runsOf
  rw [hcount]
  exact batches_stageCalls kind id d mb.m_PrimitiveGroups hib.groupNodup _ newId _
    (lodStages n k) (lodStages_pairwise n k) (i, i - k)
    ((mem_lodStages n k hkn (i, i - k)).2 ⟨hki, hin, rfl⟩)

theorem named_runs {name : String} {lod : Int} {id : GLC_uint} :
    (GLC_Mesh.new.setName name).trianglesOf lod id = [] ∧
    (GLC_Mesh.new.setName name).stripsOf lod id = [] ∧
    (GLC_Mesh.new.setName name).fansOf lod id = [] := ⟨rfl, rfl, rfl⟩

theorem fromLod_runs (mb : GLC_Mesh) (hib : mb.Ingesting) (hfb : mb.Filled) (n : Nat)
    (hn : mb.m_MeshData.m_LodList.length = n) (k : Int) (hkn : k < (n : Int))
    (newId : GLC_uint) (texels : List GLfloat) (i : Int) (hki : k ≤ i) (hin : i < (n : Int))
    (id : GLC_uint) :
    (fromLodMesh mb k newId texels).trianglesOf (i - k) id =
      (mb.trianglesOf i id).map (fun x => List.indexOf x (fromLodSeen mb k)) ∧
    (fromLodMesh mb k newId texels).stripsOf (i - k) id =
      (mb.stripsOf i id).map (fun l => l.map (fun x => List.indexOf x (fromLodSeen mb k))) ∧
    (fromLodMesh mb k newId texels).fansOf (i - k) id =
      (mb.fansOf i id).map (fun l => l.map (fun x => List.indexOf x (fromLodSeen mb k))) := by
  obtain ⟨r1, r2, r3⟩ := runsOf_eq mb hib hfb i id
  have hnamed := Ingesting_named (mb.m_Name ++ "-LOD-" ++ toString k)
  have ht := trianglesOf_resultAll (fromLodCalls mb k newId)
    (GLC_Mesh.new.setName (mb.m_Name ++ "-LOD-" ++ toString k)) (i - k) id
  have hs := stripsOf_resultAll (fromLodCalls mb k newId)
    (GLC_Mesh.new.setName (mb.m_Name ++ "-LOD-" ++ toString k)) hnamed (i - k) id
  have hf := fansOf_resultAll (fromLodCalls mb k newId)
    (GLC_Mesh.new.setName (mb.m_Name ++ "-LOD-" ++ toString k)) hnamed (i - k) id
  rw [batches_fromLod mb hib n hn k hkn newId _ i hki hin] at ht hs hf
  rw [named_runs.1, List.nil_append] at ht
  rw [named_runs.2.1, List.nil_append] at hs
  rw [named_runs.2.2, List.nil_append] at hf
  refine ⟨?_, ?_, ?_⟩
  · rw [← r1, List.map_flatten]
    exact ht
  · rw [← r2]
    exact hs
  · rw [← r3]
    exact hf

theorem option_map_if_nil {α β : Type} (A : List α) (F : List α → List β)
    [Decidable (A = [])] [Decidable (F A = [])] (hF : F A = [] ↔ A = []) :
    (if F A = [] then none else some (F A)) =
      (if A = [] then none else some A).map F := by
  by_cases h : A = []
  · rw [if_pos h, if_pos (hF.2 h)]
    rfl
  · rw [if_neg h, if_neg (fun h0 => h (hF.1 h0))]
    rfl

/-- The getters of the mesh that `createMeshFromGivenLod(k)` returns, at the target LOD
`i - k`, against the getters of the source mesh at LOD `i`. -/
theorem fromLod_getters (mb : GLC_Mesh) (hib : mb.Ingesting) (hrb : mb.LodsInRange)
    (hfb : mb.Filled) (n : Nat) (hn : mb.m_MeshData.m_LodList.length = n) (k : Int)
    (hkn : k < (n : Int)) (newId : GLC_uint) (texels : List GLfloat)
    (hi1 : (fromLodMesh mb k newId texels).Ingesting)
    (hr1 : (fromLodMesh mb k newId texels).LodsInRange)
    (hf1 : (fromLodMesh mb k newId texels).Filled)
    (i : Int) (hki : k ≤ i) (hin : i < (n : Int)) (id : GLC_uint) :
    (fromLodMesh mb k newId texels).packed.getTrianglesIndex (i - k) id =
      (mb.packed.getTrianglesIndex i id).map
        (List.map (fun x => List.indexOf x (fromLodSeen mb k))) ∧
    (fromLodMesh mb k newId texels).packed.getStripsIndex (i - k) id =
      (mb.packed.getStripsIndex i id).map
        (List.map (List.map (fun x => List.indexOf x (fromLodSeen mb k)))) ∧
    (fromLodMesh mb k newId texels).packed.getFansIndex (i - k) id =
      (mb.packed.getFansIndex i id).map
        (List.map (List.map (fun x => List.indexOf x (fromLodSeen mb k)))) := by
  obtain ⟨e1, e2, e3⟩ := fromLod_runs mb hib hfb n hn k hkn newId texels i hki hin id
  rw [getTrianglesIndex_packed_eq _ hi1 hr1, getStripsIndex_packed_eq _ hi1 hr1 hf1,
    getFansIndex_packed_eq _ hi1 hr1 hf1, getTrianglesIndex_packed_eq _ hib hrb,
    getStripsIndex_packed_eq _ hib hrb hfb, getFansIndex_packed_eq _ hib hrb hfb, e1, e2, e3]
  exact ⟨option_map_if_nil _ _ List.map_eq_nil_iff, option_map_if_nil _ _ List.map_eq_nil_iff,
    option_map_if_nil _ _ List.map_eq_nil_iff⟩

/-! ## The renumbering is one-to-one on the vertices referenced by the copied LODs -/

theorem mem_content_of_held (m : GLC_Mesh) (hi : m.Ingesting) (lod : Int) (id : GLC_uint)
    (x : GLuint)
    (h : x ∈ m.trianglesOf lod id ∨ (∃ l ∈ m.stripsOf lod id, x ∈ l) ∨
      (∃ l ∈ m.fansOf lod id, x ∈ l)) :
    ∃ gs, QHash.value m.m_PrimitiveGroups lod = some gs ∧ x ∈ lodContent gs := by
  cases hv : QHash.value m.m_PrimitiveGroups lod with
  | none =>
    exfalso
    simp [GLC_Mesh.trianglesOf, GLC_Mesh.stripsOf, GLC_Mesh.fansOf, GLC_Mesh.group, hv] at h
  | some gs =>
    refine ⟨gs, rfl, ?_⟩
    cases hg : QHash.value gs id with
    | none =>
      exfalso
      simp [GLC_Mesh.trianglesOf, GLC_Mesh.stripsOf, GLC_Mesh.fansOf, GLC_Mesh.group, hv, hg] at h
    | some g =>
      have hgr : m.group lod id = some g := by simp [GLC_Mesh.group, hv, hg]
      have hs := group_sized m hi lod id g hgr
      rw [mem_lodContent]
      refine ⟨(id, g), QHash.mem_of_value _ _ _ hg, ?_⟩
      simp only [GLC_Mesh.trianglesOf, GLC_Mesh.stripsOf, GLC_Mesh.fansOf, hgr] at h
      simp only [groupContent, List.mem_append]
      rcases h with h | ⟨l, hl, hx⟩ | ⟨l, hl, hx⟩
      · exact Or.inl (Or.inl h)
      · left; right
        rw [← splitRuns_flatten _ _ hs.2.2.1, List.mem_flatten]
        exact ⟨l, hl, hx⟩
      · right
        rw [← splitRuns_flatten _ _ hs.2.2.2.2, List.mem_flatten]
        exact ⟨l, hl, hx⟩

theorem held_of_refersTo (m : GLC_Mesh) (hi : m.Ingesting) (hr : m.LodsInRange)
    (hf : m.Filled) (lod : Int) (x : GLuint) (h : m.packed.refersTo lod x) :
    ∃ gs, QHash.value m.m_PrimitiveGroups lod = some gs ∧ x ∈ lodContent gs := by
  obtain ⟨id, h⟩ := h
  apply mem_content_of_held m hi lod id x
  rw [getTrianglesIndex_packed_eq m hi hr, getStripsIndex_packed_eq m hi hr hf,
    getFansIndex_packed_eq m hi hr hf] at h
  rcases h with ⟨l, hl, hx⟩ | ⟨ls, hl, hx⟩ | ⟨ls, hl, hx⟩
  · left
    by_cases h0 : m.trianglesOf lod id = []
    · rw [if_pos h0] at hl; simp at hl
    · rw [if_neg h0] at hl
      rw [Option.some.inj hl]
      exact hx
  · right; left
    by_cases h0 : m.stripsOf lod id = []
    · rw [if_pos h0] at hl; simp at hl
    · rw [if_neg h0] at hl
      rw [Option.some.inj hl]
      exact hx
  · right; right
    by_cases h0 : m.fansOf lod id = []
    · rw [if_pos h0] at hl; simp at hl
    · rw [if_neg h0] at hl
      rw [Option.some.inj hl]
      exact hx

theorem mem_fromLodSeen (mb : GLC_Mesh) (hib : mb.Ingesting) (hrb : mb.LodsInRange)
    (hfb : mb.Filled) (n : Nat) (hn : mb.m_MeshData.m_LodList.length = n) (k : Int)
    (hkn : k < (n : Int)) (i : Int) (hki : k ≤ i) (x : GLuint)
    (h : mb.packed.refersTo i x) : x ∈ fromLodSeen mb k := by
  have hcount : mb.m_MeshData.lodCount = (n : Int) := by
    simp [GLC_MeshData.lodCount, hn]
  obtain ⟨gs, hgs, hx⟩ := held_of_refersTo mb hib hrb hfb i x h
  have hmem := QHash.mem_of_value _ _ _ hgs
  have hin : i < (n : Int) := by
    have := (hrb _ hmem).2
    rw [hn] at this
    have h0 := (hrb _ hmem).1
    simp only at this h0
    omega
  unfold fromLodSeen
  rw [hcount, mem_stageSeen]
  right
  refine ⟨(i, i - k), (mem_lodStages n k hkn (i, i - k)).2 ⟨hki, hin, rfl⟩, ?_⟩
  simp only [stagePlan, hgs, Option.getD_some]
  exact (mem_lodPlan_iff gs (hib.sized _ hmem) x).2 hx

/-! ## Extraction from a given LOD -/

/-- C13. A mesh built by ingestion calls that fill the LODs `0 .. n-1`, finished with valid
bulk data: `createMeshFromGivenLod(k)` with `0 <= k < n` succeeds, the new mesh has the
LODs `0 .. n-k-1` and no other, and for every source LOD `i` with `k <= i < n` and every
material the triangles, the strips and the fans of the target LOD `i - k` are those of the
source LOD `i`, vertex indices renumbered by a map that is one-to-one on the vertices
referenced by the source LODs `k` and above; so LOD `k` lands at LOD 0, the coarser LODs
at 1, 2, ... in ascending order, and nothing of a LOD below `k` is copied. -/
theorem create_mesh_from_given_lod (cs : List AddCall) (P N T : List GLfloat) (k : Int)
    (newId : GLC_uint) (hne : ∀ c ∈ cs, c.indexList ≠ [])
    (hlod : ∀ c ∈ cs, 0 ≤ c.lod ∧ c.lod < ((cs.map AddCall.lod).dedup.length : Int))
    (hk : 0 ≤ k ∧ k < ((cs.map AddCall.lod).dedup.length : Int))
    (hP : P.length % 3 = 0)
    (hidx : ∀ c ∈ cs, ∀ x ∈ c.indexList, x * 3 + 3 ≤ P.length ∧ x * 3 + 3 ≤ N.length ∧
      (T ≠ [] → x * 2 + 2 ≤ T.length)) :
    ∃ m ids M M' f, applyCalls GLC_Mesh.new cs = some (m, ids) ∧
      (((m.addVertice P).addNormals N).addTexels T).finish = some M ∧
      M.m_MeshData.lodCount = ((cs.map AddCall.lod).dedup.length : Int) ∧
      M.createMeshFromGivenLod k newId = some M' ∧
      (∀ t : Int, t ∈ QHash.keys M'.m_PrimitiveGroups ↔
        0 ≤ t ∧ t < ((cs.map AddCall.lod).dedup.length : Int) - k) ∧
      (∀ i : Int, k ≤ i → i < ((cs.map AddCall.lod).dedup.length : Int) → ∀ id,
        M'.getTrianglesIndex (i - k) id = (M.getTrianglesIndex i id).map (List.map f) ∧
        M'.getStripsIndex (i - k) id = (M.getStripsIndex i id).map (List.map (List.map f)) ∧
        M'.getFansIndex (i - k) id = (M.getFansIndex i id).map (List.map (List.map f))) ∧
      ∀ i j x y, k ≤ i → k ≤ j → M.refersTo i x → M.refersTo j y → f x = f y → x = y := by
  have hcs : cs ≠ [] := by
    intro h0
    rw [h0] at hk
    simp at hk
    omega
  have happ := applyCalls_eq cs GLC_Mesh.new Ingesting_new hne
  have hi0 := Ingesting_resultAll cs GLC_Mesh.new Ingesting_new
  have hf0 := Filled_resultAll cs GLC_Mesh.new Filled_new hne
  have hr0 := lodsInRange_resultAll_new cs hlod
  have hib := Ingesting_bulk _ hi0 P N T
  have hrb : ((((AddCall.resultAll cs GLC_Mesh.new).addVertice P).addNormals N).addTexels
      T).LodsInRange := hr0
  have hfb := Filled_bulk _ hf0 P N T
  have hn : ((((AddCall.resultAll cs GLC_Mesh.new).addVertice P).addNormals N).addTexels
      T).m_MeshData.m_LodList.length = (cs.map AddCall.lod).dedup.length :=
    lodCount_resultAll_new cs
  have hpos : ((((AddCall.resultAll cs GLC_Mesh.new).addVertice P).addNormals N).addTexels
      T).m_MeshData.m_Positions = P := by
    show (AddCall.resultAll cs GLC_Mesh.new).m_MeshData.m_Positions ++ P = P
    rw [positions_resultAll]
    rfl
  have hnor : ((((AddCall.resultAll cs GLC_Mesh.new).addVertice P).addNormals N).addTexels
      T).m_MeshData.m_Normals = N := by
    show (AddCall.resultAll cs GLC_Mesh.new).m_MeshData.m_Normals ++ N = N
    rw [(normals_resultAll _ _).1]
    rfl
  have htex : ((((AddCall.resultAll cs GLC_Mesh.new).addVertice P).addNormals N).addTexels
      T).m_MeshData.m_Texels = T := by
    show (AddCall.resultAll cs GLC_Mesh.new).m_MeshData.m_Texels ++ T = T
    rw [(normals_resultAll _ _).2]
    rfl
  have hfin := finish_eq _ hib (groups_ne_nil_resultAll cs GLC_Mesh.new hcs)
    (by rw [hpos]; exact hP) hrb
  -- every LOD 0 .. n-1 has an entry
  have hall : ∀ i : Int, 0 ≤ i → i < (((cs.map AddCall.lod).dedup.length : Nat) : Int) →
      ∃ gs, QHash.value ((((AddCall.resultAll cs GLC_Mesh.new).addVertice P).addNormals
        N).addTexels T).m_PrimitiveGroups i = some gs := by
    intro i h0 h1
    have hmem := keys_complete (QHash.keys (AddCall.resultAll cs GLC_Mesh.new).m_PrimitiveGroups)
      (cs.map AddCall.lod).dedup.length hi0.lodNodup
      (by
        have := hi0.lodCount
        rw [lodCount_resultAll_new] at this
        simp only [QHash.keys, List.length_map]
        exact this.symm)
      (fun t ht => by
        obtain ⟨e, he, het⟩ := List.mem_map.1 ht
        have := hr0 e he
        rw [lodCount_resultAll_new, het] at this
        omega)
      i h0 h1
    cases hv : QHash.value (AddCall.resultAll cs GLC_Mesh.new).m_PrimitiveGroups i with
    | none => exact absurd hmem ((QHash.value_eq_none_iff _ _).1 hv)
    | some gs => exact ⟨gs, hv⟩
  -- the indices held by the source mesh are valid offsets
  have hvalid : ∀ e ∈ ((((AddCall.resultAll cs GLC_Mesh.new).addVertice P).addNormals
        N).addTexels T).m_PrimitiveGroups, ∀ s ∈ lodContent e.2,
      s * 3 + 3 ≤ ((((AddCall.resultAll cs GLC_Mesh.new).addVertice P).addNormals N).addTexels
        T).m_MeshData.m_Positions.length ∧
      s * 3 + 3 ≤ ((((AddCall.resultAll cs GLC_Mesh.new).addVertice P).addNormals N).addTexels
        T).m_MeshData.m_Normals.length ∧
      (((((AddCall.resultAll cs GLC_Mesh.new).addVertice P).addNormals N).addTexels
        T).m_MeshData.m_Texels ≠ [] →
        s * 2 + 2 ≤ ((((AddCall.resultAll cs GLC_Mesh.new).addVertice P).addNormals N).addTexels
          T).m_MeshData.m_Texels.length) := by
    intro e he s hs
    have h1 := (mem_heldIndices_resultAll cs GLC_Mesh.new s).1
      ((mem_heldIndices _ s).2 ⟨e, he, hs⟩)
    rcases h1 with h1 | ⟨c, hc, hsc⟩
    · simp [GLC_Mesh.heldIndices, GLC_Mesh.new] at h1
    · rw [hpos, hnor, htex]
      exact hidx c hc s hsc
  obtain ⟨texels, hcreate, hi1, hr1, hf1⟩ := createMeshFromGivenLod_packed _ hib hrb hfb
    (cs.map AddCall.lod).dedup.length hn hall k hk.1 hk.2 newId hvalid
  have hkeys := keys_fromLod _ hib hfb (cs.map AddCall.lod).dedup.length hn hall k hk.1 hk.2
    newId
    (((((AddCall.resultAll cs GLC_Mesh.new).addVertice P).addNormals N).addTexels T).m_Name
      ++ "-LOD-" ++ toString k)
  refine ⟨_, _, _, _,
    fun x => List.indexOf x (fromLodSeen ((((AddCall.resultAll cs GLC_Mesh.new).addVertice
      P).addNormals N).addTexels T) k), happ, hfin, ?_, hcreate, ?_, ?_, ?_⟩
  · simp only [GLC_MeshData.lodCount, GLC_Mesh.packed, appendAll_length,
      GLC_MeshData.finishLod]
    exact_mod_cast hn
  · intro t
    rw [← hkeys t]
    simp only [GLC_Mesh.packed, packedAll, QHash.keys, List.map_map]
    rfl
  · intro i hki hin id
    exact fromLod_getters _ hib hrb hfb _ hn k hk.2 newId texels hi1 hr1 hf1 i hki hin id
  · intro i j x y hki hkj hx hy hxy
    have h1 := mem_fromLodSeen _ hib hrb hfb _ hn k hk.2 i hki x hx
    have h2 := mem_fromLodSeen _ hib hrb hfb _ hn k hk.2 j hkj y hy
    exact (List.indexOf_inj h1 h2).1 hxy

/-- C13, instance: a mesh of four vertices with a triangle at LOD 0, a triangle at LOD 1 and
a strip at LOD 2; `createMeshFromGivenLod(1)` returns a mesh with the LODs 0 and 1, the
triangle of the source LOD 1 at LOD 0 and the strip of the source LOD 2 at LOD 1, the
vertices renumbered in the order in which they are met. -/
theorem create_mesh_from_given_lod_witness :
    (sampleThreeLodMesh.createMeshFromGivenLod 1 9).map
        (fun M => (QHash.keys M.m_PrimitiveGroups, M.getTrianglesIndex 0 7,
          M.getStripsIndex 1 8)) =
      some ([1, 0], some [3, 1, 0], some [[0, 1, 2, 3]]) ∧
    ∃ m ids M M' f, applyCalls GLC_Mesh.new sampleThreeLodCalls = some (m, ids) ∧
      (((m.addVertice [0, 0, 0, 1, 0, 0, 0, 1, 0, 1, 1, 0]).addNormals
        [0, 0, 1, 0, 0, 1, 0, 0, 1, 0, 0, 1]).addTexels []).finish = some M ∧
      M.m_MeshData.lodCount = ((sampleThreeLodCalls.map AddCall.lod).dedup.length : Int) ∧
      M.createMeshFromGivenLod 1 9 = some M' ∧
      (∀ t : Int, t ∈ QHash.keys M'.m_PrimitiveGroups ↔
        0 ≤ t ∧ t < ((sampleThreeLodCalls.map AddCall.lod).dedup.length : Int) - 1) ∧
      (∀ i : Int, 1 ≤ i → i < ((sampleThreeLodCalls.map AddCall.lod).dedup.length : Int) →
        ∀ id,
        M'.getTrianglesIndex (i - 1) id = (M.getTrianglesIndex i id).map (List.map f) ∧
        M'.getStripsIndex (i - 1) id = (M.getStripsIndex i id).map (List.map (List.map f)) ∧
        M'.getFansIndex (i - 1) id = (M.getFansIndex i id).map (List.map (List.map f))) ∧
      ∀ i j x y, 1 ≤ i → 1 ≤ j → M.refersTo i x → M.refersTo j y → f x = f y → x = y :=
  ⟨by rfl,
    create_mesh_from_given_lod sampleThreeLodCalls [0, 0, 0, 1, 0, 0, 0, 1, 0, 1, 1, 0]
      [0, 0, 1, 0, 0, 1, 0, 0, 1, 0, 0, 1] [] 1 9 (by decide) (by decide) (by decide)
      (by decide) (by decide)⟩

/-! ## `finish()` on a mesh without LOD -/

/-- Claim C21: `finish()` on a mesh whose bulk data holds no LOD (vertices may have been
added, no primitive was) returns, and the mesh it leaves has no primitive group, next
primitive id 1, vertex count 0, normal count 0, default material id 0, current LOD 0 and
an empty bulk data store. -/
theorem finish_without_lod (m : GLC_Mesh) (h : m.m_MeshData.lodCount = 0) :
    ∃ r, m.finish = some r ∧ r.m_PrimitiveGroups = [] ∧ r.m_NextPrimitiveLocalId = 1 ∧
      r.m_NumberOfVertice = 0 ∧ r.m_NumberOfNormals = 0 ∧ r.m_DefaultMaterialId = 0 ∧
      r.m_CurrentLod = 0 ∧ r.m_MeshData = {} ∧ r.m_MeshData.lodCount = 0 := by
  refine ⟨m.clear, ?_, rfl, rfl, rfl, rfl, rfl, rfl, rfl, rfl⟩
  unfold GLC_Mesh.finish
  rw [if_neg (by omega)]

theorem finish_without_lod_witness :
    ((GLC_Mesh.new.addVertice [0, 0, 0, 1, 0, 0, 0, 1, 0]).addNormals
        [0, 0, 1, 0, 0, 1, 0, 0, 1]).m_NumberOfVertice = 3 ∧
    ∃ r, ((GLC_Mesh.new.addVertice [0, 0, 0, 1, 0, 0, 0, 1, 0]).addNormals
        [0, 0, 1, 0, 0, 1, 0, 0, 1]).finish = some r ∧ r.m_PrimitiveGroups = [] ∧
      r.m_NextPrimitiveLocalId = 1 ∧
      r.m_NumberOfVertice = 0 ∧ r.m_NumberOfNormals = 0 ∧ r.m_DefaultMaterialId = 0 ∧
      r.m_CurrentLod = 0 ∧ r.m_MeshData = {} ∧ r.m_MeshData.lodCount = 0 :=
  ⟨by decide, finish_without_lod _ (by decide)⟩

/-! ## The default material -/

theorem materialSteps_cons (m : GLC_Mesh) (h : m.Ingesting) (c : AddCall) (cs : List AddCall)
    (hne : c.indexList ≠ []) :
    materialSteps m (c :: cs) =
      (materialSteps (c.result m) cs).map (fun rest =>
        { call := c, before := m, groupId := c.groupId m.m_DefaultMaterialId,
          primitiveId := if c.lod = 0 then m.m_NextPrimitiveLocalId else 0,
          after := c.result m } :: rest) := by
  rw [materialSteps, applyCall_eq m h c hne, setCurrentMaterial_eq m h c]
  simp only [Option.bind_eq_bind, Option.some_bind]
  cases materialSteps (c.result m) cs <;> rfl

theorem default_result (c : AddCall) (m : GLC_Mesh) :
    (c.result m).m_DefaultMaterialId = c.nextDefault m.m_DefaultMaterialId := rfl

theorem materialHash_result (c : AddCall) (m : GLC_Mesh) :
    (c.result m).m_MaterialHash = c.materials m.m_DefaultMaterialId m.m_MaterialHash := rfl

/-- Once the default material exists, a call with a null material uses it and registers no
material. -/
theorem materialSteps_created (cs : List AddCall) (m : GLC_Mesh) (h : m.Ingesting)
    (hd : m.m_DefaultMaterialId ≠ 0) (hne : ∀ c ∈ cs, c.indexList ≠ []) :
    ∃ steps, materialSteps m cs = some steps ∧ steps.map MaterialStep.call = cs ∧
      ∀ s ∈ steps, s.before.m_DefaultMaterialId = m.m_DefaultMaterialId ∧
        s.after.m_DefaultMaterialId = m.m_DefaultMaterialId ∧
        (s.call.pMaterial = none → s.groupId = m.m_DefaultMaterialId ∧
          s.after.m_MaterialHash = s.before.m_MaterialHash) ∧
        s.after.group s.call.lod s.groupId =
          some (s.call.addTo s.primitiveId
            ((s.before.group s.call.lod s.groupId).getD (GLC_PrimitiveGroup.new s.groupId))) := by
  induction cs generalizing m with
  | nil => exact ⟨[], rfl, rfl, by simp⟩
  | cons c cs ih =>
    have hc := hne c (List.mem_cons_self _ _)
    have hnd : (c.result m).m_DefaultMaterialId = m.m_DefaultMaterialId := by
      rw [default_result]
      unfold AddCall.nextDefault
      cases c.pMaterial with
      | none => simp [hd]
      | some id => rfl
    obtain ⟨rest, h1, h2, h3⟩ := ih (c.result m) (Ingesting_result c m h) (by rw [hnd]; exact hd)
      (fun x hx => hne x (List.mem_cons_of_mem _ hx))
    refine ⟨_, by rw [materialSteps_cons m h c cs hc, h1]; rfl, by simp [h2], ?_⟩
    intro s hs
    rcases List.mem_cons.1 hs with hs | hs
    · subst hs
      refine ⟨rfl, hnd, ?_, ?_⟩
      · intro hp
        simp only at hp
        simp only [materialHash_result, AddCall.groupId, AddCall.materials, hp, if_neg hd]
        exact ⟨trivial, trivial⟩
      · simp only
        rw [group_result]
        simp
    · obtain ⟨a, b, c1, d⟩ := h3 s hs
      exact ⟨by rw [a, hnd], by rw [b, hnd], by rw [← hnd]; exact c1, d⟩

/-- Claim C22: on a mesh whose default material does not exist yet, in a sequence of add
calls (no `clear()` in between) the first call with a null material creates the default
material, registers it with the mesh and files its indices in the group keyed by its id;
every later call with a null material, at any LOD, files its indices in the group of its
LOD keyed by the same id and registers no material. -/
theorem default_material_shared (m : GLC_Mesh) (h : m.Ingesting)
    (hd : m.m_DefaultMaterialId = 0) (cs : List AddCall)
    (hne : ∀ c ∈ cs, c.indexList ≠ [])
    (hid : ∀ c ∈ cs, c.pMaterial = none → c.newId ≠ 0) :
    ∃ steps, materialSteps m cs = some steps ∧ steps.map MaterialStep.call = cs ∧
      (∀ s ∈ steps, s.after.group s.call.lod s.groupId =
          some (s.call.addTo s.primitiveId
            ((s.before.group s.call.lod s.groupId).getD (GLC_PrimitiveGroup.new s.groupId)))) ∧
      (∀ s ∈ steps, s.call.pMaterial ≠ none → s.after.m_DefaultMaterialId =
          s.before.m_DefaultMaterialId) ∧
      ((∀ s ∈ steps, s.call.pMaterial ≠ none) ∨
        ∃ pre first post, steps = pre ++ first :: post ∧
          (∀ s ∈ pre, s.call.pMaterial ≠ none) ∧ first.call.pMaterial = none ∧
          first.before.m_DefaultMaterialId = 0 ∧
          first.groupId = first.call.newId ∧
          first.after.m_DefaultMaterialId = first.call.newId ∧
          first.after.m_MaterialHash = first.before.m_MaterialHash ++ [first.call.newId] ∧
          ∀ s ∈ post, s.after.m_DefaultMaterialId = first.call.newId ∧
            (s.call.pMaterial = none → s.groupId = first.call.newId ∧
              s.after.m_MaterialHash = s.before.m_MaterialHash)) := by
  induction cs generalizing m with
  | nil => exact ⟨[], rfl, rfl, by simp, by simp, Or.inl (by simp)⟩
  | cons c cs ih =>
    have hc := hne c (List.mem_cons_self _ _)
    have hne2 : ∀ x ∈ cs, x.indexList ≠ [] := fun x hx => hne x (List.mem_cons_of_mem _ hx)
    have hgr : (c.result m).group c.lod (c.groupId m.m_DefaultMaterialId) =
        some (c.addTo (if c.lod = 0 then m.m_NextPrimitiveLocalId else 0)
          ((m.group c.lod (c.groupId m.m_DefaultMaterialId)).getD
            (GLC_PrimitiveGroup.new (c.groupId m.m_DefaultMaterialId)))) := by
      rw [group_result]; simp
    cases hp : c.pMaterial with
    | some id =>
      have hnd : (c.result m).m_DefaultMaterialId = 0 := by
        rw [default_result]; unfold AddCall.nextDefault; rw [hp]; exact hd
      obtain ⟨rest, h1, h2, h3, h4, h5⟩ := ih (c.result m) (Ingesting_result c m h) hnd hne2
        (fun x hx => hid x (List.mem_cons_of_mem _ hx))
      refine ⟨_, by rw [materialSteps_cons m h c cs hc, h1]; rfl, by simp [h2], ?_, ?_, ?_⟩
      · intro s hs
        rcases List.mem_cons.1 hs with hs | hs
        · subst hs; exact hgr
        · exact h3 s hs
      · intro s hs
        rcases List.mem_cons.1 hs with hs | hs
        · subst hs; intro _; simp only; rw [hnd, hd]
        · exact h4 s hs
      · rcases h5 with h5 | ⟨pre, first, post, e, a1, a2, a3⟩
        · left
          intro s hs
          rcases List.mem_cons.1 hs with hs | hs
          · subst hs; simp [hp]
          · exact h5 s hs
        · right
          refine ⟨_ :: pre, first, post, by rw [e]; rfl, ?_, a2, a3⟩
          intro s hs
          rcases List.mem_cons.1 hs with hs | hs
          · subst hs; simp [hp]
          · exact a1 s hs
    | none =>
      have hnew := hid c (List.mem_cons_self _ _) hp
      have hnd : (c.result m).m_DefaultMaterialId = c.newId := by
        rw [default_result]; unfold AddCall.nextDefault; rw [hp]; simp [hd]
      obtain ⟨rest, h1, h2, h3⟩ := materialSteps_created cs (c.result m)
        (Ingesting_result c m h) (by rw [hnd]; exact hnew) hne2
      refine ⟨_, by rw [materialSteps_cons m h c cs hc, h1]; rfl, by simp [h2], ?_, ?_, ?_⟩
      · intro s hs
        rcases List.mem_cons.1 hs with hs | hs
        · subst hs; exact hgr
        · exact (h3 s hs).2.2.2
      · intro s hs
        rcases List.mem_cons.1 hs with hs | hs
        · subst hs; intro hc2; exact absurd hp hc2
        · intro _
          rw [(h3 s hs).1, (h3 s hs).2.1]
      · right
        refine ⟨[], _, rest, rfl, by simp, hp, hd, ?_, hnd, ?_, ?_⟩
        · simp [AddCall.groupId, hp, hd]
        · simp only [materialHash_result, AddCall.materials, hp, hd, if_true]
        · intro s hs
          obtain ⟨_, b, c1, _⟩ := h3 s hs
          rw [hnd] at b c1
          exact ⟨b, c1⟩

theorem default_material_shared_witness :
    ∃ steps, materialSteps GLC_Mesh.new sampleNullMaterialCalls = some steps ∧
      steps.map MaterialStep.call = sampleNullMaterialCalls ∧
      (∀ s ∈ steps, s.after.group s.call.lod s.groupId =
          some (s.call.addTo s.primitiveId
            ((s.before.group s.call.lod s.groupId).getD (GLC_PrimitiveGroup.new s.groupId)))) ∧
      (∀ s ∈ steps, s.call.pMaterial ≠ none → s.after.m_DefaultMaterialId =
          s.before.m_DefaultMaterialId) ∧
      ((∀ s ∈ steps, s.call.pMaterial ≠ none) ∨
        ∃ pre first post, steps = pre ++ first :: post ∧
          (∀ s ∈ pre, s.call.pMaterial ≠ none) ∧ first.call.pMaterial = none ∧
          first.before.m_DefaultMaterialId = 0 ∧
          first.groupId = first.call.newId ∧
          first.after.m_DefaultMaterialId = first.call.newId ∧
          first.after.m_MaterialHash = first.before.m_MaterialHash ++ [first.call.newId] ∧
          ∀ s ∈ post, s.after.m_DefaultMaterialId = first.call.newId ∧
            (s.call.pMaterial = none → s.groupId = first.call.newId ∧
              s.after.m_MaterialHash = s.before.m_MaterialHash)) :=
  default_material_shared GLC_Mesh.new Ingesting_new rfl sampleNullMaterialCalls
    (by decide) (by decide)

theorem sampleNullMaterialCalls_steps :
    (materialSteps GLC_Mesh.new sampleNullMaterialCalls).map
        (fun steps => steps.map (fun s => (s.groupId, s.after.m_MaterialHash))) =
      some [(11, [11]), (7, [11, 7]), (11, [11, 7]), (11, [11, 7])] := by
  rfl

/-! ## Selected primitives of GLC_RenderProperties -/

/-- C23, failing input: on new render properties (current body 0) the primitive 5 is
registered as selected for the body 0; `primitiveIsSelected(1, 5)` passes the guard, which
looks for the current body 0, and calls `contains` through the null pointer that
`value(1)` returns. With the primitive registered for the body 1 instead,
`primitiveIsSelected(1, 5)` is false although the set of the body 1 holds 5. -/
theorem primitive_is_selected_current_body :
    (GLC_RenderProperties.addSelectedPrimitive { m_Uid := 1 } 5 0).m_CurrentBody = 0 ∧
    (GLC_RenderProperties.addSelectedPrimitive { m_Uid := 1 } 5 0).m_pBodySelectedPrimitvesId =
      some [(0, [5])] ∧
    (GLC_RenderProperties.addSelectedPrimitive { m_Uid := 1 } 5 0).primitiveIsSelected 1 5 =
      .error .nullPointer ∧
    (GLC_RenderProperties.addSelectedPrimitive { m_Uid := 1 } 5 1).m_pBodySelectedPrimitvesId =
      some [(1, [5])] ∧
    (GLC_RenderProperties.addSelectedPrimitive { m_Uid := 1 } 5 1).primitiveIsSelected 1 5 =
      .ok false := by
  refine ⟨rfl, rfl, rfl, rfl, rfl⟩

/-! ## Overwrite primitive materials of GLC_RenderProperties -/

/-- C29, failing input: the properties `a` (id 1) get the material at address 5 as
overwrite material of the primitive 3 of the body 0, which gives `a` the table and the
usage entry of the material. After `b = a` the properties `b` (id 2) hold a copy of the
table and the material is used by `b`, and `m_MaterialsUsage` of `b` is empty: the
assertion of `clearOverwritePrimitiveMaterials` on `b` fails, and without the assertion
the call leaves the usage of `b` on the material. The copy constructor on `a` copies
`m_MaterialsUsage`. -/
theorem assignment_leaves_usage_table_empty :
    GLC_RenderProperties.addOverwritePrimitiveMaterial { m_Uid := 1 } [(5, some {})] 3 (some 5) 0 =
      .ok ({ m_Uid := 1, m_pOverwritePrimitiveMaterialMaps := some [(0, [(3, 5)])],
             m_MaterialsUsage := [(5, 1)] }, [(5, some { usage := [1] })]) ∧
    GLC_RenderProperties.assign true { m_Uid := 2 }
        { m_Uid := 1, m_pOverwritePrimitiveMaterialMaps := some [(0, [(3, 5)])],
          m_MaterialsUsage := [(5, 1)] } [(5, some { usage := [1] })] =
      .ok ({ m_Uid := 2, m_pOverwritePrimitiveMaterialMaps := some [(0, [(3, 5)])],
             m_MaterialsUsage := [] }, [(5, some { usage := [1, 2] })]) ∧
    GLC_RenderProperties.clearOverwritePrimitiveMaterials true
        { m_Uid := 2, m_pOverwritePrimitiveMaterialMaps := some [(0, [(3, 5)])],
          m_MaterialsUsage := [] } [(5, some { usage := [1, 2] })] = .error .assertion ∧
    GLC_RenderProperties.clearOverwritePrimitiveMaterials false
        { m_Uid := 2, m_pOverwritePrimitiveMaterialMaps := some [(0, [(3, 5)])],
          m_MaterialsUsage := [] } [(5, some { usage := [1, 2] })] =
      .ok ({ m_Uid := 2 }, [(5, some { usage := [1, 2] })]) ∧
    GLC_RenderProperties.copy
        { m_Uid := 1, m_pOverwritePrimitiveMaterialMaps := some [(0, [(3, 5)])],
          m_MaterialsUsage := [(5, 1)] } 2 [(5, some { usage := [1] })] =
      .ok ({ m_Uid := 2, m_pOverwritePrimitiveMaterialMaps := some [(0, [(3, 5)])],
             m_MaterialsUsage := [(5, 1)] }, [(5, some { usage := [1, 2] })]) := by
  refine ⟨rfl, rfl, rfl, rfl, rfl⟩

/-! ## The packing layout -/

theorem tiledFrom_append (a b : List (Nat × Nat)) (s : Nat) :
    tiledFrom s (a ++ b) = (tiledFrom s a).bind (fun e => tiledFrom e b) := by
  induction a generalizing s with
  | nil => rfl
  | cons x rest ih =>
    obtain ⟨o, n⟩ := x
    rw [List.cons_append, tiledFrom, tiledFrom]
    by_cases h : o = s
    · rw [if_pos h, if_pos h, ih]
    · rw [if_neg h, if_neg h]; rfl

theorem tiledFrom_runOffsets (sizes : List Nat) (b : Nat) :
    tiledFrom b ((runOffsets b sizes).zip sizes) = some (b + sizes.sum) := by
  induction sizes generalizing b with
  | nil => rfl
  | cons s rest ih =>
    rw [runOffsets, List.zip_cons_cons, tiledFrom, if_pos rfl, ih, List.sum_cons,
      Nat.add_assoc]

theorem tiledFrom_lower (l : List (Nat × Nat)) (s e : Nat) (h : tiledFrom s l = some e) :
    ∀ r ∈ l, s ≤ r.1 := by
  induction l generalizing s with
  | nil => simp
  | cons x rest ih =>
    obtain ⟨o, n⟩ := x
    simp only [tiledFrom] at h
    by_cases ho : o = s
    · rw [if_pos ho] at h
      intro r hr
      rcases List.mem_cons.1 hr with hr | hr
      · rw [hr]; exact le_of_eq ho.symm
      · have := ih _ h r hr
        omega
    · rw [if_neg ho] at h
      exact absurd h (by simp)

theorem tiledFrom_pairwise (l : List (Nat × Nat)) (s e : Nat) (h : tiledFrom s l = some e) :
    l.Pairwise (fun a b => a.1 + a.2 ≤ b.1) := by
  induction l generalizing s with
  | nil => exact List.Pairwise.nil
  | cons x rest ih =>
    obtain ⟨o, n⟩ := x
    simp only [tiledFrom] at h
    by_cases ho : o = s
    · rw [if_pos ho] at h
      refine List.Pairwise.cons ?_ (ih _ h)
      intro r hr
      have := tiledFrom_lower rest _ e h r hr
      simp only
      omega
    · rw [if_neg ho] at h
      exact absurd h (by simp)

theorem groupRanges_packedGroup (b : Nat) (g : GLC_PrimitiveGroup) (hs : GroupSized g) :
    tiledFrom b (groupRanges (packedGroup b g)) = some (b + (groupContent g).length) := by
  obtain ⟨h1, h2, h3, h4, h5⟩ := hs
  obtain ⟨f1, f2, f3, f4, f5, f6, f7, f8⟩ := packedGroup_fields b g
  unfold groupRanges
  simp only [GLC_PrimitiveGroup.containsTriangles, GLC_PrimitiveGroup.containsStrip,
    GLC_PrimitiveGroup.containsFan, PrimitiveRuns.nonEmpty, f1, f2, f3, f4, f5,
    decide_eq_true_eq, groupContent, List.length_append]
  rw [tiledFrom_append, tiledFrom_append]
  have t1 : tiledFrom b (if 0 < g.m_TrianglesIndexSize then
      [((packedGroup b g).m_TrianglesIndexOffseti, g.m_TrianglesIndexSize)] else []) =
      some (b + g.m_TrianglesIndex.length) := by
    by_cases c1 : 0 < g.m_TrianglesIndexSize
    · rw [if_pos c1, (f6 c1).1]
      simp [tiledFrom, h1]
    · rw [if_neg c1]
      have : g.m_TrianglesIndex.length = 0 := by omega
      simp [tiledFrom, this]
  have t2 : tiledFrom (b + g.m_TrianglesIndex.length) (if 0 < g.strips.indexSize then
      (packedGroup b g).strips.offseti.zip g.strips.sizes else []) =
      some (b + g.m_TrianglesIndex.length + g.strips.index.length) := by
    by_cases c2 : 0 < g.strips.indexSize
    · rw [if_pos c2, (f7 c2).1, tiledFrom_runOffsets, h3]
    · rw [if_neg c2]
      have : g.strips.index.length = 0 := by omega
      simp [tiledFrom, this]
  have t3 : tiledFrom (b + g.m_TrianglesIndex.length + g.strips.index.length)
      (if 0 < g.fans.indexSize then
      (packedGroup b g).fans.offseti.zip g.fans.sizes else []) =
      some (b + g.m_TrianglesIndex.length + g.strips.index.length + g.fans.index.length) := by
    by_cases c3 : 0 < g.fans.indexSize
    · rw [if_pos c3, (f8 c3).1, tiledFrom_runOffsets, h5]
    · rw [if_neg c3]
      have : g.fans.index.length = 0 := by omega
      simp [tiledFrom, this]
  rw [t1, Option.some_bind, t2, Option.some_bind, t3]
  congr 1
  omega

theorem tiledFrom_packedGroups (gs : LodPrimitiveGroups) (b : Nat)
    (hs : ∀ x ∈ gs, GroupSized x.2) :
    tiledFrom b ((packedGroups b gs).flatMap (fun x => groupRanges x.2)) =
      some (b + (lodContent gs).length) := by
  induction gs generalizing b with
  | nil => rfl
  | cons e rest ih =>
    obtain ⟨id, g⟩ := e
    simp only [packedGroups, List.flatMap_cons, tiledFrom_append,
      groupRanges_packedGroup b g (hs (id, g) (List.mem_cons_self _ _)), Option.some_bind,
      ih _ (fun x hx => hs x (List.mem_cons_of_mem _ hx)), lodContent, List.length_append,
      Nat.add_assoc]

/-- Claim C24: after a sequence of add calls on an empty mesh (non-empty index lists, the
LOD numbers used being `0 .. n-1`) and the `finish()` that follows, the index array of every
LOD holds, for every group of the LOD, the triangle indices of the group, then its strip
indices, then its fan indices; the triangle offset recorded in the group is the number of
indices in front of its triangle indices, the offsets of its strips are those of
consecutive runs that start where the triangle indices end, and the offsets of its fans
those of consecutive runs that start where the strip indices end. The ranges
`(offset, size)` recorded by the groups of a LOD, taken in the order of the groups, lie end
to end from 0 to the length of the index array, so they are pairwise disjoint and cover
the array. -/
theorem packing_layout (cs : List AddCall)
    (hne : ∀ c ∈ cs, c.indexList ≠ [])
    (hlod : ∀ c ∈ cs, 0 ≤ c.lod ∧ c.lod < ((cs.map AddCall.lod).dedup.length : Int)) :
    ∃ m ids m1, applyCalls GLC_Mesh.new cs = some (m, ids) ∧ m.finish = some m1 ∧
      (∀ lod id g, m.group lod id = some g →
        ∃ v pre post g1, m1.m_MeshData.indexVector lod = some v ∧
          m1.group lod id = some g1 ∧
          v = pre ++ (g.m_TrianglesIndex ++ g.strips.index ++ g.fans.index) ++ post ∧
          g1.m_TrianglesIndexSize = g.m_TrianglesIndex.length ∧
          g1.strips.sizes.sum = g.strips.index.length ∧
          g1.fans.sizes.sum = g.fans.index.length ∧
          (g1.containsTriangles = true → g1.m_TrianglesIndexOffseti = pre.length) ∧
          (g1.containsStrip = true → g1.strips.offseti =
            runOffsets (pre.length + g.m_TrianglesIndex.length) g1.strips.sizes) ∧
          (g1.containsFan = true → g1.fans.offseti =
            runOffsets (pre.length + g.m_TrianglesIndex.length + g.strips.index.length)
              g1.fans.sizes)) ∧
      (∀ lod groups, (lod, groups) ∈ m1.m_PrimitiveGroups →
        ∃ v, m1.m_MeshData.indexVector lod = some v ∧
          tiledFrom 0 (groups.flatMap (fun x => groupRanges x.2)) = some v.length ∧
          (groups.flatMap (fun x => groupRanges x.2)).Pairwise
            (fun a b => a.1 + a.2 ≤ b.1)) := by
  have happ := applyCalls_eq cs GLC_Mesh.new Ingesting_new hne
  by_cases hcs : cs = []
  · subst hcs
    refine ⟨GLC_Mesh.new, [], GLC_Mesh.new.clear, rfl, rfl, ?_, ?_⟩
    · intro lod id g hg
      simp [GLC_Mesh.group, GLC_Mesh.new, QHash.value] at hg
    · intro lod groups hmem
      simp [GLC_Mesh.clear] at hmem
  · have hi := Ingesting_resultAll cs GLC_Mesh.new Ingesting_new
    have hr := lodsInRange_resultAll_new cs hlod
    refine ⟨_, _, _, happ, finish_resultAll_new cs hcs hlod, ?_, ?_⟩
    · intro lod id g hg
      obtain ⟨gs, pre, post, hv, hcont, hpg⟩ :=
        packed_group (AddCall.resultAll cs GLC_Mesh.new) lod id
          (AddCall.resultAll cs GLC_Mesh.new).packed.m_UseVbo g hg
      obtain ⟨h1, h2, h3, h4, h5⟩ := group_sized _ hi lod id g hg
      obtain ⟨f1, f2, f3, f4, f5, f6, f7, f8⟩ := packedGroup_fields pre.length g
      refine ⟨lodContent gs, pre, post, packedGroup pre.length g,
        packed_indexVector _ hi hr lod gs hv, hpg, hcont, by rw [f1, h1], by rw [f3, h3],
        by rw [f5, h5], ?_, ?_, ?_⟩
      · intro hc
        simp only [GLC_PrimitiveGroup.containsTriangles, f1, decide_eq_true_eq] at hc
        exact (f6 hc).1
      · intro hc
        simp only [GLC_PrimitiveGroup.containsStrip, PrimitiveRuns.nonEmpty, f2,
          decide_eq_true_eq] at hc
        rw [(f7 hc).1, f3]
      · intro hc
        simp only [GLC_PrimitiveGroup.containsFan, PrimitiveRuns.nonEmpty, f4,
          decide_eq_true_eq] at hc
        rw [(f8 hc).1, f5]
    · intro lod groups hmem
      simp only [GLC_Mesh.packed, packedAll] at hmem
      obtain ⟨e, he, heq⟩ := List.mem_map.1 hmem
      simp only [Prod.mk.injEq] at heq
      obtain ⟨h1, h2⟩ := heq
      have hv := QHash.value_of_mem _ _ _ hi.lodNodup he
      rw [h1] at hv
      have ht := tiledFrom_packedGroups e.2 0 (hi.sized e he)
      rw [Nat.zero_add, h2] at ht
      exact ⟨lodContent e.2, packed_indexVector _ hi hr lod e.2 hv, ht,
        tiledFrom_pairwise _ _ _ ht⟩

theorem packing_layout_witness :
    ∃ m ids m1,
      applyCalls GLC_Mesh.new
        [{ kind := .triangles, pMaterial := some 7, indexList := [0, 1, 2] },
         { kind := .strip, pMaterial := some 7, indexList := [0, 1, 2, 3] },
         { kind := .strip, pMaterial := some 7, indexList := [3, 2, 1] },
         { kind := .fan, pMaterial := none, indexList := [4, 1, 2, 3], newId := 9 },
         { kind := .triangles, pMaterial := some 7, indexList := [5, 5, 5], lod := 1 }]
        = some (m, ids) ∧ m.finish = some m1 ∧
      (∀ lod id g, m.group lod id = some g →
        ∃ v pre post g1, m1.m_MeshData.indexVector lod = some v ∧
          m1.group lod id = some g1 ∧
          v = pre ++ (g.m_TrianglesIndex ++ g.strips.index ++ g.fans.index) ++ post ∧
          g1.m_TrianglesIndexSize = g.m_TrianglesIndex.length ∧
          g1.strips.sizes.sum = g.strips.index.length ∧
          g1.fans.sizes.sum = g.fans.index.length ∧
          (g1.containsTriangles = true → g1.m_TrianglesIndexOffseti = pre.length) ∧
          (g1.containsStrip = true → g1.strips.offseti =
            runOffsets (pre.length + g.m_TrianglesIndex.length) g1.strips.sizes) ∧
          (g1.containsFan = true → g1.fans.offseti =
            runOffsets (pre.length + g.m_TrianglesIndex.length + g.strips.index.length)
              g1.fans.sizes)) ∧
      (∀ lod groups, (lod, groups) ∈ m1.m_PrimitiveGroups →
        ∃ v, m1.m_MeshData.indexVector lod = some v ∧
          tiledFrom 0 (groups.flatMap (fun x => groupRanges x.2)) = some v.length ∧
          (groups.flatMap (fun x => groupRanges x.2)).Pairwise
            (fun a b => a.1 + a.2 ≤ b.1)) :=
  packing_layout _ (by decide) (by decide)

theorem packing_layout_sample :
    ((applyCalls GLC_Mesh.new
        [{ kind := .triangles, pMaterial := some 7, indexList := [0, 1, 2] },
         { kind := .strip, pMaterial := some 7, indexList := [0, 1, 2, 3] },
         { kind := .strip, pMaterial := some 7, indexList := [3, 2, 1] },
         { kind := .fan, pMaterial := none, indexList := [4, 1, 2, 3], newId := 9 },
         { kind := .triangles, pMaterial := some 7, indexList := [5, 5, 5], lod := 1 }]).bind
      (fun r => r.1.finish)).map
        (fun m1 => m1.m_PrimitiveGroups.map (fun e =>
          (e.1, e.2.flatMap (fun x => groupRanges x.2)))) =
      some [(0, [(0, 3), (3, 4), (7, 3), (10, 4)]), (1, [(0, 3)])] := by
  rfl

/-! ## The bulk data of the new mesh, vertex by vertex -/

theorem copyBulkData_texels (M pLodMesh : GLC_Mesh) (final : List GLuint)
    (hP : M.m_MeshData.m_Positions ≠ []) (hN : M.m_MeshData.m_Normals ≠ [])
    (hvalid : ∀ s ∈ final, s * 3 + 3 ≤ M.m_MeshData.m_Positions.length ∧
      s * 3 + 3 ≤ M.m_MeshData.m_Normals.length ∧
      (M.m_MeshData.m_Texels ≠ [] → s * 2 + 2 ≤ M.m_MeshData.m_Texels.length)) :
    M.copyBulkData pLodMesh (mapsOf final).tagetToSourceIndexMap (mapsOf final).maxIndex =
      some (((pLodMesh.addVertice (final.flatMap (chunkAt M.m_MeshData.m_Positions 3))).addNormals
        (final.flatMap (chunkAt M.m_MeshData.m_Normals 3))).addTexels
          (if M.m_MeshData.m_Texels = [] then []
            else final.flatMap (chunkAt M.m_MeshData.m_Texels 2))) := by
  have hn : (((final.length : Int) - 1) + 1).toNat = final.length := by omega
  have h1 := copyVertices_eq M.m_MeshData.m_Positions 3 final (fun s hs => (hvalid s hs).1)
  have h2 := copyVertices_eq M.m_MeshData.m_Normals 3 final (fun s hs => (hvalid s hs).2.1)
  have hPe : M.m_MeshData.m_Positions.isEmpty = false := by
    cases hp : M.m_MeshData.m_Positions with
    | nil => exact absurd hp hP
    | cons a t => rfl
  have hNe : M.m_MeshData.m_Normals.isEmpty = false := by
    cases hp : M.m_MeshData.m_Normals with
    | nil => exact absurd hp hN
    | cons a t => rfl
  unfold GLC_Mesh.copyBulkData
  simp only [mapsOf, hn, hPe, hNe, h1, h2, Bool.false_eq_true, if_false, Option.bind_eq_bind,
    Option.some_bind, Option.pure_def]
  by_cases hT : M.m_MeshData.m_Texels = []
  · rw [if_pos hT, hT, addTexels_nil]
    rfl
  · have h3 := copyVertices_eq M.m_MeshData.m_Texels 2 final
      (fun s hs => (hvalid s hs).2.2 hT)
    have hTe : M.m_MeshData.m_Texels.isEmpty = false := by
      cases hp : M.m_MeshData.m_Texels with
      | nil => exact absurd hp hT
      | cons a t => rfl
    rw [if_neg hT]
    simp only [hTe, h3, Bool.not_false, if_true, Option.some_bind]

theorem memcpyFrom_chunkAt (v : List GLfloat) (stride : Nat) (x : GLuint)
    (h : x * stride + stride ≤ v.length) :
    memcpyFrom v (x * stride) stride = some (chunkAt v stride x) := by
  unfold memcpyFrom chunkAt
  rw [if_pos h]

/-- Claim C25: when `copyIndex`, started with a new mesh, empty maps and `maxIndex = -1`,
has returned the target-to-source map and `maxIndex` for a LOD whose source indices all
have a position and a normal (and a texel when the source has texels), `copyBulkData`
returns, the new mesh holds exactly `3 * (maxIndex + 1)` position floats and as many normal
floats, the three position floats and the three normal floats of every vertex `i` in
`0 .. maxIndex` are those of the source vertex `targetToSource(i)`, the texels are copied the
same way, two floats per vertex, when the source texel array is not empty and the new mesh
has no texel otherwise; every index held by the new mesh then lies inside these arrays. -/
theorem copy_bulk_data (M : GLC_Mesh) (lodIndex targetLod : Int) (newId : GLC_uint)
    (st : CopyState)
    (h : M.copyIndex lodIndex { pLodMesh := GLC_Mesh.new, maps := {} } targetLod newId
      = some st)
    (hP : M.m_MeshData.m_Positions ≠ []) (hN : M.m_MeshData.m_Normals ≠ [])
    (src : List GLuint) (hsrc : M.lodSourceIndices lodIndex = some src)
    (hvalid : ∀ s ∈ src, s * 3 + 3 ≤ M.m_MeshData.m_Positions.length ∧
      s * 3 + 3 ≤ M.m_MeshData.m_Normals.length ∧
      (M.m_MeshData.m_Texels ≠ [] → s * 2 + 2 ≤ M.m_MeshData.m_Texels.length)) :
    ∃ mesh, M.copyBulkData st.pLodMesh st.maps.tagetToSourceIndexMap st.maps.maxIndex
        = some mesh ∧
      mesh.m_MeshData.m_Positions.length = 3 * (st.maps.maxIndex + 1).toNat ∧
      mesh.m_MeshData.m_Normals.length = 3 * (st.maps.maxIndex + 1).toNat ∧
      (∀ i : Nat, (i : Int) ≤ st.maps.maxIndex →
        ∃ s p q, QHash.value st.maps.tagetToSourceIndexMap i = some s ∧
          tripleAt mesh.m_MeshData.m_Positions i = some p ∧
          tripleAt M.m_MeshData.m_Positions s = some p ∧
          tripleAt mesh.m_MeshData.m_Normals i = some q ∧
          tripleAt M.m_MeshData.m_Normals s = some q) ∧
      (M.m_MeshData.m_Texels ≠ [] →
        mesh.m_MeshData.m_Texels.length = 2 * (st.maps.maxIndex + 1).toNat ∧
        ∀ i : Nat, (i : Int) ≤ st.maps.maxIndex →
          ∃ s uv, QHash.value st.maps.tagetToSourceIndexMap i = some s ∧
            memcpyFrom mesh.m_MeshData.m_Texels (i * 2) 2 = some uv ∧
            memcpyFrom M.m_MeshData.m_Texels (s * 2) 2 = some uv) ∧
      (M.m_MeshData.m_Texels = [] → mesh.m_MeshData.m_Texels = []) ∧
      (∀ t ∈ mesh.heldIndices,
        t * 3 + 3 ≤ mesh.m_MeshData.m_Positions.length ∧
        t * 3 + 3 ≤ mesh.m_MeshData.m_Normals.length ∧
        (M.m_MeshData.m_Texels ≠ [] → t * 2 + 2 ≤ mesh.m_MeshData.m_Texels.length)) := by
  obtain ⟨groups, plan, hv, hplan, hemit⟩ := copyIndex_eq M lodIndex targetLod newId _ st h
  obtain ⟨hst, _⟩ := emitPlan_new _ _ _ _ _ hemit
  have hsrc2 : src = plan.flatMap (fun p => p.2.2) := by
    simp [GLC_Mesh.lodSourceIndices, hv, hplan] at hsrc
    exact hsrc.symm
  subst hsrc2
  generalize hfin : (plan.flatMap (fun p => p.2.2)).foldl addSeen [] = final at hst
  have hmemf : ∀ s ∈ final, s ∈ plan.flatMap (fun p => p.2.2) := by
    intro s hs
    rw [← hfin, mem_foldl_addSeen] at hs
    rcases hs with hs | hs
    · simp at hs
    · exact hs
  have hvf : ∀ s ∈ final, s * 3 + 3 ≤ M.m_MeshData.m_Positions.length ∧
      s * 3 + 3 ≤ M.m_MeshData.m_Normals.length ∧
      (M.m_MeshData.m_Texels ≠ [] → s * 2 + 2 ≤ M.m_MeshData.m_Texels.length) :=
    fun s hs => hvalid s (hmemf s hs)
  have hbulk := copyBulkData_texels M st.pLodMesh final hP hN hvf
  have hmaps : st.maps = mapsOf final := by rw [hst]
  have hmax : (st.maps.maxIndex + 1).toNat = final.length := by
    rw [hmaps]; simp [mapsOf]
  have hmaxi : st.maps.maxIndex = (final.length : Int) - 1 := by
    rw [hmaps]; rfl
  have hpos0 : st.pLodMesh.m_MeshData.m_Positions = [] := by
    rw [hst]; simp only; rw [positions_resultAll]; rfl
  have hnor0 : st.pLodMesh.m_MeshData.m_Normals = [] ∧ st.pLodMesh.m_MeshData.m_Texels = [] := by
    rw [hst]; simp only; rw [(normals_resultAll _ _).1, (normals_resultAll _ _).2]
    exact ⟨rfl, rfl⟩
  have hlp := flatMap_chunkAt_length M.m_MeshData.m_Positions 3 final (fun s hs => (hvf s hs).1)
  have hln := flatMap_chunkAt_length M.m_MeshData.m_Normals 3 final (fun s hs => (hvf s hs).2.1)
  rw [← hmaps] at hbulk
  refine ⟨_, hbulk, ?_, ?_, ?_, ?_, ?_, ?_⟩
  · simp only [GLC_Mesh.addTexels, GLC_Mesh.addNormals, GLC_Mesh.addVertice,
      GLC_MeshData.appendTexels, GLC_MeshData.appendNormals, GLC_MeshData.appendPositions,
      hpos0, List.nil_append, hlp, hmax]
  · simp only [GLC_Mesh.addTexels, GLC_Mesh.addNormals, GLC_Mesh.addVertice,
      GLC_MeshData.appendTexels, GLC_MeshData.appendNormals, GLC_MeshData.appendPositions,
      hnor0.1, List.nil_append, hln, hmax]
  · intro i hi
    have hil : i < final.length := by omega
    have hx : final[i]? = some final[i] := List.getElem?_eq_getElem hil
    have hxm : final[i] ∈ final := List.getElem_mem hil
    refine ⟨final[i], chunkAt M.m_MeshData.m_Positions 3 final[i],
      chunkAt M.m_MeshData.m_Normals 3 final[i], ?_, ?_, tripleAt_eq _ _ (hvf _ hxm).1, ?_,
      tripleAt_eq _ _ (hvf _ hxm).2.1⟩
    · rw [hmaps]
      have := t2sOf_value 0 final i
      rw [Nat.zero_add] at this
      simp only [mapsOf]
      rw [this, hx]
    · simp only [GLC_Mesh.addTexels, GLC_Mesh.addNormals, GLC_Mesh.addVertice,
        GLC_MeshData.appendTexels, GLC_MeshData.appendNormals, GLC_MeshData.appendPositions,
        hpos0, List.nil_append, tripleAt]
      exact memcpyFrom_flatMap _ 3 final (fun s hs => (hvf s hs).1) i _ hx
    · simp only [GLC_Mesh.addTexels, GLC_Mesh.addNormals, GLC_Mesh.addVertice,
        GLC_MeshData.appendTexels, GLC_MeshData.appendNormals, GLC_MeshData.appendPositions,
        hnor0.1, List.nil_append, tripleAt]
      exact memcpyFrom_flatMap _ 3 final (fun s hs => (hvf s hs).2.1) i _ hx
  · intro hT
    have hlt := flatMap_chunkAt_length M.m_MeshData.m_Texels 2 final
      (fun s hs => (hvf s hs).2.2 hT)
    refine ⟨?_, ?_⟩
    · simp only [GLC_Mesh.addTexels, GLC_Mesh.addNormals, GLC_Mesh.addVertice,
        GLC_MeshData.appendTexels, GLC_MeshData.appendNormals, GLC_MeshData.appendPositions,
        hnor0.2, List.nil_append, if_neg hT, hlt, hmax]
    · intro i hi
      have hil : i < final.length := by omega
      have hx : final[i]? = some final[i] := List.getElem?_eq_getElem hil
      have hxm : final[i] ∈ final := List.getElem_mem hil
      refine ⟨final[i], chunkAt M.m_MeshData.m_Texels 2 final[i], ?_, ?_,
        memcpyFrom_chunkAt _ 2 _ ((hvf _ hxm).2.2 hT)⟩
      · rw [hmaps]
        have := t2sOf_value 0 final i
        rw [Nat.zero_add] at this
        simp only [mapsOf]
        rw [this, hx]
      · simp only [GLC_Mesh.addTexels, GLC_Mesh.addNormals, GLC_Mesh.addVertice,
          GLC_MeshData.appendTexels, GLC_MeshData.appendNormals, GLC_MeshData.appendPositions,
          hnor0.2, List.nil_append, if_neg hT]
        exact memcpyFrom_flatMap _ 2 final (fun s hs => (hvf s hs).2.2 hT) i _ hx
  · intro hT
    simp only [GLC_Mesh.addTexels, GLC_Mesh.addNormals, GLC_Mesh.addVertice,
      GLC_MeshData.appendTexels, GLC_MeshData.appendNormals, GLC_MeshData.appendPositions,
      hnor0.2, List.nil_append, if_pos hT]
  · intro t ht
    have ht2 : t ∈ st.pLodMesh.heldIndices := ht
    have htl : @LT.lt Nat _ t final.length := by
      rw [hst] at ht2
      simp only at ht2
      rw [mem_heldIndices_resultAll, mem_planCalls] at ht2
      rcases ht2 with h1 | h1
      · simp [GLC_Mesh.heldIndices, GLC_Mesh.new] at h1
      · rw [← hfin] at h1 ⊢
        exact (mem_rank_iff _ t).1 h1
    have h3 : @HMul.hMul Nat Nat Nat _ t 3 + 3 ≤ 3 * final.length := by omega
    have h2 : @HMul.hMul Nat Nat Nat _ t 2 + 2 ≤ 2 * final.length := by omega
    refine ⟨?_, ?_, ?_⟩
    · simp only [GLC_Mesh.addTexels, GLC_Mesh.addNormals, GLC_Mesh.addVertice,
        GLC_MeshData.appendTexels, GLC_MeshData.appendNormals, GLC_MeshData.appendPositions,
        hpos0, List.nil_append, hlp]
      exact h3
    · simp only [GLC_Mesh.addTexels, GLC_Mesh.addNormals, GLC_Mesh.addVertice,
        GLC_MeshData.appendTexels, GLC_MeshData.appendNormals, GLC_MeshData.appendPositions,
        hnor0.1, List.nil_append, hln]
      exact h3
    · intro hT
      have hlt := flatMap_chunkAt_length M.m_MeshData.m_Texels 2 final
        (fun s hs => (hvf s hs).2.2 hT)
      simp only [GLC_Mesh.addTexels, GLC_Mesh.addNormals, GLC_Mesh.addVertice,
        GLC_MeshData.appendTexels, GLC_MeshData.appendNormals, GLC_MeshData.appendPositions,
        hnor0.2, List.nil_append, if_neg hT, hlt]
      exact h2

theorem copy_bulk_data_witness :
    ∃ st, sampleBulkSource.copyIndex 0 { pLodMesh := GLC_Mesh.new, maps := {} } 0 1 = some st ∧
      st.maps.maxIndex = 4 ∧
      ∃ mesh, sampleBulkSource.copyBulkData st.pLodMesh st.maps.tagetToSourceIndexMap
          st.maps.maxIndex = some mesh ∧
        mesh.m_MeshData.m_Positions.length = 3 * (st.maps.maxIndex + 1).toNat ∧
        mesh.m_MeshData.m_Normals.length = 3 * (st.maps.maxIndex + 1).toNat ∧
        (∀ i : Nat, (i : Int) ≤ st.maps.maxIndex →
          ∃ s p q, QHash.value st.maps.tagetToSourceIndexMap i = some s ∧
            tripleAt mesh.m_MeshData.m_Positions i = some p ∧
            tripleAt sampleBulkSource.m_MeshData.m_Positions s = some p ∧
            tripleAt mesh.m_MeshData.m_Normals i = some q ∧
            tripleAt sampleBulkSource.m_MeshData.m_Normals s = some q) ∧
        (sampleBulkSource.m_MeshData.m_Texels ≠ [] →
          mesh.m_MeshData.m_Texels.length = 2 * (st.maps.maxIndex + 1).toNat ∧
          ∀ i : Nat, (i : Int) ≤ st.maps.maxIndex →
            ∃ s uv, QHash.value st.maps.tagetToSourceIndexMap i = some s ∧
              memcpyFrom mesh.m_MeshData.m_Texels (i * 2) 2 = some uv ∧
              memcpyFrom sampleBulkSource.m_MeshData.m_Texels (s * 2) 2 = some uv) ∧
        (sampleBulkSource.m_MeshData.m_Texels = [] → mesh.m_MeshData.m_Texels = []) ∧
        (∀ t ∈ mesh.heldIndices,
          t * 3 + 3 ≤ mesh.m_MeshData.m_Positions.length ∧
          t * 3 + 3 ≤ mesh.m_MeshData.m_Normals.length ∧
          (sampleBulkSource.m_MeshData.m_Texels ≠ [] →
            t * 2 + 2 ≤ mesh.m_MeshData.m_Texels.length)) :=
  ⟨_, rfl, rfl, copy_bulk_data sampleBulkSource 0 0 1 _ rfl (by decide) (by decide)
    [5, 9, 5, 9, 2, 7, 5, 2, 11, 9] rfl (by decide)⟩

theorem sampleBulkSource_copy :
    ((sampleBulkSource.copyIndex 0 { pLodMesh := GLC_Mesh.new, maps := {} } 0 1).bind
      (fun st => sampleBulkSource.copyBulkData st.pLodMesh st.maps.tagetToSourceIndexMap
        st.maps.maxIndex)).map (fun mesh => mesh.m_MeshData.m_Positions) =
      some [15, 16, 17, 27, 28, 29, 6, 7, 8, 21, 22, 23, 33, 34, 35] := by
  rfl

/-! ## The lengths of the strip and fan expansions -/

theorem stripTriangles_length (acc : IndexList) (s : List GLuint) (h : 3 ≤ s.length) :
    ∃ l, stripTriangles acc s = some l ∧ l.length = acc.length + 3 * (s.length - 2) := by
  have e0 : s[0]? = some (s.getD 0 0) := by
    rw [List.getD_eq_getElem?_getD, List.getElem?_eq_getElem (by omega)]; rfl
  have e1 : s[1]? = some (s.getD 1 0) := by
    rw [List.getD_eq_getElem?_getD, List.getElem?_eq_getElem (by omega)]; rfl
  have e2 : s[2]? = some (s.getD 2 0) := by
    rw [List.getD_eq_getElem?_getD, List.getElem?_eq_getElem (by omega)]; rfl
  unfold stripTriangles
  simp only [e0, e1, e2, Option.bind_eq_bind, Option.some_bind]
  rw [stripLoop_eq s (s.length - 3) 3 _ (by omega) (by omega)]
  refine ⟨_, rfl, ?_⟩
  rw [List.length_append, List.length_append,
    flatMap_length_const _ _ 3 (fun i => specStripTriangle_length s _)]
  simp only [List.length_cons, List.length_nil, List.length_range]
  omega

theorem fanLoop_length (s : List GLuint) (count j : Nat) (acc : IndexList)
    (hj : 1 ≤ j) (hlen : count = 0 ∨ j + count + 1 ≤ s.length) :
    ∃ l, fanLoop s count j acc = some l ∧ l.length = acc.length + 3 * count := by
  induction count generalizing j acc with
  | zero => exact ⟨acc, rfl, by simp⟩
  | succ n ih =>
    have hl : j + (n + 1) + 1 ≤ s.length := by
      rcases hlen with h | h
      · omega
      · exact h
    have h0 : s.head? = some (s.getD 0 0) := by
      cases s with
      | nil => simp at hl
      | cons a t => rfl
    have h1 : s[j]? = some (s.getD j 0) := by
      rw [List.getD_eq_getElem?_getD, List.getElem?_eq_getElem (by omega)]; rfl
    have h2 : s[j + 1]? = some (s.getD (j + 1) 0) := by
      rw [List.getD_eq_getElem?_getD, List.getElem?_eq_getElem (by omega)]; rfl
    obtain ⟨l, hl1, hl2⟩ := ih (j + 1) (acc ++ [s.getD 0 0, s.getD j 0, s.getD (j + 1) 0])
      (by omega) (Or.inr (by omega))
    refine ⟨l, ?_, ?_⟩
    · rw [fanLoop]
      simp only [h0, h1, h2, Option.bind_eq_bind, Option.some_bind]
      exact hl1
    · rw [hl2, List.length_append]
      simp only [List.length_cons, List.length_nil]
      omega

theorem fanTriangles_length (acc : IndexList) (s : List GLuint) :
    ∃ l, fanTriangles acc s = some l ∧ l.length = acc.length + 3 * (s.length - 2) := by
  unfold fanTriangles
  apply fanLoop_length s (s.length - 2) 1 acc (le_refl _)
  by_cases h : s.length - 2 = 0
  · exact Or.inl h
  · right; omega

theorem foldRuns_strip_length (runs : List (List GLuint)) (acc : IndexList)
    (h : ∀ s ∈ runs, 3 ≤ s.length) :
    ∃ l, foldRuns stripTriangles acc runs = some l ∧
      l.length = acc.length + (runs.map (fun (s : List GLuint) => 3 * (s.length - 2))).sum := by
  induction runs generalizing acc with
  | nil => exact ⟨acc, rfl, by simp⟩
  | cons s rest ih =>
    obtain ⟨l1, h1, h2⟩ := stripTriangles_length acc s (h s (List.mem_cons_self _ _))
    obtain ⟨l, h3, h4⟩ := ih l1 (fun x hx => h x (List.mem_cons_of_mem _ hx))
    refine ⟨l, ?_, ?_⟩
    · rw [foldRuns]
      simp only [h1, Option.bind_eq_bind, Option.some_bind]
      exact h3
    · rw [h4, h2, List.map_cons, List.sum_cons]
      omega

theorem foldRuns_fan_length (runs : List (List GLuint)) (acc : IndexList) :
    ∃ l, foldRuns fanTriangles acc runs = some l ∧
      l.length = acc.length + (runs.map (fun (s : List GLuint) => 3 * (s.length - 2))).sum := by
  induction runs generalizing acc with
  | nil => exact ⟨acc, rfl, by simp⟩
  | cons s rest ih =>
    obtain ⟨l1, h1, h2⟩ := fanTriangles_length acc s
    obtain ⟨l, h3, h4⟩ := ih l1
    refine ⟨l, ?_, ?_⟩
    · rw [foldRuns]
      simp only [h1, Option.bind_eq_bind, Option.some_bind]
      exact h3
    · rw [h4, h2, List.map_cons, List.sum_cons]
      omega

/-! ## The equivalent triangles of a material of a finished mesh -/

theorem stripsOf_nil_iff (m : GLC_Mesh) (hi : m.Ingesting) (hf : m.Filled) (lod : Int)
    (id : GLC_uint) (g : GLC_PrimitiveGroup) (hg : m.group lod id = some g) :
    (m.stripsOf lod id = [] ↔ g.containsStrip = false) ∧
    (m.fansOf lod id = [] ↔ g.containsFan = false) ∧
    (m.trianglesOf lod id = [] ↔ g.containsTriangles = false) := by
  have hs := group_sized m hi lod id g hg
  have hruns := group_runs m hf lod id g hg
  obtain ⟨h1, h2, h3, h4, h5⟩ := hs
  unfold GLC_Mesh.stripsOf GLC_Mesh.fansOf GLC_Mesh.trianglesOf
  simp only [hg]
  refine ⟨?_, ?_, ?_⟩
  · rw [splitRuns_eq_nil_iff _ _ hruns.1 h3]
    simp only [GLC_PrimitiveGroup.containsStrip, PrimitiveRuns.nonEmpty, decide_eq_false_iff_not,
      h2, List.length_pos, ne_eq, not_not]
  · rw [splitRuns_eq_nil_iff _ _ hruns.2 h5]
    simp only [GLC_PrimitiveGroup.containsFan, PrimitiveRuns.nonEmpty, decide_eq_false_iff_not,
      h4, List.length_pos, ne_eq, not_not]
  · simp only [GLC_PrimitiveGroup.containsTriangles, decide_eq_false_iff_not,
      h1, List.length_pos, ne_eq, not_not]

/-- The equivalent triangles of a material at a LOD of a finished mesh: the call returns
when the triangle indices come in triples and every strip has at least 3 indices, and the
length of the list is the number of triangle indices plus `3 * (size - 2)` for every strip
and every fan. -/
theorem equivalent_length (m : GLC_Mesh) (hi : m.Ingesting) (hr : m.LodsInRange)
    (hf : m.Filled) (lod : Int) (id : GLC_uint)
    (hlod : QHash.contains m.m_PrimitiveGroups lod = true)
    (ht : (m.trianglesOf lod id).length % 3 = 0)
    (hs : ∀ s ∈ m.stripsOf lod id, 3 ≤ s.length) :
    ∃ l, m.packed.getEquivalentTrianglesStripsFansIndex lod id = some l ∧
      l.length % 3 = 0 ∧
      l.length = (m.trianglesOf lod id).length +
        ((m.stripsOf lod id).map (fun (s : List GLuint) => 3 * (s.length - 2))).sum +
        ((m.fansOf lod id).map (fun (s : List GLuint) => 3 * (s.length - 2))).sum := by
  have hpv : ∃ gs, QHash.value m.packed.m_PrimitiveGroups lod = some gs := by
    unfold QHash.contains at hlod
    cases hv : QHash.value m.m_PrimitiveGroups lod with
    | none => simp [hv] at hlod
    | some gs => exact ⟨packedGroups 0 gs, by simp [GLC_Mesh.packed, packedAll_value, hv]⟩
  obtain ⟨pgs, hpgs⟩ := hpv
  have hT := getTrianglesIndex_packed_eq m hi hr lod id
  have hS := getStripsIndex_packed_eq m hi hr hf lod id
  have hF := getFansIndex_packed_eq m hi hr hf lod id
  have hflags : m.packed.containsTriangles lod id = some (decide (m.trianglesOf lod id ≠ [])) ∧
      m.packed.containsStrips lod id = decide (m.stripsOf lod id ≠ []) ∧
      m.packed.containsFans lod id = decide (m.fansOf lod id ≠ []) := by
    cases hg : m.group lod id with
    | none =>
      have h1 := packed_group_none m lod id m.m_UseVbo hg
      rw [packed_useVbo] at h1
      rw [containsTriangles_eq, containsStrips_eq, containsFans_eq, h1, hpgs]
      simp [GLC_Mesh.trianglesOf, GLC_Mesh.stripsOf, GLC_Mesh.fansOf, hg]
    | some g =>
      obtain ⟨f1, f2, f3⟩ := packed_flags m lod id m.m_UseVbo g hg
      rw [packed_useVbo] at f1 f2 f3
      obtain ⟨n1, n2, n3⟩ := stripsOf_nil_iff m hi hf lod id g hg
      rw [f1, f2, f3]
      refine ⟨?_, ?_, ?_⟩
      · congr 1
        cases hc : g.containsTriangles
        · simp [n3.2 hc]
        · have : m.trianglesOf lod id ≠ [] := fun h0 => by
            have := n3.1 h0
            rw [hc] at this
            exact absurd this (by decide)
          simp [this]
      · cases hc : g.containsStrip
        · simp [n1.2 hc]
        · have : m.stripsOf lod id ≠ [] := fun h0 => by
            have := n1.1 h0
            rw [hc] at this
            exact absurd this (by decide)
          simp [this]
      · cases hc : g.containsFan
        · simp [n2.2 hc]
        · have : m.fansOf lod id ≠ [] := fun h0 => by
            have := n2.1 h0
            rw [hc] at this
            exact absurd this (by decide)
          simp [this]
  obtain ⟨c1, c2, c3⟩ := hflags
  obtain ⟨ls, hls1, hls2⟩ := foldRuns_strip_length (m.stripsOf lod id) [] hs
  obtain ⟨lf, hlf1, hlf2⟩ := foldRuns_fan_length (m.fansOf lod id) []
  have hsum3 : ∀ runs : List (List GLuint),
      (runs.map (fun (s : List GLuint) => 3 * (s.length - 2))).sum % 3 = 0 := by
    intro runs
    induction runs with
    | nil => rfl
    | cons a t ih => rw [List.map_cons, List.sum_cons]; omega
  have h3s := hsum3 (m.stripsOf lod id)
  have h3f := hsum3 (m.fansOf lod id)
  refine ⟨m.trianglesOf lod id ++ ls ++ lf, ?_, ?_, ?_⟩
  · unfold GLC_Mesh.getEquivalentTrianglesStripsFansIndex
      GLC_Mesh.equivalentTrianglesIndexOfstripsIndex GLC_Mesh.equivalentTrianglesIndexOfFansIndex
    rw [c1, c2, c3, hT, hS, hF]
    have hlen : (m.trianglesOf lod id ++ ls ++ lf).length % 3 = 0 := by
      rw [List.length_append, List.length_append, hls2, hlf2]
      simp only [List.length_nil]
      omega
    have els : m.stripsOf lod id = [] → ls = [] := by
      intro h0
      rw [h0] at hls1
      exact (Option.some.inj hls1).symm
    have elf : m.fansOf lod id = [] → lf = [] := by
      intro h0
      rw [h0] at hlf1
      exact (Option.some.inj hlf1).symm
    by_cases t0 : m.trianglesOf lod id = [] <;> by_cases s0 : m.stripsOf lod id = [] <;>
      by_cases f0 : m.fansOf lod id = []
    all_goals
      first
      | rw [els s0] at hlen ⊢
      | skip
    all_goals
      first
      | rw [elf f0] at hlen ⊢
      | skip
    all_goals
      simp only [t0, s0, f0, ne_eq, not_true_eq_false, not_false_eq_true, decide_True,
        decide_False, if_true, if_false, Option.bind_eq_bind, Option.some_bind, Option.pure_def,
        Bool.false_eq_true, hls1, hlf1, List.nil_append, List.append_nil] at hlen ⊢
    all_goals
      first
      | rfl
      | rw [if_pos hlen]
  · rw [List.length_append, List.length_append, hls2, hlf2]
    simp only [List.length_nil]
    omega
  · rw [List.length_append, List.length_append, hls2, hlf2]
    simp only [List.length_nil]
    omega

/-! ## The equivalent triangles of all materials -/

theorem sum_map_ite_single (L : List GLC_uint) (k : GLC_uint) (v : Nat) (hn : L.Nodup)
    (hk : k ∈ L) : (L.map (fun id => if k = id then v else 0)).sum = v := by
  induction L with
  | nil => simp at hk
  | cons a t ih =>
    simp only [List.nodup_cons] at hn
    rw [List.map_cons, List.sum_cons]
    by_cases ha : k = a
    · subst ha
      have hz : (t.map (fun id => if k = id then v else 0)).sum = 0 := by
        apply List.sum_eq_zero
        intro x hx
        obtain ⟨y, hy, hxy⟩ := List.mem_map.1 hx
        have : k ≠ y := fun h => hn.1 (h ▸ hy)
        simp only [this, if_false] at hxy
        exact hxy.symm
      simp [hz]
    · rcases List.mem_cons.1 hk with h | h
      · exact absurd h ha
      · simp only [ha, if_false, Nat.zero_add]
        exact ih hn.2 h

theorem sum_map_add_nat {α : Type} (L : List α) (f g : α → Nat) :
    (L.map (fun x => f x + g x)).sum = (L.map f).sum + (L.map g).sum := by
  induction L with
  | nil => rfl
  | cons a t ih => simp only [List.map_cons, List.sum_cons, ih]; omega

/-- Summing a weight of the index lists over the groups of all materials gives the sum
over the calls. -/
theorem sum_batches (kind : PrimitiveKind) (lod : Int) (f : IndexList → Nat)
    (L : List GLC_uint) (hn : L.Nodup) (cs : List AddCall) (d : GLC_uint)
    (hmem : ∀ id, AddCall.batches kind lod id d cs ≠ [] → id ∈ L) :
    (L.map (fun id => ((AddCall.batches kind lod id d cs).map f).sum)).sum =
      ((cs.filter (fun c => decide (c.kind = kind ∧ c.lod = lod))).map
        (fun c => f c.indexList)).sum := by
  induction cs generalizing d with
  | nil => simp [AddCall.batches]
  | cons c cs ih =>
    have htail : ∀ id, AddCall.batches kind lod id (c.nextDefault d) cs ≠ [] → id ∈ L := by
      intro id hne
      apply hmem id
      rw [AddCall.batches]
      intro h0
      exact hne (List.append_eq_nil.1 h0).2
    have hrec := ih (c.nextDefault d) htail
    have hsplit : ∀ id, ((AddCall.batches kind lod id d (c :: cs)).map f).sum =
        (if c.groupId d = id then (if c.kind = kind ∧ c.lod = lod then f c.indexList else 0)
          else 0) + ((AddCall.batches kind lod id (c.nextDefault d) cs).map f).sum := by
      intro id
      rw [AddCall.batches, List.map_append, List.sum_append]
      congr 1
      by_cases h1 : c.kind = kind ∧ c.lod = lod
      · by_cases h2 : c.groupId d = id
        · simp [h1, h2]
        · simp [h1, h2]
      · by_cases h2 : c.groupId d = id
        · have : ¬ (c.kind = kind ∧ c.lod = lod ∧ c.groupId d = id) := fun h => h1 ⟨h.1, h.2.1⟩
          simp [h1, this]
        · have : ¬ (c.kind = kind ∧ c.lod = lod ∧ c.groupId d = id) := fun h => h2 h.2.2
          simp [h2, this]
    simp only [hsplit]
    rw [sum_map_add_nat, hrec]
    by_cases h1 : c.kind = kind ∧ c.lod = lod
    · have hin : c.groupId d ∈ L := by
        apply hmem
        rw [AddCall.batches]
        simp [h1]
      rw [sum_map_ite_single L (c.groupId d) _ hn hin]
      simp [List.filter_cons, h1]
    · have hz : (L.map (fun id => if c.groupId d = id then
          (if c.kind = kind ∧ c.lod = lod then f c.indexList else 0) else 0)).sum = 0 := by
        apply List.sum_eq_zero
        intro x hx
        obtain ⟨y, hy, hxy⟩ := List.mem_map.1 hx
        simp only [h1, if_false, ite_self] at hxy
        exact hxy.symm
      rw [hz]
      simp [List.filter_cons, h1]

theorem mem_batches_lod (kind : PrimitiveKind) (lod : Int) (id : GLC_uint) (cs : List AddCall)
    (d : GLC_uint) (b : IndexList) (hb : b ∈ AddCall.batches kind lod id d cs) :
    ∃ c ∈ cs, c.kind = kind ∧ c.lod = lod ∧ c.indexList = b := by
  induction cs generalizing d with
  | nil => simp [AddCall.batches] at hb
  | cons c cs ih =>
    rw [AddCall.batches, List.mem_append] at hb
    rcases hb with hb | hb
    · by_cases h1 : c.kind = kind ∧ c.lod = lod ∧ c.groupId d = id
      · rw [if_pos h1] at hb
        simp only [List.mem_singleton] at hb
        exact ⟨c, List.mem_cons_self _ _, h1.1, h1.2.1, hb.symm⟩
      · rw [if_neg h1] at hb
        simp at hb
    · obtain ⟨c1, hc1, h⟩ := ih _ hb
      exact ⟨c1, List.mem_cons_of_mem _ hc1, h⟩

theorem registered_of_group (m : GLC_Mesh) (hi : m.Ingesting) (lod : Int) (id : GLC_uint)
    (g : GLC_PrimitiveGroup) (hg : m.group lod id = some g) : id ∈ m.m_MaterialHash := by
  unfold GLC_Mesh.group at hg
  cases hv : QHash.value m.m_PrimitiveGroups lod with
  | none => simp [hv] at hg
  | some gs =>
    simp only [hv] at hg
    exact hi.registered (lod, gs) (QHash.mem_of_value _ _ _ hv) (id, g)
      (QHash.mem_of_value _ _ _ hg)

theorem batches_registered (cs : List AddCall) (hne : ∀ c ∈ cs, c.indexList ≠ [])
    (kind : PrimitiveKind) (lod : Int) (id : GLC_uint)
    (h : AddCall.batches kind lod id 0 cs ≠ []) :
    id ∈ (AddCall.resultAll cs GLC_Mesh.new).m_MaterialHash := by
  have hi := Ingesting_resultAll cs GLC_Mesh.new Ingesting_new
  have hd : GLC_Mesh.new.m_DefaultMaterialId = 0 := rfl
  cases kind with
  | triangles =>
    have ht := trianglesOf_resultAll cs GLC_Mesh.new lod id
    rw [trianglesOf_new, List.nil_append, hd] at ht
    have hne2 : (AddCall.resultAll cs GLC_Mesh.new).trianglesOf lod id ≠ [] := by
      rw [ht]
      intro h0
      rw [List.flatten_eq_nil_iff] at h0
      obtain ⟨b, hb⟩ := List.exists_mem_of_ne_nil _ h
      obtain ⟨c, hc, _, _, hcb⟩ := mem_batches_lod _ _ _ _ _ _ hb
      exact hne c hc (hcb.trans (h0 b hb))
    obtain ⟨g, hg, _⟩ := group_of_trianglesOf _ lod id hne2
    exact registered_of_group _ hi lod id g hg
  | strip =>
    have hst := stripsOf_resultAll cs GLC_Mesh.new Ingesting_new lod id
    rw [stripsOf_new, List.nil_append, hd] at hst
    obtain ⟨g, hg, _⟩ := group_of_stripsOf _ lod id (by rw [hst]; exact h)
    exact registered_of_group _ hi lod id g hg
  | fan =>
    have hfa := fansOf_resultAll cs GLC_Mesh.new Ingesting_new lod id
    rw [fansOf_new, List.nil_append, hd] at hfa
    have hne2 : (AddCall.resultAll cs GLC_Mesh.new).fansOf lod id ≠ [] := by rw [hfa]; exact h
    cases hg : (AddCall.resultAll cs GLC_Mesh.new).group lod id with
    | none => simp [GLC_Mesh.fansOf, hg] at hne2
    | some g => exact registered_of_group _ hi lod id g hg

theorem three_cumulative (cs : List AddCall) (lod : Int)
    (hvalid : ∀ c ∈ cs, c.lod = lod →
      (c.kind = .triangles → c.indexList.length % 3 = 0) ∧
      (c.kind = .strip ∨ c.kind = .fan → 3 ≤ c.indexList.length)) :
    ((((cs.filter (fun c => decide (c.kind = .triangles ∧ c.lod = lod))).map
        (fun c => c.indexList.length)).sum +
      ((cs.filter (fun c => decide (c.kind = .strip ∧ c.lod = lod))).map
        (fun c => 3 * (c.indexList.length - 2))).sum +
      ((cs.filter (fun c => decide (c.kind = .fan ∧ c.lod = lod))).map
        (fun c => 3 * (c.indexList.length - 2))).sum : Nat) : Int) =
      3 * cumulativeTriangles cs lod := by
  induction cs with
  | nil => simp [cumulativeTriangles]
  | cons c cs ih =>
    have hrec := ih (fun x hx => hvalid x (List.mem_cons_of_mem _ hx))
    have hc := hvalid c (List.mem_cons_self _ _)
    unfold cumulativeTriangles at hrec ⊢
    by_cases hl : c.lod = lod
    · obtain ⟨h1, h2⟩ := hc hl
      cases hk : c.kind with
      | triangles =>
        have := h1 hk
        simp only [List.filter_cons, hk, hl, and_self, decide_True, if_true, List.map_cons,
          List.sum_cons, reduceCtorEq, false_and, decide_False, Bool.false_eq_true, if_false,
          or_self] at hrec ⊢
        push_cast at hrec ⊢
        omega
      | strip =>
        have := h2 (Or.inl hk)
        simp only [List.filter_cons, hk, hl, and_self, decide_True, if_true, List.map_cons,
          List.sum_cons, reduceCtorEq, false_and, decide_False, Bool.false_eq_true, if_false,
          or_false, true_or, or_true, true_and] at hrec ⊢
        push_cast at hrec ⊢
        omega
      | fan =>
        have := h2 (Or.inr hk)
        simp only [List.filter_cons, hk, hl, and_self, decide_True, if_true, List.map_cons,
          List.sum_cons, reduceCtorEq, false_and, decide_False, Bool.false_eq_true, if_false,
          or_false, true_or, or_true, true_and, false_or] at hrec ⊢
        push_cast at hrec ⊢
        omega
    · simp only [List.filter_cons, hl, and_false, decide_False, Bool.false_eq_true,
        if_false] at hrec ⊢
      exact hrec

/-! ## The face list of the 3DS exporter -/

theorem writeFaces_eq (totalFaceCount : Nat) (l : IndexList) (count i cur : Nat)
    (h1 : (i + count) * 3 ≤ l.length) (h2 : cur + count ≤ totalFaceCount) :
    writeFaces totalFaceCount l count i cur = some (cur + count) := by
  induction count generalizing i cur with
  | zero => rfl
  | succ n ih =>
    have e0 : l[i * 3]? = some (l.getD (i * 3) 0) := by
      rw [List.getD_eq_getElem?_getD, List.getElem?_eq_getElem (by omega)]; rfl
    have e1 : l[i * 3 + 1]? = some (l.getD (i * 3 + 1) 0) := by
      rw [List.getD_eq_getElem?_getD, List.getElem?_eq_getElem (by omega)]; rfl
    have e2 : l[i * 3 + 2]? = some (l.getD (i * 3 + 2) 0) := by
      rw [List.getD_eq_getElem?_getD, List.getElem?_eq_getElem (by omega)]; rfl
    rw [writeFaces]
    simp only [e0, e1, e2, Option.bind_eq_bind, Option.some_bind]
    rw [if_pos (by omega), ih (i + 1) (cur + 1) (by omega) (by omega)]
    congr 1
    omega

theorem writeMaterialFaces_eq (pMesh : GLC_Mesh) (totalFaceCount : Nat) (ids : List GLC_uint)
    (cur : Nat)
    (hall : ∀ id ∈ ids, ∃ l, pMesh.getEquivalentTrianglesStripsFansIndex 0 id = some l)
    (hsum : cur + (ids.map (fun id =>
      ((pMesh.getEquivalentTrianglesStripsFansIndex 0 id).getD []).length / 3)).sum
        ≤ totalFaceCount) :
    writeMaterialFaces pMesh totalFaceCount ids cur =
      some (cur + (ids.map (fun id =>
        ((pMesh.getEquivalentTrianglesStripsFansIndex 0 id).getD []).length / 3)).sum) := by
  induction ids generalizing cur with
  | nil => rfl
  | cons id rest ih =>
    obtain ⟨l, hl⟩ := hall id (List.mem_cons_self _ _)
    simp only [List.map_cons, List.sum_cons, hl, Option.getD_some] at hsum ⊢
    rw [writeMaterialFaces]
    simp only [hl, Option.bind_eq_bind, Option.some_bind]
    rw [writeFaces_eq totalFaceCount l (l.length / 3) 0 cur (by omega) (by omega)]
    simp only [Option.some_bind]
    rw [ih (cur + l.length / 3) (fun x hx => hall x (List.mem_cons_of_mem _ hx)) (by omega)]
    congr 1
    omega

theorem sum_div_three {α : Type} (L : List α) (f : α → Nat) (h : ∀ x ∈ L, f x % 3 = 0) :
    3 * (L.map (fun x => f x / 3)).sum = (L.map f).sum := by
  induction L with
  | nil => rfl
  | cons a t ih =>
    have ha := h a (List.mem_cons_self _ _)
    have := ih (fun x hx => h x (List.mem_cons_of_mem _ hx))
    simp only [List.map_cons, List.sum_cons]
    omega

theorem sum_map_lengths_three (L : List IndexList) (h : ∀ b ∈ L, b.length % 3 = 0) :
    (L.map List.length).sum % 3 = 0 := by
  induction L with
  | nil => rfl
  | cons a t ih =>
    have ha := h a (List.mem_cons_self _ _)
    have := ih (fun x hx => h x (List.mem_cons_of_mem _ hx))
    simp only [List.map_cons, List.sum_cons]
    omega

/-! ## Whole triangles in the CSG recombination -/

theorem csgPassedLists_eq (vertices : List csgjs_vertex)
    (hash : QHash GLC_uint (Option GLC_uint)) (w : List Int)
    (hnodup : (QHash.keys hash).Nodup)
    (hin : ∀ i ∈ w, (vertexAt vertices i).isSome = true) :
    csgPassedLists vertices hash w =
      some ((hash.map (fun e => csgTagged vertices e.1 w)).filter (fun l => !l.isEmpty),
        csgLeft vertices hash w) := by
  induction hash generalizing w with
  | nil => rfl
  | cons e rest ih =>
    obtain ⟨matId, p⟩ := e
    simp only [QHash.keys, List.map_cons, List.nodup_cons] at hnodup
    have hin2 : ∀ i ∈ w.filter
        (fun i => !decide ((vertexAt vertices i).map csgjs_vertex.matId = some matId)),
        (vertexAt vertices i).isSome = true :=
      fun i hi => hin i (List.mem_filter.1 hi).1
    have hrec := ih _ hnodup.2 hin2
    have hmap : (rest.map (fun e => csgTagged vertices e.1 (w.filter
        (fun i => !decide ((vertexAt vertices i).map csgjs_vertex.matId = some matId))))) =
        rest.map (fun e => csgTagged vertices e.1 w) := by
      apply List.map_congr_left
      intro e he
      apply csgTagged_filter
      intro h
      apply hnodup.1
      rw [← h]
      exact List.mem_map.2 ⟨e, he, rfl⟩
    rw [hmap] at hrec
    rw [csgPassedLists, extractMaterial_eq vertices matId w hin]
    simp only [Option.bind_eq_bind, Option.some_bind, hrec, Option.pure_def, List.map_cons,
      csgLeft]
    by_cases h0 : (csgTagged vertices matId w).isEmpty = true
    · simp [List.filter_cons, h0]
    · simp [List.filter_cons, h0]

theorem csgTriangles_length (n : Nat) (indices : List Int) (h : indices.length = 3 * n) :
    (csgTriangles indices).flatten = indices := by
  induction n generalizing indices with
  | zero =>
    have : indices = [] := List.eq_nil_of_length_eq_zero (by omega)
    subst this
    rfl
  | succ k ih =>
    match indices, h with
    | a :: b :: c :: rest, h =>
      have hr : rest.length = 3 * k := by
        simp only [List.length_cons] at h
        omega
      simp only [csgTriangles, List.flatten_cons, ih rest hr]
      rfl
    | [], h => simp at h
    | [_], h => simp at h; omega
    | [_, _], h => simp at h; omega

theorem csgTagged_whole (vertices : List csgjs_vertex) (matId : GLC_uint) (n : Nat)
    (indices : List Int) (h : indices.length = 3 * n)
    (hhom : ∀ t ∈ csgTriangles indices, ∀ i ∈ t, ∀ j ∈ t,
      csgTag vertices i = csgTag vertices j) :
    csgTagged vertices matId indices = csgWholeTriangles vertices matId indices := by
  induction n generalizing indices with
  | zero =>
    have : indices = [] := List.eq_nil_of_length_eq_zero (by omega)
    subst this
    rfl
  | succ k ih =>
    match indices, h, hhom with
    | a :: b :: c :: rest, h, hhom =>
      have hr : rest.length = 3 * k := by
        simp only [List.length_cons] at h
        omega
      have hrec := ih rest hr (fun t ht => hhom t (by
        simp only [csgTriangles, List.mem_cons]
        exact Or.inr ht))
      have hab := hhom [a, b, c] (by simp [csgTriangles]) a (by simp) b (by simp)
      have hac := hhom [a, b, c] (by simp [csgTriangles]) a (by simp) c (by simp)
      unfold csgTagged csgWholeTriangles at hrec ⊢
      unfold csgTag at hab hac hrec ⊢
      by_cases ha : (vertexAt vertices a).map csgjs_vertex.matId = some matId
      · have hb : (vertexAt vertices b).map csgjs_vertex.matId = some matId := by
          rw [← hab]; exact ha
        have hc : (vertexAt vertices c).map csgjs_vertex.matId = some matId := by
          rw [← hac]; exact ha
        simp only [csgTriangles, List.filter_cons, ha, hb, hc, decide_True, if_true,
          List.map_cons, List.all_cons, List.all_nil, Bool.and_self, List.flatten_cons,
          List.cons_append, List.nil_append, hrec]
      · have hb : ¬ (vertexAt vertices b).map csgjs_vertex.matId = some matId := by
          rw [← hab]; exact ha
        have hc : ¬ (vertexAt vertices c).map csgjs_vertex.matId = some matId := by
          rw [← hac]; exact ha
        simp only [csgTriangles, List.filter_cons, ha, hb, hc, decide_False,
          Bool.false_eq_true, if_false, List.all_cons, List.all_nil, Bool.and_self,
          Bool.false_and, hrec]
    | [], h, _ => simp at h
    | [_], h, _ => simp at h; omega
    | [_, _], h, _ => simp at h; omega

theorem csgWholeTriangles_length (vertices : List csgjs_vertex) (matId : GLC_uint)
    (indices : List Int) : (csgWholeTriangles vertices matId indices).length % 3 = 0 := by
  unfold csgWholeTriangles
  rw [List.length_map, List.length_flatten]
  generalize (fun (t : List Int) => t.all (fun i => decide (csgTag vertices i = some matId)))
    = p
  have hall : ∀ t ∈ (csgTriangles indices).filter p, t.length = 3 := by
    intro t ht
    have ht2 := (List.mem_filter.1 ht).1
    clear ht
    induction indices using csgTriangles.induct with
    | case1 a b c rest ih =>
      simp only [csgTriangles, List.mem_cons] at ht2
      rcases ht2 with h | h
      · rw [h]; rfl
      · exact ih h
    | case2 l hl =>
      rw [csgTriangles] at ht2
      · simp at ht2
      · intro a b c rest h
        exact hl a b c rest h
  generalize (csgTriangles indices).filter p = ts at hall
  induction ts with
  | nil => rfl
  | cons t rest ih =>
    have := hall t (List.mem_cons_self _ _)
    have := ih (fun x hx => hall x (List.mem_cons_of_mem _ hx))
    simp only [List.map_cons, List.sum_cons]
    omega

/-- C27, counterexample: the model of one triangle whose vertices carry the tags 7, 8, 8
and the hash of the materials 7 and 8 satisfy the conditions of the claim, and the loop
hands the index lists `[0]` and `[1, 2]` to `addTriangles`. -/
theorem csg_whole_triangles_counterexample :
    sampleMixedCsgModel.indices.length % 3 = 0 ∧
    (∀ i ∈ sampleMixedCsgModel.indices, ∃ v, vertexAt sampleMixedCsgModel.vertices i = some v ∧
      v.matId ∈ QHash.keys [(7, some 7), ((8 : GLC_uint), some (8 : GLC_uint))]) ∧
    csgPassedLists sampleMixedCsgModel.vertices [(7, some 7), (8, some 8)]
      sampleMixedCsgModel.indices = some ([[0], [1, 2]], []) ∧
    ¬ (∀ l ∈ [[0], [1, (2 : GLuint)]], l.length % 3 = 0) ∧
    (meshFromCsgModel sampleMixedCsgModel [(7, some 7), (8, some 8)] GLC_Mesh.new 9).map
      (fun m => (m.m_PrimitiveGroups.map (fun e => e.2.map (fun x =>
        (x.1, x.2.m_TrianglesIndexSize))))) = some [[(7, 1), (8, 2)]] := by
  refine ⟨by decide, by decide, by rfl, by decide, by rfl⟩

/-- C27, amended: for every model whose index list is a list of triangles (length
divisible by 3), whose vertex tags are all keys of the material hash and in which the
three vertices of every triangle carry the same tag, the loop of `meshFromCsgModel` hands
to `addTriangles`, for every material of the hash that tags a triangle and in the order of
the hash, the triangles of the model that carry the tag of the material, whole and in the
order of the model; the length of every list handed over is divisible by 3 and the working
list is empty after the loop. -/
theorem csg_whole_triangles (model : csgjs_model)
    (materialHash : QHash GLC_uint (Option GLC_uint))
    (hnodup : (QHash.keys materialHash).Nodup)
    (h3 : model.indices.length % 3 = 0)
    (htag : ∀ i ∈ model.indices, ∃ v, vertexAt model.vertices i = some v ∧
      v.matId ∈ QHash.keys materialHash)
    (hhom : ∀ t ∈ csgTriangles model.indices, ∀ i ∈ t, ∀ j ∈ t,
      csgTag model.vertices i = csgTag model.vertices j) :
    csgPassedLists model.vertices materialHash model.indices =
        some ((materialHash.map (fun e =>
          csgWholeTriangles model.vertices e.1 model.indices)).filter (fun l => !l.isEmpty),
          []) ∧
      ∀ lists left, csgPassedLists model.vertices materialHash model.indices =
        some (lists, left) → ∀ l ∈ lists, l.length % 3 = 0 ∧
          ∃ matId ∈ QHash.keys materialHash,
            l = csgWholeTriangles model.vertices matId model.indices := by
  have hin : ∀ i ∈ model.indices, (vertexAt model.vertices i).isSome = true := by
    intro i hi
    obtain ⟨v, hv, _⟩ := htag i hi
    rw [hv]; rfl
  have hlen : model.indices.length = 3 * (model.indices.length / 3) := by omega
  have hmap : materialHash.map (fun e => csgTagged model.vertices e.1 model.indices) =
      materialHash.map (fun e => csgWholeTriangles model.vertices e.1 model.indices) := by
    apply List.map_congr_left
    intro e _
    exact csgTagged_whole model.vertices e.1 _ model.indices hlen hhom
  have hmain := csgPassedLists_eq model.vertices materialHash model.indices hnodup hin
  rw [hmap, csgLeft_eq_nil model.vertices materialHash model.indices htag] at hmain
  refine ⟨hmain, ?_⟩
  intro lists left hl l hmem
  rw [hmain] at hl
  simp only [Option.some.injEq, Prod.mk.injEq] at hl
  rw [← hl.1] at hmem
  obtain ⟨hm1, _⟩ := List.mem_filter.1 hmem
  obtain ⟨e, he, hel⟩ := List.mem_map.1 hm1
  rw [← hel]
  exact ⟨csgWholeTriangles_length _ _ _, e.1, List.mem_map.2 ⟨e, he, rfl⟩, rfl⟩

theorem csg_whole_triangles_witness :
    csgPassedLists sampleCsgModel.vertices [(7, some 7), (8, some 8)] sampleCsgModel.indices =
        some (([(7, some 7), ((8 : GLC_uint), some (8 : GLC_uint))].map (fun e =>
          csgWholeTriangles sampleCsgModel.vertices e.1 sampleCsgModel.indices)).filter
            (fun l => !l.isEmpty), []) ∧
      ∀ lists left, csgPassedLists sampleCsgModel.vertices [(7, some 7), (8, some 8)]
          sampleCsgModel.indices = some (lists, left) → ∀ l ∈ lists, l.length % 3 = 0 ∧
          ∃ matId ∈ QHash.keys [(7, some 7), ((8 : GLC_uint), some (8 : GLC_uint))],
            l = csgWholeTriangles sampleCsgModel.vertices matId sampleCsgModel.indices :=
  csg_whole_triangles sampleCsgModel [(7, some 7), (8, some 8)] (by decide) (by decide)
    (by decide) (by decide)

/-! ## The allocation of primitive ids -/

/-- C6, counterexample: on the mesh that `loadFromDataStream` reads from a stream holding
the counter 4294967295, two triangle batches at LOD 0 return the ids 4294967295 and 0, and
the counter is 0 after the first call and 1 after the second one: the counter has not
grown by 1 and the ids do not increase. On a fresh mesh the same happens with the
`2 ^ 32 - 1`-th and the `2 ^ 32`-th call at LOD 0. -/
theorem primitive_id_allocation_counterexample :
    (GLC_Mesh.new.loadFromDataStream true sampleFullCounterStream [] []).map
        (fun r => r.1.m_NextPrimitiveLocalId) = some 4294967295 ∧
      ((GLC_Mesh.new.loadFromDataStream true sampleFullCounterStream [] []).bind
        (fun r => (applyCall r.1 sampleTriangleCall).map
          (fun a => (a.2, a.1.m_NextPrimitiveLocalId)))) = some (4294967295, 0) ∧
      ((GLC_Mesh.new.loadFromDataStream true sampleFullCounterStream [] []).bind
        (fun r => (applyCalls r.1 [sampleTriangleCall, sampleTriangleCall]).map
          (fun a => (a.2, a.1.m_NextPrimitiveLocalId)))) = some ([4294967295, 0], 1) ∧
      ∃ m ids, applyCalls GLC_Mesh.new (List.replicate 4294967296 sampleTriangleCall) =
          some (m, ids) ∧
        ids[4294967294]? = some 4294967295 ∧ ids[4294967295]? = some 0 := by
  refine ⟨by decide, by decide, by decide, _, _,
    applyCalls_eq _ GLC_Mesh.new Ingesting_new (fun c hc => by
      rw [List.eq_of_mem_replicate hc]; decide), ?_⟩
  have e : GLC_Mesh.new.m_NextPrimitiveLocalId = 1 := rfl
  rw [idsAll_lod_zero _ _ (fun c hc => by rw [List.eq_of_mem_replicate hc]; rfl), e,
    List.length_replicate, iterate_increment_one]
  constructor <;> simp [List.getElem?_map, List.getElem?_range]

/-- C6, amended. Each of the three add calls, when it succeeds, returns the value of the
counter of primitive ids and increments the 32-bit counter by 1 modulo `2 ^ 32` if
`lod = 0` (so by exactly 1 below 4294967295), and returns 0 and leaves the counter as it is
if `lod` is not 0; fewer than `2 ^ 32` successive LOD-0 calls with non-empty index lists on
a freshly constructed mesh succeed and return 1, 2, 3, ... -/
theorem primitive_id_allocation :
    (∀ (m : GLC_Mesh) (c : AddCall) (r : GLC_Mesh × GLC_uint), applyCall m c = some r →
      (c.lod = 0 → r.2 = m.m_NextPrimitiveLocalId ∧
        r.1.m_NextPrimitiveLocalId = (m.m_NextPrimitiveLocalId + 1) % 4294967296 ∧
        (m.m_NextPrimitiveLocalId < 4294967295 →
          r.1.m_NextPrimitiveLocalId = m.m_NextPrimitiveLocalId + 1)) ∧
      (c.lod ≠ 0 → r.2 = 0 ∧ r.1.m_NextPrimitiveLocalId = m.m_NextPrimitiveLocalId)) ∧
    (∀ cs : List AddCall, (∀ c ∈ cs, c.indexList ≠ [] ∧ c.lod = 0) →
      cs.length < 4294967296 →
      ∃ m, applyCalls GLC_Mesh.new cs = some (m, List.range' 1 cs.length)) := by
  constructor
  · intro m c r h
    obtain ⟨h1, h2⟩ := applyCall_id m c r h
    constructor
    · intro h0
      rw [if_pos h0] at h1 h2
      refine ⟨h1, h2, fun hlt => ?_⟩
      rw [h2]
      exact Nat.mod_eq_of_lt (Nat.succ_lt_succ hlt)
    · intro h0
      rw [if_neg h0] at h1 h2
      exact ⟨h1, h2⟩
  · intro cs h hlen
    refine ⟨AddCall.resultAll cs GLC_Mesh.new, ?_⟩
    rw [applyCalls_eq cs GLC_Mesh.new Ingesting_new (fun c hc => (h c hc).1)]
    rw [idsAll_lod_zero cs _ (fun c hc => (h c hc).2)]
    have e : GLC_Mesh.new.m_NextPrimitiveLocalId = 1 := rfl
    rw [e, iterate_increment _ 1 (by omega)]

/-- C6, instance: a triangle batch, a strip and a fan at LOD 0 on a fresh mesh get the
ids 1, 2, 3. -/
theorem primitive_id_allocation_witness :
    ∃ m, applyCalls GLC_Mesh.new
        [{ kind := .triangles, pMaterial := some 7, indexList := [0, 1, 2] },
         { kind := .strip, pMaterial := none, indexList := [0, 1, 2, 3], newId := 9 },
         { kind := .fan, pMaterial := some 8, indexList := [4, 1, 2, 3] }]
      = some (m, [1, 2, 3]) :=
  primitive_id_allocation.2 _ (by decide) (by decide)

/-! ## The current LOD -/

theorem roundTiesToEven_ge (a d g : Nat) (hd : 0 < d) (h : g * d ≤ a) :
    g ≤ roundTiesToEven a d := by
  have hq : g ≤ a / d := (Nat.le_div_iff_mul_le hd).2 h
  unfold roundTiesToEven
  simp only
  split_ifs <;> omega

theorem roundTiesToEven_le (a d g : Nat) (hd : 0 < d) (h : a ≤ g * d) :
    roundTiesToEven a d ≤ g := by
  have hdm := Nat.div_add_mod a d
  have hq : a / d ≤ g := by
    apply Nat.div_le_of_le_mul
    rw [Nat.mul_comm]
    exact h
  have hq1 : 0 < a % d → a / d + 1 ≤ g := by
    intro hr
    have h1 : d * (a / d) < g * d := by omega
    rw [Nat.mul_comm g d] at h1
    exact Nat.lt_of_mul_lt_mul_left h1
  unfold roundTiesToEven
  simp only
  split_ifs with h1 h2 h3
  · exact hq
  · exact hq1 (by omega)
  · exact hq
  · exact hq1 (by omega)

theorem roundTiesToEven_le_succ (a d : Nat) (hd : 0 < d) :
    roundTiesToEven a d * d ≤ a + d := by
  have h1 : roundTiesToEven a d ≤ a / d + 1 := by
    apply roundTiesToEven_le a d _ hd
    have := Nat.div_add_mod a d
    have hr := Nat.mod_lt a hd
    rw [Nat.add_mul, Nat.one_mul, Nat.mul_comm]
    omega
  calc roundTiesToEven a d * d ≤ (a / d + 1) * d := Nat.mul_le_mul_right d h1
    _ = a / d * d + d := by rw [Nat.add_mul, Nat.one_mul]
    _ ≤ a + d := Nat.add_le_add_right (Nat.div_mul_le_self a d) d

theorem floorLog2Go_spec (fuel v : Nat) (h1 : 1 ≤ v) (hf : v ≤ fuel) :
    2 ^ floorLog2Go fuel v ≤ v ∧ v < 2 ^ (floorLog2Go fuel v + 1) := by
  induction fuel generalizing v with
  | zero => omega
  | succ f ih =>
    unfold floorLog2Go
    by_cases h2 : v < 2
    · rw [if_pos h2]
      simp only [pow_zero, zero_add, pow_one]
      omega
    · rw [if_neg h2]
      obtain ⟨i1, i2⟩ := ih (v / 2) (by omega) (by omega)
      rw [pow_succ, pow_succ]
      rw [pow_succ] at i2
      omega

theorem floorLog2_spec (v : Nat) (h1 : 1 ≤ v) :
    2 ^ floorLog2 v ≤ v ∧ v < 2 ^ (floorLog2 v + 1) :=
  floorLog2Go_spec v v h1 (le_refl _)

theorem floorLog2_lt (v k : Nat) (h1 : 1 ≤ v) (h : v < 2 ^ k) : floorLog2 v < k := by
  have h2 := (floorLog2_spec v h1).1
  exact (Nat.pow_lt_pow_iff_right (by norm_num : 1 < 2)).1 (lt_of_le_of_lt h2 h)

theorem floorLog2_ge (v k : Nat) (h : 2 ^ k ≤ v) : k ≤ floorLog2 v := by
  have h1 : 1 ≤ v := le_trans Nat.one_le_two_pow h
  have h2 := (floorLog2_spec v h1).2
  have := (Nat.pow_lt_pow_iff_right (by norm_num : 1 < 2)).1 (lt_of_le_of_lt h h2)
  omega
theorem divHundred_eq (v : Nat) (h : v ≠ 0) :
    ∃ s, Double.divHundred v = { num := roundTiesToEven (v * 2 ^ s) 100, scale := s } ∧
      (v < 2 ^ 32 → 27 ≤ s) := by
  unfold Double.divHundred
  rw [if_neg h]
  refine ⟨_, rfl, fun hv => ?_⟩
  have hl := floorLog2_lt v 32 (by omega) hv
  split_ifs <;> omega

theorem mulInt_cases (x : Double) (n : Nat) :
    (x.mulInt n).scale = x.scale ∧
      ((x.num * n < 2 ^ 53 ∧ (x.mulInt n).num = x.num * n) ∨
        ∃ t, 2 ^ (t + 52) ≤ x.num * n ∧
          (x.mulInt n).num = roundTiesToEven (x.num * n) (2 ^ t) * 2 ^ t) := by
  unfold Double.mulInt
  simp only
  by_cases hp : x.num * n < 2 ^ 53
  · rw [if_pos hp]
    exact ⟨rfl, Or.inl ⟨hp, rfl⟩⟩
  · rw [if_neg hp]
    refine ⟨rfl, Or.inr ⟨floorLog2 (x.num * n) - 52, ?_, rfl⟩⟩
    have h1 : 53 ≤ floorLog2 (x.num * n) := floorLog2_ge _ _ (by omega)
    have h2 := (floorLog2_spec (x.num * n) (le_trans Nat.one_le_two_pow (by omega : 2 ^ 53 ≤ _))).1
    have e : floorLog2 (x.num * n) - 52 + 52 = floorLog2 (x.num * n) := by omega
    rw [e]
    exact h2

/-- The product of a `double` of at least 1 by an `int` is at least that `int`. -/
theorem truncate_mulInt_ge (x : Double) (n : Nat) (hx : 2 ^ x.scale ≤ x.num)
    (hn : n < 2 ^ 53) : n ≤ (x.mulInt n).truncate := by
  obtain ⟨hs, hc⟩ := mulInt_cases x n
  have hP : n * 2 ^ x.scale ≤ x.num * n := by
    rw [Nat.mul_comm n]
    exact Nat.mul_le_mul_right n hx
  have hpos : 0 < 2 ^ x.scale := Nat.two_pow_pos _
  unfold Double.truncate
  rw [hs, Nat.le_div_iff_mul_le hpos]
  rcases hc with ⟨_, e⟩ | ⟨t, ht, e⟩
  · rw [e]; exact hP
  · rw [e]
    have htpos : 0 < 2 ^ t := Nat.two_pow_pos _
    by_cases hts : t ≤ x.scale
    · have e2 : n * 2 ^ x.scale = n * 2 ^ (x.scale - t) * 2 ^ t := by
        rw [Nat.mul_assoc, ← pow_add, Nat.sub_add_cancel hts]
      rw [e2]
      apply Nat.mul_le_mul_right
      apply roundTiesToEven_ge _ _ _ htpos
      rw [← e2]
      exact hP
    · have h1 : 2 ^ 52 ≤ roundTiesToEven (x.num * n) (2 ^ t) := by
        apply roundTiesToEven_ge _ _ _ htpos
        rw [← pow_add, Nat.add_comm]
        exact ht
      have h2 : n * 2 ^ x.scale ≤ 2 ^ 52 * 2 ^ t := by
        have h3 : 2 ^ (x.scale + 1) ≤ 2 ^ t :=
          Nat.pow_le_pow_right (by norm_num) (by omega)
        rw [pow_succ] at h3
        calc n * 2 ^ x.scale ≤ 2 ^ 53 * 2 ^ x.scale :=
              Nat.mul_le_mul_right _ (le_of_lt hn)
          _ = 2 ^ 52 * (2 ^ x.scale * 2) := by ring
          _ ≤ 2 ^ 52 * 2 ^ t := Nat.mul_le_mul_left _ h3
      exact le_trans h2 (Nat.mul_le_mul_right _ h1)

/-- The product of the `double` nearest to `v / 100` by an `int` of at most 100 does not
exceed `v` by a whole unit. -/
theorem truncate_mulInt_le (x : Double) (n v : Nat) (hn : n ≤ 100) (hs : 27 ≤ x.scale)
    (hx : x.num * 100 ≤ v * 2 ^ x.scale + 100) (hv : v < 2 ^ 32) :
    (x.mulInt n).truncate ≤ v := by
  obtain ⟨hsc, hc⟩ := mulInt_cases x n
  have hpos : 0 < 2 ^ x.scale := Nat.two_pow_pos _
  have hP : x.num * n ≤ v * 2 ^ x.scale + 100 :=
    le_trans (Nat.mul_le_mul_left _ hn) hx
  have h27 : 2 ^ 27 ≤ 2 ^ x.scale := Nat.pow_le_pow_right (by norm_num) hs
  have hgoal : ∀ r, r < v * 2 ^ x.scale + 2 ^ x.scale → r / 2 ^ x.scale ≤ v := by
    intro r hr
    have : r / 2 ^ x.scale < v + 1 := by
      rw [Nat.div_lt_iff_lt_mul hpos, Nat.add_mul, Nat.one_mul]
      exact hr
    omega
  unfold Double.truncate
  rw [hsc]
  apply hgoal
  rcases hc with ⟨_, e⟩ | ⟨t, ht, e⟩
  · rw [e]
    norm_num at h27
    omega
  · rw [e]
    have htpos : 0 < 2 ^ t := Nat.two_pow_pos _
    have h1 := roundTiesToEven_le_succ (x.num * n) (2 ^ t) htpos
    have hlt : 2 ^ (t + 52) < 2 ^ (x.scale + 32) := by
      have h3 : v * 2 ^ x.scale + 100 < 2 ^ 32 * 2 ^ x.scale := by
        have h4 : (v + 1) * 2 ^ x.scale ≤ 2 ^ 32 * 2 ^ x.scale :=
          Nat.mul_le_mul_right _ hv
        rw [Nat.add_mul, Nat.one_mul] at h4
        norm_num at h27
        omega
      rw [pow_add _ x.scale, Nat.mul_comm (2 ^ x.scale)]
      omega
    have htl : t + 52 < x.scale + 32 :=
      (Nat.pow_lt_pow_iff_right (by norm_num : 1 < 2)).1 hlt
    have h5 : 2 ^ (t + 1) ≤ 2 ^ x.scale := Nat.pow_le_pow_right (by norm_num) (by omega)
    rw [pow_succ] at h5
    norm_num at h27
    omega

theorem scaledLod_zero (value : Int) :
    scaledLod value 0 = some 0 := by
  have e : ((Double.divHundred value.natAbs).mulInt 0).truncate = 0 := by
    unfold Double.mulInt Double.truncate
    simp
  unfold scaledLod
  simp only [e]
  split_ifs <;> simp_all

/-- The conversion is defined for an `int` value and at most 100 LODs. -/
theorem scaledLod_defined (value : Int) (n : Nat) (hmin : -2147483648 ≤ value)
    (hmax : value ≤ 2147483647) (hn : n ≤ 100) : ∃ r, scaledLod value n = some r := by
  by_cases h0 : value.natAbs = 0
  · refine ⟨0, ?_⟩
    have e : ((Double.divHundred value.natAbs).mulInt n).truncate = 0 := by
      rw [h0]
      unfold Double.divHundred Double.mulInt Double.truncate
      simp
    unfold scaledLod
    simp only [e]
    have : value = 0 := by omega
    subst this
    simp
  · have hv : value.natAbs < 2 ^ 32 := by norm_num; omega
    obtain ⟨s, hs, h27⟩ := divHundred_eq value.natAbs h0
    have hle : ((Double.divHundred value.natAbs).mulInt n).truncate ≤ value.natAbs := by
      apply truncate_mulInt_le _ n value.natAbs hn
      · rw [hs]; exact h27 hv
      · rw [hs]
        exact roundTiesToEven_le_succ _ 100 (by norm_num)
      · exact hv
    unfold scaledLod
    simp only
    by_cases hp : 0 ≤ value
    · rw [if_pos hp, if_pos (by omega)]
      exact ⟨_, rfl⟩
    · rw [if_neg hp, if_pos (by omega)]
      exact ⟨_, rfl⟩

theorem scaledLod_nonpos (value : Int) (n : Nat) (r : Int) (hv : value < 0)
    (h : scaledLod value n = some r) : r ≤ 0 := by
  unfold scaledLod at h
  simp only at h
  rw [if_neg (by omega)] at h
  split_ifs at h
  simp only [Option.some.injEq] at h
  omega

theorem scaledLod_nonneg (value : Int) (n : Nat) (r : Int) (hv : 0 ≤ value)
    (h : scaledLod value n = some r) : 0 ≤ r := by
  unfold scaledLod at h
  simp only at h
  rw [if_pos hv] at h
  split_ifs at h
  simp only [Option.some.injEq] at h
  omega

theorem scaledLod_ge (value : Int) (n : Nat) (r : Int) (hv : 100 ≤ value)
    (hn : n ≤ 2147483647) (h : scaledLod value n = some r) : (n : Int) ≤ r := by
  have h100 : 100 ≤ value.natAbs := by omega
  obtain ⟨s, hs, _⟩ := divHundred_eq value.natAbs (by omega)
  have hge : n ≤ ((Double.divHundred value.natAbs).mulInt n).truncate := by
    apply truncate_mulInt_ge
    · rw [hs]
      apply roundTiesToEven_ge _ _ _ (by norm_num)
      rw [Nat.mul_comm]
      exact Nat.mul_le_mul_right _ h100
    · norm_num; omega
  unfold scaledLod at h
  simp only at h
  rw [if_pos (by omega)] at h
  split_ifs at h
  simp only [Option.some.injEq] at h
  omega
theorem setCurrentLod_currentLod (m : GLC_Mesh) (value : Int) (r : GLC_Mesh)
    (hv : value ≠ 0) (h : m.setCurrentLod value = some r) :
    ∃ scaled, scaledLod value m.m_MeshData.lodCount.toNat = some scaled ∧
      r.m_CurrentLod =
        (if (if scaled ≥ m.m_MeshData.lodCount then m.m_MeshData.lodCount - 1 else scaled) < 0
          then 0
          else (if scaled ≥ m.m_MeshData.lodCount then m.m_MeshData.lodCount - 1
            else scaled)) := by
  unfold GLC_Mesh.setCurrentLod at h
  rw [if_pos hv] at h
  simp only at h
  cases hs : scaledLod value m.m_MeshData.lodCount.toNat with
  | none => rw [hs] at h; exact absurd h (by simp)
  | some scaled =>
    rw [hs] at h
    simp only [Option.some.injEq] at h
    refine ⟨scaled, rfl, ?_⟩
    rw [← h]
    split_ifs <;> rfl

/-- C30, counterexample: on a mesh of 101 LODs the value 2147483647 is scaled to
21474836.47 * 101, which is not a value of `int`: the conversion has no defined result,
where the claim promises the LOD 100. -/
theorem setCurrentLod_counterexample :
    sampleManyLodMesh.m_MeshData.lodCount = 101 ∧
      scaledLod 2147483647 101 = none ∧
      sampleManyLodMesh.setCurrentLod 2147483647 = none := by
  decide

/-- C30, amended. For every `int` value: on a mesh of at most 100 LODs `setCurrentLod`
returns; and whenever it returns (the scaled value is a value of `int`), on a mesh with
`lodCount >= 1` LODs the current LOD lies in `0 .. lodCount - 1`, the value 0 and every
negative value give LOD 0 and every value of at least 100 gives `lodCount - 1`, and on a
mesh without LOD the current LOD is 0. -/
theorem setCurrentLod_clamped (m : GLC_Mesh) (value : Int) (hmin : -2147483648 ≤ value)
    (hmax : value ≤ 2147483647) :
    (m.m_MeshData.lodCount ≤ 100 → ∃ r, m.setCurrentLod value = some r) ∧
    ∀ r, m.setCurrentLod value = some r → m.m_MeshData.lodCount ≤ 2147483647 →
      (1 ≤ m.m_MeshData.lodCount →
        0 ≤ r.m_CurrentLod ∧ r.m_CurrentLod ≤ m.m_MeshData.lodCount - 1 ∧
        (value ≤ 0 → r.m_CurrentLod = 0) ∧
        (100 ≤ value → r.m_CurrentLod = m.m_MeshData.lodCount - 1)) ∧
      (m.m_MeshData.lodCount = 0 → r.m_CurrentLod = 0) := by
  have hn : 0 ≤ m.m_MeshData.lodCount := by
    unfold GLC_MeshData.lodCount; omega
  constructor
  · intro h100
    by_cases hv : value = 0
    · subst hv
      exact ⟨{ m with m_CurrentLod := 0 }, by simp [GLC_Mesh.setCurrentLod]⟩
    · obtain ⟨s, hs⟩ := scaledLod_defined value m.m_MeshData.lodCount.toNat hmin hmax
        (by omega)
      unfold GLC_Mesh.setCurrentLod
      rw [if_pos hv]
      simp only [hs]
      exact ⟨_, rfl⟩
  · intro r h hint
    by_cases hv : value = 0
    · subst hv
      have e : r.m_CurrentLod = 0 := by
        simp only [GLC_Mesh.setCurrentLod, ne_eq, not_true_eq_false, if_false,
          Option.some.injEq] at h
        rw [← h]
      rw [e]
      exact ⟨fun h1 => ⟨le_refl _, by omega, fun _ => rfl, fun h => by omega⟩, fun _ => rfl⟩
    · obtain ⟨scaled, hs, e⟩ := setCurrentLod_currentLod m value r hv h
      rw [e]
      generalize hN : m.m_MeshData.lodCount = n at hn hint hs ⊢
      rcases lt_or_gt_of_ne hv with hneg | hpos
      · have h1 := scaledLod_nonpos value _ scaled hneg hs
        refine ⟨fun hn1 => ⟨?_, ?_, fun _ => ?_, fun h => by omega⟩, fun h0 => ?_⟩ <;>
          split_ifs <;> omega
      · have h2 := scaledLod_nonneg value _ scaled (le_of_lt hpos) hs
        by_cases h100 : 100 ≤ value
        · have h1 := scaledLod_ge value _ scaled h100 (by omega) hs
          have e2 : ((n.toNat : Nat) : Int) = n := Int.toNat_of_nonneg hn
          rw [e2] at h1
          refine ⟨fun hn1 => ⟨?_, ?_, fun _ => ?_, fun h => ?_⟩, fun h0 => ?_⟩ <;>
            split_ifs <;> omega
        · refine ⟨fun hn1 => ⟨?_, ?_, fun _ => ?_, fun h => ?_⟩, fun h0 => ?_⟩ <;>
            split_ifs <;> omega

/-- C30, instance: on the mesh of three LODs the value 250 gives the LOD 2 and the value 50
the LOD 1; with 50 LODs the value 58 is scaled to 28, the product of the two `double`
operations being just below 29. -/
theorem setCurrentLod_clamped_witness :
    (sampleThreeLodMesh.setCurrentLod 50).map (fun r => r.m_CurrentLod) = some 1 ∧
    scaledLod 58 50 = some 28 ∧
    ∃ r, sampleThreeLodMesh.setCurrentLod 250 = some r ∧ r.m_CurrentLod = 2 := by
  obtain ⟨h1, h2⟩ := setCurrentLod_clamped sampleThreeLodMesh 250 (by decide) (by decide)
  obtain ⟨r, hr⟩ := h1 (by decide)
  refine ⟨by decide, by decide, r, hr, ?_⟩
  have h3 := ((h2 r hr (by decide)).1 (by decide)).2.2.2 (by decide)
  rw [h3]
  decide

/-! ## The face count as an unsigned number -/

theorem getD_count_append (ls : List GLC_Lod) (a : Nat) (j : Nat) :
    (((ls ++ [({ accuracy := a } : GLC_Lod)])[j]?).map GLC_Lod.trianglesCount).getD 0 =
      ((ls[j]?).map GLC_Lod.trianglesCount).getD 0 := by
  rcases Nat.lt_trichotomy j ls.length with h | h | h
  · rw [List.getElem?_append_left h]
  · subst h
    simp
  · rw [List.getElem?_eq_none (by simp; omega), List.getElem?_eq_none (by omega)]

theorem getD_count_trianglesAdded (d : GLC_MeshData) (lod : Int) (n : Int) (j : Nat) :
    ((((d.trianglesAdded lod n).m_LodList)[j]?).map GLC_Lod.trianglesCount).getD 0 =
      ((d.m_LodList[j]?).map GLC_Lod.trianglesCount).getD 0 +
        (if 0 ≤ lod ∧ lod.toNat = j ∧ j < d.m_LodList.length then n else 0) := by
  unfold GLC_MeshData.trianglesAdded
  by_cases h : 0 ≤ lod ∧ lod.toNat < d.m_LodList.length
  · rw [GLC_MeshData.getLod_eq_some _ _ h.1 h.2]
    by_cases e : lod.toNat = j
    · subst e
      rw [if_pos ⟨h.1, rfl, h.2⟩]
      simp [List.getElem?_set, h.2]
    · rw [if_neg (fun hh => e hh.2.1)]
      simp [List.getElem?_set, e]
  · have hnone : d.getLod lod = none := by
      unfold GLC_MeshData.getLod
      by_cases h0 : 0 ≤ lod
      · rw [if_pos h0]
        exact List.getElem?_eq_none (by
          have := fun hh => h ⟨h0, hh⟩
          omega)
      · rw [if_neg h0]
    rw [hnone]
    have : ¬ (0 ≤ lod ∧ lod.toNat = j ∧ j < d.m_LodList.length) := by
      rintro ⟨h0, e, hj⟩
      exact h ⟨h0, by omega⟩
    rw [if_neg this]
    simp

/-- The triangle counter at a position of the bulk data store after one add call: the call
adds its number when it is made at the LOD of that position and the store holds the
position. -/
theorem countAt_result_any (c : AddCall) (m : GLC_Mesh) (j : Nat) :
    (c.result m).countAt j =
      m.countAt j +
        (if 0 ≤ c.lod ∧ c.lod.toNat = j ∧ j < (c.result m).m_MeshData.m_LodList.length
          then c.triangleCount else 0) := by
  unfold GLC_Mesh.countAt
  simp only [AddCall.result, trianglesAdded_lodList_length]
  rw [getD_count_trianglesAdded]
  by_cases hc : QHash.contains m.m_PrimitiveGroups c.lod = true
  · simp only [if_pos hc]
  · simp only [if_neg hc]
    rw [show (m.m_MeshData.appendLod c.accuracy).m_LodList =
      m.m_MeshData.m_LodList ++ [({ accuracy := c.accuracy } : GLC_Lod)] from rfl,
      getD_count_append]

theorem lodList_length_result_le (c : AddCall) (m : GLC_Mesh) :
    m.m_MeshData.m_LodList.length ≤ (c.result m).m_MeshData.m_LodList.length := by
  simp only [AddCall.result, trianglesAdded_lodList_length]
  split_ifs
  · exact le_refl _
  · simp [GLC_MeshData.appendLod]

theorem lodList_length_resultAll_le (cs : List AddCall) (m : GLC_Mesh) :
    m.m_MeshData.m_LodList.length ≤ (AddCall.resultAll cs m).m_MeshData.m_LodList.length := by
  induction cs generalizing m with
  | nil => exact le_refl _
  | cons c cs ih =>
    rw [AddCall.resultAll]
    exact le_trans (lodList_length_result_le c m) (ih _)

/-- The triangle counter of a LOD whose position the store holds at each of its calls is
the cumulative count of the calls at that LOD, and the store holds the position at the
end. -/
theorem countAt_resultAll_held (lod : Int) (h0 : 0 ≤ lod) (cs p : List AddCall)
    (hheld : lodHeld lod (p.map AddCall.lod) cs = true) :
    (AddCall.resultAll cs (AddCall.resultAll p GLC_Mesh.new)).countAt lod.toNat =
        (AddCall.resultAll p GLC_Mesh.new).countAt lod.toNat + cumulativeTriangles cs lod ∧
      (lod ∈ cs.map AddCall.lod →
        lod.toNat <
          (AddCall.resultAll cs (AddCall.resultAll p GLC_Mesh.new)).m_MeshData.m_LodList.length) := by
  induction cs generalizing p with
  | nil =>
    refine ⟨by simp [AddCall.resultAll, cumulativeTriangles], fun h => ?_⟩
    simp at h
  | cons c cs ih =>
    simp only [lodHeld, Bool.and_eq_true, Bool.or_eq_true, decide_eq_true_eq] at hheld
    obtain ⟨hc, hrest⟩ := hheld
    have hstep : c.result (AddCall.resultAll p GLC_Mesh.new) =
        AddCall.resultAll (p ++ [c]) GLC_Mesh.new := by
      rw [resultAll_append]
      rfl
    have hlen : (c.result (AddCall.resultAll p GLC_Mesh.new)).m_MeshData.m_LodList.length =
        (p.map AddCall.lod ++ [c.lod]).dedup.length := by
      rw [hstep, lodCount_resultAll_new, List.map_append]
      rfl
    have hrest2 : lodHeld lod ((p ++ [c]).map AddCall.lod) cs = true := by
      rw [List.map_append]
      exact hrest
    obtain ⟨i1, i2⟩ := ih (p ++ [c]) hrest2
    rw [← hstep] at i1 i2
    rw [AddCall.resultAll]
    constructor
    · rw [i1, countAt_result_any, cumulativeTriangles_cons, add_assoc]
      congr 1
      congr 1
      by_cases e : c.lod = lod
      · have hlt : lod.toNat <
            (c.result (AddCall.resultAll p GLC_Mesh.new)).m_MeshData.m_LodList.length := by
          rcases hc with hc | hc
          · exact absurd e hc
          · rw [hlen]; omega
        rw [if_pos e, if_pos ⟨by omega, by rw [e], hlt⟩]
      · rw [if_neg e, if_neg]
        rintro ⟨hc0, he, _⟩
        exact e (by omega)
    · intro hmem
      simp only [List.map_cons, List.mem_cons] at hmem
      rcases hmem with e | hmem
      · have hlt : lod.toNat <
            (c.result (AddCall.resultAll p GLC_Mesh.new)).m_MeshData.m_LodList.length := by
          rcases hc with hc | hc
          · exact absurd e.symm hc
          · rw [hlen]; omega
        exact lt_of_lt_of_le hlt (lodList_length_resultAll_le cs _)
      · exact i2 hmem

theorem lodHeld_zero (seen : List Int) (cs : List AddCall) : lodHeld 0 seen cs = true := by
  induction cs generalizing seen with
  | nil => rfl
  | cons c cs ih =>
    simp only [lodHeld, Bool.and_eq_true, Bool.or_eq_true, decide_eq_true_eq]
    refine ⟨Or.inr ?_, ih _⟩
    have : (seen ++ [c.lod]).dedup ≠ [] := by
      intro h
      have hm : c.lod ∈ (seen ++ [c.lod]).dedup := List.mem_dedup.2 (by simp)
      rw [h] at hm
      exact absurd hm (List.not_mem_nil _)
    have := List.length_pos.2 this
    omega

/-- The triangle counter of LOD 0 after any sequence of add calls on a fresh mesh. -/
theorem countAt_zero_resultAll (cs : List AddCall) :
    (AddCall.resultAll cs GLC_Mesh.new).countAt 0 = cumulativeTriangles cs 0 := by
  have h := (countAt_resultAll_held 0 (le_refl _) cs [] (lodHeld_zero _ cs)).1
  simp only [AddCall.resultAll, Int.toNat_zero] at h
  rw [h]
  simp [GLC_Mesh.countAt, GLC_Mesh.new]

theorem zero_mem_of_range (l : List Int) (hne : l ≠ [])
    (h : ∀ x ∈ l, 0 ≤ x ∧ x < (l.dedup.length : Int)) : (0 : Int) ∈ l := by
  by_contra h0
  have hsub : l.dedup.toFinset ⊆ Finset.Ico (1 : Int) (l.dedup.length : Int) := by
    intro x hx
    rw [List.mem_toFinset, List.mem_dedup] at hx
    have := h x hx
    have hx0 : x ≠ 0 := fun e => h0 (e ▸ hx)
    rw [Finset.mem_Ico]
    omega
  have hcard := Finset.card_le_card hsub
  rw [List.toFinset_card_of_nodup (List.nodup_dedup l), Int.card_Ico] at hcard
  have hpos : 0 < l.dedup.length := by
    apply List.length_pos.2
    intro e
    obtain ⟨x, hx⟩ := List.exists_mem_of_ne_nil l hne
    have : x ∈ l.dedup := List.mem_dedup.2 hx
    rw [e] at this
    exact absurd this (List.not_mem_nil _)
  omega

/-- Claim C28: for a non-empty sequence of add calls on an empty mesh (non-empty index
lists, the LODs used being `0 .. n-1` in any order of opening) in which every triangle
batch added at LOD 0 has a length divisible by 3 and every strip and fan added at LOD 0 has
at least 3 indices, `finish()` returns, and on the finished mesh the call
`getEquivalentTrianglesStripsFansIndex(0, id)` returns for every material id (no read of
the strip or fan expansion leaves its list and the final assertion holds), the length of
its result is divisible by 3, and the lengths for the materials of the mesh add up to
`3 * n`, `n` being the triangle counter of LOD 0, which `faceCount(0)` returns as an
`unsigned int`; when `n` is a value of that type, the face loop of the 3DS exporter writes
exactly `faceCount(0) = n` faces into the list of `faceCount(0)` faces. -/
theorem equivalent_triangles_total (cs : List AddCall) (hcs : cs ≠ [])
    (hne : ∀ c ∈ cs, c.indexList ≠ [])
    (hlod : ∀ c ∈ cs, 0 ≤ c.lod ∧ c.lod < ((cs.map AddCall.lod).dedup.length : Int))
    (hvalid : ∀ c ∈ cs, c.lod = 0 →
      (c.kind = .triangles → c.indexList.length % 3 = 0) ∧
      (c.kind = .strip ∨ c.kind = .fan → 3 ≤ c.indexList.length)) :
    ∃ m ids M n, applyCalls GLC_Mesh.new cs = some (m, ids) ∧ m.finish = some M ∧
      M.faceCount 0 = some (n % 4294967296) ∧ 0 ≤ n ∧
      (∀ id, ∃ l, M.getEquivalentTrianglesStripsFansIndex 0 id = some l ∧ l.length % 3 = 0) ∧
      (((M.m_MaterialHash.dedup.map (fun id =>
        ((M.getEquivalentTrianglesStripsFansIndex 0 id).getD []).length)).sum : Nat) : Int) =
          3 * n ∧
      (n < 4294967296 →
        M.faceCount 0 = some n ∧ create3dsFaces M = some (n.toNat, n.toNat)) := by
  have happ := applyCalls_eq cs GLC_Mesh.new Ingesting_new hne
  have hr0 := lodsInRange_resultAll_new cs hlod
  have hlen0 := lodCount_resultAll_new cs
  have hcount := countAt_zero_resultAll cs
  have hkey0 : (0 : Int) ∈ QHash.keys (AddCall.resultAll cs GLC_Mesh.new).m_PrimitiveGroups :=
    (mem_keys_resultAll cs _ 0).2 (Or.inr (zero_mem_of_range _ (by simpa using hcs) (by
      intro x hx
      obtain ⟨c, hc, e⟩ := List.mem_map.1 hx
      rw [← e]
      exact hlod c hc)))
  generalize hM : AddCall.resultAll cs GLC_Mesh.new = M0 at happ hr0 hlen0 hcount hkey0
  have hi : M0.Ingesting := by rw [← hM]; exact Ingesting_resultAll cs GLC_Mesh.new Ingesting_new
  have hf : M0.Filled := by rw [← hM]; exact Filled_resultAll cs GLC_Mesh.new Filled_new hne
  have hr : M0.LodsInRange := hr0
  have hpos : M0.m_PrimitiveGroups ≠ [] := by
    rw [← hM]; exact groups_ne_nil_resultAll cs _ hcs
  have hfin : M0.finish = some M0.packed := by
    apply finish_eq _ hi hpos _ hr
    rw [← hM, positions_resultAll]; rfl
  have hlod0 : QHash.contains M0.m_PrimitiveGroups 0 = true :=
    (QHash.contains_iff_mem_keys _ _).2 hkey0
  have hlen : (0 : Int).toNat < M0.m_MeshData.m_LodList.length := by
    rw [hi.lodCount]
    simpa using List.length_pos.2 hpos
  have hface : M0.packed.faceCount 0 = some (cumulativeTriangles cs 0 % 4294967296) := by
    rw [faceCount_of_countAt _ _ (le_refl _) (by rw [lodList_length_packed]; exact hlen),
      countAt_packed]
    simp only [Int.toNat_zero]
    rw [hcount]
  have hd : GLC_Mesh.new.m_DefaultMaterialId = 0 := rfl
  have hT : ∀ id, M0.trianglesOf 0 id = (AddCall.batches .triangles 0 id 0 cs).flatten := by
    intro id
    have ht := trianglesOf_resultAll cs GLC_Mesh.new 0 id
    rw [trianglesOf_new, List.nil_append, hd, hM] at ht
    exact ht
  have hS : ∀ id, M0.stripsOf 0 id = AddCall.batches .strip 0 id 0 cs := by
    intro id
    have hst := stripsOf_resultAll cs GLC_Mesh.new Ingesting_new 0 id
    rw [stripsOf_new, List.nil_append, hd, hM] at hst
    exact hst
  have hF : ∀ id, M0.fansOf 0 id = AddCall.batches .fan 0 id 0 cs := by
    intro id
    have hfa := fansOf_resultAll cs GLC_Mesh.new Ingesting_new 0 id
    rw [fansOf_new, List.nil_append, hd, hM] at hfa
    exact hfa
  have hTlen : ∀ id, (M0.trianglesOf 0 id).length =
      ((AddCall.batches .triangles 0 id 0 cs).map List.length).sum := by
    intro id
    rw [hT, List.length_flatten]
  have ht3 : ∀ id, (M0.trianglesOf 0 id).length % 3 = 0 := by
    intro id
    rw [hTlen]
    apply sum_map_lengths_three
    intro b hb
    obtain ⟨c, hc, hk, hl, hcb⟩ := mem_batches_lod _ _ _ _ _ _ hb
    rw [← hcb]
    exact (hvalid c hc hl).1 hk
  have hs3 : ∀ id, ∀ s ∈ M0.stripsOf 0 id, 3 ≤ s.length := by
    intro id s hs
    rw [hS] at hs
    obtain ⟨c, hc, hk, hl, hcb⟩ := mem_batches_lod _ _ _ _ _ _ hs
    rw [← hcb]
    exact (hvalid c hc hl).2 (Or.inl hk)
  have hequiv := fun id => equivalent_length M0 hi hr hf 0 id hlod0 (ht3 id) (hs3 id)
  have hgetD : ∀ id, ((M0.packed.getEquivalentTrianglesStripsFansIndex 0 id).getD []).length =
      ((AddCall.batches .triangles 0 id 0 cs).map List.length).sum +
        ((AddCall.batches .strip 0 id 0 cs).map
          (fun (s : List GLuint) => 3 * (s.length - 2))).sum +
        ((AddCall.batches .fan 0 id 0 cs).map
          (fun (s : List GLuint) => 3 * (s.length - 2))).sum := by
    intro id
    obtain ⟨l, hl1, _, hl3⟩ := hequiv id
    rw [hl1, Option.getD_some, hl3, hTlen, hS, hF]
  have hmat : M0.packed.m_MaterialHash = M0.m_MaterialHash := rfl
  have hmemL : ∀ kind id, AddCall.batches kind 0 id 0 cs ≠ [] →
      id ∈ M0.packed.m_MaterialHash.dedup := by
    intro kind id h
    rw [List.mem_dedup, hmat, ← hM]
    exact batches_registered cs hne kind 0 id h
  have hnd := List.nodup_dedup M0.packed.m_MaterialHash
  have hsumNat : (M0.packed.m_MaterialHash.dedup.map (fun id =>
      ((M0.packed.getEquivalentTrianglesStripsFansIndex 0 id).getD []).length)).sum =
      ((cs.filter (fun c => decide (c.kind = .triangles ∧ c.lod = 0))).map
        (fun c => c.indexList.length)).sum +
      ((cs.filter (fun c => decide (c.kind = .strip ∧ c.lod = 0))).map
        (fun c => 3 * (c.indexList.length - 2))).sum +
      ((cs.filter (fun c => decide (c.kind = .fan ∧ c.lod = 0))).map
        (fun c => 3 * (c.indexList.length - 2))).sum := by
    simp only [hgetD]
    rw [sum_map_add_nat, sum_map_add_nat,
      sum_batches .triangles 0 List.length _ hnd cs 0 (hmemL .triangles),
      sum_batches .strip 0 (fun (s : List GLuint) => 3 * (s.length - 2)) _ hnd cs 0
        (hmemL .strip),
      sum_batches .fan 0 (fun (s : List GLuint) => 3 * (s.length - 2)) _ hnd cs 0 (hmemL .fan)]
  have hsumInt := three_cumulative cs 0 hvalid
  rw [← hsumNat] at hsumInt
  have hnonneg : 0 ≤ cumulativeTriangles cs 0 := by omega
  refine ⟨M0, _, M0.packed, cumulativeTriangles cs 0, happ, hfin, hface, hnonneg, ?_, hsumInt, ?_⟩
  · intro id
    obtain ⟨l, hl1, hl2, _⟩ := hequiv id
    exact ⟨l, hl1, hl2⟩
  · intro hlt
    refine ⟨by rw [hface, Int.emod_eq_of_lt hnonneg hlt], ?_⟩
    have hmod : (cumulativeTriangles cs 0 % 4294967296 % 4294967296).toNat =
        (cumulativeTriangles cs 0).toNat := by
      rw [Int.emod_emod_of_dvd _ (dvd_refl _), Int.emod_eq_of_lt hnonneg hlt]
    have h3 := sum_div_three M0.packed.m_MaterialHash.dedup (fun id =>
      ((M0.packed.getEquivalentTrianglesStripsFansIndex 0 id).getD []).length) (by
        intro id _
        obtain ⟨l, hl1, hl2, _⟩ := hequiv id
        simp only [hl1, Option.getD_some]
        exact hl2)
    have htot : (M0.packed.m_MaterialHash.dedup.map (fun id =>
        ((M0.packed.getEquivalentTrianglesStripsFansIndex 0 id).getD []).length / 3)).sum =
        (cumulativeTriangles cs 0).toNat := by
      beta_reduce at h3
      omega
    unfold create3dsFaces
    rw [hface]
    simp only [Option.bind_eq_bind, Option.some_bind, hmod]
    rw [writeMaterialFaces_eq M0.packed _ _ 0
      (fun id _ => by obtain ⟨l, hl1, _⟩ := hequiv id; exact ⟨l, hl1⟩)
      (by rw [htot]; omega)]
    simp only [Option.some_bind, Nat.zero_add, htot, Option.pure_def]

/-- C28, instance: calls that open the LOD 1 before the LOD 0. -/
theorem equivalent_triangles_total_witness :
    ∃ m ids M n, applyCalls GLC_Mesh.new sampleCoarseFirstCalls = some (m, ids) ∧
      m.finish = some M ∧
      M.faceCount 0 = some (n % 4294967296) ∧ 0 ≤ n ∧
      (∀ id, ∃ l, M.getEquivalentTrianglesStripsFansIndex 0 id = some l ∧ l.length % 3 = 0) ∧
      (((M.m_MaterialHash.dedup.map (fun id =>
        ((M.getEquivalentTrianglesStripsFansIndex 0 id).getD []).length)).sum : Nat) : Int) =
          3 * n ∧
      (n < 4294967296 →
        M.faceCount 0 = some n ∧ create3dsFaces M = some (n.toNat, n.toNat)) :=
  equivalent_triangles_total sampleCoarseFirstCalls (by decide) (by decide) (by decide)
    (by decide)

theorem sampleCoarseFirstCalls_faces :
    ((applyCalls GLC_Mesh.new sampleCoarseFirstCalls).bind (fun r => r.1.finish)).bind
        (fun M => create3dsFaces M) = some (7, 7) ∧
    ((applyCalls GLC_Mesh.new sampleCoarseFirstCalls).bind (fun r => r.1.finish)).map
        (fun M => M.faceCount 0) = some (some 7) := by
  constructor <;> rfl

theorem sampleExportCalls_faces :
    ((applyCalls GLC_Mesh.new sampleExportCalls).bind (fun r => r.1.finish)).bind
        (fun M => create3dsFaces M) = some (7, 7) ∧
    ((applyCalls GLC_Mesh.new sampleExportCalls).bind (fun r => r.1.finish)).map
        (fun M => M.m_MaterialHash.map (fun id =>
          M.getEquivalentTrianglesStripsFansIndex 0 id)) =
      some [some [0, 1, 2, 2, 1, 3, 0, 1, 2, 3, 2, 1, 4, 2, 3], some [4, 1, 2, 4, 2, 3],
        some []] := by
  constructor <;> rfl

/-! ## A second `finish()` -/

theorem keepsRecords_finish : KeepsRecords GLC_PrimitiveGroup.finish :=
  fun _ => ⟨[], [], [], rfl⟩

theorem keepsRecords_id : KeepsRecords id :=
  fun g => ⟨g.m_TrianglesIndex, g.strips.index, g.fans.index, rfl⟩

theorem moveGroupIndexWith_finish (lod : Int) (g : GLC_PrimitiveGroup) (d : GLC_MeshData) :
    GLC_Mesh.moveGroupIndexWith GLC_PrimitiveGroup.finish lod g d =
      GLC_Mesh.moveGroupIndex lod g d := rfl

theorem moveLodGroupsWith_finish (lod : Int) (gs : LodPrimitiveGroups) (d : GLC_MeshData) :
    GLC_Mesh.moveLodGroupsWith GLC_PrimitiveGroup.finish lod gs d =
      GLC_Mesh.moveLodGroups lod gs d := by
  induction gs generalizing d with
  | nil => rfl
  | cons x rest ih =>
    obtain ⟨id, g⟩ := x
    simp only [GLC_Mesh.moveLodGroupsWith, GLC_Mesh.moveLodGroups, moveGroupIndexWith_finish, ih]

theorem moveAllGroupsWith_finish (pg : PrimitiveGroupsHash) (d : GLC_MeshData) :
    GLC_Mesh.moveAllGroupsWith GLC_PrimitiveGroup.finish pg d =
      GLC_Mesh.moveAllGroups pg d := by
  induction pg generalizing d with
  | nil => rfl
  | cons x rest ih =>
    obtain ⟨lod, gs⟩ := x
    simp only [GLC_Mesh.moveAllGroupsWith, GLC_Mesh.moveAllGroups, moveLodGroupsWith_finish, ih]

/-- With the `finish()` of the group that the model of `finish` uses, `finishWith` is
`finish`. -/
theorem finishWith_finish (m : GLC_Mesh) :
    m.finishWith GLC_PrimitiveGroup.finish = m.finish := by
  unfold GLC_Mesh.finishWith GLC_Mesh.finish GLC_Mesh.moveIndexToMeshDataLodWith
    GLC_Mesh.moveIndexToMeshDataLod
  simp only [moveAllGroupsWith_finish]

theorem moveGroupIndexWith_eq (groupFinish : GLC_PrimitiveGroup → GLC_PrimitiveGroup)
    (lod : Int) (g : GLC_PrimitiveGroup) (d : GLC_MeshData)
    (h0 : 0 ≤ lod) (h1 : lod.toNat < d.m_LodList.length) :
    GLC_Mesh.moveGroupIndexWith groupFinish lod g d =
      some (groupFinish (offsetGroup (indexArrayAt d.m_LodList lod.toNat).length g),
        d.withAppended lod.toNat (movedContent g)) := by
  have hlen : ∀ a, lod.toNat < (d.withAppended lod.toNat a).m_LodList.length := by
    intro a; rw [GLC_MeshData.withAppended_length]; exact h1
  have hidx : ∀ a, (indexArrayAt (d.withAppended lod.toNat a).m_LodList lod.toNat).length
      = (indexArrayAt d.m_LodList lod.toNat).length + a.length := by
    intro a
    simp [GLC_MeshData.withAppended, indexArrayAt_appendAtLod _ _ _ _ h1]
  unfold GLC_Mesh.moveGroupIndexWith offsetGroup movedContent
  by_cases c1 : 0 < g.m_TrianglesIndexSize <;>
    by_cases c2 : 0 < g.strips.indexSize <;>
    by_cases c3 : 0 < g.fans.indexSize <;>
    simp [GLC_PrimitiveGroup.containsTriangles, GLC_PrimitiveGroup.containsStrip,
      GLC_PrimitiveGroup.containsFan, PrimitiveRuns.nonEmpty, c1, c2, c3,
      GLC_PrimitiveGroup.setTrianglesOffseti, GLC_PrimitiveGroup.setBaseTrianglesStripOffseti,
      GLC_PrimitiveGroup.setBaseTrianglesFanOffseti, PrimitiveRuns.setBaseOffseti,
      GLC_MeshData.indexVectorSize_eq, GLC_MeshData.appendIndex_eq, h0, h1, hlen, hidx,
      GLC_MeshData.withAppended_append, GLC_MeshData.withAppended_length,
      GLC_MeshData.withAppended_nil, Nat.add_assoc]
theorem offsetGroup_fields (b : Nat) (g : GLC_PrimitiveGroup) (t s f : IndexList) :
    ((offsetGroup b g).withIndexLists t s f).m_TrianglesIndexSize = g.m_TrianglesIndexSize ∧
    ((offsetGroup b g).withIndexLists t s f).strips.indexSize = g.strips.indexSize ∧
    ((offsetGroup b g).withIndexLists t s f).strips.sizes = g.strips.sizes ∧
    ((offsetGroup b g).withIndexLists t s f).fans.indexSize = g.fans.indexSize ∧
    ((offsetGroup b g).withIndexLists t s f).fans.sizes = g.fans.sizes ∧
    (0 < g.m_TrianglesIndexSize →
      ((offsetGroup b g).withIndexLists t s f).m_TrianglesIndexOffseti = b) ∧
    (0 < g.strips.indexSize →
      ((offsetGroup b g).withIndexLists t s f).strips.offseti =
        runOffsets (b + (if 0 < g.m_TrianglesIndexSize then g.m_TrianglesIndex.length else 0))
          g.strips.sizes) ∧
    (0 < g.fans.indexSize →
      ((offsetGroup b g).withIndexLists t s f).fans.offseti =
        runOffsets (b + (if 0 < g.m_TrianglesIndexSize then g.m_TrianglesIndex.length else 0) +
          (if 0 < g.strips.indexSize then g.strips.index.length else 0)) g.fans.sizes) := by
  unfold offsetGroup GLC_PrimitiveGroup.withIndexLists
  by_cases c1 : 0 < g.m_TrianglesIndexSize <;>
    by_cases c2 : 0 < g.strips.indexSize <;>
    by_cases c3 : 0 < g.fans.indexSize <;>
    simp [GLC_PrimitiveGroup.containsTriangles, GLC_PrimitiveGroup.containsStrip,
      GLC_PrimitiveGroup.containsFan, PrimitiveRuns.nonEmpty, c1, c2, c3,
      GLC_PrimitiveGroup.setTrianglesOffseti, GLC_PrimitiveGroup.setBaseTrianglesStripOffseti,
      GLC_PrimitiveGroup.setBaseTrianglesFanOffseti, PrimitiveRuns.setBaseOffseti,
      GLC_PrimitiveGroup.computeVboOffset, PrimitiveRuns.computeVboOffset,
      PrimitiveRuns.withIndex]

theorem movedContent_length (g : GLC_PrimitiveGroup) :
    (movedContent g).length =
      (if 0 < g.m_TrianglesIndexSize then g.m_TrianglesIndex.length else 0) +
        ((if 0 < g.strips.indexSize then g.strips.index.length else 0) +
          (if 0 < g.fans.indexSize then g.fans.index.length else 0)) := by
  unfold movedContent
  by_cases c1 : 0 < g.m_TrianglesIndexSize <;>
    by_cases c2 : 0 < g.strips.indexSize <;>
    by_cases c3 : 0 < g.fans.indexSize <;>
    simp [GLC_PrimitiveGroup.containsTriangles, GLC_PrimitiveGroup.containsStrip,
      GLC_PrimitiveGroup.containsFan, PrimitiveRuns.nonEmpty, c1, c2, c3]

theorem rerecorded_offsetGroup (groupFinish : GLC_PrimitiveGroup → GLC_PrimitiveGroup)
    (hk : KeepsRecords groupFinish) (b : Nat) (g : GLC_PrimitiveGroup) :
    Rerecorded b (b + (movedContent g).length) g (groupFinish (offsetGroup b g)) := by
  obtain ⟨t, s, f, e⟩ := hk (offsetGroup b g)
  rw [e, movedContent_length]
  obtain ⟨f1, f2, f3, f4, f5, f6, f7, f8⟩ := offsetGroup_fields b g t s f
  refine ⟨f1, f2, f3, f4, f5, fun c1 => ?_, fun c2 => ?_, fun c3 => ?_⟩
  · rw [f6 c1, if_pos c1]
    omega
  · refine ⟨_, f7 c2, by omega, ?_⟩
    rw [if_pos c2]
    omega
  · refine ⟨_, f8 c3, by omega, ?_⟩
    rw [if_pos c3]
    omega

theorem Rerecorded.mono {b a b' a' : Nat} {g g' : GLC_PrimitiveGroup}
    (h : Rerecorded b a g g') (hb : b' ≤ b) (ha : a ≤ a') : Rerecorded b' a' g g' := by
  obtain ⟨f1, f2, f3, f4, f5, f6, f7, f8⟩ := h
  refine ⟨f1, f2, f3, f4, f5, fun c1 => ?_, fun c2 => ?_, fun c3 => ?_⟩
  · have := f6 c1
    omega
  · obtain ⟨x, e, h1, h2⟩ := f7 c2
    exact ⟨x, e, by omega, by omega⟩
  · obtain ⟨x, e, h1, h2⟩ := f8 c3
    exact ⟨x, e, by omega, by omega⟩

/-- The inner loop over the groups of one LOD: it returns, the index array of the LOD gets
a list appended, and every group has its offsets recorded anew between the lengths of the
array before and after the loop. -/
theorem moveLodGroupsWith_spec (groupFinish : GLC_PrimitiveGroup → GLC_PrimitiveGroup)
    (hk : KeepsRecords groupFinish) (lod : Int) (gs : LodPrimitiveGroups) (d : GLC_MeshData)
    (h0 : 0 ≤ lod) (h1 : lod.toNat < d.m_LodList.length) :
    ∃ gs' X, GLC_Mesh.moveLodGroupsWith groupFinish lod gs d =
        some (gs', d.withAppended lod.toNat X) ∧
      List.Forall₂ (fun a b => a.1 = b.1 ∧
        Rerecorded (indexArrayAt d.m_LodList lod.toNat).length
          ((indexArrayAt d.m_LodList lod.toNat).length + X.length) a.2 b.2) gs gs' := by
  induction gs generalizing d with
  | nil =>
    exact ⟨[], [], by simp [GLC_Mesh.moveLodGroupsWith, GLC_MeshData.withAppended_nil],
      List.Forall₂.nil⟩
  | cons x rest ih =>
    obtain ⟨id, g⟩ := x
    have hlen : lod.toNat < (d.withAppended lod.toNat (movedContent g)).m_LodList.length := by
      rw [GLC_MeshData.withAppended_length]; exact h1
    have hidx : (indexArrayAt (d.withAppended lod.toNat (movedContent g)).m_LodList
        lod.toNat).length =
        (indexArrayAt d.m_LodList lod.toNat).length + (movedContent g).length := by
      simp [GLC_MeshData.withAppended, indexArrayAt_appendAtLod _ _ _ _ h1]
    obtain ⟨rest', X, hr, hf⟩ := ih (d.withAppended lod.toNat (movedContent g)) hlen
    refine ⟨(id, groupFinish (offsetGroup (indexArrayAt d.m_LodList lod.toNat).length g)) ::
      rest', movedContent g ++ X, ?_, ?_⟩
    · simp only [GLC_Mesh.moveLodGroupsWith, moveGroupIndexWith_eq groupFinish lod g d h0 h1,
        Option.bind_eq_bind, Option.some_bind, hr, GLC_MeshData.withAppended_append]
      rfl
    · refine List.Forall₂.cons ⟨rfl, ?_⟩ ?_
      · exact (rerecorded_offsetGroup groupFinish hk _ g).mono (le_refl _)
          (by rw [List.length_append]; omega)
      · refine hf.imp ?_
        rintro a b ⟨e, hm⟩
        refine ⟨e, hm.mono ?_ ?_⟩
        · rw [hidx]; omega
        · rw [hidx, List.length_append]; omega
/-- The outer loop over the LODs: it returns, every index array of the bulk data gets a
list appended, and every group has its offsets recorded anew between the lengths of the
index array of its LOD before and after the loops. -/
theorem moveAllGroupsWith_spec (groupFinish : GLC_PrimitiveGroup → GLC_PrimitiveGroup)
    (hk : KeepsRecords groupFinish) (pg : PrimitiveGroupsHash) (d : GLC_MeshData)
    (hrange : ∀ e ∈ pg, 0 ≤ e.1 ∧ e.1.toNat < d.m_LodList.length) :
    ∃ pg' ls, GLC_Mesh.moveAllGroupsWith groupFinish pg d =
        some (pg', { d with m_LodList := ls }) ∧
      ls.length = d.m_LodList.length ∧
      (∀ n, ∃ X, indexArrayAt ls n = indexArrayAt d.m_LodList n ++ X) ∧
      List.Forall₂ (fun a b => a.1 = b.1 ∧
        List.Forall₂ (fun x y => x.1 = y.1 ∧
          Rerecorded (indexArrayAt d.m_LodList a.1.toNat).length
            (indexArrayAt ls a.1.toNat).length x.2 y.2) a.2 b.2) pg pg' := by
  induction pg generalizing d with
  | nil =>
    exact ⟨[], d.m_LodList, rfl, rfl, fun n => ⟨[], by simp⟩, List.Forall₂.nil⟩
  | cons e rest ih =>
    obtain ⟨lod, gs⟩ := e
    have hr1 := hrange (lod, gs) (List.mem_cons_self _ _)
    obtain ⟨gs', X, hg, hf⟩ := moveLodGroupsWith_spec groupFinish hk lod gs d hr1.1 hr1.2
    have hrange2 : ∀ e ∈ rest,
        0 ≤ e.1 ∧ e.1.toNat < (d.withAppended lod.toNat X).m_LodList.length := by
      intro e he
      rw [GLC_MeshData.withAppended_length]
      exact hrange e (List.mem_cons_of_mem _ he)
    obtain ⟨pg', ls, hp, hlen, harr, hf2⟩ := ih (d.withAppended lod.toNat X) hrange2
    have hstep : ∀ k, ∃ Y, indexArrayAt (d.withAppended lod.toNat X).m_LodList k =
        indexArrayAt d.m_LodList k ++ Y := by
      intro k
      simp only [GLC_MeshData.withAppended, indexArrayAt_appendAtLod _ _ _ _ hr1.2]
      by_cases hk2 : k = lod.toNat
      · exact ⟨X, by rw [if_pos hk2]⟩
      · exact ⟨[], by rw [if_neg hk2]; simp⟩
    have hgrow1 : ∀ k, (indexArrayAt d.m_LodList k).length ≤
        (indexArrayAt (d.withAppended lod.toNat X).m_LodList k).length := by
      intro k
      obtain ⟨Y, e⟩ := hstep k
      rw [e, List.length_append]
      omega
    have hgrow2 : ∀ k, (indexArrayAt (d.withAppended lod.toNat X).m_LodList k).length ≤
        (indexArrayAt ls k).length := by
      intro k
      obtain ⟨Y, e⟩ := harr k
      rw [e, List.length_append]
      omega
    have hat : (indexArrayAt (d.withAppended lod.toNat X).m_LodList lod.toNat).length =
        (indexArrayAt d.m_LodList lod.toNat).length + X.length := by
      simp [GLC_MeshData.withAppended, indexArrayAt_appendAtLod _ _ _ _ hr1.2]
    refine ⟨(lod, gs') :: pg', ls, ?_, ?_, ?_, ?_⟩
    · simp only [GLC_Mesh.moveAllGroupsWith, hg, Option.bind_eq_bind, Option.some_bind, hp]
      rfl
    · rw [hlen, GLC_MeshData.withAppended_length]
    · intro k
      obtain ⟨Y1, e1⟩ := hstep k
      obtain ⟨Y2, e2⟩ := harr k
      exact ⟨Y1 ++ Y2, by rw [e2, e1, List.append_assoc]⟩
    · refine List.Forall₂.cons ⟨rfl, ?_⟩ ?_
      · refine hf.imp ?_
        rintro a b ⟨e, hm⟩
        refine ⟨e, hm.mono (le_refl _) ?_⟩
        rw [← hat]
        exact hgrow2 _
      · refine hf2.imp ?_
        rintro a b ⟨e, hm⟩
        refine ⟨e, hm.imp ?_⟩
        rintro x y ⟨e2, hm2⟩
        exact ⟨e2, hm2.mono (hgrow1 _) (le_refl _)⟩

theorem finishWith_spec (groupFinish : GLC_PrimitiveGroup → GLC_PrimitiveGroup)
    (hk : KeepsRecords groupFinish) (m : GLC_Mesh)
    (hpos : 0 < m.m_MeshData.m_LodList.length)
    (hbb : m.m_MeshData.m_Positions.length % 3 = 0) (hr : m.LodsInRange) :
    ∃ pg' ls, m.finishWith groupFinish =
        some { m with
          m_PrimitiveGroups := pg'
          m_MeshData := { m.m_MeshData with m_LodList := ls } } ∧
      ls.length = m.m_MeshData.m_LodList.length ∧
      (∀ n, ∃ X, indexArrayAt ls n = indexArrayAt m.m_MeshData.m_LodList n ++ X) ∧
      List.Forall₂ (fun a b => a.1 = b.1 ∧
        List.Forall₂ (fun x y => x.1 = y.1 ∧
          Rerecorded (indexArrayAt m.m_MeshData.m_LodList a.1.toNat).length
            (indexArrayAt ls a.1.toNat).length x.2 y.2) a.2 b.2) m.m_PrimitiveGroups pg' := by
  obtain ⟨pg', ls, hp, hlen, harr, hf⟩ :=
    moveAllGroupsWith_spec groupFinish hk m.m_PrimitiveGroups m.m_MeshData hr
  refine ⟨pg', ls, ?_, hlen, harr, hf⟩
  unfold GLC_Mesh.finishWith
  have h1 : m.m_MeshData.lodCount > 0 := by
    unfold GLC_MeshData.lodCount
    omega
  rw [if_pos h1]
  have h2 : m.boundingBoxInRange = true := by
    simp [GLC_Mesh.boundingBoxInRange, hbb]
  simp only [h2, Bool.not_true, Bool.false_eq_true, if_false,
    GLC_Mesh.moveIndexToMeshDataLodWith, GLC_MeshData.finishLod, hp, Option.bind_eq_bind,
    Option.some_bind]
  rfl

theorem value_forall₂ {κ ν μ : Type} [DecidableEq κ] (R : ν → μ → Prop)
    (l : QHash κ ν) (l' : QHash κ μ)
    (h : List.Forall₂ (fun a b => a.1 = b.1 ∧ R a.2 b.2) l l') (k : κ) :
    (QHash.value l k = none ∧ QHash.value l' k = none) ∨
      ∃ x y, QHash.value l k = some x ∧ QHash.value l' k = some y ∧ R x y := by
  induction h with
  | nil => exact Or.inl ⟨rfl, rfl⟩
  | @cons a b t t' hab _ ih =>
    obtain ⟨k1, v1⟩ := a
    obtain ⟨k2, v2⟩ := b
    obtain ⟨e, hR⟩ := hab
    simp only at e hR
    subst e
    simp only [QHash.value]
    by_cases hk : k1 = k
    · simp only [if_pos hk]
      exact Or.inr ⟨v1, v2, rfl, rfl, hR⟩
    · simp only [if_neg hk]
      exact ih

/-- The group lookup in two meshes whose group maps correspond entry by entry. -/
theorem group_forall₂ (R : Int → GLC_PrimitiveGroup → GLC_PrimitiveGroup → Prop)
    (pg pg' : PrimitiveGroupsHash)
    (h : List.Forall₂ (fun a b => a.1 = b.1 ∧
      List.Forall₂ (fun x y => x.1 = y.1 ∧ R a.1 x.2 y.2) a.2 b.2) pg pg')
    (lod : Int) (id : GLC_uint) :
    ((QHash.value pg lod).bind (fun gs => QHash.value gs id) = none ∧
      (QHash.value pg' lod).bind (fun gs => QHash.value gs id) = none) ∨
    ∃ g g', (QHash.value pg lod).bind (fun gs => QHash.value gs id) = some g ∧
      (QHash.value pg' lod).bind (fun gs => QHash.value gs id) = some g' ∧ R lod g g' ∧
      lod ∈ QHash.keys pg := by
  induction h with
  | nil => exact Or.inl ⟨rfl, rfl⟩
  | @cons a b t t' hab _ ih =>
    obtain ⟨k1, gs1⟩ := a
    obtain ⟨k2, gs2⟩ := b
    obtain ⟨e, hR⟩ := hab
    simp only at e hR
    subst e
    simp only [QHash.value]
    by_cases hk : k1 = lod
    · subst hk
      simp only [if_true, Option.some_bind]
      rcases value_forall₂ (R k1) gs1 gs2 hR id with ⟨n1, n2⟩ | ⟨x, y, e1, e2, hxy⟩
      · exact Or.inl ⟨n1, n2⟩
      · exact Or.inr ⟨x, y, e1, e2, hxy, by simp [QHash.keys]⟩
    · simp only [if_neg hk]
      rcases ih with hn | ⟨g, g', e1, e2, hgg, hmem⟩
      · exact Or.inl hn
      · exact Or.inr ⟨g, g', e1, e2, hgg, by
          simp only [QHash.keys, List.map_cons, List.mem_cons]
          exact Or.inr hmem⟩

theorem group_eq_bind (m : GLC_Mesh) (lod : Int) (id : GLC_uint) :
    m.group lod id = (QHash.value m.m_PrimitiveGroups lod).bind (fun gs => QHash.value gs id) := by
  unfold GLC_Mesh.group
  cases QHash.value m.m_PrimitiveGroups lod <;> rfl

theorem keys_forall₂ {κ ν μ : Type} (R : κ × ν → κ × μ → Prop) (l : QHash κ ν)
    (l' : QHash κ μ) (h : List.Forall₂ (fun a b => a.1 = b.1 ∧ R a b) l l') :
    QHash.keys l' = QHash.keys l := by
  induction h with
  | nil => rfl
  | @cons a b t t' hab _ ih =>
    simp only [QHash.keys, List.map_cons] at ih ⊢
    rw [ih, hab.1]
theorem indexVector_some (d : GLC_MeshData) (i : Int) (v : List GLuint)
    (h : d.indexVector i = some v) :
    0 ≤ i ∧ i.toNat < d.m_LodList.length ∧ indexArrayAt d.m_LodList i.toNat = v := by
  unfold GLC_MeshData.indexVector GLC_MeshData.getLod at h
  by_cases h0 : 0 ≤ i
  · rw [if_pos h0] at h
    cases hl : d.m_LodList[i.toNat]? with
    | none => rw [hl] at h; simp at h
    | some l =>
      rw [hl] at h
      simp only [Option.map_some', Option.some.injEq] at h
      have hlt : i.toNat < d.m_LodList.length := by
        by_contra hc
        rw [List.getElem?_eq_none (by omega)] at hl
        exact absurd hl (by simp)
      refine ⟨h0, hlt, ?_⟩
      unfold indexArrayAt
      rw [hl]
      exact h
  · rw [if_neg h0] at h
    simp at h

/-- C26, counterexample: on the finished mesh of one triangle of material 7, whose group
has the triangle offset 0, a second `finish()` gives the group the triangle offset 3, the
length of the index array. The offset is the same when the `finish()` of the group keeps
the index lists instead of emptying them; the second `finish()` then also appends the
three indices to the index array again. -/
theorem second_finish_counterexample :
    (applyCalls ((GLC_Mesh.new.addVertice [0, 0, 0, 1, 0, 0, 0, 1, 0]).addNormals
      [0, 0, 1, 0, 0, 1, 0, 0, 1]) [sampleTriangleCall]).bind (fun r => r.1.finish) =
      some sampleTriangleMesh ∧
    sampleTriangleMesh.m_MeshData.indexVector 0 = some [0, 1, 2] ∧
    (sampleTriangleMesh.group 0 7).map (fun g => g.m_TrianglesIndexOffseti) = some 0 ∧
    (sampleTriangleMesh.finish.bind (fun m2 => m2.group 0 7)).map
      (fun g => g.m_TrianglesIndexOffseti) = some 3 ∧
    ((sampleTriangleInput.finishWith id).bind (fun m1 => m1.group 0 7)).map
      (fun g => g.m_TrianglesIndexOffseti) = some 0 ∧
    (((sampleTriangleInput.finishWith id).bind (fun m1 => m1.finishWith id)).bind
      (fun m2 => m2.group 0 7)).map (fun g => g.m_TrianglesIndexOffseti) = some 3 ∧
    ((sampleTriangleInput.finishWith id).bind (fun m1 => m1.finishWith id)).bind
      (fun m2 => m2.m_MeshData.indexVector 0) = some [0, 1, 2, 0, 1, 2] := by
  refine ⟨rfl, rfl, rfl, rfl, rfl, rfl, rfl⟩

/-- C26, amended: whatever the `finish()` of a group does with the index lists of the
group, as long as it keeps the recorded sizes and offsets: after a sequence of add calls
on an empty mesh (non-empty index lists, the LOD numbers used being `0 .. n-1`) and a
first `finish()`, a second `finish()` returns; the index array of every LOD after the
first call is an initial part of the array after the second call (no index is lost), every
group keeps its recorded sizes, and the offsets are recorded anew: every offset of a
sublist that the group contains lies inside the index array of the first call before the
second call, and at or after its end after the second call. -/
theorem second_finish (groupFinish : GLC_PrimitiveGroup → GLC_PrimitiveGroup)
    (hk : KeepsRecords groupFinish) (cs : List AddCall)
    (hne : ∀ c ∈ cs, c.indexList ≠ [])
    (hlod : ∀ c ∈ cs, 0 ≤ c.lod ∧ c.lod < ((cs.map AddCall.lod).dedup.length : Int)) :
    ∃ m ids m1 m2, applyCalls GLC_Mesh.new cs = some (m, ids) ∧
      m.finishWith groupFinish = some m1 ∧ m1.finishWith groupFinish = some m2 ∧
      (∀ lod v1, m1.m_MeshData.indexVector lod = some v1 →
        ∃ extra, m2.m_MeshData.indexVector lod = some (v1 ++ extra)) ∧
      ∀ lod id g1, m1.group lod id = some g1 →
        ∃ g2 v1, m2.group lod id = some g2 ∧ m1.m_MeshData.indexVector lod = some v1 ∧
          g2.m_TrianglesIndexSize = g1.m_TrianglesIndexSize ∧
          g2.strips.sizes = g1.strips.sizes ∧ g2.fans.sizes = g1.fans.sizes ∧
          (g1.containsTriangles = true →
            g1.m_TrianglesIndexOffseti < v1.length ∧ v1.length ≤ g2.m_TrianglesIndexOffseti) ∧
          (g1.containsStrip = true → ∃ b1 b2,
            g1.strips.offseti = runOffsets b1 g1.strips.sizes ∧
            g2.strips.offseti = runOffsets b2 g1.strips.sizes ∧
            b1 < v1.length ∧ v1.length ≤ b2) ∧
          (g1.containsFan = true → ∃ b1 b2,
            g1.fans.offseti = runOffsets b1 g1.fans.sizes ∧
            g2.fans.offseti = runOffsets b2 g1.fans.sizes ∧
            b1 < v1.length ∧ v1.length ≤ b2) := by
  have happ := applyCalls_eq cs GLC_Mesh.new Ingesting_new hne
  by_cases hcs : cs = []
  · subst hcs
    refine ⟨GLC_Mesh.new, [], GLC_Mesh.new.clear, GLC_Mesh.new.clear.clear, rfl, rfl, rfl,
      ?_, ?_⟩
    · intro lod v1 h
      have := indexVector_some _ _ _ h
      simp [GLC_Mesh.new, GLC_Mesh.clear, GLC_MeshData.clear] at this
    · intro lod id g hg
      simp [GLC_Mesh.group, GLC_Mesh.new, GLC_Mesh.clear, QHash.value] at hg
  · have hi := Ingesting_resultAll cs GLC_Mesh.new Ingesting_new
    have hr := lodsInRange_resultAll_new cs hlod
    have hpos := groups_ne_nil_resultAll cs GLC_Mesh.new hcs
    have hbb : (AddCall.resultAll cs GLC_Mesh.new).m_MeshData.m_Positions.length % 3 = 0 := by
      rw [positions_resultAll]; rfl
    generalize hM : AddCall.resultAll cs GLC_Mesh.new = M at happ hi hr hpos hbb
    have hposl : 0 < M.m_MeshData.m_LodList.length := by
      rw [hi.lodCount]
      exact List.length_pos.2 hpos
    obtain ⟨pg1, ls1, hfin1, hlen1, _, hf1⟩ := finishWith_spec groupFinish hk M hposl hbb hr
    have hkeys1 : QHash.keys pg1 = QHash.keys M.m_PrimitiveGroups :=
      keys_forall₂ _ _ _ hf1
    have hrk : ∀ k ∈ QHash.keys M.m_PrimitiveGroups,
        0 ≤ k ∧ k.toNat < M.m_MeshData.m_LodList.length := by
      intro k hk1
      obtain ⟨e, he, e1⟩ := List.mem_map.1 hk1
      rw [← e1]
      exact hr e he
    generalize hm1 : ({ M with
      m_PrimitiveGroups := pg1
      m_MeshData := { M.m_MeshData with m_LodList := ls1 } } : GLC_Mesh) = m1 at hfin1
    have hg1 : m1.m_PrimitiveGroups = pg1 := by rw [← hm1]
    have hl1 : m1.m_MeshData.m_LodList = ls1 := by rw [← hm1]
    have hp1 : m1.m_MeshData.m_Positions = M.m_MeshData.m_Positions := by rw [← hm1]
    have hr1 : m1.LodsInRange := by
      intro e he
      rw [hg1] at he
      have hk1 : e.1 ∈ QHash.keys pg1 := List.mem_map.2 ⟨e, he, rfl⟩
      rw [hkeys1] at hk1
      rw [hl1, hlen1]
      exact hrk _ hk1
    obtain ⟨pg2, ls2, hfin2, hlen2, harr2, hf2⟩ := finishWith_spec groupFinish hk m1
      (by rw [hl1, hlen1]; exact hposl) (by rw [hp1]; exact hbb) hr1
    rw [hg1, hl1] at hf2
    rw [hl1] at hlen2 harr2
    refine ⟨M, _, m1, _, happ, hfin1, hfin2, ?_, ?_⟩
    · intro lod v1 hv
      obtain ⟨h0, hlt, e⟩ := indexVector_some _ _ _ hv
      rw [hl1] at hlt e
      obtain ⟨X, hX⟩ := harr2 lod.toNat
      refine ⟨X, ?_⟩
      rw [GLC_MeshData.indexVector_eq _ _ h0 (by simpa [hlen2] using hlt)]
      simp only
      rw [hX, e]
    · intro lod id g1 hg
      rw [group_eq_bind, hg1] at hg
      rcases group_forall₂ (fun k g g' =>
          Rerecorded (indexArrayAt M.m_MeshData.m_LodList k.toNat).length
            (indexArrayAt ls1 k.toNat).length g g') _ _ hf1 lod id with
        ⟨_, hn⟩ | ⟨g, g1', e1, e2, hR1, hmem⟩
      · rw [hn] at hg; exact absurd hg (by simp)
      rw [hg] at e2
      simp only [Option.some.injEq] at e2
      subst e2
      rcases group_forall₂ (fun k g g' =>
          Rerecorded (indexArrayAt ls1 k.toNat).length
            (indexArrayAt ls2 k.toNat).length g g') _ _ hf2 lod id with
        ⟨hn, _⟩ | ⟨g1'', g2, e3, e4, hR2, _⟩
      · rw [hn] at hg; exact absurd hg (by simp)
      rw [hg] at e3
      simp only [Option.some.injEq] at e3
      subst e3
      have hsized : GroupSized g := by
        cases hv : QHash.value M.m_PrimitiveGroups lod with
        | none => rw [hv] at e1; simp at e1
        | some gs =>
          rw [hv] at e1
          simp only [Option.some_bind] at e1
          exact hi.sized _ (QHash.mem_of_value _ _ _ hv) _ (QHash.mem_of_value _ _ _ e1)
      have hrange := hrk lod hmem
      have hempty : indexArrayAt M.m_MeshData.m_LodList lod.toNat = [] :=
        indexArrayAt_of_empty _ hi.indexEmpty _
      rw [hempty] at hR1
      obtain ⟨a1, a2, a3, a4, a5, a6, a7, a8⟩ := hR1
      obtain ⟨b1, b2, b3, b4, b5, b6, b7, b8⟩ := hR2
      obtain ⟨s1, s2, _, s4, _⟩ := hsized
      refine ⟨g2, indexArrayAt ls1 lod.toNat, ?_, ?_, b1, b3, b5, ?_, ?_, ?_⟩
      · rw [group_eq_bind]
        exact e4
      · rw [GLC_MeshData.indexVector_eq _ _ hrange.1 (by rw [hl1, hlen1]; exact hrange.2), hl1]
      · intro hc
        simp only [GLC_PrimitiveGroup.containsTriangles, decide_eq_true_eq] at hc
        have h1 := a6 (by omega)
        have h2 := b6 hc
        omega
      · intro hc
        simp only [GLC_PrimitiveGroup.containsStrip, PrimitiveRuns.nonEmpty,
          decide_eq_true_eq] at hc
        obtain ⟨x1, ex1, _, hx1⟩ := a7 (by omega)
        obtain ⟨x2, ex2, hx2, _⟩ := b7 hc
        refine ⟨x1, x2, by rw [ex1, a3], ex2, by omega, hx2⟩
      · intro hc
        simp only [GLC_PrimitiveGroup.containsFan, PrimitiveRuns.nonEmpty,
          decide_eq_true_eq] at hc
        obtain ⟨x1, ex1, _, hx1⟩ := a8 (by omega)
        obtain ⟨x2, ex2, hx2, _⟩ := b8 hc
        refine ⟨x1, x2, by rw [ex1, a5], ex2, by omega, hx2⟩

/-- C26, instance: the three LODs of `sampleThreeLodCalls`, with the `finish()` of the
group that empties the index lists. -/
theorem second_finish_witness :
    ∃ m ids m1 m2, applyCalls GLC_Mesh.new sampleThreeLodCalls = some (m, ids) ∧
      m.finishWith GLC_PrimitiveGroup.finish = some m1 ∧
      m1.finishWith GLC_PrimitiveGroup.finish = some m2 ∧
      (∀ lod v1, m1.m_MeshData.indexVector lod = some v1 →
        ∃ extra, m2.m_MeshData.indexVector lod = some (v1 ++ extra)) ∧
      ∀ lod id g1, m1.group lod id = some g1 →
        ∃ g2 v1, m2.group lod id = some g2 ∧ m1.m_MeshData.indexVector lod = some v1 ∧
          g2.m_TrianglesIndexSize = g1.m_TrianglesIndexSize ∧
          g2.strips.sizes = g1.strips.sizes ∧ g2.fans.sizes = g1.fans.sizes ∧
          (g1.containsTriangles = true →
            g1.m_TrianglesIndexOffseti < v1.length ∧ v1.length ≤ g2.m_TrianglesIndexOffseti) ∧
          (g1.containsStrip = true → ∃ b1 b2,
            g1.strips.offseti = runOffsets b1 g1.strips.sizes ∧
            g2.strips.offseti = runOffsets b2 g1.strips.sizes ∧
            b1 < v1.length ∧ v1.length ≤ b2) ∧
          (g1.containsFan = true → ∃ b1 b2,
            g1.fans.offseti = runOffsets b1 g1.fans.sizes ∧
            g2.fans.offseti = runOffsets b2 g1.fans.sizes ∧
            b1 < v1.length ∧ v1.length ≤ b2) :=
  second_finish GLC_PrimitiveGroup.finish keepsRecords_finish sampleThreeLodCalls (by decide)
    (by decide)

end GLC
